import Mathlib

/-!
# Network battleship: the client's board (`src/client/field.cpp`)

A shallow embedding of the class `Field` and of its placement validator
`Field::isCorrect`, followed by theorems about them.

Conventions of the embedding.

* `QVector<T>` is a `List T`; `v[i]` outside `0 .. size-1` is undefined
  behaviour in the source and is the outcome `Flow.fault` (or `none`) here.
* `QString` is a `List Char`, the text of the string; `QString.qchars` gives
  its `QChar`s, the UTF-16 code units that `begin()`, `end()` and `size()` of
  the source work on.
* The members `width_`, `height_` and `area_` are set to
  `FIELD_WIDTH_DEFAULT`, `FIELD_HEIGHT_DEFAULT` and their product by both
  constructors and are never assigned another value, so they are constants.
* A `while` loop takes a fuel argument; the callers pass the size of the
  vector the loop walks over, and the theorems show that this is enough.
-/

namespace Battleship

/-! ## constants.hpp -/

abbrev FIELD_WIDTH_DEFAULT : Nat := 10
abbrev FIELD_HEIGHT_DEFAULT : Nat := 10
abbrev SHIP_MAXLEN : Nat := 4
abbrev SHIP1_NUM : Nat := 4
abbrev SHIP2_NUM : Nat := 3
abbrev SHIP3_NUM : Nat := 2
abbrev SHIP4_NUM : Nat := 1
abbrev FIELD_IMG_WIDTH_DEFAULT : Nat := 216
abbrev FIELD_IMG_HEIGHT_DEFAULT : Nat := 217
abbrev MYFIELD_IMG_X : Nat := 40
abbrev MYFIELD_IMG_Y : Nat := 127
abbrev ENEMYFIELD_IMG_X : Nat := 322
abbrev ENEMYFIELD_IMG_Y : Nat := 127

/-! ## field.hpp -/

/-- Draw state of a cell (`enum CellDraw`). -/
inductive CellDraw where
  | CELL_EMPTY
  | CELL_LIVE
  | CELL_DOT
  | CELL_DAMAGED
  | CELL_KILLED
  | CELL_MARK
  deriving DecidableEq, Repr

/-- Placement state of a cell (`enum CellState`). -/
inductive CellState where
  | CL_ST_EMPTY
  | CL_ST_CENTER
  | CL_ST_TOP
  | CL_ST_BOTTOM
  | CL_ST_VMIDDLE
  | CL_ST_HMIDDLE
  | CL_ST_LEFT
  | CL_ST_RIGHT
  | CL_ST_UNDEFINED
  deriving DecidableEq, Repr

open CellDraw CellState

/-- Enum ordinal of a draw state. -/
def CellDraw.toNat : CellDraw → Nat
  | CELL_EMPTY => 0
  | CELL_LIVE => 1
  | CELL_DOT => 2
  | CELL_DAMAGED => 3
  | CELL_KILLED => 4
  | CELL_MARK => 5

/-- Enum ordinal of a placement state. -/
def CellState.toNat : CellState → Nat
  | CL_ST_EMPTY => 0
  | CL_ST_CENTER => 1
  | CL_ST_TOP => 2
  | CL_ST_BOTTOM => 3
  | CL_ST_VMIDDLE => 4
  | CL_ST_HMIDDLE => 5
  | CL_ST_LEFT => 6
  | CL_ST_RIGHT => 7
  | CL_ST_UNDEFINED => 8

/-- The cast `(CellState)n` for an ordinal in range. -/
def CellState.ofNat? : Nat → Option CellState
  | 0 => some CL_ST_EMPTY
  | 1 => some CL_ST_CENTER
  | 2 => some CL_ST_TOP
  | 3 => some CL_ST_BOTTOM
  | 4 => some CL_ST_VMIDDLE
  | 5 => some CL_ST_HMIDDLE
  | 6 => some CL_ST_LEFT
  | 7 => some CL_ST_RIGHT
  | 8 => some CL_ST_UNDEFINED
  | _ => none

/-- The data members of `class Field` that change: the two cell vectors. -/
structure Field where
  fieldState_ : List CellState
  fieldDraw_ : List CellDraw
  deriving DecidableEq, Repr

abbrev width_ : Nat := FIELD_WIDTH_DEFAULT
abbrev height_ : Nat := FIELD_HEIGHT_DEFAULT
abbrev area_ : Nat := FIELD_WIDTH_DEFAULT * FIELD_HEIGHT_DEFAULT

/-! ## Control flow -/

/-- Outcome of a statement inside a function that returns `bool`: an access
outside a vector, an executed `return b;`, or normal completion with a state. -/
inductive Flow (σ : Type) where
  | fault : Flow σ
  | ret : Bool → Flow σ
  | next : σ → Flow σ
  deriving DecidableEq, Repr

/-- Sequencing of statements. -/
def Flow.bind {α β : Type} : Flow α → (α → Flow β) → Flow β
  | .fault, _ => .fault
  | .ret b, _ => .ret b
  | .next a, k => k a

instance : Monad Flow where
  pure := Flow.next
  bind := Flow.bind

/-- The loop `for (k = 0; k < n; k++) body(k)`: the iterations `0 .. n-1` run
in this order on the state, and the first one that does not complete normally
ends the loop with its outcome. -/
def forRange {σ : Type} (body : Nat → σ → Flow σ) : Nat → σ → Flow σ
  | 0, s => .next s
  | n + 1, s =>
    match forRange body n s with
    | .next s' => body n s'
    | .ret b => .ret b
    | .fault => .fault

/-- Read `v[i]`. -/
def readAt {α : Type} (v : List α) (i : Nat) : Flow α :=
  match v[i]? with
  | some c => .next c
  | none => .fault

/-- Assign `v[i] = c`. -/
def writeAt {α : Type} (v : List α) (i : Nat) (c : α) : Flow (List α) :=
  if i < v.length then .next (v.set i c) else .fault

/-! ## field.cpp: access to cells -/

/-- `Field::getCell`. -/
def getCell (f : Field) (x y : Int) : Option CellDraw :=
  if x ≥ 0 ∧ y ≥ 0 ∧ x < width_ ∧ y < height_ then
    f.fieldDraw_[(width_ * y + x).toNat]?
  else
    some CELL_EMPTY

/-- `Field::setDrawCell`. -/
def setDrawCell (f : Field) (x y : Int) (cell : CellDraw) : Option Field :=
  if x ≥ 0 ∧ y ≥ 0 ∧ x < width_ ∧ y < height_ then
    if (width_ * y + x).toNat < f.fieldDraw_.length then
      some { f with fieldDraw_ := f.fieldDraw_.set (width_ * y + x).toNat cell }
    else none
  else
    some f

/-- `Field::setStateCell(int x, int y, CellState cell)`. -/
def setStateCell (f : Field) (x y : Int) (cell : CellState) : Option Field :=
  if x ≥ 0 ∧ y ≥ 0 ∧ x < width_ ∧ y < height_ then
    if (width_ * y + x).toNat < f.fieldState_.length then
      some { f with fieldState_ := f.fieldState_.set (width_ * y + x).toNat cell }
    else none
  else
    some f

/-! ## field.cpp: strings -/

/-- `QString::number(int)` for a non-negative argument: the decimal digits. -/
def QString.number (n : Nat) : List Char := Nat.toDigits 10 n

/-- `Field::getStateFieldStr`. -/
def getStateFieldStr (f : Field) : List Char :=
  f.fieldState_.foldl (fun result cell => result ++ QString.number cell.toNat) []

/-- `Field::getDrawFieldStr`. -/
def getDrawFieldStr (f : Field) : List Char :=
  f.fieldDraw_.foldl (fun result cell => result ++ QString.number cell.toNat) []

/-- One `QChar`: a UTF-16 code unit. -/
structure QChar where
  unicode : Nat
  deriving DecidableEq, Repr

/-- The `QChar`s that hold one character of a `QString`: the character itself
below U+10000, a high and a low surrogate from U+10000 on. -/
def QChar.ofChar (c : Char) : List QChar :=
  if c.toNat < 0x10000 then [{ unicode := c.toNat }]
  else [{ unicode := 0xD800 + (c.toNat - 0x10000) / 0x400 },
        { unicode := 0xDC00 + (c.toNat - 0x10000) % 0x400 }]

/-- The `QChar`s of a `QString`, which its iterators run through from `begin()`
to `end()`. A `QString` is held as the text it stands for, a list of Unicode
characters; a string with an unpaired surrogate is no such text and is left out. -/
def QString.qchars (s : List Char) : List QChar := s.flatMap QChar.ofChar

/-- `QString::size`: the number of `QChar`s of the string, two for a character
from U+10000 on. -/
def QString.size (s : List Char) : Nat := (QString.qchars s).length

/-- The digit values of the Unicode character database below U+10000 (field
"digit" of `UnicodeData.txt`, from which Qt generates its character table), in
runs `(first, value, count)`: the `count` characters from `first` on have the
consecutive digit values from `value` on. Besides `'0' .. '9'` these are the
decimal digits of the other scripts and the superscript, subscript, circled,
parenthesized and full stop digits. -/
def digitRuns : List (Nat × Nat × Nat) :=
  [(0x0030, 0, 10), (0x00B2, 2, 2), (0x00B9, 1, 1), (0x0660, 0, 10), (0x06F0, 0, 10),
   (0x07C0, 0, 10), (0x0966, 0, 10), (0x09E6, 0, 10), (0x0A66, 0, 10), (0x0AE6, 0, 10),
   (0x0B66, 0, 10), (0x0BE6, 0, 10), (0x0C66, 0, 10), (0x0CE6, 0, 10), (0x0D66, 0, 10),
   (0x0DE6, 0, 10), (0x0E50, 0, 10), (0x0ED0, 0, 10), (0x0F20, 0, 10), (0x1040, 0, 10),
   (0x1090, 0, 10), (0x1369, 1, 9), (0x17E0, 0, 10), (0x1810, 0, 10), (0x1946, 0, 10),
   (0x19D0, 0, 10), (0x19DA, 1, 1), (0x1A80, 0, 10), (0x1A90, 0, 10), (0x1B50, 0, 10),
   (0x1BB0, 0, 10), (0x1C40, 0, 10), (0x1C50, 0, 10), (0x2070, 0, 1), (0x2074, 4, 6),
   (0x2080, 0, 10), (0x2460, 1, 9), (0x2474, 1, 9), (0x2488, 1, 9), (0x24EA, 0, 1),
   (0x24F5, 1, 9), (0x24FF, 0, 1), (0x2776, 1, 9), (0x2780, 1, 9), (0x278A, 1, 9),
   (0xA620, 0, 10), (0xA8D0, 0, 10), (0xA900, 0, 10), (0xA9D0, 0, 10), (0xA9F0, 0, 10),
   (0xAA50, 0, 10), (0xABF0, 0, 10), (0xFF10, 0, 10)]

/-- `QChar::digitValue`: the digit value of the character, and `-1` for a
character without one, as a letter, a blank or a surrogate. -/
def digitValue (c : QChar) : Int :=
  match digitRuns.find? (fun r => decide (r.1 ≤ c.unicode ∧ c.unicode < r.1 + r.2.2)) with
  | some r => ((r.2.1 + (c.unicode - r.1) : Nat) : Int)
  | none => -1

/-- The loop of `Field::setStateField(QString)` over the `QChar`s, on the
vector built so far; a `QChar` whose digit value is outside 0 to 8 clears the
vector and returns. -/
def setStateFieldLoop : List QChar → List CellState → List CellState
  | [], acc => acc
  | c :: rest, acc =>
    if digitValue c < (CL_ST_EMPTY.toNat : Int) ∨ digitValue c > (CL_ST_UNDEFINED.toNat : Int) then
      []
    else
      match CellState.ofNat? (digitValue c).toNat with
      | some s => setStateFieldLoop rest (acc ++ [s])
      | none => []

/-- `Field::setStateField(QString)`. -/
def setStateField (f : Field) (field : List Char) : Field :=
  { f with fieldState_ := setStateFieldLoop (QString.qchars field) [] }

/-- The loop of `Field::initMyDrawField` from `i` for `n` more iterations. -/
def initMyDrawFieldLoop (fieldState : List CellState) : Nat → Nat → List CellDraw → Option (List CellDraw)
  | 0, _, acc => some acc
  | n + 1, i, acc =>
    match fieldState[i]? with
    | none => none
    | some c =>
      if c = CL_ST_EMPTY then initMyDrawFieldLoop fieldState n (i + 1) (acc ++ [CELL_EMPTY])
      else initMyDrawFieldLoop fieldState n (i + 1) (acc ++ [CELL_LIVE])

/-- `Field::initMyDrawField`. -/
def initMyDrawField (f : Field) : Option Field :=
  match initMyDrawFieldLoop f.fieldState_ area_ 0 [] with
  | some d => some { f with fieldDraw_ := d }
  | none => none

/-- The literal `field_example` of `Field::generate`. -/
def field_example : List Char :=
  ("8888088800" ++ "0000000000" ++ "8880880880" ++ "0000000000" ++ "8808080808" ++
   "0000000000" ++ "0000000000" ++ "0000000000" ++ "0000000000" ++ "0000000000").toList

/-- `Field::generate`. -/
def generate (f : Field) : Option Field :=
  initMyDrawField (setStateField f field_example)

/-! ## field.cpp: the placement validator -/

/-- The body of the `while` loops of `Field::isShip`: from `index`, step by
`delta` while the cell is not empty, counting the steps in `length`. -/
def isShipWalk (b : List CellState) (delta : Nat) : Nat → Nat → Nat → Option Nat
  | 0, _, _ => none
  | fuel + 1, index, length =>
    match b[index]? with
    | none => none
    | some c =>
      if c ≠ CL_ST_EMPTY then isShipWalk b delta fuel (index + delta) (length + 1)
      else some length

/-- `Field::isShip`. -/
def isShip (size : Int) (x y : Nat) (fieldStateWithBorders : List CellState) : Option Bool :=
  if size < 0 ∨ size > (SHIP_MAXLEN : Int) then some false
  else
    let index := (width_ + 2) * y + x
    match fieldStateWithBorders[index]? with
    | none => none
    | some c =>
      let length : Option Nat :=
        if c = CL_ST_TOP then
          isShipWalk fieldStateWithBorders (width_ + 2) fieldStateWithBorders.length
            (index + (width_ + 2)) 1
        else if c = CL_ST_LEFT then
          isShipWalk fieldStateWithBorders 1 fieldStateWithBorders.length (index + 1) 1
        else if c = CL_ST_CENTER then some 1
        else some 0
      match length with
      | none => none
      | some l => some (decide ((l : Int) = size))

/-- `Field::shipNum`; the state of the loops is the counter `shipNumber`. -/
def shipNum (size : Int) (fieldStateWithBorders : List CellState) : Option Nat :=
  if fieldStateWithBorders.length ≠ (height_ + 2) * (width_ + 2) then some 0
  else
    match forRange (fun j shipNumber =>
        forRange (fun i shipNumber =>
          match isShip size i j fieldStateWithBorders with
          | none => .fault
          | some true => .next (shipNumber + 1)
          | some false => .next shipNumber) (height_ + 2) shipNumber)
        (width_ + 2) 0 with
    | .next shipNumber => some shipNumber
    | _ => none

/-- One iteration of the inner loop of `Field::CheckDiagonalCollisions`. -/
def diagCell (b : List CellState) (i j : Nat) : Flow Unit := do
  let index := (width_ + 2) * (i + 1) + (j + 1)
  let c ← readAt b index
  if c = CL_ST_EMPTY then
    Flow.next ()
  else
    let c1 ← readAt b (index - (width_ + 2) - 1)
    if c1 ≠ CL_ST_EMPTY then Flow.ret false else
    let c2 ← readAt b (index - (width_ + 2) + 1)
    if c2 ≠ CL_ST_EMPTY then Flow.ret false else
    let c3 ← readAt b (index + (width_ + 2) + 1)
    if c3 ≠ CL_ST_EMPTY then Flow.ret false else
    let c4 ← readAt b (index + (width_ + 2) - 1)
    if c4 ≠ CL_ST_EMPTY then Flow.ret false else
    Flow.next ()

/-- `Field::CheckDiagonalCollisions`; `none` is an access outside the vector. -/
def CheckDiagonalCollisions (fieldStateWithBorders : List CellState) : Option Bool :=
  if fieldStateWithBorders.length ≠ (height_ + 2) * (width_ + 2) then some false
  else
    match forRange (fun i _ => forRange (fun j _ => diagCell fieldStateWithBorders i j) width_ ())
        height_ () with
    | .next _ => some true
    | .ret r => some r
    | .fault => none

/-- The `while` loop of `Field::CheckLength` for one ship: while the cell after
`index` is not empty, label `index` with `mid` and step by `delta`. Returns the
vector, the final `index` and the final `length`. -/
def lengthWalk (mid : CellState) (delta : Nat) :
    Nat → List CellState → Nat → Nat → Flow (List CellState × Nat × Nat)
  | 0, _, _, _ => .fault
  | fuel + 1, b, index, length => do
    let c ← readAt b (index + delta)
    if c ≠ CL_ST_EMPTY then
      let b' ← writeAt b index mid
      lengthWalk mid delta fuel b' (index + delta) (length + 1)
    else
      Flow.next (b, index, length)

/-- One ship of `Field::CheckLength`: the block under
`if (fieldStateWithBorders[index + delta] != CL_ST_EMPTY)`, which labels the
ship starting at `index` and checks its length; then `continue`. -/
def lengthShip (first mid last : CellState) (delta : Nat) (b : List CellState) (index : Nat) :
    Flow (List CellState) := do
  let b1 ← writeAt b index first
  let (b2, index2, length) ← lengthWalk mid delta b1.length b1 (index + delta) 2
  let b3 ← writeAt b2 index2 last
  if length > SHIP_MAXLEN then Flow.ret false else Flow.next b3

/-- One iteration of the inner loop of `Field::CheckLength`. -/
def lengthCell (i j : Nat) (b : List CellState) : Flow (List CellState) := do
  let index := (width_ + 2) * (i + 1) + (j + 1)
  let c ← readAt b index
  if c = CL_ST_UNDEFINED then
    let r ← readAt b (index + 1)
    if r ≠ CL_ST_EMPTY then
      lengthShip CL_ST_LEFT CL_ST_HMIDDLE CL_ST_RIGHT 1 b index
    else
      let d ← readAt b (index + width_ + 2)
      if d ≠ CL_ST_EMPTY then
        lengthShip CL_ST_TOP CL_ST_VMIDDLE CL_ST_BOTTOM (width_ + 2) b index
      else
        writeAt b index CL_ST_CENTER
  else
    Flow.next b

/-- `Field::CheckLength`. `some (some b)`: the function returned true and left
`b` in the vector passed by reference; `some none`: it returned false (the
vector is not followed in that case: the caller returns without reading it);
`none`: an access outside the vector. The loops contain no `return true`. -/
def CheckLength (fieldStateWithBorders : List CellState) : Option (Option (List CellState)) :=
  if fieldStateWithBorders.length ≠ (height_ + 2) * (width_ + 2) then
    some none
  else
    match forRange (fun i b => forRange (fun j b => lengthCell i j b) width_ b) height_
        fieldStateWithBorders with
    | .next b => some (some b)
    | .ret false => some none
    | .ret true => none
    | .fault => none

/-- The copy loop of `Field::isCorrect`: the bordered vector. -/
def withBorders (fieldState : List CellState) : Flow (List CellState) :=
  forRange (fun i b => forRange (fun j b => do
      let c ← readAt fieldState (width_ * i + j)
      writeAt b ((width_ + 2) * (i + 1) + (j + 1)) c) width_ b) height_
    (List.replicate ((width_ + 2) * (height_ + 2)) CL_ST_EMPTY)

/-- `Field::isCorrect`: the returned flag and the field after the call;
`none` is an access outside a vector. -/
def isCorrect (f : Field) : Option (Bool × Field) :=
  match withBorders f.fieldState_ with
  | .next fieldStateWithBorders =>
    match CheckDiagonalCollisions fieldStateWithBorders with
    | none => none
    | some false => some (false, f)
    | some true =>
      match CheckLength fieldStateWithBorders with
      | none => none
      | some none => some (false, f)
      | some (some b) =>
        match shipNum 1 b, shipNum 2 b, shipNum 3 b, shipNum 4 b with
        | some n1, some n2, some n3, some n4 =>
          some (n1 == SHIP1_NUM && n2 == SHIP2_NUM && n3 == SHIP3_NUM && n4 == SHIP4_NUM, f)
        | _, _, _, _ => none
  | _ => none

/-! ## field.cpp: construction, assignment and whole-field setters -/

/-- The cast `(CellDraw)n` for an ordinal in range. -/
def CellDraw.ofNat? : Nat → Option CellDraw
  | 0 => some CELL_EMPTY
  | 1 => some CELL_LIVE
  | 2 => some CELL_DOT
  | 3 => some CELL_DAMAGED
  | 4 => some CELL_KILLED
  | 5 => some CELL_MARK
  | _ => none

/-- `Field::clear`: `QVector::fill(value, size)` resizes the vector to `size`
and assigns `value` to every item. -/
def clear (_f : Field) : Field :=
  { fieldDraw_ := List.replicate area_ CELL_EMPTY,
    fieldState_ := List.replicate area_ CL_ST_EMPTY }

/-- `Field::Field()`: the vectors are default-constructed (empty), then `clear()`. -/
def newField : Field :=
  clear { fieldState_ := [], fieldDraw_ := [] }

/-- `Field::Field(QString field)`: the vectors are default-constructed (empty),
then `setStateField(field)`. -/
def newFieldFromString (field : List Char) : Field :=
  setStateField { fieldState_ := [], fieldDraw_ := [] } field

/-- `Field::operator=`: both vectors are copied from `other`. -/
def assign (_this other : Field) : Field :=
  { fieldState_ := other.fieldState_, fieldDraw_ := other.fieldDraw_ }

/-- `Field::getDrawField`. -/
def getDrawField (f : Field) : List CellDraw := f.fieldDraw_

/-- The loop over the `QChar`s in `fieldDrawFromStr` and in
`Field::setDrawField(QString)`, on the vector built so far; a `QChar` whose digit
value is outside 0 to 5 clears the vector and ends the loop (`break` in the
first, `return` in the second, in both cases with nothing left to run but the
end of the function). -/
def fieldDrawLoop : List QChar → List CellDraw → List CellDraw
  | [], acc => acc
  | c :: rest, acc =>
    if digitValue c < (CELL_EMPTY.toNat : Int) ∨ digitValue c > (CELL_MARK.toNat : Int) then
      []
    else
      match CellDraw.ofNat? (digitValue c).toNat with
      | some d => fieldDrawLoop rest (acc ++ [d])
      | none => []

/-- `fieldDrawFromStr`. -/
def fieldDrawFromStr (fieldDrawStr : List Char) : List CellDraw :=
  if QString.size fieldDrawStr < FIELD_WIDTH_DEFAULT * FIELD_HEIGHT_DEFAULT then []
  else fieldDrawLoop (QString.qchars fieldDrawStr) []

/-- `Field::setDrawField(QString)`. -/
def setDrawField (f : Field) (field : List Char) : Field :=
  if QString.size field ≠ area_ then f
  else { f with fieldDraw_ := fieldDrawLoop (QString.qchars field) [] }

/-- `Field::setStateField(QVector<CellState>)`. -/
def setStateFieldVector (f : Field) (field : List CellState) : Field :=
  if field.length ≠ area_ then f
  else { f with fieldState_ := field }

/-- `Field::setDrawField(QVector<CellDraw>)`. -/
def setDrawFieldVector (f : Field) (field : List CellDraw) : Field :=
  if field.length ≠ area_ then f
  else { f with fieldDraw_ := field }

/-! ## model.hpp, model.cpp -/

/-- State of the game (`enum ModelState`). -/
inductive ModelState where
  | ST_GAME_NSTARTED
  | ST_PLACING_SHIPS
  | ST_WAITING_PLACING
  | ST_WAITING_STEP
  | ST_MAKING_STEP
  | ST_GAME_FINISHED
  deriving DecidableEq, Repr

open ModelState

/-- The data members of `class Model`. The two `Field*` members point to
fields that the model allocates for itself in its constructor, so they are held
by value. -/
structure Model where
  myField_ : Field
  enemyField_ : Field
  amIStarted_ : Bool
  state_ : ModelState
  login_ : List Char
  enemyLogin_ : List Char
  gameId_ : Int
  deriving DecidableEq, Repr

/-- `Model::getState`. -/
def getState (m : Model) : ModelState := m.state_

/-- `Model::updateState`; the branches on `state` only write to the debug log. -/
def updateState (m : Model) (state : ModelState) : Model :=
  { m with state_ := state }

/-- `Model::switchStep`. -/
def switchStep (m : Model) : Model :=
  if m.state_ = ST_MAKING_STEP then updateState m ST_WAITING_STEP
  else if m.state_ = ST_WAITING_STEP then updateState m ST_MAKING_STEP
  else m

/-- `Model::startFight`. -/
def startFight (m : Model) : Model :=
  if m.amIStarted_ then updateState m ST_MAKING_STEP
  else updateState m ST_WAITING_STEP

/-- `Model::setStartedFlag`. -/
def setStartedFlag (m : Model) (val : Bool) : Model :=
  { m with amIStarted_ := val }

/-- `Model::getStartedFlag`. -/
def getStartedFlag (m : Model) : Bool := m.amIStarted_

/-- One iteration of the loop of `Model::updateEnemyFieldDraw`. -/
def updateEnemyCell (field : List CellDraw) (i : Nat) (updatedField : List CellDraw) :
    Flow (List CellDraw) := do
  let c ← readAt field i
  if c = CELL_DAMAGED ∨ c = CELL_DOT ∨ c = CELL_KILLED then
    writeAt updatedField i c
  else
    Flow.next updatedField

/-- `Model::updateEnemyFieldDraw`; `none` is an access outside a vector. -/
def updateEnemyFieldDraw (m : Model) (field : List CellDraw) : Option Model :=
  let updatedField := getDrawField m.enemyField_
  let area := updatedField.length
  match forRange (updateEnemyCell field) area updatedField with
  | .next updatedField =>
    some { m with enemyField_ := setDrawFieldVector m.enemyField_ updatedField }
  | _ => none

/-- `Model::getGameId`. -/
def getGameId (m : Model) : Int := m.gameId_

/-- `Model::getLogin`. -/
def getLogin (m : Model) : List Char := m.login_

/-- `Model::getEnemyCell`. -/
def getEnemyCell (m : Model) (x y : Int) : Option CellDraw := getCell m.enemyField_ x y

/-- `Model::setMyDrawCell`. The source calls `myField_->setCell(x, y, state)`;
the setter of a draw cell that `class Field` declares is `setDrawCell`. -/
def setMyDrawCell (m : Model) (x y : Int) (state : CellDraw) : Option Model :=
  match setDrawCell m.myField_ x y state with
  | some f => some { m with myField_ := f }
  | none => none

/-- `Model::setEnemyCell`. The source calls `enemyField_->setCell(x, y, state)`;
the setter of a draw cell that `class Field` declares is `setDrawCell`. -/
def setEnemyCell (m : Model) (x y : Int) (state : CellDraw) : Option Model :=
  match setDrawCell m.enemyField_ x y state with
  | some f => some { m with enemyField_ := f }
  | none => none

/-- `Model::setMyStateCell`. The source calls `myField_->setState(x, y, state)`;
the setter of a placement cell that `class Field` declares is `setStateCell`. -/
def setMyStateCell (m : Model) (x y : Int) (state : CellState) : Option Model :=
  match setStateCell m.myField_ x y state with
  | some f => some { m with myField_ := f }
  | none => none

/-- `Model::isMyFieldCorrect`: the flag, and the model after the call. -/
def isMyFieldCorrect (m : Model) : Option (Bool × Model) :=
  match isCorrect m.myField_ with
  | some (r, f) => some (r, { m with myField_ := f })
  | none => none

/-- The character that `Model::getMyFieldStr` appends for a draw value. The
cases of its `switch` on `CELL_DESTROYED` and `CELL_MISS`, which are no members
of `CellDraw` as field.hpp declares it, are left out, so that the draw values
other than the three below fall to the `default`. -/
def fieldStrChar : CellDraw → Char
  | CELL_EMPTY => '.'
  | CELL_LIVE => 'O'
  | CELL_DAMAGED => 'X'
  | _ => '?'

/-- `Model::getMyFieldStr`: the string, a line for each `i`; `none` is a read
outside the draw vector of the own field. The bounds `FIELD_WIDTH` and
`FIELD_HEIGHT` of the two loops are declared nowhere in the sources at hand and
are read as the width and the height of the board, `FIELD_WIDTH_DEFAULT` and
`FIELD_HEIGHT_DEFAULT`. -/
def getMyFieldStr (m : Model) : Option (List Char) :=
  (List.range FIELD_WIDTH_DEFAULT).foldlM (fun (result : List Char) (i : Nat) =>
    ((List.range FIELD_HEIGHT_DEFAULT).foldlM (fun (result : List Char) (j : Nat) =>
      (getCell m.myField_ (Int.ofNat i) (Int.ofNat j)).map
        (fun cell => result ++ [fieldStrChar cell])) result).map
      (fun result => result ++ [Char.ofNat 10])) []

/-- `Model::startGame`. -/
def startGame (m : Model) (enemy_login : List Char) (gameId : Int) : Model :=
  updateState { m with gameId_ := gameId, enemyLogin_ := enemy_login } ST_PLACING_SHIPS

/-- `Model::finishGame`. -/
def finishGame (m : Model) : Model :=
  let m1 := { m with myField_ := clear m.myField_ }
  let m2 := { m1 with enemyField_ := clear m1.enemyField_ }
  let m3 := updateState m2 ST_GAME_FINISHED
  updateState m3 ST_GAME_NSTARTED

/-! ## controller.hpp, controller.cpp -/

/-- `QPoint`: a point of the window, in pixels, or a cell of a field. -/
structure QPoint where
  x : Int
  y : Int
  deriving DecidableEq, Repr

/-- `Field::Owner`. -/
inductive Owner where
  | MY_FIELD
  | ENEMY_FIELD
  deriving DecidableEq, Repr

open Owner

/-- The value of `event->button()` as far as `Controller::onMousePressed` tells
buttons apart: `Qt::LeftButton`, `Qt::RightButton`, or another one. -/
inductive MouseButton where
  | LeftButton
  | RightButton
  | OtherButton
  deriving DecidableEq, Repr

open MouseButton

/-- `getFieldCoord`. The source computes `1.0 * 10 * (pos.x() - shift_x) / 216`
in `double` and passes it to `setX(int)`, which truncates. Both operands are
whole numbers, 0 to 2170, so the `double` quotient is the rounded exact
quotient, which is a whole number when the exact one is and lies at least
`1 / 217` off the next whole number otherwise: it truncates to the integer
quotient. -/
def getFieldCoord (pos : QPoint) (owner : Owner) : QPoint :=
  let res : QPoint := { x := -1, y := -1 }
  let shift_x : Int := if owner = MY_FIELD then MYFIELD_IMG_X else ENEMYFIELD_IMG_X
  let shift_y : Int := if owner = MY_FIELD then MYFIELD_IMG_Y else ENEMYFIELD_IMG_Y
  if pos.x < shift_x ∨ pos.x > shift_x + FIELD_IMG_WIDTH_DEFAULT ∨
      pos.y < shift_y ∨ pos.y > shift_y + FIELD_IMG_HEIGHT_DEFAULT then
    res
  else
    { x := (FIELD_WIDTH_DEFAULT : Int) * (pos.x - shift_x) / FIELD_IMG_WIDTH_DEFAULT,
      y := (FIELD_HEIGHT_DEFAULT : Int) * (pos.y - shift_y) / FIELD_IMG_HEIGHT_DEFAULT }

/-- `QString::number(int)`: the decimal digits, after a minus sign for a
negative argument. -/
def QString.numberInt (n : Int) : List Char :=
  if n < 0 then '-' :: Nat.toDigits 10 n.natAbs else Nat.toDigits 10 n.toNat

/-- The bytes of one character in UTF-8, as numbers below 256. -/
def utf8Bytes (c : Char) : List Nat :=
  let v := c.toNat
  if v ≤ 127 then [v]
  else if v ≤ 2047 then [192 + v / 64, 128 + v % 64]
  else if v ≤ 65535 then [224 + v / 4096, 128 + v / 64 % 64, 128 + v % 64]
  else [240 + v / 262144, 128 + v / 4096 % 64, 128 + v / 64 % 64, 128 + v % 64]

/-- `QString::toUtf8`. -/
def toUtf8 (s : List Char) : List Nat := s.flatMap utf8Bytes

/-- What `Controller::onMousePressed` reads and writes: the model behind
`model_`, and behind `socket_` the byte arrays passed to `write` so far, the
latest last. -/
structure Controller where
  model_ : Model
  socket_ : List (List Nat)
  deriving DecidableEq, Repr

/-- Visibility of the two labels passed to `Controller::onMousePressed`. -/
structure Labels where
  applyIsOkLabel : Bool
  applyIsNotOkLabel : Bool
  deriving DecidableEq, Repr

/-- The right-button branch of `Controller::onMousePressed` in the two turn
states: a mark is taken off, a played cell is left alone, an empty cell gets a
mark. -/
def toggleMark (m : Model) (point : QPoint) : Option Model :=
  match getEnemyCell m point.x point.y with
  | none => none
  | some cellSt =>
    if cellSt = CELL_MARK then setEnemyCell m point.x point.y CELL_EMPTY
    else if cellSt ≠ CELL_EMPTY then some m
    else setEnemyCell m point.x point.y CELL_MARK

/-- The string `shotMessage` of `Controller::onMousePressed`. -/
def shotMessage (m : Model) (point : QPoint) : List Char :=
  "GAME:".toList ++ QString.numberInt (getGameId m) ++ ":".toList ++ getLogin m ++ ":".toList ++
    "SHOT:".toList ++ QString.numberInt point.x ++ ":".toList ++ QString.numberInt point.y

/-- The branch of `Controller::onMousePressed` for `ST_PLACING_SHIPS` and
`ST_GAME_NSTARTED`, after the click was found on the own field. The two `if`
on the button are in sequence, as in the source; the branch ends with the call
of `getMyFieldStr` for the debug output, which reads every cell of the own
field. -/
def placeClick (c : Controller) (point : QPoint) (button : MouseButton) :
    Option (Controller × Labels) := do
  let m1 ← if button = LeftButton then
      (setMyDrawCell c.model_ point.x point.y CELL_LIVE).bind
        (fun m => setMyStateCell m point.x point.y CL_ST_UNDEFINED)
    else some c.model_
  let m2 ← if button = RightButton then
      (setMyDrawCell m1 point.x point.y CELL_EMPTY).bind
        (fun m => setMyStateCell m point.x point.y CL_ST_EMPTY)
    else some m1
  let (ok, m3) ← isMyFieldCorrect m2
  let labels : Labels :=
    if ok then { applyIsOkLabel := true, applyIsNotOkLabel := false }
    else { applyIsOkLabel := false, applyIsNotOkLabel := true }
  let _ ← getMyFieldStr m3
  some ({ c with model_ := m3 }, labels)

/-- `Controller::onMousePressed`: the controller and the labels after the call;
`none` is an access outside a vector. -/
def onMousePressed (c : Controller) (pos : QPoint) (button : MouseButton) (labels : Labels) :
    Option (Controller × Labels) :=
  let state := getState c.model_
  if state = ST_PLACING_SHIPS ∨ state = ST_GAME_NSTARTED then
    let point := getFieldCoord pos MY_FIELD
    if point.x = -1 ∨ point.y = -1 then some (c, labels)
    else placeClick c point button
  else if getState c.model_ = ST_MAKING_STEP then
    let point := getFieldCoord pos ENEMY_FIELD
    if point.x = -1 ∨ point.y = -1 then some (c, labels)
    else if button = LeftButton then
      match getEnemyCell c.model_ point.x point.y with
      | none => none
      | some cell =>
        if cell ≠ CELL_EMPTY ∧ cell ≠ CELL_MARK then some (c, labels)
        else
          some ({ c with socket_ := c.socket_ ++
            [toUtf8 (shotMessage c.model_ point ++ "@".toList)] }, labels)
    else if button = RightButton then
      match toggleMark c.model_ point with
      | some m => some ({ c with model_ := m }, labels)
      | none => none
    else some (c, labels)
  else if getState c.model_ = ST_WAITING_STEP then
    let point := getFieldCoord pos ENEMY_FIELD
    if point.x = -1 ∨ point.y = -1 then some (c, labels)
    else if button = RightButton then
      match toggleMark c.model_ point with
      | some m => some ({ c with model_ := m }, labels)
      | none => none
    else some (c, labels)
  else some (c, labels)

/-! ## The server: the shot at a board

Of the server the source tree holds the declarations (`field.hpp`,
`gamecontroller.hpp`, `server.hpp`, `client.hpp`), not the bodies. The bodies
used here are modelled from the specification. A board of the server is a
`Field`: a placement state and a draw state of the same two enumerations. -/

/-- Modelled from the spec: the body of the server's `Field::isCellEmpty` is
not in the source tree. A cell of the placement-state grid is empty when it is
not one of the `width x height` cells or holds `CL_ST_EMPTY`. -/
def isCellEmpty (f : Field) (x y : Int) : Bool :=
  if 0 ≤ x ∧ x < 10 ∧ 0 ≤ y ∧ y < 10 then
    match f.fieldState_[(10 * y + x).toNat]? with
    | some c => decide (c = CL_ST_EMPTY)
    | none => true
  else true

/-- Modelled from the spec: the body of the server's `Field::setCellDraw` is
not in the source tree. The draw state of cell `(x, y)` becomes `state`;
coordinates outside 0..9 select no cell. -/
def setCellDraw (f : Field) (x y : Int) (state : CellDraw) : Field :=
  if 0 ≤ x ∧ x < 10 ∧ 0 ≤ y ∧ y < 10 then
    { f with fieldDraw_ := f.fieldDraw_.set (10 * y + x).toNat state }
  else f

/-- Modelled from the spec: the walk of the "ship's run in the placement-state
grid" is not in the source tree. From `(x, y)`, the cells met in steps of
`(dx, dy)` while they are not empty, at most `fuel` of them. -/
def runFrom (f : Field) (dx dy : Int) : Nat → Int → Int → List (Int × Int)
  | 0, _, _ => []
  | fuel + 1, x, y =>
    if isCellEmpty f (x + dx) (y + dy) then []
    else (x + dx, y + dy) :: runFrom f dx dy fuel (x + dx) (y + dy)

/-- Modelled from the spec: "the entire ship containing that cell", found "by
walking the ship's run in the placement-state grid"; the walk is not in the
source tree. The cell itself and the runs to its left, to its right, above and
below it; ten steps leave the board in every direction. -/
def shipCells (f : Field) (x y : Int) : List (Int × Int) :=
  (x, y) :: (runFrom f (-1) 0 10 x y ++ runFrom f 1 0 10 x y ++
    runFrom f 0 (-1) 10 x y ++ runFrom f 0 1 10 x y)

/-- The draw state of cell `p` of the board, if `p` is one of its cells. -/
def drawAt (f : Field) (p : Int × Int) : Option CellDraw :=
  if 0 ≤ p.1 ∧ p.1 < 10 ∧ 0 ≤ p.2 ∧ p.2 < 10 then f.fieldDraw_[(10 * p.2 + p.1).toNat]?
  else none

/-- Modelled from the spec: the body of the server's `Field::isKilled` is not
in the source tree. "Whether the entire ship containing that cell is now fully
damaged": every cell of the ship is `CELL_DAMAGED`. -/
def isKilled (f : Field) (x y : Int) : Bool :=
  (shipCells f x y).all (fun p => decide (drawAt f p = some CELL_DAMAGED))

/-- Modelled from the spec: the body of `Server::drawKilledShip` is not in the
source tree. "Mark every cell of that ship `killed` instead of `damaged`". -/
def drawKilledShip (f : Field) (x y : Int) : Field :=
  (shipCells f x y).foldl (fun g p => setCellDraw g p.1 p.2 CELL_KILLED) f

/-- Modelled from the spec: the type of the answer to a shot is not in the source
tree. The "outcome tag {miss, hit, sunk}", and the answer for a cell that was
played before. -/
inductive ShotOutcome where
  | miss
  | hit
  | sunk
  | alreadyPlayed
  deriving DecidableEq, Repr

/-- Modelled from the spec: the shot handling of the server (ShotProcessor) is
not in the source tree. A shot at `(x, y)` on the board `f` of the side whose
damaged-decks counter is `nDamaged`: a `live` cell becomes `damaged`, and if the
whole ship is then damaged every cell of it becomes `killed` and the counter
grows by the length of the ship, otherwise by 1; an `empty` cell becomes `dot`;
any other cell is left as it is. Coordinates outside 0..9 are an error: `none`. -/
def processShot (f : Field) (nDamaged : Nat) (x y : Int) :
    Option (Field × Nat × ShotOutcome) :=
  if 0 ≤ x ∧ x < 10 ∧ 0 ≤ y ∧ y < 10 then
    match f.fieldDraw_[(10 * y + x).toNat]? with
    | none => none
    | some CELL_LIVE =>
      let g := setCellDraw f x y CELL_DAMAGED
      if isKilled g x y then
        some (drawKilledShip g x y, nDamaged + (shipCells g x y).length, ShotOutcome.sunk)
      else some (g, nDamaged + 1, ShotOutcome.hit)
    | some CELL_EMPTY => some (setCellDraw f x y CELL_DOT, nDamaged, ShotOutcome.miss)
    | some _ => some (f, nDamaged, ShotOutcome.alreadyPlayed)
  else none

/-! ## The server: the session (`gamecontroller.hpp`) -/

/-- `GameController::GameState`. -/
inductive GameState where
  | ST_NSTARTED
  | ST_PLACING
  | ST_STARTED_STEP
  | ST_ACCEPTED_STEP
  | ST_FINISHED
  deriving DecidableEq, Repr

open GameState

/-- The data members of `class GameController` that the state machine uses:
the state, the two damaged-decks counters and the total number of decks. -/
structure GameController where
  gameId_ : Int
  state_ : GameState
  nPlaced_ : Int
  nAcceptedDamaged_ : Int
  nStartedDamaged_ : Int
  nDecks_ : Int
  deriving DecidableEq, Repr

/-- Modelled from the spec: the body of the constructor of `GameController` is
not in the source tree. A session starts in `NOT_STARTED` with both counters 0
and the total-decks constant 20. -/
def newSession (gameId : Int) : GameController :=
  { gameId_ := gameId, state_ := ST_NSTARTED, nPlaced_ := 0, nAcceptedDamaged_ := 0,
    nStartedDamaged_ := 0, nDecks_ := 20 }

/-- Modelled from the spec: the body of `GameController::incNDamaged` is not in
the source tree. One more damaged deck on the side named by the flag. -/
def incNDamaged (g : GameController) (isStartedDamaged : Bool) : GameController :=
  if isStartedDamaged then { g with nStartedDamaged_ := g.nStartedDamaged_ + 1 }
  else { g with nAcceptedDamaged_ := g.nAcceptedDamaged_ + 1 }

/-- Modelled from the spec: the body of `GameController::checkGameFinish` is
not in the source tree. The side's "cumulative damaged-cell count reaches the
fixed total-decks constant". -/
def checkGameFinish (g : GameController) (isStartedKilled : Bool) : Bool :=
  if isStartedKilled then decide (g.nStartedDamaged_ = g.nDecks_)
  else decide (g.nAcceptedDamaged_ = g.nDecks_)

/-- The damaged-decks counter of a side. -/
def nDamaged (g : GameController) (isStarted : Bool) : Int :=
  if isStarted then g.nStartedDamaged_ else g.nAcceptedDamaged_

/-- Modelled from the spec: the handling of a resolved shot is not in the
source tree. The shot of the starter (`byStarter`) or of the acceptor arrives
with the number of decks it adds to the counter of the other side (0 for a miss,
1 for a hit, the length of the ship for a sunk ship). Out of turn it is
discarded, state unchanged. On the mover's turn the counter of the damaged side
is raised deck by deck; then the session is `FINISHED` if that counter has
reached the total, and otherwise the turn switches. -/
def shotResolved (g : GameController) (byStarter : Bool) (decks : Nat) : GameController :=
  if (g.state_ = ST_STARTED_STEP ∧ byStarter = true) ∨
      (g.state_ = ST_ACCEPTED_STEP ∧ byStarter = false) then
    let g1 := Nat.iterate (fun g => incNDamaged g (!byStarter)) decks g
    if checkGameFinish g1 (!byStarter) then { g1 with state_ := ST_FINISHED }
    else if byStarter then { g1 with state_ := ST_ACCEPTED_STEP }
    else { g1 with state_ := ST_STARTED_STEP }
  else g

/-- Modelled from the spec: the handling of a disconnect is not in the source
tree. A session that is under way (placing, or a turn of either side) is
`FINISHED` "when either connection disconnects mid-game (forfeit)". -/
def forfeit (g : GameController) : GameController :=
  if g.state_ = ST_PLACING ∨ g.state_ = ST_STARTED_STEP ∨ g.state_ = ST_ACCEPTED_STEP then
    { g with state_ := ST_FINISHED }
  else g

/-- Modelled from the spec: the transitions `NOT_STARTED → PLACING` "on
successful matchmaking" and `PLACING → STARTED_STEP | ACCEPTED_STEP` "once both
boards pass" the validator, by the stored flag, are not in the source tree. -/
def matchmade (g : GameController) : GameController :=
  if g.state_ = ST_NSTARTED then { g with state_ := ST_PLACING } else g

/-- Modelled from the spec: the transition `PLACING → STARTED_STEP | ACCEPTED_STEP`
"once both boards pass" the validator is not in the source tree; "which side
starts is a stored flag", here `starterMoves`. -/
def boardsPlaced (g : GameController) (starterMoves : Bool) : GameController :=
  if g.state_ = ST_PLACING then
    { g with state_ := if starterMoves then ST_STARTED_STEP else ST_ACCEPTED_STEP }
  else g

/-- Modelled from the spec: the dispatcher that drives a session is not in the
source tree. The events that the spec lists as transitions of a session. -/
inductive SessionEvent where
  | matchmade
  | boardsPlaced (starterMoves : Bool)
  | shotResolved (byStarter : Bool) (decks : Nat)
  | forfeit
  deriving DecidableEq, Repr

/-- Modelled from the spec: one event applied to a session. -/
def SessionEvent.apply (e : SessionEvent) (g : GameController) : GameController :=
  match e with
  | .matchmade => Battleship.matchmade g
  | .boardsPlaced s => Battleship.boardsPlaced g s
  | .shotResolved b d => Battleship.shotResolved g b d
  | .forfeit => Battleship.forfeit g

/-- Modelled from the spec: the session after a sequence of events, the earliest
first, from its creation. -/
def sessionAfter (gameId : Int) (events : List SessionEvent) : GameController :=
  events.foldl (fun g e => e.apply g) (newSession gameId)


/-! ## The server: the registry of connections (`server.hpp`, `client.hpp`) -/

/-- `Client::ClientStatus`. -/
inductive ClientStatus where
  | ST_DISCONNECTED
  | ST_CONNECTED
  | ST_AUTHORIZED
  deriving DecidableEq, Repr

open ClientStatus

/-- The data members of `class Client` that the registry of connections uses:
the status and the login. -/
structure Client where
  status_ : ClientStatus
  login_ : List Char
  deriving DecidableEq, Repr

/-- `Clients`, a `QMap<int, Client>`: the entries, each connection id with its
client. -/
abbrev Clients := List (Int × Client)

/-- Modelled from the spec: the body of `Client::isAuthorized` is not in the
source tree. The lifecycle status is `authorized`. -/
def Client.isAuthorized (c : Client) : Bool := decide (c.status_ = ST_AUTHORIZED)

/-- Modelled from the spec: the body of `Server::checkLogin` is not in the
source tree. "True iff no other authorized connection currently holds that
login (case-sensitive exact match)"; the function is given the login alone, so
every authorized connection counts. -/
def checkLogin (clients : Clients) (login : List Char) : Bool :=
  clients.all (fun e => !(e.2.isAuthorized && decide (e.2.login_ = login)))

/-- Modelled from the spec: `register(connectionId)` is not in the source tree.
The connection gets a fresh entry, "initial status = disconnected-turned-connected";
an entry under the same id is replaced, as a map does. -/
def Clients.register (clients : Clients) (connectionId : Int) : Clients :=
  (connectionId, { status_ := ST_CONNECTED, login_ := [] }) ::
    clients.filter (fun e => decide (e.1 ≠ connectionId))

/-- Modelled from the spec: `authorize(connectionId, login)` is not in the
source tree. It "fails (no-op, logged) if login already taken; else sets
status=authorized", with the login. -/
def Clients.authorize (clients : Clients) (connectionId : Int) (login : List Char) : Clients :=
  if checkLogin clients login then
    clients.map (fun e =>
      if e.1 = connectionId then (e.1, { status_ := ST_AUTHORIZED, login_ := login }) else e)
  else clients

/-- Modelled from the spec: `remove(connectionId)` is not in the source tree.
It "erases the entry". -/
def Clients.remove (clients : Clients) (connectionId : Int) : Clients :=
  clients.filter (fun e => decide (e.1 ≠ connectionId))

/-- Modelled from the spec: the dispatcher that drives the registry is not in the
source tree. The operations of the registry that change it. -/
inductive RegistryEvent where
  | register (connectionId : Int)
  | authorize (connectionId : Int) (login : List Char)
  | remove (connectionId : Int)
  deriving DecidableEq, Repr

/-- Modelled from the spec: one event applied to the registry. -/
def RegistryEvent.apply (e : RegistryEvent) (clients : Clients) : Clients :=
  match e with
  | .register i => clients.register i
  | .authorize i l => clients.authorize i l
  | .remove i => clients.remove i

/-- Modelled from the spec: the registry after a sequence of events, the earliest
first, from the empty registry. -/
def registryAfter (events : List RegistryEvent) : Clients :=
  events.foldl (fun c e => e.apply c) []

/-! ## Vocabulary of the statements -/

/-- Value of a vector at an index, empty outside the vector. -/
def cellAt (b : List CellState) (i : Nat) : CellState := b.getD i CL_ST_EMPTY

/-- The sum `g 0 + ... + g (n - 1)`. -/
def sumBelow : Nat → (Nat → Nat) → Nat
  | 0, _ => 0
  | n + 1, g => sumBelow n g + g n

/-- Cell `(x, y)` is occupied: it is on the board and its placement state is
not `CL_ST_EMPTY`. -/
def occupied (f : Field) (x y : Nat) : Bool :=
  decide (x < width_ ∧ y < height_ ∧ cellAt f.fieldState_ (width_ * y + x) ≠ CL_ST_EMPTY)

/-- Number of consecutive occupied cells met from `(x, y)` in steps of
`(dx, dy)`, looking at no more than `n` cells. -/
def runLength (f : Field) (dx dy : Nat) : Nat → Nat → Nat → Nat
  | 0, _, _ => 0
  | n + 1, x, y => if occupied f x y then runLength f dx dy n (x + dx) (y + dy) + 1 else 0

/-- A maximal horizontal run of exactly `n` occupied cells starts at `(x, y)`:
the cell is occupied, the cell to its left is not, and `n` occupied cells
follow one another to the right. -/
def hRun (f : Field) (n x y : Nat) : Bool :=
  occupied f x y && !(decide (0 < x) && occupied f (x - 1) y) &&
    decide (runLength f 1 0 width_ x y = n)

/-- A maximal vertical run of exactly `n` occupied cells starts at `(x, y)`. -/
def vRun (f : Field) (n x y : Nat) : Bool :=
  occupied f x y && !(decide (0 < y) && occupied f x (y - 1)) &&
    decide (runLength f 0 1 height_ x y = n)

/-- Number of maximal straight runs of length `n` that start at `(x, y)`. A
run of length 1 is a cell that is a maximal run in both directions, that is an
occupied cell without an occupied edge neighbour; a longer run is horizontal or
vertical. -/
def runsAt (f : Field) (n x y : Nat) : Nat :=
  if n = 1 then (if hRun f 1 x y && vRun f 1 x y then 1 else 0)
  else (if hRun f n x y then 1 else 0) + (if vRun f n x y then 1 else 0)

/-- Number of maximal straight runs of length `n` on the board. -/
def runCount (f : Field) (n : Nat) : Nat :=
  sumBelow height_ (fun y => sumBelow width_ (fun x => runsAt f n x y))

/-- No two occupied cells are diagonal neighbours. -/
def noDiagonalContact (f : Field) : Prop :=
  ∀ x1 y1 x2 y2, occupied f x1 y1 = true → occupied f x2 y2 = true →
    (x1 + 1 = x2 ∨ x2 + 1 = x1) → (y1 + 1 = y2 ∨ y2 + 1 = y1) → False

/-- Check of `noDiagonalContact` over the cells of the board: no occupied cell
has an occupied diagonal neighbour in the row below it. -/
def diagonalFree (f : Field) : Bool :=
  (List.range 10).all fun y => (List.range 10).all fun x =>
    !(occupied f x y) ||
      (!(occupied f (x + 1) (y + 1)) && !(decide (0 < x) && occupied f (x - 1) (y + 1)))

/-- Two cells lie in one straight run: they are in the same row or in the same
column and every cell between them (both included) is occupied. -/
def sameRun (f : Field) (x1 y1 x2 y2 : Nat) : Prop :=
  (y1 = y2 ∧ ∀ x, min x1 x2 ≤ x → x ≤ max x1 x2 → occupied f x y1 = true) ∨
  (x1 = x2 ∧ ∀ y, min y1 y2 ≤ y → y ≤ max y1 y2 → occupied f x1 y = true)

/-- Two fields have the same set of non-empty placement cells. -/
def sameOccupancy (f g : Field) : Prop :=
  f.fieldState_.map (fun c => decide (c ≠ CL_ST_EMPTY))
    = g.fieldState_.map (fun c => decide (c ≠ CL_ST_EMPTY))

instance (f g : Field) : Decidable (sameOccupancy f g) := by
  unfold sameOccupancy; infer_instance

/-- Number of occupied cells of the board, row by row. -/
def occupiedCount (f : Field) : Nat :=
  sumBelow height_ (fun y => sumBelow width_ (fun x => if occupied f x y then 1 else 0))

/-- Decimal digit of the enum ordinal of a placement state. -/
def CellState.digit : CellState → Char
  | CL_ST_EMPTY => '0'
  | CL_ST_CENTER => '1'
  | CL_ST_TOP => '2'
  | CL_ST_BOTTOM => '3'
  | CL_ST_VMIDDLE => '4'
  | CL_ST_HMIDDLE => '5'
  | CL_ST_LEFT => '6'
  | CL_ST_RIGHT => '7'
  | CL_ST_UNDEFINED => '8'

/-- Decimal digit of the enum ordinal of a draw state. -/
def CellDraw.digit : CellDraw → Char
  | CELL_EMPTY => '0'
  | CELL_LIVE => '1'
  | CELL_DOT => '2'
  | CELL_DAMAGED => '3'
  | CELL_KILLED => '4'
  | CELL_MARK => '5'

/-- The draw value reports a shot: `CELL_DOT`, `CELL_DAMAGED` or `CELL_KILLED`. -/
def isShotResult (c : CellDraw) : Bool :=
  decide (c = CELL_DOT ∨ c = CELL_DAMAGED ∨ c = CELL_KILLED)

/-- Cell `i` of the draw vector `v` reports a shot. -/
def shotAt (v : List CellDraw) (i : Nat) : Bool :=
  match v[i]? with
  | some c => isShotResult c
  | none => false

/-- The field has the size of the board: 100 placement cells and 100 draw cells. -/
def fullSize (g : Field) : Prop :=
  g.fieldState_.length = 100 ∧ g.fieldDraw_.length = 100

instance (g : Field) : Decidable (fullSize g) := by unfold fullSize; infer_instance

/-- The digit value of the `QChar` is that of a placement state, 0 to 8. -/
def isStateDigit (c : QChar) : Bool :=
  decide (0 ≤ digitValue c ∧ digitValue c ≤ 8)

/-- The digit value of the `QChar` is that of a draw value, 0 to 5. -/
def isDrawDigit (c : QChar) : Bool :=
  decide (0 ≤ digitValue c ∧ digitValue c ≤ 5)

/-- The draw value that `Field::initMyDrawField` gives to a placement state. -/
def drawOfState (s : CellState) : CellDraw :=
  if s = CL_ST_EMPTY then CELL_EMPTY else CELL_LIVE

/-- The placement state whose ordinal is the digit value of the `QChar`. -/
def stateOfChar (c : QChar) : CellState :=
  (CellState.ofNat? (digitValue c).toNat).getD CL_ST_EMPTY

/-- The draw value whose ordinal is the digit value of the `QChar`. -/
def drawOfChar (c : QChar) : CellDraw :=
  (CellDraw.ofNat? (digitValue c).toNat).getD CELL_EMPTY

/-- What a right click makes of the draw value of an enemy cell: a mark is
taken off, an empty cell gets a mark, a played cell stays. -/
def toggledMark (c : CellDraw) : CellDraw :=
  if c = CELL_MARK then CELL_EMPTY else if c = CELL_EMPTY then CELL_MARK else c

/-- The field is a boolean grid: 100 placement cells and 100 draw cells, each
cell either empty in both or `CL_ST_UNDEFINED` with draw value `CELL_LIVE`. -/
def booleanGrid (f : Field) : Prop :=
  f.fieldState_.length = 100 ∧ f.fieldDraw_.length = 100 ∧
  ∀ i, i < 100 →
    (f.fieldState_[i]? = some CL_ST_EMPTY ∧ f.fieldDraw_[i]? = some CELL_EMPTY) ∨
    (f.fieldState_[i]? = some CL_ST_UNDEFINED ∧ f.fieldDraw_[i]? = some CELL_LIVE)

/-- A sequence of mouse clicks, each a position and a button, handled by
`Controller::onMousePressed` one after the other. -/
def pressAll (c : Controller) (labels : Labels) :
    List (QPoint × MouseButton) → Option (Controller × Labels)
  | [] => some (c, labels)
  | click :: rest =>
    match onMousePressed c click.1 click.2 labels with
    | some r => pressAll r.1 r.2 rest
    | none => none

/-! ## Boards used as examples -/

/-- The field that `Field::generate` leaves. -/
def generatedField : Field :=
  { fieldState_ := setStateFieldLoop (QString.qchars field_example) [],
    fieldDraw_ := (initMyDrawFieldLoop (setStateFieldLoop (QString.qchars field_example) [])
      area_ 0 []).getD [] }

/-- A board with ships against the edges and in the corners, horizontal and
vertical: the rows are `8888000008`, `0000000000`, `8080800008`, `8080800008`,
`8080000000`, `0000000000`, `0000000088`, `0000000000`, `0000000000`,
`8000080008`. -/
def edgeField : Field :=
  { fieldState_ := setStateFieldLoop (QString.qchars ("8888000008" ++ "0000000000" ++
      "8080800008" ++ "8080800008" ++ "8080000000" ++ "0000000000" ++ "0000000088" ++
      "0000000000" ++ "0000000000" ++ "8000080008").toList) [],
    fieldDraw_ := List.replicate 100 CELL_EMPTY }

/-- A board with a one-cell ship at (0, 0) and the top of a ship at (1, 1). -/
def diagonalField : Field :=
  { fieldState_ := ((List.replicate 100 CL_ST_EMPTY).set 0 CL_ST_CENTER).set 11 CL_ST_TOP,
    fieldDraw_ := List.replicate 100 CELL_EMPTY }

/-- A board with five occupied cells in a row, from (2, 3) to (6, 3). -/
def fiveField : Field :=
  { fieldState_ := List.replicate 32 CL_ST_EMPTY ++ List.replicate 5 CL_ST_UNDEFINED ++
      List.replicate 63 CL_ST_EMPTY,
    fieldDraw_ := List.replicate 100 CELL_EMPTY }

/-- The layout of `Field::generate` with every ship cell labelled `CL_ST_CENTER`
instead of `CL_ST_UNDEFINED`, as the digit string with `1` for `8` gives it. -/
def centerField : Field :=
  { fieldState_ := setStateFieldLoop (QString.qchars ("1111011100" ++ "0000000000" ++
      "1110110110" ++ "0000000000" ++ "1101010101" ++ "0000000000" ++ "0000000000" ++
      "0000000000" ++ "0000000000" ++ "0000000000").toList) [],
    fieldDraw_ := generatedField.fieldDraw_ }

/-- The layout of `Field::generate` with an empty draw state. -/
def undrawnField : Field :=
  { fieldState_ := generatedField.fieldState_, fieldDraw_ := List.replicate 100 CELL_EMPTY }

/-- A model waiting for the fight whose started flag is set. -/
def starterModel : Model :=
  { myField_ := generatedField, enemyField_ := newField, amIStarted_ := true,
    state_ := ST_WAITING_PLACING, login_ := "anna".toList, enemyLogin_ := "boris".toList,
    gameId_ := 7 }

/-- A model waiting for the fight whose started flag is not set. -/
def accepterModel : Model :=
  { myField_ := generatedField, enemyField_ := newField, amIStarted_ := false,
    state_ := ST_PLACING_SHIPS, login_ := "boris".toList, enemyLogin_ := "anna".toList,
    gameId_ := 7 }

/-- A model in a fight whose enemy field carries a mark at (0, 0) and an earlier
miss at (1, 0). -/
def fightingModel : Model :=
  { myField_ := generatedField,
    enemyField_ := { fieldState_ := List.replicate 100 CL_ST_EMPTY,
                     fieldDraw_ := [CELL_MARK, CELL_DOT] ++ List.replicate 98 CELL_EMPTY },
    amIStarted_ := true, state_ := ST_MAKING_STEP, login_ := "anna".toList,
    enemyLogin_ := "boris".toList, gameId_ := 7 }

/-- An incoming draw vector: ships at cells 0 and 3, a hit at cell 2. -/
def incomingLive : List CellDraw :=
  [CELL_LIVE, CELL_EMPTY, CELL_DAMAGED, CELL_LIVE] ++ List.replicate 96 CELL_EMPTY

/-- An incoming draw vector with the same shots as `incomingLive` and no ships. -/
def incomingBare : List CellDraw :=
  [CELL_EMPTY, CELL_MARK, CELL_DAMAGED, CELL_EMPTY] ++ List.replicate 96 CELL_EMPTY

/-- A string of 100 characters that ends in `'9'`, which is no placement state. -/
def wrongStateString : List Char := List.replicate 99 '0' ++ ['9']

/-- A string of 100 characters that ends in `'6'`, which is no draw value. -/
def wrongDrawString : List Char := List.replicate 99 '0' ++ ['6']

/-- A model whose game is over: the state is `ST_GAME_FINISHED`. -/
def finishedModel : Model :=
  { myField_ := generatedField, enemyField_ := newField, amIStarted_ := true,
    state_ := ST_GAME_FINISHED, login_ := "anna".toList, enemyLogin_ := "boris".toList,
    gameId_ := 7 }

/-- A controller in a fight, its model on the move, nothing written yet. -/
def fightingController : Controller := { model_ := fightingModel, socket_ := [] }

/-- Both labels hidden. -/
def hiddenLabels : Labels := { applyIsOkLabel := false, applyIsNotOkLabel := false }

/-- A board on which the ship of four cells in row 0 has three damaged cells
and one live cell, (3, 0). -/
def woundedBoard : Field :=
  setCellDraw (setCellDraw (setCellDraw generatedField 0 0 CELL_DAMAGED) 1 0 CELL_DAMAGED)
    2 0 CELL_DAMAGED

/-- The bordered vector that `Field::isCorrect` builds from the layout of
`Field::generate`. -/
def generatedGrid : List CellState :=
  match withBorders generatedField.fieldState_ with
  | .next b => b
  | _ => []

/-- A string of two digits of placement states. -/
def shortStateString : List Char := "81".toList

/-- A controller whose model is placing ships on a cleared field. -/
def placingController : Controller :=
  { model_ := { myField_ := newField, enemyField_ := newField, amIStarted_ := false,
                state_ := ST_PLACING_SHIPS, login_ := "anna".toList,
                enemyLogin_ := "boris".toList, gameId_ := 7 },
    socket_ := [] }

/-- The string of the one character U+0663, ARABIC-INDIC DIGIT THREE. -/
def arabicThree : List Char := [Char.ofNat 0x0663]

/-- A string of 100 characters U+0663, ARABIC-INDIC DIGIT THREE. -/
def arabicThrees : List Char := List.replicate 100 (Char.ofNat 0x0663)

/-- A string of 100 characters in 101 `QChar`s: 99 times `'0'`, then U+1D7CE,
MATHEMATICAL BOLD DIGIT ZERO, which takes two surrogates. -/
def astralString : List Char := List.replicate 99 '0' ++ [Char.ofNat 0x1D7CE]

/-- Index `k` of the bordered vector lies in the inner 10 x 10 block. -/
def interior (k : Nat) : Prop := 1 ≤ k % 12 ∧ k % 12 ≤ 10 ∧ 1 ≤ k / 12 ∧ k / 12 ≤ 10

instance (k : Nat) : Decidable (interior k) := by unfold interior; infer_instance

/-- A bordered vector: 144 cells, and every non-empty one lies in the inner block. -/
def Bordered (b : List CellState) : Prop :=
  b.length = 144 ∧ ∀ k, cellAt b k ≠ CL_ST_EMPTY → interior k

/-- No non-empty inner cell of a bordered vector has a non-empty diagonal neighbour. -/
def NoDiag (b : List CellState) : Prop :=
  ∀ k, interior k → cellAt b k ≠ CL_ST_EMPTY →
    cellAt b (k - 13) = CL_ST_EMPTY ∧ cellAt b (k - 11) = CL_ST_EMPTY ∧
    cellAt b (k + 13) = CL_ST_EMPTY ∧ cellAt b (k + 11) = CL_ST_EMPTY

/-- Every cell is empty or undefined. -/
def EU (b : List CellState) : Prop :=
  ∀ k, cellAt b k = CL_ST_EMPTY ∨ cellAt b k = CL_ST_UNDEFINED

/-- The label that the run classification gives to cell `k` of a bordered
vector `b0`, read off the occupancy of the four edge neighbours. -/
def lab (b0 : List CellState) (k : Nat) : CellState :=
  if cellAt b0 k = CL_ST_EMPTY then CL_ST_EMPTY
  else if cellAt b0 (k + 1) ≠ CL_ST_EMPTY then
    (if cellAt b0 (k - 1) ≠ CL_ST_EMPTY then CL_ST_HMIDDLE else CL_ST_LEFT)
  else if cellAt b0 (k - 1) ≠ CL_ST_EMPTY then CL_ST_RIGHT
  else if cellAt b0 (k + 12) ≠ CL_ST_EMPTY then
    (if cellAt b0 (k - 12) ≠ CL_ST_EMPTY then CL_ST_VMIDDLE else CL_ST_TOP)
  else if cellAt b0 (k - 12) ≠ CL_ST_EMPTY then CL_ST_BOTTOM
  else CL_ST_CENTER

/-- Invariant of the scan of `Field::CheckLength` when it reaches index `p`:
`b0` is the vector at the start and `b` the current one. -/
structure LInv (b0 b : List CellState) (p : Nat) : Prop where
  len : b.length = 144
  either : ∀ k, cellAt b k = lab b0 k ∨ cellAt b k = cellAt b0 k
  before : ∀ k, k < p → cellAt b k = lab b0 k
  closed : ∀ k δ, (δ = 1 ∨ δ = 12) → cellAt b0 k ≠ CL_ST_EMPTY → cellAt b k = lab b0 k →
    cellAt b0 (k + δ) ≠ CL_ST_EMPTY → cellAt b (k + δ) = lab b0 (k + δ)
  ahead : ∀ k, p ≤ k → cellAt b0 k ≠ CL_ST_EMPTY → cellAt b k = lab b0 k →
    cellAt b0 (k - 1) ≠ CL_ST_EMPTY ∨ cellAt b0 (k - 12) ≠ CL_ST_EMPTY
  short : ∀ k δ n, k < p → (δ = 1 ∨ δ = 12) → cellAt b0 k ≠ CL_ST_EMPTY →
    cellAt b0 (k - δ) = CL_ST_EMPTY → (∀ m, m ≤ n → cellAt b0 (k + δ * m) ≠ CL_ST_EMPTY) →
    n + 1 ≤ SHIP_MAXLEN

/-- A run of more than `SHIP_MAXLEN` cells starts somewhere. -/
def LongRun (b0 : List CellState) : Prop :=
  ∃ k δ, (δ = 1 ∨ δ = 12) ∧ cellAt b0 k ≠ CL_ST_EMPTY ∧ cellAt b0 (k - δ) = CL_ST_EMPTY ∧
    ∀ m, m ≤ SHIP_MAXLEN → cellAt b0 (k + δ * m) ≠ CL_ST_EMPTY

/-- The two directions of a ship with their labels. -/
def IsDir (δ : Nat) (first mid last : CellState) : Prop :=
  (δ = 1 ∧ first = CL_ST_LEFT ∧ mid = CL_ST_HMIDDLE ∧ last = CL_ST_RIGHT) ∨
  (δ = 12 ∧ first = CL_ST_TOP ∧ mid = CL_ST_VMIDDLE ∧ last = CL_ST_BOTTOM)

/-- The length that `Field::isShip` computes at index `k` of a bordered vector. -/
def IsShipLen (b : List CellState) (k l : Nat) : Prop :=
  (cellAt b k = CL_ST_TOP → ∃ n, l = n + 1 ∧
      (∀ m, m ≤ n → cellAt b (k + 12 * m) ≠ CL_ST_EMPTY) ∧
      cellAt b (k + 12 * (n + 1)) = CL_ST_EMPTY) ∧
  (cellAt b k = CL_ST_LEFT → ∃ n, l = n + 1 ∧
      (∀ m, m ≤ n → cellAt b (k + 1 * m) ≠ CL_ST_EMPTY) ∧
      cellAt b (k + 1 * (n + 1)) = CL_ST_EMPTY) ∧
  (cellAt b k = CL_ST_CENTER → l = 1) ∧
  (cellAt b k ≠ CL_ST_TOP → cellAt b k ≠ CL_ST_LEFT → cellAt b k ≠ CL_ST_CENTER → l = 0)

/-- The vector `b0` is the bordered copy of the placement state of `f`. -/
structure Copy (f : Field) (b0 : List CellState) : Prop where
  len : b0.length = 144
  cell : ∀ k, cellAt b0 k =
    if interior k then cellAt f.fieldState_ (10 * (k / 12 - 1) + (k % 12 - 1)) else CL_ST_EMPTY

/-- Number of consecutive `true` values of `o` from index `i`, looking at no
more than `n` indices. -/
def runLen (o : Nat → Bool) : Nat → Nat → Nat
  | 0, _ => 0
  | n + 1, i => if o i then runLen o n (i + 1) + 1 else 0

/-- Length of the maximal horizontal run that starts at `(x, y)`, if one does. -/
def hStartLen (f : Field) (x y : Nat) : Nat :=
  if occupied f x y && !(decide (0 < x) && occupied f (x - 1) y) then
    runLength f 1 0 width_ x y else 0

/-- Length of the maximal vertical run that starts at `(x, y)`, if one does. -/
def vStartLen (f : Field) (x y : Nat) : Nat :=
  if occupied f x y && !(decide (0 < y) && occupied f x (y - 1)) then
    runLength f 0 1 height_ x y else 0

/-- What holds of every session: the total is 20, and while the session is not
`FINISHED` no counter stands at the total. -/
def SessionInv (g : GameController) : Prop :=
  g.nDecks_ = 20 ∧
  (g.state_ ≠ ST_FINISHED → g.nStartedDamaged_ ≠ 20 ∧ g.nAcceptedDamaged_ ≠ 20)

/-- What holds of every registry: no connection id twice, and two authorized
entries with the same login are under the same id. -/
def RegistryInv (clients : Clients) : Prop :=
  (clients.map Prod.fst).Nodup ∧
  ∀ a ∈ clients, ∀ b ∈ clients, a.2.isAuthorized = true → b.2.isAuthorized = true →
    a.2.login_ = b.2.login_ → a.1 = b.1


/-! ## Control flow lemmas -/

/-- The loop seen from its first iteration: `forRange` runs iteration 0 and
then the remaining ones, as the `for` statement does. -/
theorem forRange_first {σ : Type} (body : Nat → σ → Flow σ) (n : Nat) (s : σ) :
    forRange body (n + 1) s =
      match body 0 s with
      | .next s' => forRange (fun k => body (k + 1)) n s'
      | .ret b => .ret b
      | .fault => .fault := by
  induction n with
  | zero =>
    simp only [forRange]
    cases body 0 s <;> rfl
  | succ n ih =>
    rw [forRange, ih]
    cases body 0 s <;> rfl

theorem forRange_flow {σ : Type} (body : Nat → σ → Flow σ) (P : Nat → σ → Prop) (R : Bool → Prop)
    (n : Nat) (s : σ) (h0 : P 0 s)
    (hstep : ∀ k s, k < n → P k s →
      (∃ s', body k s = .next s' ∧ P (k + 1) s') ∨ (∃ r, body k s = .ret r ∧ R r)) :
    (∃ s', forRange body n s = .next s' ∧ P n s') ∨ (∃ r, forRange body n s = .ret r ∧ R r) := by
  induction n with
  | zero => exact Or.inl ⟨s, rfl, h0⟩
  | succ n ih =>
    have ih' := ih (fun k s hk hP => hstep k s (Nat.lt_succ_of_lt hk) hP)
    rcases ih' with ⟨s', hs', hP⟩ | ⟨r, hr, hR⟩
    · rcases hstep n s' (Nat.lt_succ_self n) hP with ⟨s'', hs'', hP''⟩ | ⟨r, hr, hR⟩
      · exact Or.inl ⟨s'', by simp [forRange, hs', hs''], hP''⟩
      · exact Or.inr ⟨r, by simp [forRange, hs', hr], hR⟩
    · exact Or.inr ⟨r, by simp [forRange, hr], hR⟩

theorem forRange_next {σ : Type} (body : Nat → σ → Flow σ) (P : Nat → σ → Prop)
    (n : Nat) (s : σ) (h0 : P 0 s)
    (hstep : ∀ k s, k < n → P k s → ∃ s', body k s = .next s' ∧ P (k + 1) s') :
    ∃ s', forRange body n s = .next s' ∧ P n s' := by
  rcases forRange_flow body P (fun _ => False) n s h0
    (fun k s hk hP => Or.inl (hstep k s hk hP)) with h | ⟨_, _, hF⟩
  · exact h
  · exact hF.elim

theorem readAt_eq (b : List CellState) (i : Nat) (h : i < b.length) :
    readAt b i = .next (cellAt b i) := by
  simp [readAt, cellAt, List.getD, List.getElem?_eq_getElem h]

theorem writeAt_eq {α : Type} (b : List α) (i : Nat) (c : α) (h : i < b.length) :
    writeAt b i c = .next (b.set i c) := by
  simp [writeAt, h]

theorem cellAt_set (b : List CellState) (i j : Nat) (c : CellState) (h : i < b.length) :
    cellAt (b.set i c) j = if j = i then c else cellAt b j := by
  unfold cellAt
  by_cases hj : j = i
  · subst hj; simp [List.getD, h]
  · simp [List.getD, hj, List.getElem?_set_ne (Ne.symm hj)]

theorem cellAt_of_le (b : List CellState) (i : Nat) (h : b.length ≤ i) :
    cellAt b i = CL_ST_EMPTY := by
  simp [cellAt, List.getD, List.getElem?_eq_none h]

theorem Flow.bind_next {α β : Type} (a : α) (k : α → Flow β) :
    (Flow.next a >>= k) = k a := rfl

/-! ## The bordered copy and the diagonal check -/

theorem withBorders_spec (fs : List CellState) (h : fs.length = 100) :
    ∃ b0, withBorders fs = .next b0 ∧ b0.length = 144 ∧
      ∀ k, cellAt b0 k =
        if interior k then cellAt fs (10 * (k / 12 - 1) + (k % 12 - 1)) else CL_ST_EMPTY := by
  have key := forRange_next
    (fun i b => forRange (fun j b => do
      let c ← readAt fs (width_ * i + j)
      writeAt b ((width_ + 2) * (i + 1) + (j + 1)) c) width_ b)
    (fun i b => b.length = 144 ∧ ∀ k, cellAt b k =
      if interior k ∧ k / 12 - 1 < i then cellAt fs (10 * (k / 12 - 1) + (k % 12 - 1))
      else CL_ST_EMPTY)
    height_ (List.replicate ((width_ + 2) * (height_ + 2)) CL_ST_EMPTY) ?_ ?_
  · obtain ⟨b0, hb0, hlen, hcell⟩ := key
    refine ⟨b0, hb0, hlen, fun k => ?_⟩
    rw [hcell k]
    by_cases hk : interior k
    · have : k / 12 - 1 < height_ := by unfold interior at hk; simp only [height_, FIELD_HEIGHT_DEFAULT]; omega
      simp [hk, this]
    · simp [hk]
  · refine ⟨by rw [List.length_replicate]; rfl, fun k => ?_⟩
    simp [cellAt, List.getD]
  · intro i b hi ⟨hlen, hcell⟩
    have hi' : i < 10 := hi
    have key2 := forRange_next
      (fun j b => do
        let c ← readAt fs (width_ * i + j)
        writeAt b ((width_ + 2) * (i + 1) + (j + 1)) c)
      (fun j b => b.length = 144 ∧ ∀ k, cellAt b k =
        if interior k ∧ (k / 12 - 1 < i ∨ (k / 12 - 1 = i ∧ k % 12 - 1 < j)) then
          cellAt fs (10 * (k / 12 - 1) + (k % 12 - 1))
        else CL_ST_EMPTY)
      width_ b ?_ ?_
    · obtain ⟨b', hb', hlen', hcell'⟩ := key2
      refine ⟨b', hb', hlen', fun k => ?_⟩
      rw [hcell' k]
      by_cases hk : interior k
      · have hiff : (k / 12 - 1 < i ∨ (k / 12 - 1 = i ∧ k % 12 - 1 < width_)) ↔ k / 12 - 1 < i + 1 := by
          unfold interior at hk; simp only [width_, FIELD_WIDTH_DEFAULT]; omega
        simp only [hk, true_and, hiff]
      · simp [hk]
    · refine ⟨hlen, fun k => ?_⟩
      rw [hcell k]
      have hiff : (k / 12 - 1 < i ∨ (k / 12 - 1 = i ∧ k % 12 - 1 < 0)) ↔ k / 12 - 1 < i := by omega
      simp only [hiff]
    · intro j b hj ⟨hlen, hcell⟩
      have hj' : j < 10 := hj
      have hr : readAt fs (width_ * i + j) = .next (cellAt fs (10 * i + j)) :=
        readAt_eq fs _ (by simp only [width_, FIELD_WIDTH_DEFAULT]; omega)
      have hw : ∀ c, writeAt b ((width_ + 2) * (i + 1) + (j + 1)) c
          = .next (b.set (12 * (i + 1) + (j + 1)) c) :=
        fun c => writeAt_eq b _ c (by simp only [width_, FIELD_WIDTH_DEFAULT]; omega)
      refine ⟨b.set (12 * (i + 1) + (j + 1)) (cellAt fs (10 * i + j)), ?_, by simpa using hlen, fun k => ?_⟩
      · show (readAt fs (width_ * i + j) >>= fun c => writeAt b ((width_ + 2) * (i + 1) + (j + 1)) c) = _
        rw [hr, Flow.bind_next, hw]
      · rw [cellAt_set b _ _ _ (by omega), hcell k]
        by_cases hk : k = 12 * (i + 1) + (j + 1)
        · subst hk
          have h1 : (12 * (i + 1) + (j + 1)) / 12 = i + 1 := by omega
          have h2 : (12 * (i + 1) + (j + 1)) % 12 = j + 1 := by omega
          have h3 : interior (12 * (i + 1) + (j + 1)) := by unfold interior; omega
          simp [h1, h2, h3]
        · simp only [hk, if_false]
          by_cases hint : interior k
          · have hiff : (k / 12 - 1 < i ∨ (k / 12 - 1 = i ∧ k % 12 - 1 < j + 1)) ↔
                (k / 12 - 1 < i ∨ (k / 12 - 1 = i ∧ k % 12 - 1 < j)) := by
              unfold interior at hint; omega
            simp only [hiff]
          · simp [hint]


theorem diagCell_eq (b : List CellState) (hlen : b.length = 144) (i j : Nat)
    (hi : i < 10) (hj : j < 10) :
    diagCell b i j =
      if cellAt b (12 * (i + 1) + (j + 1)) ≠ CL_ST_EMPTY →
          cellAt b (12 * (i + 1) + (j + 1) - 13) = CL_ST_EMPTY ∧
          cellAt b (12 * (i + 1) + (j + 1) - 11) = CL_ST_EMPTY ∧
          cellAt b (12 * (i + 1) + (j + 1) + 13) = CL_ST_EMPTY ∧
          cellAt b (12 * (i + 1) + (j + 1) + 11) = CL_ST_EMPTY
      then .next () else .ret false := by
  have e1 : (width_ + 2) * (i + 1) + (j + 1) - (width_ + 2) - 1 = 12 * (i + 1) + (j + 1) - 13 := by
    simp only [width_, FIELD_WIDTH_DEFAULT]; omega
  have e2 : (width_ + 2) * (i + 1) + (j + 1) - (width_ + 2) + 1 = 12 * (i + 1) + (j + 1) - 11 := by
    simp only [width_, FIELD_WIDTH_DEFAULT]; omega
  have e3 : (width_ + 2) * (i + 1) + (j + 1) + (width_ + 2) + 1 = 12 * (i + 1) + (j + 1) + 13 := by
    simp only [width_, FIELD_WIDTH_DEFAULT]
  have e4 : (width_ + 2) * (i + 1) + (j + 1) + (width_ + 2) - 1 = 12 * (i + 1) + (j + 1) + 11 := by
    simp only [width_, FIELD_WIDTH_DEFAULT]; omega
  have e0 : (width_ + 2) * (i + 1) + (j + 1) = 12 * (i + 1) + (j + 1) := rfl
  unfold diagCell
  simp only [e1, e2, e3, e4, e0]
  rw [readAt_eq b _ (by omega), readAt_eq b _ (by omega), readAt_eq b _ (by omega),
    readAt_eq b _ (by omega), readAt_eq b _ (by omega)]
  simp only [Flow.bind_next]
  by_cases h0 : cellAt b (12 * (i + 1) + (j + 1)) = CL_ST_EMPTY
  · simp [h0]
  · by_cases h1 : cellAt b (12 * (i + 1) + (j + 1) - 13) = CL_ST_EMPTY
    · by_cases h2 : cellAt b (12 * (i + 1) + (j + 1) - 11) = CL_ST_EMPTY
      · by_cases h3 : cellAt b (12 * (i + 1) + (j + 1) + 13) = CL_ST_EMPTY
        · by_cases h4 : cellAt b (12 * (i + 1) + (j + 1) + 11) = CL_ST_EMPTY
          · simp [h0, h1, h2, h3, h4]
          · simp [h0, h1, h2, h3, h4]
        · simp [h0, h1, h2, h3]
      · simp [h0, h1, h2]
    · simp [h0, h1]

theorem CheckDiagonalCollisions_spec (b : List CellState) (hlen : b.length = 144) :
    (CheckDiagonalCollisions b = some true ∧ NoDiag b) ∨
    (CheckDiagonalCollisions b = some false ∧ ¬ NoDiag b) := by
  have key := forRange_flow
    (fun i (_ : Unit) => forRange (fun j (_ : Unit) => diagCell b i j) width_ ())
    (fun i _ => ∀ k, interior k → k / 12 - 1 < i → cellAt b k ≠ CL_ST_EMPTY →
      cellAt b (k - 13) = CL_ST_EMPTY ∧ cellAt b (k - 11) = CL_ST_EMPTY ∧
      cellAt b (k + 13) = CL_ST_EMPTY ∧ cellAt b (k + 11) = CL_ST_EMPTY)
    (fun r => r = false ∧ ¬ NoDiag b) height_ () (fun k _ hk => absurd hk (Nat.not_lt_zero _)) ?_
  · have hsz : ¬ b.length ≠ (height_ + 2) * (width_ + 2) := by
      simp only [width_, height_, FIELD_WIDTH_DEFAULT, FIELD_HEIGHT_DEFAULT, hlen]; decide
    rcases key with ⟨s', hs', hP⟩ | ⟨r, hr, hR, hN⟩
    · left
      refine ⟨by simp only [CheckDiagonalCollisions, hsz, if_false, hs'], fun k hk => ?_⟩
      exact hP k hk (by unfold interior at hk; simp only [height_, FIELD_HEIGHT_DEFAULT]; omega)
    · right
      subst hR
      exact ⟨by simp only [CheckDiagonalCollisions, hsz, if_false, hr], hN⟩
  · intro i _ hi hP
    have hi' : i < 10 := hi
    have key2 := forRange_flow (fun j (_ : Unit) => diagCell b i j)
      (fun j _ => ∀ k, interior k → (k / 12 - 1 < i ∨ (k / 12 - 1 = i ∧ k % 12 - 1 < j)) →
        cellAt b k ≠ CL_ST_EMPTY →
        cellAt b (k - 13) = CL_ST_EMPTY ∧ cellAt b (k - 11) = CL_ST_EMPTY ∧
        cellAt b (k + 13) = CL_ST_EMPTY ∧ cellAt b (k + 11) = CL_ST_EMPTY)
      (fun r => r = false ∧ ¬ NoDiag b) width_ () ?_ ?_
    · rcases key2 with ⟨s', hs', hP'⟩ | h
      · left
        refine ⟨s', hs', fun k hk hlt => ?_⟩
        exact hP' k hk (by unfold interior at hk; simp only [width_, FIELD_WIDTH_DEFAULT]; omega)
      · exact Or.inr h
    · intro k hk hlt
      exact hP k hk (by omega)
    · intro j _ hj hP'
      have hj' : j < 10 := hj
      beta_reduce
      rw [diagCell_eq b hlen i j hi' hj']
      split_ifs with hgood
      · left
        refine ⟨(), rfl, fun k hk hlt => ?_⟩
        by_cases hkk : k = 12 * (i + 1) + (j + 1)
        · subst hkk; exact hgood
        · exact hP' k hk (by unfold interior at hk; omega)
      · right
        refine ⟨false, rfl, rfl, fun hN => hgood ?_⟩
        exact hN _ (by unfold interior; omega)

/-! ## The run classification -/

theorem lt_length_of_cellAt_ne (b : List CellState) (k : Nat) (h : cellAt b k ≠ CL_ST_EMPTY) :
    k < b.length := by
  by_contra hk
  exact h (cellAt_of_le b k (Nat.le_of_not_lt hk))

theorem lengthWalk_spec (mid : CellState) (δ : Nat) (hδ : 1 ≤ δ) :
    ∀ (fuel : Nat) (b : List CellState) (index length : Nat),
      (∀ k, cellAt b k ≠ CL_ST_EMPTY → k + δ < b.length) →
      cellAt b index ≠ CL_ST_EMPTY →
      b.length ≤ fuel + index →
      ∃ n b', lengthWalk mid δ fuel b index length = .next (b', index + δ * n, length + n) ∧
        b'.length = b.length ∧
        (∀ m, m ≤ n → cellAt b (index + δ * m) ≠ CL_ST_EMPTY) ∧
        cellAt b (index + δ * (n + 1)) = CL_ST_EMPTY ∧
        (∀ m, m < n → cellAt b' (index + δ * m) = mid) ∧
        (∀ k, (∀ m, m < n → k ≠ index + δ * m) → cellAt b' k = cellAt b k) := by
  intro fuel
  induction fuel with
  | zero =>
    intro b index length _ h0 hf
    exact absurd (lt_length_of_cellAt_ne b index h0) (by omega)
  | succ fuel ih =>
    intro b index length H h0 hf
    have hin : index + δ < b.length := H index h0
    have hidx : index < b.length := by omega
    unfold lengthWalk
    rw [readAt_eq b _ hin]
    simp only [Flow.bind_next]
    by_cases hc : cellAt b (index + δ) = CL_ST_EMPTY
    · refine ⟨0, b, ?_, rfl, ?_, ?_, ?_, ?_⟩
      · simp [hc]
      · intro m hm
        have : m = 0 := by omega
        subst this; simpa using h0
      · simpa using hc
      · intro m hm; omega
      · intro k _; rfl
    · rw [writeAt_eq b index mid hidx]
      simp only [Flow.bind_next, hc, ne_eq, not_false_eq_true, if_true]
      have hset : ∀ k, cellAt (b.set index mid) k = if k = index then mid else cellAt b k :=
        fun k => cellAt_set b index k mid hidx
      obtain ⟨n, b', hw, hlen, hne, hend, hmid, hother⟩ :=
        ih (b.set index mid) (index + δ) (length + 1)
          (by
            intro k hk
            rw [hset k] at hk
            rw [List.length_set]
            by_cases hki : k = index
            · subst hki; exact hin
            · simp only [hki, if_false] at hk; exact H k hk)
          (by rw [hset]; simp only [show index + δ ≠ index by omega, if_false]; exact hc)
          (by rw [List.length_set]; omega)
      have hmul : ∀ m, index + δ + δ * m = index + δ * (m + 1) := by
        intro m; rw [Nat.mul_succ]; omega
      refine ⟨n + 1, b', ?_, ?_, ?_, ?_, ?_, ?_⟩
      · rw [hw, hmul, Nat.add_assoc length 1 n, Nat.add_comm 1 n]
      · rw [hlen, List.length_set]
      · intro m hm
        cases m with
        | zero => simpa using h0
        | succ m =>
          have := hne m (by omega)
          rw [hset, hmul] at this
          have hne' : index + δ * (m + 1) ≠ index := by
            rw [Nat.mul_succ]; omega
          simpa only [hne', if_false] using this
      · have := hend
        rw [hset, hmul] at this
        have hne' : index + δ * (n + 1 + 1) ≠ index := by
          rw [Nat.mul_succ]; omega
        simpa only [hne', if_false] using this
      · intro m hm
        cases m with
        | zero =>
          have := hother index (by intro m _; rw [hmul, Nat.mul_succ]; omega)
          rw [hset] at this
          simpa using this
        | succ m =>
          have := hmid m (by omega)
          rwa [hmul] at this
      · intro k hk
        have h1 := hother k (by
          intro m hm; rw [hmul]; exact hk (m + 1) (by omega))
        rw [h1, hset]
        have : k ≠ index := by simpa using hk 0 (by omega)
        simp only [this, if_false]


theorem lengthShip_spec (first mid last : CellState) (δ : Nat) (hδ : 1 ≤ δ)
    (b : List CellState) (index : Nat)
    (H : ∀ k, cellAt b k ≠ CL_ST_EMPTY → k + δ < b.length)
    (hp : cellAt b index ≠ CL_ST_EMPTY) (hq : cellAt b (index + δ) ≠ CL_ST_EMPTY) :
    ∃ n b3, lengthShip first mid last δ b index
        = (if n + 2 > SHIP_MAXLEN then .ret false else .next b3) ∧
      b3.length = b.length ∧
      (∀ m, m ≤ n + 1 → cellAt b (index + δ * m) ≠ CL_ST_EMPTY) ∧
      cellAt b (index + δ * (n + 2)) = CL_ST_EMPTY ∧
      cellAt b3 index = first ∧
      (∀ m, 1 ≤ m → m ≤ n → cellAt b3 (index + δ * m) = mid) ∧
      cellAt b3 (index + δ * (n + 1)) = last ∧
      (∀ k, (∀ m, m ≤ n + 1 → k ≠ index + δ * m) → cellAt b3 k = cellAt b k) := by
  have hin : index + δ < b.length := H index hp
  have hidx : index < b.length := by omega
  have hset : ∀ k, cellAt (b.set index first) k = if k = index then first else cellAt b k :=
    fun k => cellAt_set b index k first hidx
  obtain ⟨n, b2, hw, hlen, hne, hend, hmid, hother⟩ :=
    lengthWalk_spec mid δ hδ (b.set index first).length (b.set index first) (index + δ) 2
      (by
        intro k hk
        rw [hset k] at hk
        rw [List.length_set]
        by_cases hki : k = index
        · subst hki; exact hin
        · simp only [hki, if_false] at hk; exact H k hk)
      (by rw [hset]; simp only [show index + δ ≠ index by omega, if_false]; exact hq)
      (by omega)
  have hmul : ∀ m, index + δ + δ * m = index + δ * (m + 1) := by
    intro m; rw [Nat.mul_succ]; omega
  have hne0 : ∀ m, index + δ * (m + 1) ≠ index := by
    intro m; rw [Nat.mul_succ]; omega
  have hlt : ∀ m m', m < m' → index + δ * m < index + δ * m' := by
    intro m m' h
    have := Nat.mul_lt_mul_of_pos_left h (by omega : 0 < δ)
    omega
  have hlen2 : b2.length = b.length := by rw [hlen, List.length_set]
  have hi2 : index + δ * (n + 1) < b2.length := by
    have := lt_length_of_cellAt_ne _ _ (hne n (Nat.le_refl n))
    rw [hmul, List.length_set] at this
    omega
  have hset3 : ∀ k, cellAt (b2.set (index + δ * (n + 1)) last) k
      = if k = index + δ * (n + 1) then last else cellAt b2 k :=
    fun k => cellAt_set b2 _ k last hi2
  refine ⟨n, b2.set (index + δ * (n + 1)) last, ?_, ?_, ?_, ?_, ?_, ?_, ?_, ?_⟩
  · unfold lengthShip
    rw [writeAt_eq b index first hidx]
    simp only [Flow.bind_next]
    rw [hw]
    simp only [Flow.bind_next, hmul]
    rw [writeAt_eq b2 _ last hi2]
    simp only [Flow.bind_next, Nat.add_comm 2 n]
  · rw [List.length_set, hlen2]
  · intro m hm
    cases m with
    | zero => simpa using hp
    | succ m =>
      have := hne m (by omega)
      rw [hset, hmul] at this
      simpa only [hne0 m, if_false] using this
  · have := hend
    rw [hset, hmul] at this
    simpa only [hne0 (n + 1), if_false] using this
  · rw [hset3]
    have h1 : index ≠ index + δ * (n + 1) := fun h => hne0 n h.symm
    simp only [h1, if_false]
    rw [hother index (by intro m _; rw [hmul]; exact fun h => hne0 m h.symm), hset]
    simp
  · intro m hm1 hmn
    rw [hset3]
    have h1 : index + δ * m ≠ index + δ * (n + 1) := Nat.ne_of_lt (hlt m (n + 1) (by omega))
    simp only [h1, if_false]
    obtain ⟨m', rfl⟩ : ∃ m', m = m' + 1 := ⟨m - 1, by omega⟩
    have := hmid m' (by omega)
    rwa [hmul] at this
  · rw [hset3]; simp
  · intro k hk
    rw [hset3]
    have h1 : k ≠ index + δ * (n + 1) := hk (n + 1) (Nat.le_refl _)
    simp only [h1, if_false]
    rw [hother k (by intro m hm; rw [hmul]; exact hk (m + 1) (by omega)), hset]
    have h0 : k ≠ index := by simpa using hk 0 (by omega)
    simp only [h0, if_false]


theorem lengthCell_eq (b : List CellState) (hlen : b.length = 144) (i j : Nat)
    (hi : i < 10) (hj : j < 10) :
    lengthCell i j b =
      if cellAt b (12 * (i + 1) + (j + 1)) = CL_ST_UNDEFINED then
        if cellAt b (12 * (i + 1) + (j + 1) + 1) ≠ CL_ST_EMPTY then
          lengthShip CL_ST_LEFT CL_ST_HMIDDLE CL_ST_RIGHT 1 b (12 * (i + 1) + (j + 1))
        else if cellAt b (12 * (i + 1) + (j + 1) + 12) ≠ CL_ST_EMPTY then
          lengthShip CL_ST_TOP CL_ST_VMIDDLE CL_ST_BOTTOM 12 b (12 * (i + 1) + (j + 1))
        else .next (b.set (12 * (i + 1) + (j + 1)) CL_ST_CENTER)
      else .next b := by
  have e0 : (width_ + 2) * (i + 1) + (j + 1) = 12 * (i + 1) + (j + 1) := rfl
  have e1 : 12 * (i + 1) + (j + 1) + width_ + 2 = 12 * (i + 1) + (j + 1) + 12 := by
    simp only [width_, FIELD_WIDTH_DEFAULT]
  have e2 : width_ + 2 = 12 := rfl
  unfold lengthCell
  simp only [e0, e1, e2]
  rw [readAt_eq b _ (by omega), readAt_eq b _ (by omega), readAt_eq b _ (by omega),
    writeAt_eq b _ _ (by omega)]
  simp only [Flow.bind_next]

theorem lab_empty (b0 : List CellState) (k : Nat) (h : cellAt b0 k = CL_ST_EMPTY) :
    lab b0 k = CL_ST_EMPTY := by
  simp [lab, h]

theorem lab_ne (b0 : List CellState) (k : Nat) (h : cellAt b0 k ≠ CL_ST_EMPTY) :
    lab b0 k ≠ CL_ST_EMPTY ∧ lab b0 k ≠ CL_ST_UNDEFINED := by
  unfold lab
  simp only [h, if_false]
  split_ifs <;> exact ⟨by decide, by decide⟩

theorem LInv.ne_iff {b0 b : List CellState} {p : Nat} (I : LInv b0 b p) (k : Nat) :
    cellAt b k ≠ CL_ST_EMPTY ↔ cellAt b0 k ≠ CL_ST_EMPTY := by
  rcases I.either k with h | h
  · rw [h]
    constructor
    · intro h1 h2; exact h1 (lab_empty b0 k h2)
    · intro h1; exact (lab_ne b0 k h1).1
  · rw [h]

theorem LInv.lab_of_ne_undef {b0 b : List CellState} {p : Nat} (I : LInv b0 b p) (hEU : EU b0)
    (k : Nat) (h : cellAt b k ≠ CL_ST_UNDEFINED) : cellAt b k = lab b0 k := by
  rcases I.either k with h1 | h1
  · exact h1
  · rcases hEU k with h2 | h2
    · rw [h1, h2, lab_empty b0 k h2]
    · exact absurd (h1.trans h2) h

theorem LInv.undef {b0 b : List CellState} {p : Nat} (I : LInv b0 b p)
    (k : Nat) (h : cellAt b k = CL_ST_UNDEFINED) :
    cellAt b0 k ≠ CL_ST_EMPTY ∧ cellAt b k ≠ lab b0 k := by
  have hne : cellAt b0 k ≠ CL_ST_EMPTY := (I.ne_iff k).1 (by rw [h]; decide)
  exact ⟨hne, by rw [h]; exact fun h' => (lab_ne b0 k hne).2 h'.symm⟩

/-- Two occupied cells in a row or column next to `k` exclude occupied cells
across: consequences of `NoDiag`. -/
theorem NoDiag.ortho {b0 : List CellState} (hB : Bordered b0) (hD : NoDiag b0) (k : Nat)
    (hv : cellAt b0 (k + 12) ≠ CL_ST_EMPTY ∨ cellAt b0 (k - 12) ≠ CL_ST_EMPTY) :
    cellAt b0 (k + 1) = CL_ST_EMPTY ∧ cellAt b0 (k - 1) = CL_ST_EMPTY := by
  rcases hv with hv | hv
  · have hint := hB.2 _ hv
    obtain ⟨h1, h2, _, _⟩ := hD _ hint hv
    have e1 : k + 12 - 13 = k - 1 := by omega
    have e2 : k + 12 - 11 = k + 1 := by omega
    rw [e1] at h1; rw [e2] at h2
    exact ⟨h2, h1⟩
  · have hint := hB.2 _ hv
    obtain ⟨_, _, h3, h4⟩ := hD _ hint hv
    have hk : 12 ≤ k := by unfold interior at hint; omega
    have e1 : k - 12 + 13 = k + 1 := by omega
    have e2 : k - 12 + 11 = k - 1 := by omega
    rw [e1] at h3; rw [e2] at h4
    exact ⟨h3, h4⟩

theorem NoDiag.ortho' {b0 : List CellState} (hB : Bordered b0) (hD : NoDiag b0) (k : Nat)
    (hh : cellAt b0 (k + 1) ≠ CL_ST_EMPTY ∨ cellAt b0 (k - 1) ≠ CL_ST_EMPTY) :
    cellAt b0 (k + 12) = CL_ST_EMPTY ∧ cellAt b0 (k - 12) = CL_ST_EMPTY := by
  constructor
  · by_contra h
    have := NoDiag.ortho hB hD k (Or.inl h)
    rcases hh with hh | hh
    · exact hh this.1
    · exact hh this.2
  · by_contra h
    have := NoDiag.ortho hB hD k (Or.inr h)
    rcases hh with hh | hh
    · exact hh this.1
    · exact hh this.2


theorem IsDir.delta {δ : Nat} {first mid last : CellState} (h : IsDir δ first mid last) :
    δ = 1 ∨ δ = 12 := by
  rcases h with ⟨h, _⟩ | ⟨h, _⟩
  · exact Or.inl h
  · exact Or.inr h

theorem lab_dir {b0 : List CellState} (hB : Bordered b0) (hD : NoDiag b0)
    {δ : Nat} {first mid last : CellState} (hdir : IsDir δ first mid last)
    (k : Nat) (hk : cellAt b0 k ≠ CL_ST_EMPTY)
    (hn : cellAt b0 (k + δ) ≠ CL_ST_EMPTY ∨ cellAt b0 (k - δ) ≠ CL_ST_EMPTY) :
    lab b0 k = if cellAt b0 (k + δ) ≠ CL_ST_EMPTY then
      (if cellAt b0 (k - δ) ≠ CL_ST_EMPTY then mid else first) else last := by
  rcases hdir with ⟨rfl, rfl, rfl, rfl⟩ | ⟨rfl, rfl, rfl, rfl⟩
  · unfold lab
    simp only [hk, if_false]
    by_cases h1 : cellAt b0 (k + 1) = CL_ST_EMPTY
    · have h2 : cellAt b0 (k - 1) ≠ CL_ST_EMPTY := by
        rcases hn with hn | hn
        · exact absurd h1 hn
        · exact hn
      simp [h1, h2]
    · simp [h1]
  · have ho := NoDiag.ortho hB hD k hn
    unfold lab
    simp only [hk, if_false, ho.1, ho.2, ne_eq, not_true_eq_false]
    by_cases h1 : cellAt b0 (k + 12) = CL_ST_EMPTY
    · have h2 : cellAt b0 (k - 12) ≠ CL_ST_EMPTY := by
        rcases hn with hn | hn
        · exact absurd h1 hn
        · exact hn
      simp [h1, h2]
    · simp [h1]

theorem ortho_dir {b0 : List CellState} (hB : Bordered b0) (hD : NoDiag b0)
    {δ δ' : Nat} (hδ : δ = 1 ∨ δ = 12) (hδ' : δ' = 1 ∨ δ' = 12) (hne : δ' ≠ δ) (k : Nat)
    (hn : cellAt b0 (k + δ) ≠ CL_ST_EMPTY ∨ cellAt b0 (k - δ) ≠ CL_ST_EMPTY) :
    cellAt b0 (k + δ') = CL_ST_EMPTY ∧ cellAt b0 (k - δ') = CL_ST_EMPTY := by
  rcases hδ with rfl | rfl <;> rcases hδ' with rfl | rfl
  · exact absurd rfl hne
  · exact NoDiag.ortho' hB hD k hn
  · exact NoDiag.ortho hB hD k hn
  · exact absurd rfl hne


theorem shipStep {b0 b : List CellState} {p δ : Nat} {first mid last : CellState}
    (hdir : IsDir δ first mid last) (hB : Bordered b0) (hD : NoDiag b0)
    (I : LInv b0 b p) (hp : cellAt b p = CL_ST_UNDEFINED)
    (hq : cellAt b (p + δ) ≠ CL_ST_EMPTY)
    (hstart : ∀ δ', (δ' = 1 ∨ δ' = 12) → cellAt b0 (p - δ') = CL_ST_EMPTY) :
    (∃ b', lengthShip first mid last δ b p = .next b' ∧ LInv b0 b' (p + 1)) ∨
    (lengthShip first mid last δ b p = .ret false ∧ LongRun b0) := by
  have hδ := hdir.delta
  have hδ1 : 1 ≤ δ := by rcases hδ with rfl | rfl <;> omega
  have hp0 : cellAt b0 p ≠ CL_ST_EMPTY := (I.undef p hp).1
  have H : ∀ k, cellAt b k ≠ CL_ST_EMPTY → k + δ < b.length := by
    intro k hk
    have := hB.2 k ((I.ne_iff k).1 hk)
    rw [I.len]; unfold interior at this
    rcases hδ with rfl | rfl <;> omega
  obtain ⟨n, b3, hres, hlen3, hcells, hend, hfirst, hmid, hlast, hother⟩ :=
    lengthShip_spec first mid last δ hδ1 b p H (by rw [hp]; decide) hq
  have hcells0 : ∀ m, m ≤ n + 1 → cellAt b0 (p + δ * m) ≠ CL_ST_EMPTY :=
    fun m hm => (I.ne_iff _).1 (hcells m hm)
  have hend0 : cellAt b0 (p + δ * (n + 2)) = CL_ST_EMPTY := by
    by_contra h; exact (I.ne_iff _).2 h hend
  have hsucc : ∀ m, p + δ * (m + 1) = p + δ * m + δ := by
    intro m; rw [Nat.mul_succ]; omega
  have hpred : ∀ m, p + δ * (m + 1) - δ = p + δ * m := by
    intro m; rw [Nat.mul_succ]; omega
  have hq0 : cellAt b0 (p + δ) ≠ CL_ST_EMPTY := by simpa using hcells0 1 (by omega)
  have hA : ∀ m, m ≤ n + 1 → cellAt b3 (p + δ * m) = lab b0 (p + δ * m) := by
    intro m hm
    rcases Nat.eq_zero_or_pos m with rfl | hm0
    · rw [Nat.mul_zero, Nat.add_zero, hfirst, lab_dir hB hD hdir p hp0 (Or.inl hq0)]
      simp [hq0, hstart δ hδ]
    · obtain ⟨m', rfl⟩ : ∃ m', m = m' + 1 := ⟨m - 1, by omega⟩
      have hprev : cellAt b0 (p + δ * (m' + 1) - δ) ≠ CL_ST_EMPTY := by
        rw [hpred]; exact hcells0 m' (by omega)
      rw [lab_dir hB hD hdir _ (hcells0 _ hm) (Or.inr hprev)]
      by_cases hl : m' = n
      · subst hl
        have : cellAt b0 (p + δ * (m' + 1) + δ) = CL_ST_EMPTY := by rw [← hsucc]; exact hend0
        simp [this, hlast]
      · have : cellAt b0 (p + δ * (m' + 1) + δ) ≠ CL_ST_EMPTY := by
          rw [← hsucc]; exact hcells0 _ (by omega)
        simp only [this, hprev, ne_eq, not_false_eq_true, if_true]
        exact hmid _ (by omega) (by omega)
  have hO : ∀ k, (¬ ∃ m, m ≤ n + 1 ∧ k = p + δ * m) → cellAt b3 k = cellAt b k :=
    fun k hk => hother k (fun m hm h => hk ⟨m, hm, h⟩)
  have hpS : ∃ m, m ≤ n + 1 ∧ p = p + δ * m := ⟨0, by omega, by simp⟩
  have hnb : ∀ m, m ≤ n + 1 →
      cellAt b0 (p + δ * m + δ) ≠ CL_ST_EMPTY ∨ cellAt b0 (p + δ * m - δ) ≠ CL_ST_EMPTY := by
    intro m hm
    rcases Nat.eq_zero_or_pos m with rfl | hm0
    · left; simpa using hq0
    · right
      obtain ⟨m', rfl⟩ : ∃ m', m = m' + 1 := ⟨m - 1, by omega⟩
      rw [hpred]; exact hcells0 m' (by omega)
  have hmax : SHIP_MAXLEN = 4 := rfl
  by_cases hlong : n + 2 > SHIP_MAXLEN
  · right
    rw [hres, if_pos hlong]
    exact ⟨rfl, p, δ, hδ, hp0, hstart δ hδ, fun m hm => hcells0 m (by omega)⟩
  · left
    rw [hres, if_neg hlong]
    refine ⟨b3, rfl, ⟨by rw [hlen3, I.len], ?_, ?_, ?_, ?_, ?_⟩⟩
    · intro k
      by_cases hk : ∃ m, m ≤ n + 1 ∧ k = p + δ * m
      · obtain ⟨m, hm, rfl⟩ := hk
        exact Or.inl (hA m hm)
      · rw [hO k hk]; exact I.either k
    · intro k hk
      by_cases hkS : ∃ m, m ≤ n + 1 ∧ k = p + δ * m
      · obtain ⟨m, hm, rfl⟩ := hkS
        exact hA m hm
      · rw [hO k hkS]
        refine I.before k ?_
        have : k ≠ p := fun h => hkS (h ▸ hpS)
        omega
    · intro k δ' hδ' hk0 hklab hnext
      by_cases hin' : ∃ m, m ≤ n + 1 ∧ k + δ' = p + δ * m
      · obtain ⟨m, hm, hkm⟩ := hin'
        rw [hkm]; exact hA m hm
      · rw [hO _ hin']
        by_cases hin : ∃ m, m ≤ n + 1 ∧ k = p + δ * m
        · exfalso
          obtain ⟨m, hm, rfl⟩ := hin
          by_cases hdd : δ' = δ
          · subst hdd
            by_cases hmn : m = n + 1
            · subst hmn
              rw [← hsucc] at hnext
              exact hnext hend0
            · exact hin' ⟨m + 1, by omega, (hsucc m).symm⟩
          · exact hnext (ortho_dir hB hD hδ hδ' hdd _ (hnb m hm)).1
        · rw [hO k hin] at hklab
          exact I.closed k δ' hδ' hk0 hklab hnext
    · intro k hk hk0 hklab
      by_cases hin : ∃ m, m ≤ n + 1 ∧ k = p + δ * m
      · obtain ⟨m, hm, rfl⟩ := hin
        have hm0 : 0 < m := by
          rcases Nat.eq_zero_or_pos m with rfl | h
          · simp at hk
          · exact h
        obtain ⟨m', rfl⟩ : ∃ m', m = m' + 1 := ⟨m - 1, by omega⟩
        have hprev : cellAt b0 (p + δ * (m' + 1) - δ) ≠ CL_ST_EMPTY := by
          rw [hpred]; exact hcells0 m' (by omega)
        rcases hδ with rfl | rfl
        · exact Or.inl hprev
        · exact Or.inr hprev
      · rw [hO k hin] at hklab
        exact I.ahead k (by omega) hk0 hklab
    · intro k δ' n' hk hδ' hk0 hprev hrun
      by_cases hkp : k = p
      · subst hkp
        by_cases hdd : δ' = δ
        · subst hdd
          have : n' ≤ n + 1 := by
            by_contra hc
            exact hrun (n + 2) (by omega) hend0
          omega
        · have : n' = 0 := by
            by_contra hc
            have h1 := hrun 1 (by omega)
            rw [Nat.mul_one] at h1
            exact h1 (ortho_dir hB hD hδ hδ' hdd k (Or.inl hq0)).1
          omega
      · exact I.short k δ' n' (by omega) hδ' hk0 hprev hrun


theorem LInv.skip {b0 b : List CellState} {p : Nat} (hB : Bordered b0) (I : LInv b0 b p)
    (hp : ¬ interior p) : LInv b0 b (p + 1) := by
  have hp0 : cellAt b0 p = CL_ST_EMPTY := by
    by_contra h; exact hp (hB.2 p h)
  refine ⟨I.len, I.either, ?_, I.closed, ?_, ?_⟩
  · intro k hk
    by_cases hkp : k = p
    · subst hkp
      rcases I.either k with h | h
      · exact h
      · rw [h, hp0, lab_empty b0 k hp0]
    · exact I.before k (by omega)
  · intro k hk
    exact I.ahead k (by omega)
  · intro k δ n hk hδ hk0
    by_cases hkp : k = p
    · subst hkp; exact absurd hp0 hk0
    · exact I.short k δ n (by omega) hδ hk0

theorem LInv.init {b0 : List CellState} (hB : Bordered b0) (hEU : EU b0) : LInv b0 b0 11 := by
  have hU : ∀ k, cellAt b0 k ≠ CL_ST_EMPTY → cellAt b0 k ≠ lab b0 k := by
    intro k hk h
    rcases hEU k with h1 | h1
    · exact hk h1
    · exact (lab_ne b0 k hk).2 (h ▸ h1)
  have hE : ∀ k, k < 11 → cellAt b0 k = CL_ST_EMPTY := by
    intro k hk
    by_contra h
    have := hB.2 k h
    unfold interior at this
    omega
  refine ⟨hB.1, fun k => Or.inr rfl, ?_, ?_, ?_, ?_⟩
  · intro k hk
    rw [hE k hk, lab_empty b0 k (hE k hk)]
  · intro k δ _ hk0 hlab
    exact absurd hlab (hU k hk0)
  · intro k _ hk0 hlab
    exact absurd hlab (hU k hk0)
  · intro k δ n hk _ hk0
    exact absurd (hE k hk) hk0

theorem lengthCell_step {b0 b : List CellState} (hB : Bordered b0) (hD : NoDiag b0) (hEU : EU b0)
    (i j : Nat) (hi : i < 10) (hj : j < 10) (I : LInv b0 b (12 * (i + 1) + (j + 1))) :
    (∃ b', lengthCell i j b = .next b' ∧ LInv b0 b' (12 * (i + 1) + (j + 1) + 1)) ∨
    (lengthCell i j b = .ret false ∧ LongRun b0) := by
  rw [lengthCell_eq b I.len i j hi hj]
  generalize hpdef : 12 * (i + 1) + (j + 1) = p at I ⊢
  have hp13 : 13 ≤ p := by omega
  have hp130 : p ≤ 130 := by omega
  by_cases hp : cellAt b p = CL_ST_UNDEFINED
  · simp only [hp, if_true]
    have hp0 : cellAt b0 p ≠ CL_ST_EMPTY := (I.undef p hp).1
    have hstart : ∀ δ', (δ' = 1 ∨ δ' = 12) → cellAt b0 (p - δ') = CL_ST_EMPTY := by
      intro δ' hδ'
      by_contra h
      have h1 := I.before (p - δ') (by rcases hδ' with rfl | rfl <;> omega)
      have h2 := I.closed (p - δ') δ' hδ' h h1
        (by rw [show p - δ' + δ' = p by rcases hδ' with rfl | rfl <;> omega]; exact hp0)
      rw [show p - δ' + δ' = p by rcases hδ' with rfl | rfl <;> omega] at h2
      exact (I.undef p hp).2 h2
    by_cases hr : cellAt b (p + 1) = CL_ST_EMPTY
    · by_cases hd : cellAt b (p + 12) = CL_ST_EMPTY
      · simp only [hr, hd, ne_eq, not_true_eq_false, if_false]
        left
        have hr0 : cellAt b0 (p + 1) = CL_ST_EMPTY := by
          by_contra h; exact (I.ne_iff _).2 h hr
        have hd0 : cellAt b0 (p + 12) = CL_ST_EMPTY := by
          by_contra h; exact (I.ne_iff _).2 h hd
        have hl0 := hstart 1 (Or.inl rfl)
        have hu0 := hstart 12 (Or.inr rfl)
        have hlab : lab b0 p = CL_ST_CENTER := by
          unfold lab; simp [hp0, hr0, hd0, hl0, hu0]
        have hset : ∀ k, cellAt (b.set p CL_ST_CENTER) k
            = if k = p then CL_ST_CENTER else cellAt b k :=
          fun k => cellAt_set b p k _ (by rw [I.len]; omega)
        refine ⟨_, rfl, ⟨by rw [List.length_set, I.len], ?_, ?_, ?_, ?_, ?_⟩⟩
        · intro k
          rw [hset]
          by_cases hk : k = p
          · subst hk; simp [hlab]
          · simp only [hk, if_false]; exact I.either k
        · intro k hk
          rw [hset]
          by_cases hkp : k = p
          · subst hkp; simp [hlab]
          · simp only [hkp, if_false]; exact I.before k (by omega)
        · intro k δ hδ hk0 hklab hnext
          rw [hset] at hklab ⊢
          by_cases hkp : k = p
          · subst hkp
            exfalso
            rcases hδ with rfl | rfl
            · exact hnext hr0
            · exact hnext hd0
          · simp only [hkp, if_false] at hklab
            by_cases hkp' : k + δ = p
            · exfalso
              have : k = p - δ := by omega
              subst this
              exact hk0 (hstart δ hδ)
            · simp only [hkp', if_false]
              exact I.closed k δ hδ hk0 hklab hnext
        · intro k hk hk0 hklab
          rw [hset] at hklab
          have hkp : k ≠ p := by omega
          simp only [hkp, if_false] at hklab
          exact I.ahead k (by omega) hk0 hklab
        · intro k δ n hk hδ hk0 hprev hrun
          by_cases hkp : k = p
          · subst hkp
            have : n = 0 := by
              by_contra hc
              have h1 := hrun 1 (by omega)
              rw [Nat.mul_one] at h1
              rcases hδ with rfl | rfl
              · exact h1 hr0
              · exact h1 hd0
            have hmax : SHIP_MAXLEN = 4 := rfl
            omega
          · exact I.short k δ n (by omega) hδ hk0 hprev hrun
      · simp only [hr, hd, ne_eq, not_true_eq_false, not_false_eq_true, if_false, if_true]
        exact shipStep (Or.inr ⟨rfl, rfl, rfl, rfl⟩) hB hD I hp hd hstart
    · simp only [hr, ne_eq, not_false_eq_true, if_true]
      exact shipStep (Or.inl ⟨rfl, rfl, rfl, rfl⟩) hB hD I hp hr hstart
  · simp only [hp, if_false]
    left
    have hlab : cellAt b p = lab b0 p := I.lab_of_ne_undef hEU p hp
    refine ⟨b, rfl, ⟨I.len, I.either, ?_, I.closed, ?_, ?_⟩⟩
    · intro k hk
      by_cases hkp : k = p
      · subst hkp; exact hlab
      · exact I.before k (by omega)
    · intro k hk
      exact I.ahead k (by omega)
    · intro k δ n hk hδ hk0 hprev hrun
      by_cases hkp : k = p
      · subst hkp
        have hnb := I.ahead k (Nat.le_refl _) hk0 hlab
        have : n = 0 := by
          by_contra hc
          have h1 := hrun 1 (by omega)
          rw [Nat.mul_one] at h1
          rcases hδ with rfl | rfl
          · rcases hnb with hnb | hnb
            · exact hnb hprev
            · exact h1 (NoDiag.ortho hB hD k (Or.inr hnb)).1
          · rcases hnb with hnb | hnb
            · exact h1 (NoDiag.ortho' hB hD k (Or.inr hnb)).1
            · exact hnb hprev
        have hmax : SHIP_MAXLEN = 4 := rfl
        omega
      · exact I.short k δ n (by omega) hδ hk0 hprev hrun


theorem CheckLength_EU_spec {b0 : List CellState} (hB : Bordered b0) (hD : NoDiag b0)
    (hEU : EU b0) :
    (∃ b', CheckLength b0 = some (some b') ∧ b'.length = 144 ∧
      (∀ k, cellAt b' k = lab b0 k) ∧ ¬ LongRun b0) ∨
    (CheckLength b0 = some none ∧ LongRun b0) := by
  have key := forRange_flow
    (fun i b => forRange (fun j b => lengthCell i j b) width_ b)
    (fun i b => LInv b0 b (12 * i + 11)) (fun r => r = false ∧ LongRun b0)
    height_ b0 (LInv.init hB hEU) ?_
  · have hsz : ¬ b0.length ≠ (height_ + 2) * (width_ + 2) := by
      simp only [width_, height_, FIELD_WIDTH_DEFAULT, FIELD_HEIGHT_DEFAULT, hB.1]; decide
    rcases key with ⟨b', hb', I⟩ | ⟨r, hr, hR, hL⟩
    · left
      refine ⟨b', by simp only [CheckLength, hsz, if_false, hb'], I.len, fun k => ?_, ?_⟩
      · by_cases hk : k < 12 * height_ + 11
        · exact I.before k hk
        · have hk0 : cellAt b0 k = CL_ST_EMPTY := by
            by_contra h
            have := hB.2 k h
            unfold interior at this
            simp only [height_, FIELD_HEIGHT_DEFAULT] at hk
            omega
          rcases I.either k with h | h
          · exact h
          · rw [h, hk0, lab_empty b0 k hk0]
      · rintro ⟨k, δ, hδ, hk0, hprev, hrun⟩
        have hk : k < 12 * height_ + 11 := by
          have := hB.2 k hk0
          unfold interior at this
          simp only [height_, FIELD_HEIGHT_DEFAULT]
          omega
        have := I.short k δ SHIP_MAXLEN hk hδ hk0 hprev hrun
        omega
    · right
      subst hR
      exact ⟨by simp only [CheckLength, hsz, if_false, hr], hL⟩
  · intro i b hi I
    have hi' : i < 10 := hi
    have key2 := forRange_flow (fun j b => lengthCell i j b)
      (fun j b => LInv b0 b (12 * (i + 1) + (j + 1))) (fun r => r = false ∧ LongRun b0)
      width_ b ?_ ?_
    · rcases key2 with ⟨b', hb', I'⟩ | h
      · left
        refine ⟨b', hb', ?_⟩
        exact I'
      · exact Or.inr h
    · have I1 := LInv.skip hB I (by unfold interior; omega)
      have I2 := LInv.skip hB I1 (by unfold interior; omega)
      have e : 12 * i + 11 + 1 + 1 = 12 * (i + 1) + (0 + 1) := by omega
      rw [e] at I2; exact I2
    · intro j b hj I'
      have hj' : j < 10 := hj
      rcases lengthCell_step hB hD hEU i j hi' hj' I' with ⟨b', hb', I''⟩ | ⟨h1, h2⟩
      · exact Or.inl ⟨b', hb', I''⟩
      · exact Or.inr ⟨false, h1, rfl, h2⟩


theorem lengthShip_bordered (first mid last : CellState) {δ : Nat} (hδ : δ = 1 ∨ δ = 12)
    {b : List CellState} (hB : Bordered b) (p : Nat)
    (hp : cellAt b p ≠ CL_ST_EMPTY) (hq : cellAt b (p + δ) ≠ CL_ST_EMPTY) :
    lengthShip first mid last δ b p = .ret false ∨
    ∃ b', lengthShip first mid last δ b p = .next b' ∧ Bordered b' := by
  have H : ∀ k, cellAt b k ≠ CL_ST_EMPTY → k + δ < b.length := by
    intro k hk
    have := hB.2 k hk
    rw [hB.1]; unfold interior at this
    rcases hδ with rfl | rfl <;> omega
  obtain ⟨n, b3, hres, hlen3, hcells, _, _, _, _, hother⟩ :=
    lengthShip_spec first mid last δ (by rcases hδ with rfl | rfl <;> omega) b p H hp hq
  rw [hres]
  by_cases hlong : n + 2 > SHIP_MAXLEN
  · left; rw [if_pos hlong]
  · right
    rw [if_neg hlong]
    refine ⟨b3, rfl, by rw [hlen3, hB.1], fun k hk => ?_⟩
    by_cases hin : ∃ m, m ≤ n + 1 ∧ k = p + δ * m
    · obtain ⟨m, hm, rfl⟩ := hin
      exact hB.2 _ (hcells m hm)
    · rw [hother k (fun m hm h => hin ⟨m, hm, h⟩)] at hk
      exact hB.2 k hk

theorem lengthCell_bordered {b : List CellState} (hB : Bordered b) (i j : Nat)
    (hi : i < 10) (hj : j < 10) :
    lengthCell i j b = .ret false ∨ ∃ b', lengthCell i j b = .next b' ∧ Bordered b' := by
  rw [lengthCell_eq b hB.1 i j hi hj]
  by_cases hp : cellAt b (12 * (i + 1) + (j + 1)) = CL_ST_UNDEFINED
  · simp only [hp, if_true]
    have hp' : cellAt b (12 * (i + 1) + (j + 1)) ≠ CL_ST_EMPTY := by rw [hp]; decide
    by_cases hr : cellAt b (12 * (i + 1) + (j + 1) + 1) = CL_ST_EMPTY
    · by_cases hd : cellAt b (12 * (i + 1) + (j + 1) + 12) = CL_ST_EMPTY
      · simp only [hr, hd, ne_eq, not_true_eq_false, if_false]
        right
        refine ⟨_, rfl, by rw [List.length_set, hB.1], fun k hk => ?_⟩
        rw [cellAt_set b _ k _ (by rw [hB.1]; omega)] at hk
        by_cases hkp : k = 12 * (i + 1) + (j + 1)
        · subst hkp; exact hB.2 _ hp'
        · simp only [hkp, if_false] at hk; exact hB.2 k hk
      · simp only [hr, hd, ne_eq, not_true_eq_false, not_false_eq_true, if_false, if_true]
        exact lengthShip_bordered _ _ _ (Or.inr rfl) hB _ hp' hd
    · simp only [hr, ne_eq, not_false_eq_true, if_true]
      exact lengthShip_bordered _ _ _ (Or.inl rfl) hB _ hp' hr
  · simp only [hp, if_false]
    exact Or.inr ⟨b, rfl, hB⟩

theorem CheckLength_bordered {b : List CellState} (hB : Bordered b) :
    CheckLength b = some none ∨ ∃ b', CheckLength b = some (some b') ∧ Bordered b' := by
  have hsz : ¬ b.length ≠ (height_ + 2) * (width_ + 2) := by
    simp only [width_, height_, FIELD_WIDTH_DEFAULT, FIELD_HEIGHT_DEFAULT, hB.1]; decide
  have key := forRange_flow
    (fun i b => forRange (fun j b => lengthCell i j b) width_ b)
    (fun _ b => Bordered b) (fun r => r = false) height_ b hB ?_
  · rcases key with ⟨b', hb', hB'⟩ | ⟨r, hr, hR⟩
    · exact Or.inr ⟨b', by simp only [CheckLength, hsz, if_false, hb'], hB'⟩
    · subst hR
      exact Or.inl (by simp only [CheckLength, hsz, if_false, hr])
  · intro i b hi hB
    have key2 := forRange_flow (fun j b => lengthCell i j b)
      (fun _ b => Bordered b) (fun r => r = false) width_ b hB ?_
    · exact key2
    · intro j b hj hB
      rcases lengthCell_bordered hB i j hi hj with h | ⟨b', hb', hB'⟩
      · exact Or.inr ⟨false, h, rfl⟩
      · exact Or.inl ⟨b', hb', hB'⟩

/-! ## Counting ships and the bridge to the board -/

theorem isShipWalk_spec (b : List CellState) (δ : Nat) (hδ : 1 ≤ δ)
    (H : ∀ k, cellAt b k ≠ CL_ST_EMPTY → k + δ < b.length) :
    ∀ (fuel index length : Nat), index < b.length → b.length ≤ fuel + index →
      ∃ n, isShipWalk b δ fuel index length = some (length + n) ∧
        (∀ m, m < n → cellAt b (index + δ * m) ≠ CL_ST_EMPTY) ∧
        cellAt b (index + δ * n) = CL_ST_EMPTY := by
  intro fuel
  induction fuel with
  | zero => intro index length h1 h2; omega
  | succ fuel ih =>
    intro index length h1 h2
    unfold isShipWalk
    have hget : b[index]? = some (cellAt b index) := by
      simp [cellAt, List.getD, List.getElem?_eq_getElem h1]
    rw [hget]
    by_cases hc : cellAt b index = CL_ST_EMPTY
    · exact ⟨0, by simp [hc], fun m hm => absurd hm (Nat.not_lt_zero m), by simpa using hc⟩
    · obtain ⟨n, hw, hne, hend⟩ := ih (index + δ) (length + 1) (H index hc) (by omega)
      have hmul : ∀ m, index + δ + δ * m = index + δ * (m + 1) := by
        intro m; rw [Nat.mul_succ]; omega
      refine ⟨n + 1, ?_, ?_, ?_⟩
      · simp only [hc, ne_eq, not_false_eq_true, if_true, hw]
        congr 1; omega
      · intro m hm
        cases m with
        | zero => simpa using hc
        | succ m => rw [← hmul]; exact hne m (by omega)
      · rw [← hmul]; exact hend

theorem isShip_spec {b : List CellState} (hB : Bordered b) (n x y : Nat) (hn : n ≤ 4)
    (hx : x < 12) (hy : y < 12) :
    ∃ l, isShip (n : Int) x y b = some (decide (l = n)) ∧ IsShipLen b (12 * y + x) l := by
  have hguard : ¬ ((n : Int) < 0 ∨ (n : Int) > (SHIP_MAXLEN : Int)) := by
    simp only [SHIP_MAXLEN]; omega
  have e0 : (width_ + 2) * y + x = 12 * y + x := rfl
  have e2 : width_ + 2 = 12 := rfl
  have hk : 12 * y + x < b.length := by rw [hB.1]; omega
  have hget : b[12 * y + x]? = some (cellAt b (12 * y + x)) := by
    simp [cellAt, List.getD, List.getElem?_eq_getElem hk]
  have H : ∀ δ, (δ = 1 ∨ δ = 12) → ∀ k, cellAt b k ≠ CL_ST_EMPTY → k + δ < b.length := by
    intro δ hδ k hk
    have := hB.2 k hk
    rw [hB.1]; unfold interior at this
    rcases hδ with rfl | rfl <;> omega
  unfold isShip
  simp only [hguard, if_false, e0, e2, hget]
  by_cases hT : cellAt b (12 * y + x) = CL_ST_TOP
  · have hne : cellAt b (12 * y + x) ≠ CL_ST_EMPTY := by rw [hT]; decide
    obtain ⟨m, hw, hcells, hend⟩ := isShipWalk_spec b 12 (by omega) (H 12 (Or.inr rfl))
      b.length (12 * y + x + 12) 1 (H 12 (Or.inr rfl) _ hne) (by omega)
    refine ⟨1 + m, ?_, ?_, ?_, ?_, ?_⟩
    · simp only [hT, if_true, hw]
      congr 2
      exact propext ⟨fun h => by exact_mod_cast h, fun h => by exact_mod_cast h⟩
    · intro _
      refine ⟨m, by omega, ?_, ?_⟩
      · intro j hj
        cases j with
        | zero => simpa using hne
        | succ j =>
          have := hcells j (by omega)
          rwa [show 12 * y + x + 12 + 12 * j = 12 * y + x + 12 * (j + 1) by omega] at this
      · rwa [show 12 * y + x + 12 + 12 * m = 12 * y + x + 12 * (m + 1) by omega] at hend
    · intro h; rw [hT] at h; exact absurd h (by decide)
    · intro h; rw [hT] at h; exact absurd h (by decide)
    · intro h; exact absurd hT h
  · by_cases hL : cellAt b (12 * y + x) = CL_ST_LEFT
    · have hne : cellAt b (12 * y + x) ≠ CL_ST_EMPTY := by rw [hL]; decide
      obtain ⟨m, hw, hcells, hend⟩ := isShipWalk_spec b 1 (by omega) (H 1 (Or.inl rfl))
        b.length (12 * y + x + 1) 1 (H 1 (Or.inl rfl) _ hne) (by omega)
      refine ⟨1 + m, ?_, ?_, ?_, ?_, ?_⟩
      · simp only [hL, if_true, hw]
        simp only [show ¬ (CL_ST_LEFT = CL_ST_TOP) by decide, if_false]
        congr 2
        exact propext ⟨fun h => by exact_mod_cast h, fun h => by exact_mod_cast h⟩
      · intro h; exact absurd h hT
      · intro _
        refine ⟨m, by omega, ?_, ?_⟩
        · intro j hj
          cases j with
          | zero => simpa using hne
          | succ j =>
            have := hcells j (by omega)
            rwa [show 12 * y + x + 1 + 1 * j = 12 * y + x + 1 * (j + 1) by omega] at this
        · rwa [show 12 * y + x + 1 + 1 * m = 12 * y + x + 1 * (m + 1) by omega] at hend
      · intro h; rw [hL] at h; exact absurd h (by decide)
      · intro _ h; exact absurd hL h
    · by_cases hC : cellAt b (12 * y + x) = CL_ST_CENTER
      · refine ⟨1, ?_, fun h => absurd h hT, fun h => absurd h hL, fun _ => rfl,
          fun _ _ h => absurd hC h⟩
        simp only [hC, if_true]
        simp only [show ¬ (CL_ST_CENTER = CL_ST_TOP) by decide,
          show ¬ (CL_ST_CENTER = CL_ST_LEFT) by decide, if_false]
        congr 2
        exact propext ⟨fun h => by exact_mod_cast h, fun h => by exact_mod_cast h⟩
      · refine ⟨0, ?_, fun h => absurd h hT, fun h => absurd h hL, fun h => absurd h hC,
          fun _ _ _ => rfl⟩
        simp only [hT, hL, hC, if_false]
        congr 2
        exact propext ⟨fun h => by exact_mod_cast h, fun h => by exact_mod_cast h⟩


theorem sumBelow_congr (n : Nat) (g h : Nat → Nat) (hgh : ∀ i, i < n → g i = h i) :
    sumBelow n g = sumBelow n h := by
  induction n with
  | zero => rfl
  | succ n ih =>
    simp only [sumBelow]
    rw [ih (fun i hi => hgh i (by omega)), hgh n (by omega)]

theorem sumBelow_succ' (n : Nat) (g : Nat → Nat) :
    sumBelow (n + 1) g = g 0 + sumBelow n (fun i => g (i + 1)) := by
  induction n with
  | zero => simp [sumBelow]
  | succ n ih =>
    rw [sumBelow, ih]
    simp only [sumBelow]
    omega

theorem sumBelow_border (n : Nat) (g : Nat → Nat) (h0 : g 0 = 0) (h1 : g (n + 1) = 0) :
    sumBelow (n + 2) g = sumBelow n (fun i => g (i + 1)) := by
  rw [sumBelow, h1, sumBelow_succ', h0]
  omega

theorem sumBelow_zero (n : Nat) (g : Nat → Nat) (h : ∀ i, i < n → g i = 0) :
    sumBelow n g = 0 := by
  induction n with
  | zero => rfl
  | succ n ih =>
    simp only [sumBelow]
    rw [ih (fun i hi => h i (by omega)), h n (by omega)]

theorem sumBelow_pos (n : Nat) (g : Nat → Nat) (i : Nat) (hi : i < n) (h : 0 < g i) :
    0 < sumBelow n g := by
  induction n with
  | zero => omega
  | succ n ih =>
    simp only [sumBelow]
    by_cases hin : i = n
    · subst hin; omega
    · have := ih (by omega); omega

theorem forRange_count (n : Nat) (body : Nat → Nat → Flow Nat) (g : Nat → Nat)
    (hbody : ∀ i c, i < n → body i c = .next (c + g i)) (c0 : Nat) :
    forRange body n c0 = .next (c0 + sumBelow n g) := by
  induction n with
  | zero => rfl
  | succ n ih =>
    simp only [forRange, sumBelow]
    rw [ih (fun i c hi => hbody i c (by omega))]
    show body n (c0 + sumBelow n g) = _
    rw [hbody n _ (by omega)]
    simp only [Nat.add_assoc]

theorem shipNum_spec (size : Int) (b : List CellState) (hlen : b.length = 144)
    (g : Nat → Nat → Bool)
    (hg : ∀ i j, i < 12 → j < 12 → isShip size i j b = some (g i j)) :
    shipNum size b
      = some (sumBelow 12 (fun j => sumBelow 12 (fun i => if g i j then 1 else 0))) := by
  have hsz : ¬ b.length ≠ (height_ + 2) * (width_ + 2) := by
    simp only [width_, height_, FIELD_WIDTH_DEFAULT, FIELD_HEIGHT_DEFAULT, hlen]; decide
  unfold shipNum
  simp only [hsz, if_false]
  rw [forRange_count (width_ + 2) _
    (fun j => sumBelow 12 (fun i => if g i j then 1 else 0)) ?_ 0]
  · simp
  · intro j c hj
    have hj' : j < 12 := hj
    refine forRange_count (height_ + 2) _ (fun i => if g i j then 1 else 0) ?_ c
    intro i c hi
    have hi' : i < 12 := hi
    beta_reduce
    rw [hg i j hi' hj']
    cases h : g i j <;> simp


theorem withBorders_copy (f : Field) (h : f.fieldState_.length = 100) :
    ∃ b0, withBorders f.fieldState_ = .next b0 ∧ Copy f b0 := by
  obtain ⟨b0, h1, h2, h3⟩ := withBorders_spec f.fieldState_ h
  exact ⟨b0, h1, h2, h3⟩

theorem Copy.bordered {f : Field} {b0 : List CellState} (hC : Copy f b0) : Bordered b0 := by
  refine ⟨hC.len, fun k hk => ?_⟩
  by_contra h
  rw [hC.cell k, if_neg h] at hk
  exact hk rfl

theorem Copy.at {f : Field} {b0 : List CellState} (hC : Copy f b0) (x y : Nat)
    (hx : x < 10) (hy : y < 10) :
    cellAt b0 (12 * (y + 1) + (x + 1)) = cellAt f.fieldState_ (10 * y + x) := by
  rw [hC.cell]
  have h1 : (12 * (y + 1) + (x + 1)) / 12 = y + 1 := by omega
  have h2 : (12 * (y + 1) + (x + 1)) % 12 = x + 1 := by omega
  have h3 : interior (12 * (y + 1) + (x + 1)) := by unfold interior; omega
  simp [h1, h2, h3]

theorem occupied_iff (f : Field) (x y : Nat) :
    occupied f x y = true ↔
      x < 10 ∧ y < 10 ∧ cellAt f.fieldState_ (10 * y + x) ≠ CL_ST_EMPTY := by
  simp [occupied]

theorem Copy.occ {f : Field} {b0 : List CellState} (hC : Copy f b0) (x y : Nat)
    (hx : x ≤ 10) :
    occupied f x y = true ↔ cellAt b0 (12 * (y + 1) + (x + 1)) ≠ CL_ST_EMPTY := by
  rw [occupied_iff]
  constructor
  · rintro ⟨h1, h2, h3⟩
    rw [hC.at x y h1 h2]; exact h3
  · intro h
    have hint := hC.bordered.2 _ h
    have h1 : x < 10 := by unfold interior at hint; omega
    have h2 : y < 10 := by unfold interior at hint; omega
    refine ⟨h1, h2, ?_⟩
    rw [← hC.at x y h1 h2]; exact h

theorem Copy.occ_of_interior {f : Field} {b0 : List CellState} (hC : Copy f b0) (k : Nat)
    (hk : cellAt b0 k ≠ CL_ST_EMPTY) :
    ∃ x y, x < 10 ∧ y < 10 ∧ k = 12 * (y + 1) + (x + 1) ∧ occupied f x y = true := by
  have hint := hC.bordered.2 _ hk
  unfold interior at hint
  refine ⟨k % 12 - 1, k / 12 - 1, by omega, by omega, by omega, ?_⟩
  rw [hC.occ _ _ (by omega)]
  rwa [show 12 * (k / 12 - 1 + 1) + (k % 12 - 1 + 1) = k by omega]

theorem Copy.EU {f : Field} {b0 : List CellState} (hC : Copy f b0)
    (hf : ∀ c, c ∈ f.fieldState_ → c = CL_ST_EMPTY ∨ c = CL_ST_UNDEFINED) : EU b0 := by
  intro k
  rw [hC.cell]
  split_ifs
  · unfold cellAt
    rcases Nat.lt_or_ge (10 * (k / 12 - 1) + (k % 12 - 1)) f.fieldState_.length with h | h
    · rw [List.getD_eq_getElem _ _ h]
      exact hf _ (List.getElem_mem _)
    · left
      simp [List.getD, List.getElem?_eq_none h]
  · exact Or.inl rfl

theorem Copy.noDiag_iff {f : Field} {b0 : List CellState} (hC : Copy f b0) :
    NoDiag b0 ↔ noDiagonalContact f := by
  constructor
  · intro hD x1 y1 x2 y2 h1 h2 hx hy
    have hx1 : x1 < 10 := ((occupied_iff f x1 y1).1 h1).1
    have hx2 : x2 < 10 := ((occupied_iff f x2 y2).1 h2).1
    have k1 := (hC.occ x1 y1 (by omega)).1 h1
    have k2 := (hC.occ x2 y2 (by omega)).1 h2
    obtain ⟨d1, d2, d3, d4⟩ := hD _ (hC.bordered.2 _ k1) k1
    rcases hx with hx | hx <;> rcases hy with hy | hy
    · subst hx; subst hy
      exact k2 (by rw [← d3]; congr 1; omega)
    · subst hx; subst hy
      exact k2 (by rw [← d2]; congr 1; omega)
    · subst hx; subst hy
      exact k2 (by rw [← d4]; congr 1; omega)
    · subst hx; subst hy
      exact k2 (by rw [← d1]; congr 1; omega)
  · intro hN k hint hk
    obtain ⟨x, y, hx, hy, rfl, ho⟩ := hC.occ_of_interior k hk
    refine ⟨?_, ?_, ?_, ?_⟩
    · by_contra h
      obtain ⟨x', y', hx', hy', he, ho'⟩ := hC.occ_of_interior _ h
      exact hN x y x' y' ho ho' (by omega) (by omega)
    · by_contra h
      obtain ⟨x', y', hx', hy', he, ho'⟩ := hC.occ_of_interior _ h
      exact hN x y x' y' ho ho' (by omega) (by omega)
    · by_contra h
      obtain ⟨x', y', hx', hy', he, ho'⟩ := hC.occ_of_interior _ h
      exact hN x y x' y' ho ho' (by omega) (by omega)
    · by_contra h
      obtain ⟨x', y', hx', hy', he, ho'⟩ := hC.occ_of_interior _ h
      exact hN x y x' y' ho ho' (by omega) (by omega)

theorem runLength_eq (f : Field) (dx dy : Nat) :
    ∀ (L fuel x y : Nat),
      (∀ m, m < L → occupied f (x + dx * m) (y + dy * m) = true) →
      occupied f (x + dx * L) (y + dy * L) = false → L ≤ fuel →
      runLength f dx dy fuel x y = L := by
  intro L
  induction L with
  | zero =>
    intro fuel x y _ hend _
    cases fuel with
    | zero => rfl
    | succ fuel =>
      have : occupied f x y = false := by simpa using hend
      simp [runLength, this]
  | succ L ih =>
    intro fuel x y hcells hend hfuel
    obtain ⟨fuel', rfl⟩ : ∃ fuel', fuel = fuel' + 1 := ⟨fuel - 1, by omega⟩
    have h0 : occupied f x y = true := by simpa using hcells 0 (by omega)
    have hx : ∀ m, x + dx + dx * m = x + dx * (m + 1) := by
      intro m; rw [Nat.mul_succ]; omega
    have hy : ∀ m, y + dy + dy * m = y + dy * (m + 1) := by
      intro m; rw [Nat.mul_succ]; omega
    have := ih fuel' (x + dx) (y + dy)
      (by intro m hm; rw [hx, hy]; exact hcells (m + 1) (by omega))
      (by rw [hx, hy]; exact hend) (by omega)
    simp [runLength, h0, this]

theorem runLength_cells (f : Field) (dx dy : Nat) :
    ∀ (fuel x y m : Nat), m < runLength f dx dy fuel x y →
      occupied f (x + dx * m) (y + dy * m) = true := by
  intro fuel
  induction fuel with
  | zero => intro x y m hm; simp [runLength] at hm
  | succ fuel ih =>
    intro x y m hm
    by_cases h0 : occupied f x y = true
    · simp only [runLength, h0, if_true] at hm
      cases m with
      | zero => simpa using h0
      | succ m =>
        have := ih (x + dx) (y + dy) m (by omega)
        rwa [show x + dx + dx * m = x + dx * (m + 1) by rw [Nat.mul_succ]; omega,
          show y + dy + dy * m = y + dy * (m + 1) by rw [Nat.mul_succ]; omega] at this
    · simp [runLength, h0] at hm

theorem runLength_ge (f : Field) (dx dy : Nat) :
    ∀ (L fuel x y : Nat),
      (∀ m, m < L → occupied f (x + dx * m) (y + dy * m) = true) → L ≤ fuel →
      L ≤ runLength f dx dy fuel x y := by
  intro L
  induction L with
  | zero => intro fuel x y _ _; omega
  | succ L ih =>
    intro fuel x y hcells hfuel
    obtain ⟨fuel', rfl⟩ : ∃ fuel', fuel = fuel' + 1 := ⟨fuel - 1, by omega⟩
    have h0 : occupied f x y = true := by simpa using hcells 0 (by omega)
    have := ih fuel' (x + dx) (y + dy)
      (by
        intro m hm
        rw [show x + dx + dx * m = x + dx * (m + 1) by rw [Nat.mul_succ]; omega,
          show y + dy + dy * m = y + dy * (m + 1) by rw [Nat.mul_succ]; omega]
        exact hcells (m + 1) (by omega))
      (by omega)
    simp only [runLength, h0, if_true]
    omega

theorem Copy.hlen {f : Field} {b0 : List CellState} (hC : Copy f b0) (x y N : Nat)
    (hx : x < 10)
    (hcells : ∀ m, m ≤ N → cellAt b0 (12 * (y + 1) + (x + 1) + 1 * m) ≠ CL_ST_EMPTY)
    (hend : cellAt b0 (12 * (y + 1) + (x + 1) + 1 * (N + 1)) = CL_ST_EMPTY) :
    runLength f 1 0 width_ x y = N + 1 := by
  have hN : x + N < 10 := by
    by_contra h
    have := hC.bordered.2 _ (hcells (10 - x) (by omega))
    unfold interior at this
    omega
  refine runLength_eq f 1 0 (N + 1) width_ x y ?_ ?_ (by simp only [width_, FIELD_WIDTH_DEFAULT]; omega)
  · intro m hm
    rw [Nat.zero_mul, Nat.add_zero, hC.occ _ _ (by omega)]
    have := hcells m (by omega)
    rwa [show 12 * (y + 1) + (x + 1) + 1 * m = 12 * (y + 1) + (x + 1 * m + 1) by omega] at this
  · rw [Nat.zero_mul, Nat.add_zero]
    by_contra h
    have h' : occupied f (x + 1 * (N + 1)) y = true := by simpa using h
    rw [hC.occ _ _ (by omega)] at h'
    rw [show 12 * (y + 1) + (x + 1) + 1 * (N + 1) = 12 * (y + 1) + (x + 1 * (N + 1) + 1) by omega]
      at hend
    exact h' hend

theorem Copy.vlen {f : Field} {b0 : List CellState} (hC : Copy f b0) (x y N : Nat)
    (hx : x < 10)
    (hcells : ∀ m, m ≤ N → cellAt b0 (12 * (y + 1) + (x + 1) + 12 * m) ≠ CL_ST_EMPTY)
    (hend : cellAt b0 (12 * (y + 1) + (x + 1) + 12 * (N + 1)) = CL_ST_EMPTY) :
    runLength f 0 1 height_ x y = N + 1 := by
  have hN : y + N < 10 := by
    have := hC.bordered.2 _ (hcells N (by omega))
    unfold interior at this
    omega
  refine runLength_eq f 0 1 (N + 1) height_ x y ?_ ?_
    (by simp only [height_, FIELD_HEIGHT_DEFAULT]; omega)
  · intro m hm
    rw [Nat.zero_mul, Nat.add_zero, hC.occ _ _ (by omega)]
    have := hcells m (by omega)
    rwa [show 12 * (y + 1) + (x + 1) + 12 * m = 12 * (y + 1 * m + 1) + (x + 1) by omega] at this
  · rw [Nat.zero_mul, Nat.add_zero]
    by_contra h
    have h' : occupied f x (y + 1 * (N + 1)) = true := by simpa using h
    rw [hC.occ _ _ (by omega)] at h'
    rw [show 12 * (y + 1) + (x + 1) + 12 * (N + 1) = 12 * (y + 1 * (N + 1) + 1) + (x + 1) by omega]
      at hend
    exact h' hend

theorem Copy.left {f : Field} {b0 : List CellState} (hC : Copy f b0) (x y : Nat) (hx : x < 10) :
    (decide (0 < x) && occupied f (x - 1) y) = true ↔
      cellAt b0 (12 * (y + 1) + (x + 1) - 1) ≠ CL_ST_EMPTY := by
  rcases Nat.eq_zero_or_pos x with rfl | hpos
  · simp only [Nat.lt_irrefl, decide_False, Bool.false_and, Bool.false_eq_true, false_iff,
      ne_eq, not_not]
    by_contra h
    have := hC.bordered.2 _ h
    unfold interior at this
    omega
  · simp only [hpos, decide_True, Bool.true_and]
    rw [hC.occ _ _ (by omega)]
    rw [show 12 * (y + 1) + (x - 1 + 1) = 12 * (y + 1) + (x + 1) - 1 by omega]

theorem Copy.up {f : Field} {b0 : List CellState} (hC : Copy f b0) (x y : Nat) (hx : x < 10) :
    (decide (0 < y) && occupied f x (y - 1)) = true ↔
      cellAt b0 (12 * (y + 1) + (x + 1) - 12) ≠ CL_ST_EMPTY := by
  rcases Nat.eq_zero_or_pos y with rfl | hpos
  · simp only [Nat.lt_irrefl, decide_False, Bool.false_and, Bool.false_eq_true, false_iff,
      ne_eq, not_not]
    by_contra h
    have := hC.bordered.2 _ h
    unfold interior at this
    omega
  · simp only [hpos, decide_True, Bool.true_and]
    rw [hC.occ _ _ (by omega)]
    rw [show 12 * (y - 1 + 1) + (x + 1) = 12 * (y + 1) + (x + 1) - 12 by omega]

theorem Copy.hRun_iff {f : Field} {b0 : List CellState} (hC : Copy f b0) (n x y : Nat)
    (hx : x < 10) :
    hRun f n x y = true ↔
      cellAt b0 (12 * (y + 1) + (x + 1)) ≠ CL_ST_EMPTY ∧
      cellAt b0 (12 * (y + 1) + (x + 1) - 1) = CL_ST_EMPTY ∧
      runLength f 1 0 width_ x y = n := by
  unfold hRun
  rw [Bool.and_eq_true, Bool.and_eq_true, Bool.not_eq_true', ← Bool.not_eq_true,
    hC.left x y hx, hC.occ x y (by omega)]
  simp [and_assoc]

theorem Copy.vRun_iff {f : Field} {b0 : List CellState} (hC : Copy f b0) (n x y : Nat)
    (hx : x < 10) :
    vRun f n x y = true ↔
      cellAt b0 (12 * (y + 1) + (x + 1)) ≠ CL_ST_EMPTY ∧
      cellAt b0 (12 * (y + 1) + (x + 1) - 12) = CL_ST_EMPTY ∧
      runLength f 0 1 height_ x y = n := by
  unfold vRun
  rw [Bool.and_eq_true, Bool.and_eq_true, Bool.not_eq_true', ← Bool.not_eq_true,
    hC.up x y hx, hC.occ x y (by omega)]
  simp [and_assoc]


theorem Copy.hRun_eq {f : Field} {b0 : List CellState} (hC : Copy f b0) (n x y : Nat)
    (hx : x < 10) (hk : cellAt b0 (12 * (y + 1) + (x + 1)) ≠ CL_ST_EMPTY) :
    hRun f n x y = decide (cellAt b0 (12 * (y + 1) + (x + 1) - 1) = CL_ST_EMPTY ∧
      runLength f 1 0 width_ x y = n) := by
  rw [Bool.eq_iff_iff, hC.hRun_iff n x y hx, decide_eq_true_iff]
  exact ⟨fun h => h.2, fun h => ⟨hk, h⟩⟩

theorem Copy.vRun_eq {f : Field} {b0 : List CellState} (hC : Copy f b0) (n x y : Nat)
    (hx : x < 10) (hk : cellAt b0 (12 * (y + 1) + (x + 1)) ≠ CL_ST_EMPTY) :
    vRun f n x y = decide (cellAt b0 (12 * (y + 1) + (x + 1) - 12) = CL_ST_EMPTY ∧
      runLength f 0 1 height_ x y = n) := by
  rw [Bool.eq_iff_iff, hC.vRun_iff n x y hx, decide_eq_true_iff]
  exact ⟨fun h => h.2, fun h => ⟨hk, h⟩⟩

theorem Copy.runsAt_empty {f : Field} {b0 : List CellState} (hC : Copy f b0) (n x y : Nat)
    (hx : x < 10) (hk : cellAt b0 (12 * (y + 1) + (x + 1)) = CL_ST_EMPTY) :
    runsAt f n x y = 0 := by
  have h1 : ∀ m, hRun f m x y = false := by
    intro m
    rw [← Bool.not_eq_true, hC.hRun_iff m x y hx]
    exact fun h => h.1 hk
  have h2 : ∀ m, vRun f m x y = false := by
    intro m
    rw [← Bool.not_eq_true, hC.vRun_iff m x y hx]
    exact fun h => h.1 hk
  simp [runsAt, h1, h2]

theorem Copy.count_cell {f : Field} {b0 b' : List CellState} (hC : Copy f b0) (hD : NoDiag b0)
    (hb' : ∀ k, cellAt b' k = lab b0 k) (n x y : Nat) (hn : 1 ≤ n) (hx : x < 10)
    (l : Nat) (hl : IsShipLen b' (12 * (y + 1) + (x + 1)) l) :
    (if l = n then 1 else 0) = runsAt f n x y := by
  have hB := hC.bordered
  have hne : ∀ j, cellAt b' j ≠ CL_ST_EMPTY ↔ cellAt b0 j ≠ CL_ST_EMPTY := by
    intro j
    rw [hb' j]
    constructor
    · intro h1 h2; exact h1 (lab_empty b0 j h2)
    · intro h1; exact (lab_ne b0 j h1).1
  have he : ∀ j, cellAt b' j = CL_ST_EMPTY ↔ cellAt b0 j = CL_ST_EMPTY := by
    intro j
    constructor
    · intro h; by_contra h'; exact (hne j).2 h' h
    · intro h; by_contra h'; exact (hne j).1 h' h
  obtain ⟨hT, hL, hCn, hO⟩ := hl
  generalize hkdef : 12 * (y + 1) + (x + 1) = k at hT hL hCn hO
  by_cases hk : cellAt b0 k = CL_ST_EMPTY
  · have hl0 : l = 0 := by
      have hk' : cellAt b' k = CL_ST_EMPTY := (he k).2 hk
      exact hO (by rw [hk']; decide) (by rw [hk']; decide) (by rw [hk']; decide)
    rw [hC.runsAt_empty n x y hx (by rw [hkdef]; exact hk), hl0]
    have : ¬ (0 = n) := by omega
    simp [this]
  · have hH1 := hC.hRun_eq 1 x y hx (by rw [hkdef]; exact hk)
    have hV1 := hC.vRun_eq 1 x y hx (by rw [hkdef]; exact hk)
    have hHn := hC.hRun_eq n x y hx (by rw [hkdef]; exact hk)
    have hVn := hC.vRun_eq n x y hx (by rw [hkdef]; exact hk)
    rw [hkdef] at hH1 hV1 hHn hVn
    have hlabk := hb' k
    have hsingleH : cellAt b0 (k + 1) = CL_ST_EMPTY → runLength f 1 0 width_ x y = 1 := by
      intro h
      refine hC.hlen x y 0 hx ?_ ?_
      · intro m hm
        have : m = 0 := by omega
        subst this; rw [hkdef]; simpa using hk
      · rw [hkdef]; simpa using h
    have hsingleV : cellAt b0 (k + 12) = CL_ST_EMPTY → runLength f 0 1 height_ x y = 1 := by
      intro h
      refine hC.vlen x y 0 hx ?_ ?_
      · intro m hm
        have : m = 0 := by omega
        subst this; rw [hkdef]; simpa using hk
      · rw [hkdef]; simpa using h
    by_cases hR : cellAt b0 (k + 1) = CL_ST_EMPTY
    · by_cases hLf : cellAt b0 (k - 1) = CL_ST_EMPTY
      · by_cases hDn : cellAt b0 (k + 12) = CL_ST_EMPTY
        · by_cases hUp : cellAt b0 (k - 12) = CL_ST_EMPTY
          · -- CENTER
            have hlab : cellAt b' k = CL_ST_CENTER := by
              rw [hlabk]; unfold lab; simp [hk, hR, hLf, hDn, hUp]
            have hl1 : l = 1 := hCn hlab
            subst hl1
            simp only [runsAt, hH1, hV1, hHn, hVn, hLf, hUp, hsingleH hR, hsingleV hDn]
            by_cases h1 : n = 1
            · subst h1; simp
            · have : ¬ (1 = n) := fun h => h1 h.symm
              simp [h1, this]
          · -- BOTTOM
            have hlab : cellAt b' k = CL_ST_BOTTOM := by
              rw [hlabk]; unfold lab; simp [hk, hR, hLf, hDn, hUp]
            have hl0 : l = 0 := hO (by rw [hlab]; decide) (by rw [hlab]; decide)
              (by rw [hlab]; decide)
            subst hl0
            simp only [runsAt, hH1, hV1, hHn, hVn, hLf, hUp, hsingleH hR]
            by_cases h1 : n = 1
            · subst h1; simp
            · have : ¬ (1 = n) := fun h => h1 h.symm
              have : ¬ (0 = n) := by omega
              simp [*]
        · by_cases hUp : cellAt b0 (k - 12) = CL_ST_EMPTY
          · -- TOP
            have hlab : cellAt b' k = CL_ST_TOP := by
              rw [hlabk]; unfold lab; simp [hk, hR, hLf, hDn, hUp]
            obtain ⟨N, hlN, hcells, hend⟩ := hT hlab
            have hN1 : 1 ≤ N := by
              by_contra hc
              have : N = 0 := by omega
              subst this
              exact hDn (by simpa using (he _).1 hend)
            have hlen : runLength f 0 1 height_ x y = N + 1 := by
              refine hC.vlen x y N hx ?_ ?_
              · intro m hm; rw [hkdef]; exact (hne _).1 (hcells m hm)
              · rw [hkdef]; exact (he _).1 hend
            subst hlN
            simp only [runsAt, hH1, hV1, hHn, hVn, hLf, hUp, hsingleH hR, hlen]
            by_cases h1 : n = 1
            · subst h1
              have : ¬ (N + 1 = 1) := by omega
              simp [this]
            · have : ¬ (1 = n) := fun h => h1 h.symm
              simp [h1, this]
          · -- VMIDDLE
            have hlab : cellAt b' k = CL_ST_VMIDDLE := by
              rw [hlabk]; unfold lab; simp [hk, hR, hLf, hDn, hUp]
            have hl0 : l = 0 := hO (by rw [hlab]; decide) (by rw [hlab]; decide)
              (by rw [hlab]; decide)
            subst hl0
            simp only [runsAt, hH1, hV1, hHn, hVn, hLf, hUp, hsingleH hR]
            by_cases h1 : n = 1
            · subst h1; simp
            · have : ¬ (1 = n) := fun h => h1 h.symm
              have : ¬ (0 = n) := by omega
              simp [*]
      · -- RIGHT
        have hlab : cellAt b' k = CL_ST_RIGHT := by
          rw [hlabk]; unfold lab; simp [hk, hR, hLf]
        have hl0 : l = 0 := hO (by rw [hlab]; decide) (by rw [hlab]; decide)
          (by rw [hlab]; decide)
        have hv := NoDiag.ortho' hB hD k (Or.inr hLf)
        subst hl0
        simp only [runsAt, hH1, hV1, hHn, hVn, hLf, hv.2, hsingleV hv.1]
        by_cases h1 : n = 1
        · subst h1; simp
        · have : ¬ (1 = n) := fun h => h1 h.symm
          have : ¬ (0 = n) := by omega
          simp [*]
    · have hv := NoDiag.ortho' hB hD k (Or.inl hR)
      by_cases hLf : cellAt b0 (k - 1) = CL_ST_EMPTY
      · -- LEFT
        have hlab : cellAt b' k = CL_ST_LEFT := by
          rw [hlabk]; unfold lab; simp [hk, hR, hLf]
        obtain ⟨N, hlN, hcells, hend⟩ := hL hlab
        have hN1 : 1 ≤ N := by
          by_contra hc
          have : N = 0 := by omega
          subst this
          exact hR (by simpa using (he _).1 hend)
        have hlen : runLength f 1 0 width_ x y = N + 1 := by
          refine hC.hlen x y N hx ?_ ?_
          · intro m hm; rw [hkdef]; exact (hne _).1 (hcells m hm)
          · rw [hkdef]; exact (he _).1 hend
        subst hlN
        simp only [runsAt, hH1, hV1, hHn, hVn, hLf, hv.2, hsingleV hv.1, hlen]
        by_cases h1 : n = 1
        · subst h1
          have : ¬ (N + 1 = 1) := by omega
          simp [this]
        · have : ¬ (1 = n) := fun h => h1 h.symm
          simp [h1, this]
      · -- HMIDDLE
        have hlab : cellAt b' k = CL_ST_HMIDDLE := by
          rw [hlabk]; unfold lab; simp [hk, hR, hLf]
        have hl0 : l = 0 := hO (by rw [hlab]; decide) (by rw [hlab]; decide)
          (by rw [hlab]; decide)
        subst hl0
        simp only [runsAt, hH1, hV1, hHn, hVn, hLf, hv.2, hsingleV hv.1]
        by_cases h1 : n = 1
        · subst h1; simp
        · have : ¬ (1 = n) := fun h => h1 h.symm
          have : ¬ (0 = n) := by omega
          simp [*]

/-! ## The validator as a whole -/

theorem isShip_some {b : List CellState} (hB : Bordered b) (n : Nat) (hn : n ≤ 4) (i j : Nat)
    (hi : i < 12) (hj : j < 12) :
    isShip (n : Int) i j b = some ((isShip (n : Int) i j b).getD false) := by
  obtain ⟨l, hl, _⟩ := isShip_spec hB n i j hn hi hj
  rw [hl]; rfl

theorem shipNum_total {b : List CellState} (hB : Bordered b) (n : Nat) (hn : n ≤ 4) :
    ∃ c, shipNum (n : Int) b = some c :=
  ⟨_, shipNum_spec (n : Int) b hB.1 (fun i j => (isShip (n : Int) i j b).getD false)
    (fun i j hi hj => isShip_some hB n hn i j hi hj)⟩

theorem Copy.shipNum_final {f : Field} {b0 b' : List CellState} (hC : Copy f b0)
    (hD : NoDiag b0) (hlen : b'.length = 144) (hb' : ∀ k, cellAt b' k = lab b0 k)
    (n : Nat) (hn1 : 1 ≤ n) (hn4 : n ≤ 4) :
    shipNum (n : Int) b' = some (runCount f n) := by
  have hB' : Bordered b' := by
    refine ⟨hlen, fun k hk => hC.bordered.2 k ?_⟩
    intro h
    rw [hb' k, lab_empty b0 k h] at hk
    exact hk rfl
  rw [shipNum_spec (n : Int) b' hlen (fun i j => (isShip (n : Int) i j b').getD false)
    (fun i j hi hj => isShip_some hB' n hn4 i j hi hj)]
  have hval : ∀ i j, i < 12 → j < 12 →
      ∃ l, (isShip (n : Int) i j b').getD false = decide (l = n) ∧ IsShipLen b' (12 * j + i) l := by
    intro i j hi hj
    obtain ⟨l, hl, hlen⟩ := isShip_spec hB' n i j hn4 hi hj
    exact ⟨l, by rw [hl]; rfl, hlen⟩
  have hborder : ∀ i j, i < 12 → j < 12 → ¬ interior (12 * j + i) →
      (if (isShip (n : Int) i j b').getD false = true then 1 else 0) = 0 := by
    intro i j hi hj hint
    obtain ⟨l, hl, _, _, _, hO⟩ := hval i j hi hj
    have hE : cellAt b' (12 * j + i) = CL_ST_EMPTY := by
      by_contra h; exact hint (hB'.2 _ h)
    have hl0 : l = 0 := hO (by rw [hE]; decide) (by rw [hE]; decide) (by rw [hE]; decide)
    rw [hl, hl0]
    have : ¬ (0 = n) := by omega
    simp [this]
  have hrow0 : ∀ j, j < 12 → (j = 0 ∨ j = 11) →
      sumBelow 12 (fun i => if (isShip (n : Int) i j b').getD false = true then 1 else 0) = 0 := by
    intro j hj hj'
    refine sumBelow_zero 12 _ (fun i hi => hborder i j hi hj ?_)
    unfold interior; omega
  congr 1
  rw [sumBelow_border 10
    (fun j => sumBelow 12
      (fun i => if (isShip (n : Int) i j b').getD false = true then 1 else 0))
    (hrow0 0 (by omega) (Or.inl rfl)) (hrow0 11 (by omega) (Or.inr rfl))]
  unfold runCount
  refine sumBelow_congr _ _ _ (fun y hy => ?_)
  rw [sumBelow_border 10
    (fun i => if (isShip (n : Int) i (y + 1) b').getD false = true then 1 else 0)
    (hborder 0 (y + 1) (by omega) (by omega) (by unfold interior; omega))
    (hborder 11 (y + 1) (by omega) (by omega) (by unfold interior; omega))]
  refine sumBelow_congr _ _ _ (fun x hx => ?_)
  have hx' : x < 10 := hx
  obtain ⟨l, hl, hlen⟩ := hval (x + 1) (y + 1) (by omega) (by omega)
  rw [hl]
  have := hC.count_cell hD hb' n x y hn1 hx' l hlen
  rw [← this]
  by_cases h : l = n <;> simp [h]


theorem sumBelow_exists (n : Nat) (g : Nat → Nat) (h : 0 < sumBelow n g) :
    ∃ i, i < n ∧ 0 < g i := by
  induction n with
  | zero => simp [sumBelow] at h
  | succ n ih =>
    simp only [sumBelow] at h
    by_cases hn : 0 < g n
    · exact ⟨n, by omega, hn⟩
    · obtain ⟨i, hi, hg⟩ := ih (by omega)
      exact ⟨i, by omega, hg⟩

theorem runCount_pos_iff (f : Field) (n : Nat) :
    0 < runCount f n ↔ ∃ x y, x < 10 ∧ y < 10 ∧ 0 < runsAt f n x y := by
  constructor
  · intro h
    obtain ⟨y, hy, h1⟩ := sumBelow_exists _ _ h
    obtain ⟨x, hx, h2⟩ := sumBelow_exists _ _ h1
    exact ⟨x, y, hx, hy, h2⟩
  · rintro ⟨x, y, hx, hy, h⟩
    exact sumBelow_pos _ _ y hy (sumBelow_pos _ _ x hx h)

theorem runsAt_pos_iff (f : Field) (n x y : Nat) (hn : n ≠ 1) :
    0 < runsAt f n x y ↔ hRun f n x y = true ∨ vRun f n x y = true := by
  unfold runsAt
  simp only [hn, if_false]
  cases hRun f n x y <;> cases vRun f n x y <;> simp

theorem Copy.longRun_iff {f : Field} {b0 : List CellState} (hC : Copy f b0) :
    LongRun b0 ↔ ∃ n, 5 ≤ n ∧ 0 < runCount f n := by
  constructor
  · rintro ⟨k, δ, hδ, hk, hprev, hcells⟩
    obtain ⟨x, y, hx, hy, rfl, ho⟩ := hC.occ_of_interior k hk
    have hmax : SHIP_MAXLEN = 4 := rfl
    rcases hδ with rfl | rfl
    · have hx4 : x + 4 < 10 := by
        by_contra h
        have := hC.bordered.2 _ (hcells (10 - x) (by omega))
        unfold interior at this
        omega
      have hge : 5 ≤ runLength f 1 0 width_ x y := by
        refine runLength_ge f 1 0 5 width_ x y ?_ (by simp only [width_, FIELD_WIDTH_DEFAULT]; omega)
        intro m hm
        rw [Nat.zero_mul, Nat.add_zero, hC.occ _ _ (by omega)]
        have := hcells m (by omega)
        rwa [show 12 * (y + 1) + (x + 1) + 1 * m = 12 * (y + 1) + (x + 1 * m + 1) by omega]
          at this
      refine ⟨runLength f 1 0 width_ x y, hge, (runCount_pos_iff f _).2
        ⟨x, y, hx, hy, (runsAt_pos_iff f _ x y (by omega)).2 (Or.inl ?_)⟩⟩
      rw [hC.hRun_iff _ x y hx]
      exact ⟨hk, hprev, rfl⟩
    · have hy4 : y + 4 < 10 := by
        have := hC.bordered.2 _ (hcells 4 (by omega))
        unfold interior at this
        omega
      have hge : 5 ≤ runLength f 0 1 height_ x y := by
        refine runLength_ge f 0 1 5 height_ x y ?_
          (by simp only [height_, FIELD_HEIGHT_DEFAULT]; omega)
        intro m hm
        rw [Nat.zero_mul, Nat.add_zero, hC.occ _ _ (by omega)]
        have := hcells m (by omega)
        rwa [show 12 * (y + 1) + (x + 1) + 12 * m = 12 * (y + 1 * m + 1) + (x + 1) by omega]
          at this
      refine ⟨runLength f 0 1 height_ x y, hge, (runCount_pos_iff f _).2
        ⟨x, y, hx, hy, (runsAt_pos_iff f _ x y (by omega)).2 (Or.inr ?_)⟩⟩
      rw [hC.vRun_iff _ x y hx]
      exact ⟨hk, hprev, rfl⟩
  · rintro ⟨n, hn, hpos⟩
    obtain ⟨x, y, hx, hy, hr⟩ := (runCount_pos_iff f n).1 hpos
    rcases (runsAt_pos_iff f n x y (by omega)).1 hr with h | h
    · obtain ⟨hk, hprev, hlen⟩ := (hC.hRun_iff n x y hx).1 h
      refine ⟨_, 1, Or.inl rfl, hk, hprev, fun m hm => ?_⟩
      have hm4 : m ≤ 4 := hm
      have := runLength_cells f 1 0 width_ x y m (by omega)
      rw [Nat.zero_mul, Nat.add_zero] at this
      have hxm : x + 1 * m < 10 := ((occupied_iff f _ _).1 this).1
      rw [hC.occ _ _ (by omega)] at this
      rwa [show 12 * (y + 1) + (x + 1 * m + 1) = 12 * (y + 1) + (x + 1) + 1 * m by omega] at this
    · obtain ⟨hk, hprev, hlen⟩ := (hC.vRun_iff n x y hx).1 h
      refine ⟨_, 12, Or.inr rfl, hk, hprev, fun m hm => ?_⟩
      have hm4 : m ≤ 4 := hm
      have := runLength_cells f 0 1 height_ x y m (by omega)
      rw [Nat.zero_mul, Nat.add_zero] at this
      rw [hC.occ _ _ (by omega)] at this
      rwa [show 12 * (y + 1 * m + 1) + (x + 1) = 12 * (y + 1) + (x + 1) + 12 * m by omega] at this


theorem isCorrect_total (f : Field) (hlen : f.fieldState_.length = 100) :
    ∃ r, isCorrect f = some (r, f) := by
  obtain ⟨b0, hwb, hC⟩ := withBorders_copy f hlen
  unfold isCorrect
  rw [hwb]
  rcases CheckDiagonalCollisions_spec b0 hC.len with ⟨hd, _⟩ | ⟨hd, _⟩
  · rcases CheckLength_bordered hC.bordered with hl | ⟨b', hl, hB'⟩
    · exact ⟨false, by simp only [hd, hl]⟩
    · obtain ⟨c1, h1⟩ := shipNum_total hB' 1 (by omega)
      obtain ⟨c2, h2⟩ := shipNum_total hB' 2 (by omega)
      obtain ⟨c3, h3⟩ := shipNum_total hB' 3 (by omega)
      obtain ⟨c4, h4⟩ := shipNum_total hB' 4 (by omega)
      simp only [Nat.cast_one, Nat.cast_ofNat] at h1 h2 h3 h4
      exact ⟨_, by simp only [hd, hl, h1, h2, h3, h4]; rfl⟩
  · exact ⟨false, by simp only [hd]⟩

theorem isCorrect_EU (f : Field) (hlen : f.fieldState_.length = 100)
    (hEU : ∀ c, c ∈ f.fieldState_ → c = CL_ST_EMPTY ∨ c = CL_ST_UNDEFINED) :
    ∃ r, isCorrect f = some (r, f) ∧
      (r = true ↔ (noDiagonalContact f ∧ (∀ n, 5 ≤ n → runCount f n = 0) ∧
        runCount f 1 = 4 ∧ runCount f 2 = 3 ∧ runCount f 3 = 2 ∧ runCount f 4 = 1)) := by
  obtain ⟨b0, hwb, hC⟩ := withBorders_copy f hlen
  unfold isCorrect
  rw [hwb]
  rcases CheckDiagonalCollisions_spec b0 hC.len with ⟨hd, hD⟩ | ⟨hd, hD⟩
  · rcases CheckLength_EU_spec hC.bordered hD (hC.EU hEU) with
      ⟨b', hl, hlen', hb', hshort⟩ | ⟨hl, hlong⟩
    · have h1 := hC.shipNum_final hD hlen' hb' 1 (by omega) (by omega)
      have h2 := hC.shipNum_final hD hlen' hb' 2 (by omega) (by omega)
      have h3 := hC.shipNum_final hD hlen' hb' 3 (by omega) (by omega)
      have h4 := hC.shipNum_final hD hlen' hb' 4 (by omega) (by omega)
      simp only [Nat.cast_one, Nat.cast_ofNat] at h1 h2 h3 h4
      refine ⟨_, by simp only [hd, hl, h1, h2, h3, h4]; rfl, ?_⟩
      have hno : ∀ n, 5 ≤ n → runCount f n = 0 := by
        intro n hn
        by_contra h
        exact hshort (hC.longRun_iff.2 ⟨n, hn, by omega⟩)
      simp only [Bool.and_eq_true, beq_iff_eq, SHIP1_NUM, SHIP2_NUM, SHIP3_NUM, SHIP4_NUM]
      constructor
      · rintro ⟨⟨⟨a1, a2⟩, a3⟩, a4⟩
        exact ⟨hC.noDiag_iff.1 hD, hno, a1, a2, a3, a4⟩
      · rintro ⟨_, _, a1, a2, a3, a4⟩
        exact ⟨⟨⟨a1, a2⟩, a3⟩, a4⟩
    · refine ⟨false, by simp only [hd, hl], ?_⟩
      obtain ⟨n, hn, hpos⟩ := hC.longRun_iff.1 hlong
      constructor
      · intro h; exact absurd h (by decide)
      · rintro ⟨_, hno, _⟩
        have := hno n hn
        omega
  · refine ⟨false, by simp only [hd], ?_⟩
    constructor
    · intro h; exact absurd h (by decide)
    · rintro ⟨hN, _⟩
      exact absurd (hC.noDiag_iff.2 hN) hD

/-! ## The claims about the validator -/

theorem runCount_zero (f : Field) : runCount f 0 = 0 := by
  unfold runCount
  refine sumBelow_zero _ _ (fun y _ => sumBelow_zero _ _ (fun x _ => ?_))
  have h : ∀ fuel, occupied f x y = true → runLength f 1 0 (fuel + 1) x y ≠ 0 := by
    intro fuel ho; simp [runLength, ho]
  have h' : ∀ fuel, occupied f x y = true → runLength f 0 1 (fuel + 1) x y ≠ 0 := by
    intro fuel ho; simp [runLength, ho]
  have h1 : hRun f 0 x y = false := by
    unfold hRun
    by_cases ho : occupied f x y = true
    · have := h 9 ho
      simp [ho, this]
    · simp [ho]
  have h2 : vRun f 0 x y = false := by
    unfold vRun
    by_cases ho : occupied f x y = true
    · have := h' 9 ho
      simp [ho, this]
    · simp [ho]
  simp [runsAt, h1, h2]

set_option maxRecDepth 100000 in
theorem generate_eq (f : Field) : generate f = some generatedField := rfl

set_option maxRecDepth 100000 in
theorem isCorrect_generatedField : isCorrect generatedField = some (true, generatedField) := by
  decide

/-- C1. Soundness of `Field::isCorrect`: on a board of 100 cells, each
`CL_ST_EMPTY` or `CL_ST_UNDEFINED`, if `isCorrect()` returns true then exactly 4
maximal straight runs have length 1, 3 have length 2, 2 have length 3 and 1 has
length 4, no run has another length, and the runs are straight: no occupied cell
has an occupied neighbour both in its row and in its column. -/
theorem isCorrect_sound (f : Field) (hlen : f.fieldState_.length = 100)
    (hEU : ∀ c, c ∈ f.fieldState_ → c = CL_ST_EMPTY ∨ c = CL_ST_UNDEFINED)
    (h : isCorrect f = some (true, f)) :
    runCount f 1 = 4 ∧ runCount f 2 = 3 ∧ runCount f 3 = 2 ∧ runCount f 4 = 1 ∧
    (∀ n, n ≠ 1 → n ≠ 2 → n ≠ 3 → n ≠ 4 → runCount f n = 0) ∧
    (∀ x y x' y', occupied f x y = true → occupied f x' y = true → occupied f x y' = true →
      (x' + 1 = x ∨ x + 1 = x') → (y' + 1 = y ∨ y + 1 = y') → False) := by
  obtain ⟨r, hr, hiff⟩ := isCorrect_EU f hlen hEU
  rw [h] at hr
  have hrt : r = true := by
    have := Option.some.inj hr
    exact (congrArg Prod.fst this).symm
  obtain ⟨hN, hno, h1, h2, h3, h4⟩ := hiff.1 hrt
  refine ⟨h1, h2, h3, h4, ?_, ?_⟩
  · intro n n1 n2 n3 n4
    rcases Nat.eq_zero_or_pos n with rfl | hpos
    · exact runCount_zero f
    · exact hno n (by omega)
  · intro x y x' y' _ hh hv hx hy
    exact hN x' y x y' hh hv hx (by omega)


theorem runCount_large (f : Field) (n : Nat) (hn : 10 < n) : runCount f n = 0 := by
  unfold runCount
  refine sumBelow_zero _ _ (fun y _ => sumBelow_zero _ _ (fun x _ => ?_))
  have hle : ∀ dx dy fuel x y, runLength f dx dy fuel x y ≤ fuel := by
    intro dx dy fuel
    induction fuel with
    | zero => intro x y; simp [runLength]
    | succ fuel ih =>
      intro x y
      unfold runLength
      split_ifs
      · have := ih (x + dx) (y + dy); omega
      · omega
  have h1 : hRun f n x y = false := by
    have := hle 1 0 width_ x y
    have hw : width_ = 10 := rfl
    have hne : runLength f 1 0 width_ x y ≠ n := by omega
    simp [hRun, hne]
  have h2 : vRun f n x y = false := by
    have := hle 0 1 height_ x y
    have hw : height_ = 10 := rfl
    have hne : runLength f 0 1 height_ x y ≠ n := by omega
    simp [vRun, hne]
  have hn1 : n ≠ 1 := by omega
  simp [runsAt, h1, h2, hn1]

set_option maxRecDepth 100000 in
theorem generatedField_length : generatedField.fieldState_.length = 100 := by
  decide

set_option maxRecDepth 100000 in
theorem generatedField_drawLength : generatedField.fieldDraw_.length = 100 := by
  decide

set_option maxRecDepth 100000 in
theorem generatedField_EU :
    ∀ c, c ∈ generatedField.fieldState_ → c = CL_ST_EMPTY ∨ c = CL_ST_UNDEFINED := by
  decide

set_option maxRecDepth 100000 in
theorem generatedField_occ :
    occupied generatedField 0 0 = true ∧ occupied generatedField 1 0 = true := by
  decide

set_option maxRecDepth 100000 in
theorem generatedField_str :
    getStateFieldStr generatedField = ("8888088800" ++ "0000000000" ++ "8880880880" ++
      "0000000000" ++ "8808080808" ++ "0000000000" ++ "0000000000" ++ "0000000000" ++
      "0000000000" ++ "0000000000").toList := by
  decide

/-- C1, at the layout of `Field::generate`. -/
theorem isCorrect_sound_witness :
    isCorrect generatedField = some (true, generatedField) ∧
    runCount generatedField 1 = 4 ∧ runCount generatedField 2 = 3 ∧
    runCount generatedField 3 = 2 ∧ runCount generatedField 4 = 1 :=
  have h := isCorrect_sound generatedField generatedField_length generatedField_EU
    isCorrect_generatedField
  ⟨isCorrect_generatedField, h.1, h.2.1, h.2.2.1, h.2.2.2.1⟩

/-- C2. Completeness of `Field::isCorrect`: on a board of 100 cells, each
`CL_ST_EMPTY` or `CL_ST_UNDEFINED`, without diagonal neighbours among the
occupied cells and whose maximal straight runs are exactly 4 of length 1, 3 of
length 2, 2 of length 3 and 1 of length 4, `isCorrect()` returns true. -/
theorem isCorrect_complete (f : Field) (hlen : f.fieldState_.length = 100)
    (hEU : ∀ c, c ∈ f.fieldState_ → c = CL_ST_EMPTY ∨ c = CL_ST_UNDEFINED)
    (hdiag : noDiagonalContact f)
    (h1 : runCount f 1 = 4) (h2 : runCount f 2 = 3) (h3 : runCount f 3 = 2)
    (h4 : runCount f 4 = 1)
    (hother : ∀ n, n ≠ 1 → n ≠ 2 → n ≠ 3 → n ≠ 4 → runCount f n = 0) :
    isCorrect f = some (true, f) := by
  obtain ⟨r, hr, hiff⟩ := isCorrect_EU f hlen hEU
  have hrt : r = true :=
    hiff.2 ⟨hdiag, fun n hn => hother n (by omega) (by omega) (by omega) (by omega), h1, h2, h3, h4⟩
  rw [hr, hrt]

/-- C3. The layout of `Field::generate` is valid: after `generate()`, from any
field, `isCorrect()` returns true. -/
theorem generate_isCorrect (f : Field) :
    ∃ g, generate f = some g ∧
      getStateFieldStr g = ("8888088800" ++ "0000000000" ++ "8880880880" ++ "0000000000" ++
        "8808080808" ++ "0000000000" ++ "0000000000" ++ "0000000000" ++ "0000000000" ++
        "0000000000").toList ∧
      isCorrect g = some (true, g) :=
  ⟨generatedField, generate_eq f, generatedField_str, isCorrect_generatedField⟩

/-- C4. Diagonal rejection: on a board of 100 cells with any labels, if two
non-empty cells are diagonal neighbours then `isCorrect()` returns false. -/
theorem isCorrect_diagonal (f : Field) (hlen : f.fieldState_.length = 100)
    (x1 y1 x2 y2 : Nat) (h1 : occupied f x1 y1 = true) (h2 : occupied f x2 y2 = true)
    (hx : x1 + 1 = x2 ∨ x2 + 1 = x1) (hy : y1 + 1 = y2 ∨ y2 + 1 = y1) :
    isCorrect f = some (false, f) := by
  obtain ⟨b0, hwb, hC⟩ := withBorders_copy f hlen
  unfold isCorrect
  rw [hwb]
  rcases CheckDiagonalCollisions_spec b0 hC.len with ⟨_, hD⟩ | ⟨hd, _⟩
  · exact absurd (hC.noDiag_iff.1 hD x1 y1 x2 y2 h1 h2 hx hy) id
  · simp only [hd]

/-- C4, at a board whose cells (0, 0) and (1, 1) carry `CL_ST_CENTER` and
`CL_ST_TOP`. -/
theorem isCorrect_diagonal_witness :
    isCorrect diagonalField = some (false, diagonalField) :=
  isCorrect_diagonal diagonalField (by decide) 0 0 1 1 (by decide) (by decide)
    (Or.inl rfl) (Or.inl rfl)


theorem diagonalFree_iff (f : Field) : diagonalFree f = true ↔ noDiagonalContact f := by
  have hb : ∀ x y, occupied f x y = true → x < 10 ∧ y < 10 := by
    intro x y h
    simp [occupied] at h
    exact ⟨h.1, h.2.1⟩
  unfold diagonalFree
  simp only [List.all_eq_true, List.mem_range, Bool.or_eq_true, Bool.not_eq_true',
    Bool.and_eq_true, Bool.and_eq_false_imp, decide_eq_true_eq]
  constructor
  · intro h x1 y1 x2 y2 h1 h2 hx hy
    have b1 := hb _ _ h1
    have b2 := hb _ _ h2
    rcases hy with hy | hy
    · subst hy
      rcases h y1 b1.2 x1 b1.1 with h' | ⟨h', h''⟩
      · rw [h1] at h'; exact absurd h' (by decide)
      · rcases hx with hx | hx
        · subst hx; rw [h2] at h'; exact absurd h' (by decide)
        · subst hx
          have := h'' (by omega)
          rw [Nat.add_sub_cancel, h2] at this
          exact absurd this (by decide)
    · subst hy
      rcases h y2 b2.2 x2 b2.1 with h' | ⟨h', h''⟩
      · rw [h2] at h'; exact absurd h' (by decide)
      · rcases hx with hx | hx
        · subst hx
          have := h'' (by omega)
          rw [Nat.add_sub_cancel, h1] at this
          exact absurd this (by decide)
        · subst hx; rw [h1] at h'; exact absurd h' (by decide)
  · intro h y _ x _
    by_cases ho : occupied f x y = true
    · right
      refine ⟨?_, fun hx => ?_⟩
      · by_contra h'
        exact h x y (x + 1) (y + 1) ho (by simpa using h') (Or.inl rfl) (Or.inl rfl)
      · by_contra h'
        exact h x y (x - 1) (y + 1) ho (by simpa using h') (Or.inr (by omega)) (Or.inl rfl)
    · left; simpa using ho

set_option maxRecDepth 100000 in
theorem edgeField_facts :
    edgeField.fieldState_.length = 100 ∧
    (∀ c, c ∈ edgeField.fieldState_ → c = CL_ST_EMPTY ∨ c = CL_ST_UNDEFINED) ∧
    diagonalFree edgeField = true ∧
    runCount edgeField 1 = 4 ∧ runCount edgeField 2 = 3 ∧ runCount edgeField 3 = 2 ∧
    runCount edgeField 4 = 1 ∧
    (∀ n, n < 11 → n ≠ 1 → n ≠ 2 → n ≠ 3 → n ≠ 4 → runCount edgeField n = 0) := by
  refine ⟨?_, ?_, ?_, ?_, ?_, ?_, ?_, ?_⟩ <;> decide

/-- C2, at a board with ships against the edges and in the corners. -/
theorem isCorrect_complete_witness : isCorrect edgeField = some (true, edgeField) :=
  isCorrect_complete edgeField edgeField_facts.1 edgeField_facts.2.1
    ((diagonalFree_iff edgeField).1 edgeField_facts.2.2.1)
    edgeField_facts.2.2.2.1 edgeField_facts.2.2.2.2.1 edgeField_facts.2.2.2.2.2.1
    edgeField_facts.2.2.2.2.2.2.1
    (fun n n1 n2 n3 n4 =>
      if h : n < 11 then edgeField_facts.2.2.2.2.2.2.2 n h n1 n2 n3 n4
      else runCount_large edgeField n (by omega))

theorem exists_run_start (o : Nat → Bool) :
    ∀ j, o j = true →
      ∃ i, i ≤ j ∧ (∀ m, i ≤ m → m ≤ j → o m = true) ∧ (i = 0 ∨ o (i - 1) = false) := by
  intro j
  induction j with
  | zero =>
    intro h0
    exact ⟨0, Nat.le_refl 0, fun m h1 h2 => by
      have : m = 0 := by omega
      subst this; exact h0, Or.inl rfl⟩
  | succ j ih =>
    intro hj
    by_cases hp : o j = true
    · obtain ⟨i, hi, hcells, hprev⟩ := ih hp
      refine ⟨i, by omega, fun m h1 h2 => ?_, hprev⟩
      by_cases hm : m = j + 1
      · subst hm; exact hj
      · exact hcells m h1 (by omega)
    · refine ⟨j + 1, Nat.le_refl _, fun m h1 h2 => ?_, Or.inr ?_⟩
      · have : m = j + 1 := by omega
        subst this; exact hj
      · simpa using hp

theorem runCount_pos_of_five (f : Field) (x y : Nat)
    (h : (∀ d, d < 5 → occupied f (x + d) y = true) ∨
         (∀ d, d < 5 → occupied f x (y + d) = true)) :
    ∃ n, 5 ≤ n ∧ 0 < runCount f n := by
  have hb : ∀ x y, occupied f x y = true → x < 10 ∧ y < 10 :=
    fun x y h => ⟨((occupied_iff f x y).1 h).1, ((occupied_iff f x y).1 h).2.1⟩
  rcases h with h | h
  · obtain ⟨i, hi, hcells, hprev⟩ :=
      exists_run_start (fun j => occupied f j y) x (by simpa using h 0 (by omega))
    have hx4 := (hb _ _ (h 4 (by omega))).1
    have hiy := hb _ _ (hcells i (Nat.le_refl i) hi)
    have hall : ∀ m, m < x + 5 - i → occupied f (i + 1 * m) (y + 0 * m) = true := by
      intro m hm
      rw [Nat.zero_mul, Nat.add_zero, Nat.one_mul]
      by_cases hmx : i + m ≤ x
      · exact hcells (i + m) (by omega) hmx
      · have := h (i + m - x) (by omega)
        rwa [show x + (i + m - x) = i + m by omega] at this
    have hge := runLength_ge f 1 0 (x + 5 - i) width_ i y hall
      (by simp only [width_, FIELD_WIDTH_DEFAULT]; omega)
    refine ⟨runLength f 1 0 width_ i y, by omega, (runCount_pos_iff f _).2
      ⟨i, y, hiy.1, hiy.2, (runsAt_pos_iff f _ i y (by omega)).2 (Or.inl ?_)⟩⟩
    unfold hRun
    have h0 : occupied f i y = true := hcells i (Nat.le_refl i) hi
    rcases hprev with rfl | hprev
    · simp [h0]
    · have hprev' : occupied f (i - 1) y = false := hprev
      simp [h0, hprev']
  · obtain ⟨i, hi, hcells, hprev⟩ :=
      exists_run_start (fun j => occupied f x j) y (by simpa using h 0 (by omega))
    have hy4 := (hb _ _ (h 4 (by omega))).2
    have hix := hb _ _ (hcells i (Nat.le_refl i) hi)
    have hall : ∀ m, m < y + 5 - i → occupied f (x + 0 * m) (i + 1 * m) = true := by
      intro m hm
      rw [Nat.zero_mul, Nat.add_zero, Nat.one_mul]
      by_cases hmy : i + m ≤ y
      · exact hcells (i + m) (by omega) hmy
      · have := h (i + m - y) (by omega)
        rwa [show y + (i + m - y) = i + m by omega] at this
    have hge := runLength_ge f 0 1 (y + 5 - i) height_ x i hall
      (by simp only [height_, FIELD_HEIGHT_DEFAULT]; omega)
    refine ⟨runLength f 0 1 height_ x i, by omega, (runCount_pos_iff f _).2
      ⟨x, i, hix.1, hix.2, (runsAt_pos_iff f _ x i (by omega)).2 (Or.inr ?_)⟩⟩
    unfold vRun
    have h0 : occupied f x i = true := hcells i (Nat.le_refl i) hi
    rcases hprev with rfl | hprev
    · simp [h0]
    · have hprev' : occupied f x (i - 1) = false := hprev
      simp [h0, hprev']

/-- C5. Run-length rejection: on a board of 100 cells, each `CL_ST_EMPTY` or
`CL_ST_UNDEFINED`, with 5 consecutive occupied cells in one row or in one
column, `isCorrect()` returns false, whether or not there is diagonal contact. -/
theorem isCorrect_long_run (f : Field) (hlen : f.fieldState_.length = 100)
    (hEU : ∀ c, c ∈ f.fieldState_ → c = CL_ST_EMPTY ∨ c = CL_ST_UNDEFINED)
    (x y : Nat)
    (h : (∀ d, d < 5 → occupied f (x + d) y = true) ∨
         (∀ d, d < 5 → occupied f x (y + d) = true)) :
    isCorrect f = some (false, f) := by
  obtain ⟨r, hr, hiff⟩ := isCorrect_EU f hlen hEU
  have hrf : r = false := by
    cases r with
    | false => rfl
    | true =>
      exfalso
      obtain ⟨_, hno, _⟩ := hiff.1 rfl
      obtain ⟨n, hn, hpos⟩ := runCount_pos_of_five f x y h
      have := hno n hn
      omega
  rw [hr, hrf]

/-- C5, at a board whose only occupied cells are (2, 3) to (6, 3): five in a
row and no diagonal contact. -/
theorem isCorrect_long_run_witness :
    noDiagonalContact fiveField ∧ isCorrect fiveField = some (false, fiveField) :=
  ⟨(diagonalFree_iff fiveField).1 (by decide),
    isCorrect_long_run fiveField (by decide) (by decide) 2 3 (Or.inl (by decide))⟩

/-- C6. Ships never touch on an accepted board: on a board of 100 cells, each
`CL_ST_EMPTY` or `CL_ST_UNDEFINED`, for which `isCorrect()` returns true, two
different occupied cells that are neighbours by an edge or by a corner lie in one
straight run. -/
theorem accepted_ships_never_touch (f : Field) (hlen : f.fieldState_.length = 100)
    (hEU : ∀ c, c ∈ f.fieldState_ → c = CL_ST_EMPTY ∨ c = CL_ST_UNDEFINED)
    (h : isCorrect f = some (true, f))
    (x1 y1 x2 y2 : Nat) (h1 : occupied f x1 y1 = true) (h2 : occupied f x2 y2 = true)
    (hx : x1 ≤ x2 + 1 ∧ x2 ≤ x1 + 1) (hy : y1 ≤ y2 + 1 ∧ y2 ≤ y1 + 1)
    (hne : x1 ≠ x2 ∨ y1 ≠ y2) :
    sameRun f x1 y1 x2 y2 := by
  obtain ⟨r, hr, hiff⟩ := isCorrect_EU f hlen hEU
  rw [h] at hr
  have hrt : r = true := (congrArg Prod.fst (Option.some.inj hr)).symm
  obtain ⟨hN, _⟩ := hiff.1 hrt
  by_cases hxe : x1 = x2
  · subst hxe
    refine Or.inr ⟨rfl, fun y hmin hmax => ?_⟩
    have : y = y1 ∨ y = y2 := by
      rcases Nat.le_total y1 y2 with hle | hle
      · rw [Nat.min_eq_left hle] at hmin; rw [Nat.max_eq_right hle] at hmax; omega
      · rw [Nat.min_eq_right hle] at hmin; rw [Nat.max_eq_left hle] at hmax; omega
    rcases this with rfl | rfl
    · exact h1
    · exact h2
  · by_cases hye : y1 = y2
    · subst hye
      refine Or.inl ⟨rfl, fun x hmin hmax => ?_⟩
      have : x = x1 ∨ x = x2 := by
        rcases Nat.le_total x1 x2 with hle | hle
        · rw [Nat.min_eq_left hle] at hmin; rw [Nat.max_eq_right hle] at hmax; omega
        · rw [Nat.min_eq_right hle] at hmin; rw [Nat.max_eq_left hle] at hmax; omega
      rcases this with rfl | rfl
      · exact h1
      · exact h2
    · exact absurd (hN x1 y1 x2 y2 h1 h2 (by omega) (by omega)) id

/-- C6, at the cells (0, 0) and (1, 0) of the layout of `Field::generate`. -/
theorem accepted_ships_never_touch_witness :
    isCorrect generatedField = some (true, generatedField) ∧ sameRun generatedField 0 0 1 0 :=
  ⟨isCorrect_generatedField,
    accepted_ships_never_touch generatedField generatedField_length generatedField_EU
      isCorrect_generatedField 0 0 1 0 generatedField_occ.1 generatedField_occ.2
      ⟨by decide, by decide⟩ ⟨by decide, by decide⟩ (Or.inl (by decide))⟩

/-- C9. Validation has no effect on the board: on a field of 100 placement
cells, with any labels, `isCorrect()` returns and leaves the placement state and
the draw state as they were. -/
theorem isCorrect_no_effect (f : Field) (hlen : f.fieldState_.length = 100) :
    ∃ r g, isCorrect f = some (r, g) ∧ g.fieldState_ = f.fieldState_ ∧
      g.fieldDraw_ = f.fieldDraw_ := by
  obtain ⟨r, hr⟩ := isCorrect_total f hlen
  exact ⟨r, f, hr, rfl, rfl⟩

/-- C9, at a board with the labels `CL_ST_CENTER` and `CL_ST_TOP`. -/
theorem isCorrect_no_effect_witness :
    ∃ r g, isCorrect diagonalField = some (r, g) ∧
      g.fieldState_ = diagonalField.fieldState_ ∧ g.fieldDraw_ = diagonalField.fieldDraw_ :=
  isCorrect_no_effect diagonalField (by decide)

/-! ## The number of occupied cells -/

theorem sumBelow_add (n : Nat) (g h : Nat → Nat) :
    sumBelow n (fun i => g i + h i) = sumBelow n g + sumBelow n h := by
  induction n with
  | zero => rfl
  | succ n ih => simp only [sumBelow, ih]; omega

theorem sumBelow_mul (n c : Nat) (g : Nat → Nat) :
    sumBelow n (fun i => c * g i) = c * sumBelow n g := by
  induction n with
  | zero => rfl
  | succ n ih => simp only [sumBelow, ih, Nat.mul_add]

theorem sumBelow_comm (n m : Nat) (g : Nat → Nat → Nat) :
    sumBelow n (fun i => sumBelow m (fun j => g i j))
      = sumBelow m (fun j => sumBelow n (fun i => g i j)) := by
  induction n with
  | zero =>
    simp only [sumBelow]
    exact (sumBelow_zero m _ (fun _ _ => rfl)).symm
  | succ n ih =>
    simp only [sumBelow, ih]
    rw [← sumBelow_add]

theorem sumBelow_append (a b : Nat) (g : Nat → Nat) :
    sumBelow (a + b) g = sumBelow a g + sumBelow b (fun i => g (a + i)) := by
  induction b with
  | zero => rfl
  | succ b ih =>
    rw [← Nat.add_assoc, sumBelow, ih, sumBelow]
    omega

theorem sumBelow_rows (w k : Nat) (g : Nat → Nat) :
    sumBelow (w * k) g = sumBelow k (fun y => sumBelow w (fun x => g (w * y + x))) := by
  induction k with
  | zero => rfl
  | succ k ih =>
    rw [Nat.mul_succ, sumBelow_append, ih, sumBelow]

theorem countP_eq_sumBelow (p : CellState → Bool) (l : List CellState) :
    l.countP p = sumBelow l.length (fun i => if p (cellAt l i) then 1 else 0) := by
  induction l with
  | nil => rfl
  | cons a l ih =>
    rw [List.length_cons, sumBelow_succ', List.countP_cons, ih]
    have h0 : cellAt (a :: l) 0 = a := rfl
    have hs : ∀ i, cellAt (a :: l) (i + 1) = cellAt l i := fun i => rfl
    simp only [h0, hs]
    omega

theorem runLen_shift (o : Nat → Bool) :
    ∀ fuel i, runLen (fun j => o (j + 1)) fuel i = runLen o fuel (i + 1) := by
  intro fuel
  induction fuel with
  | zero => intro i; rfl
  | succ fuel ih => intro i; simp only [runLen, ih]

theorem runLen_fuel (o : Nat → Bool) (N : Nat) (hN : ∀ j, N ≤ j → o j = false) :
    ∀ fuel i, N ≤ i + fuel → runLen o fuel i = runLen o (N - i) i := by
  intro fuel
  induction fuel with
  | zero =>
    intro i hi
    rw [show N - i = 0 by omega]
  | succ fuel ih =>
    intro i hi
    by_cases ho : o i = true
    · have hiN : i < N := by
        by_contra h
        rw [hN i (by omega)] at ho
        exact absurd ho (by decide)
      rw [show N - i = (N - (i + 1)) + 1 by omega]
      simp only [runLen, ho, if_true]
      rw [ih (i + 1) (by omega)]
    · have ho' : o i = false := by simpa using ho
      rcases Nat.eq_zero_or_pos (N - i) with h0 | hpos
      · rw [h0]; simp [runLen, ho']
      · obtain ⟨k, hk⟩ : ∃ k, N - i = k + 1 := ⟨N - i - 1, by omega⟩
        rw [hk]; simp [runLen, ho']

/-- The cells of a row are as many as the lengths of its maximal runs together. -/
theorem sum_runs : ∀ (n : Nat) (o : Nat → Bool),
    sumBelow n (fun i => if o i then 1 else 0)
      = sumBelow n (fun i =>
          if o i && !(decide (0 < i) && o (i - 1)) then runLen o (n - i) i else 0) := by
  intro n
  induction n with
  | zero => intro o; rfl
  | succ n ih =>
    intro o
    rw [sumBelow_succ', sumBelow_succ', ih (fun j => o (j + 1))]
    simp only [Nat.lt_irrefl, decide_False, Bool.false_and, Bool.not_false, Bool.and_true,
      Nat.sub_zero, Nat.add_sub_cancel, Nat.succ_sub_succ_eq_sub, Nat.zero_lt_succ, decide_True,
      Bool.true_and, runLen_shift]
    cases n with
    | zero =>
      simp only [sumBelow]
      cases h0 : o 0 <;> simp [runLen, h0]
    | succ n =>
      rw [sumBelow_succ', sumBelow_succ']
      simp only [Nat.lt_irrefl, decide_False, Bool.false_and, Bool.not_false, Bool.and_true,
        Nat.sub_zero, Nat.add_sub_cancel, Nat.zero_lt_succ, decide_True, Bool.true_and,
        Nat.zero_add]
      cases h0 : o 0 <;> cases h1 : o 1 <;> simp [runLen, h0, h1]
      omega


theorem runLength_h (f : Field) (y : Nat) :
    ∀ fuel x, runLength f 1 0 fuel x y = runLen (fun i => occupied f i y) fuel x := by
  intro fuel
  induction fuel with
  | zero => intro x; rfl
  | succ fuel ih => intro x; simp only [runLength, runLen, ih, Nat.add_zero]

theorem runLength_v (f : Field) (x : Nat) :
    ∀ fuel y, runLength f 0 1 fuel x y = runLen (fun j => occupied f x j) fuel y := by
  intro fuel
  induction fuel with
  | zero => intro y; rfl
  | succ fuel ih => intro y; simp only [runLength, runLen, ih, Nat.add_zero]

theorem row_sum (f : Field) (y : Nat) :
    sumBelow 10 (fun x => if occupied f x y then 1 else 0)
      = sumBelow 10 (fun x => hStartLen f x y) := by
  rw [sum_runs 10 (fun i => occupied f i y)]
  refine sumBelow_congr _ _ _ (fun x hx => ?_)
  unfold hStartLen
  rw [runLength_h, ← runLen_fuel (fun i => occupied f i y) 10
    (fun j hj => by
      cases h : occupied f j y
      · exact h
      · exact absurd ((occupied_iff f j y).1 h).1 (by omega)) 10 x (by omega)]

theorem col_sum (f : Field) (x : Nat) :
    sumBelow 10 (fun y => if occupied f x y then 1 else 0)
      = sumBelow 10 (fun y => vStartLen f x y) := by
  rw [sum_runs 10 (fun j => occupied f x j)]
  refine sumBelow_congr _ _ _ (fun y hy => ?_)
  unfold vStartLen
  rw [runLength_v, ← runLen_fuel (fun j => occupied f x j) 10
    (fun j hj => by
      cases h : occupied f x j
      · exact h
      · exact absurd ((occupied_iff f x j).1 h).2.1 (by omega)) 10 y (by omega)]

theorem hStartLen_eq (f : Field) (x y : Nat) (hshort : ∀ n, 5 ≤ n → hRun f n x y = false) :
    hStartLen f x y = (if hRun f 1 x y then 1 else 0) + 2 * (if hRun f 2 x y then 1 else 0)
      + 3 * (if hRun f 3 x y then 1 else 0) + 4 * (if hRun f 4 x y then 1 else 0) := by
  unfold hStartLen
  by_cases hs : (occupied f x y && !(decide (0 < x) && occupied f (x - 1) y)) = true
  · have hr : ∀ n, hRun f n x y = decide (runLength f 1 0 width_ x y = n) := by
      intro n; unfold hRun; rw [hs, Bool.true_and]
    have ho : occupied f x y = true := by
      rw [Bool.and_eq_true] at hs; exact hs.1
    have h1 : 1 ≤ runLength f 1 0 width_ x y := by
      show 1 ≤ runLength f 1 0 (9 + 1) x y
      simp [runLength, ho]
    have h4 : runLength f 1 0 width_ x y ≤ 4 := by
      by_contra hc
      have := hshort (runLength f 1 0 width_ x y) (by omega)
      rw [hr] at this
      simp at this
    simp only [hs, if_true, hr, decide_eq_true_eq]
    generalize runLength f 1 0 width_ x y = L at h1 h4
    interval_cases L <;> simp
  · have hr : ∀ n, hRun f n x y = false := by
      intro n; unfold hRun
      have : (occupied f x y && !(decide (0 < x) && occupied f (x - 1) y)) = false :=
        Bool.eq_false_iff.2 hs
      rw [this, Bool.false_and]
    rw [if_neg hs]
    simp [hr]

theorem vStartLen_eq (f : Field) (x y : Nat) (hshort : ∀ n, 5 ≤ n → vRun f n x y = false) :
    vStartLen f x y = (if vRun f 1 x y then 1 else 0) + 2 * (if vRun f 2 x y then 1 else 0)
      + 3 * (if vRun f 3 x y then 1 else 0) + 4 * (if vRun f 4 x y then 1 else 0) := by
  unfold vStartLen
  by_cases hs : (occupied f x y && !(decide (0 < y) && occupied f x (y - 1))) = true
  · have hr : ∀ n, vRun f n x y = decide (runLength f 0 1 height_ x y = n) := by
      intro n; unfold vRun; rw [hs, Bool.true_and]
    have ho : occupied f x y = true := by
      rw [Bool.and_eq_true] at hs; exact hs.1
    have h1 : 1 ≤ runLength f 0 1 height_ x y := by
      show 1 ≤ runLength f 0 1 (9 + 1) x y
      simp [runLength, ho]
    have h4 : runLength f 0 1 height_ x y ≤ 4 := by
      by_contra hc
      have := hshort (runLength f 0 1 height_ x y) (by omega)
      rw [hr] at this
      simp at this
    simp only [hs, if_true, hr, decide_eq_true_eq]
    generalize runLength f 0 1 height_ x y = L at h1 h4
    interval_cases L <;> simp
  · have hr : ∀ n, vRun f n x y = false := by
      intro n; unfold vRun
      have : (occupied f x y && !(decide (0 < y) && occupied f x (y - 1))) = false :=
        Bool.eq_false_iff.2 hs
      rw [this, Bool.false_and]
    rw [if_neg hs]
    simp [hr]


theorem hneighbour (f : Field) (x y : Nat) (ho : occupied f x y = true)
    (h : hRun f 1 x y = false) :
    ∃ x', (x' + 1 = x ∨ x + 1 = x') ∧ occupied f x' y = true := by
  by_cases hl : (decide (0 < x) && occupied f (x - 1) y) = true
  · rw [Bool.and_eq_true, decide_eq_true_eq] at hl
    exact ⟨x - 1, Or.inl (by omega), hl.2⟩
  · have hl' : (decide (0 < x) && occupied f (x - 1) y) = false := Bool.eq_false_iff.2 hl
    unfold hRun at h
    rw [ho, hl', Bool.true_and, Bool.not_false, Bool.true_and, decide_eq_false_iff_not] at h
    refine ⟨x + 1, Or.inr rfl, ?_⟩
    by_contra hc
    apply h
    show runLength f 1 0 (8 + 1 + 1) x y = 1
    simp [runLength, ho, hc]

theorem vneighbour (f : Field) (x y : Nat) (ho : occupied f x y = true)
    (h : vRun f 1 x y = false) :
    ∃ y', (y' + 1 = y ∨ y + 1 = y') ∧ occupied f x y' = true := by
  by_cases hl : (decide (0 < y) && occupied f x (y - 1)) = true
  · rw [Bool.and_eq_true, decide_eq_true_eq] at hl
    exact ⟨y - 1, Or.inl (by omega), hl.2⟩
  · have hl' : (decide (0 < y) && occupied f x (y - 1)) = false := Bool.eq_false_iff.2 hl
    unfold vRun at h
    rw [ho, hl', Bool.true_and, Bool.not_false, Bool.true_and, decide_eq_false_iff_not] at h
    refine ⟨y + 1, Or.inr rfl, ?_⟩
    by_contra hc
    apply h
    show runLength f 0 1 (8 + 1 + 1) x y = 1
    simp [runLength, ho, hc]

theorem single_count (f : Field) (hN : noDiagonalContact f) (x y : Nat) :
    (if hRun f 1 x y then 1 else 0) + (if vRun f 1 x y then 1 else 0)
      = (if occupied f x y then 1 else 0) + runsAt f 1 x y := by
  unfold runsAt
  simp only [if_true]
  by_cases ho : occupied f x y = true
  · have hor : hRun f 1 x y = true ∨ vRun f 1 x y = true := by
      by_contra hc
      rw [not_or, Bool.not_eq_true, Bool.not_eq_true] at hc
      obtain ⟨x', hx', hox⟩ := hneighbour f x y ho hc.1
      obtain ⟨y', hy', hoy⟩ := vneighbour f x y ho hc.2
      exact hN x' y x y' hox hoy hx' (by omega)
    cases hh : hRun f 1 x y <;> cases hv : vRun f 1 x y <;> simp [ho]
    rw [hh, hv] at hor
    simp at hor
  · have ho' : occupied f x y = false := Bool.eq_false_iff.2 ho
    have h1 : hRun f 1 x y = false := by unfold hRun; rw [ho']; rfl
    have h2 : vRun f 1 x y = false := by unfold vRun; rw [ho']; rfl
    simp [ho', h1, h2]

theorem cell_count (f : Field) (hN : noDiagonalContact f)
    (hno : ∀ n, 5 ≤ n → runCount f n = 0) (x y : Nat) (hx : x < 10) (hy : y < 10) :
    hStartLen f x y + vStartLen f x y
      = (if occupied f x y then 1 else 0) + runsAt f 1 x y + 2 * runsAt f 2 x y
        + 3 * runsAt f 3 x y + 4 * runsAt f 4 x y := by
  have hshort : ∀ n, 5 ≤ n → hRun f n x y = false ∧ vRun f n x y = false := by
    intro n hn
    have h0 := hno n hn
    have : ¬ 0 < runsAt f n x y := by
      intro hpos
      have := (runCount_pos_iff f n).2 ⟨x, y, hx, hy, hpos⟩
      omega
    rw [runsAt_pos_iff f n x y (by omega), not_or, Bool.not_eq_true, Bool.not_eq_true] at this
    exact this
  rw [hStartLen_eq f x y (fun n hn => (hshort n hn).1),
    vStartLen_eq f x y (fun n hn => (hshort n hn).2)]
  have h1 := single_count f hN x y
  have h2 : runsAt f 2 x y = (if hRun f 2 x y then 1 else 0) + (if vRun f 2 x y then 1 else 0) := by
    simp [runsAt]
  have h3 : runsAt f 3 x y = (if hRun f 3 x y then 1 else 0) + (if vRun f 3 x y then 1 else 0) := by
    simp [runsAt]
  have h4 : runsAt f 4 x y = (if hRun f 4 x y then 1 else 0) + (if vRun f 4 x y then 1 else 0) := by
    simp [runsAt]
  rw [h2, h3, h4]
  omega

theorem countP_eq_occupiedCount (f : Field) (hlen : f.fieldState_.length = 100) :
    f.fieldState_.countP (fun c => decide (c ≠ CL_ST_EMPTY)) = occupiedCount f := by
  rw [countP_eq_sumBelow, hlen, show (100 : Nat) = 10 * 10 from rfl, sumBelow_rows]
  unfold occupiedCount
  refine sumBelow_congr _ _ _ (fun y hy => sumBelow_congr _ _ _ (fun x hx => ?_))
  have hx' : x < 10 := hx
  have hy' : y < 10 := hy
  simp [occupied, hx', hy']

theorem occupiedCount_eq (f : Field) (hN : noDiagonalContact f)
    (hno : ∀ n, 5 ≤ n → runCount f n = 0) :
    occupiedCount f = runCount f 1 + 2 * runCount f 2 + 3 * runCount f 3 + 4 * runCount f 4 := by
  have hrow : occupiedCount f
      = sumBelow 10 (fun y => sumBelow 10 (fun x => hStartLen f x y)) :=
    sumBelow_congr _ _ _ (fun y _ => row_sum f y)
  have hcol : occupiedCount f
      = sumBelow 10 (fun y => sumBelow 10 (fun x => vStartLen f x y)) := by
    unfold occupiedCount
    rw [sumBelow_comm, sumBelow_comm 10 10 (fun y x => vStartLen f x y)]
    exact sumBelow_congr _ _ _ (fun x _ => col_sum f x)
  have hsum : sumBelow 10 (fun y => sumBelow 10 (fun x => hStartLen f x y + vStartLen f x y))
      = occupiedCount f + (runCount f 1 + 2 * runCount f 2 + 3 * runCount f 3
          + 4 * runCount f 4) := by
    rw [sumBelow_congr 10 _
      (fun y => sumBelow 10 (fun x => if occupied f x y then 1 else 0)
        + sumBelow 10 (fun x => runsAt f 1 x y)
        + 2 * sumBelow 10 (fun x => runsAt f 2 x y)
        + 3 * sumBelow 10 (fun x => runsAt f 3 x y)
        + 4 * sumBelow 10 (fun x => runsAt f 4 x y))
      (fun y hy => by
        rw [sumBelow_congr 10 _ _ (fun x hx => cell_count f hN hno x y hx hy)]
        simp only [sumBelow_add, sumBelow_mul])]
    simp only [sumBelow_add, sumBelow_mul, occupiedCount, runCount, width_, height_,
      FIELD_WIDTH_DEFAULT, FIELD_HEIGHT_DEFAULT]
    omega
  have hsum' : sumBelow 10 (fun y => sumBelow 10 (fun x => hStartLen f x y + vStartLen f x y))
      = occupiedCount f + occupiedCount f := by
    rw [sumBelow_congr 10 _
      (fun y => sumBelow 10 (fun x => hStartLen f x y) + sumBelow 10 (fun x => vStartLen f x y))
      (fun y _ => sumBelow_add 10 _ _), sumBelow_add, ← hrow, ← hcol]
  omega


/-- C7. Deck total: on a board of 100 cells, each `CL_ST_EMPTY` or
`CL_ST_UNDEFINED`, for which `isCorrect()` returns true, exactly 20 cells are
occupied. -/
theorem accepted_deck_total (f : Field) (hlen : f.fieldState_.length = 100)
    (hEU : ∀ c, c ∈ f.fieldState_ → c = CL_ST_EMPTY ∨ c = CL_ST_UNDEFINED)
    (h : isCorrect f = some (true, f)) :
    f.fieldState_.countP (fun c => decide (c ≠ CL_ST_EMPTY)) = 20 := by
  obtain ⟨r, hr, hiff⟩ := isCorrect_EU f hlen hEU
  rw [h] at hr
  have hrt : r = true := (congrArg Prod.fst (Option.some.inj hr)).symm
  obtain ⟨hN, hno, h1, h2, h3, h4⟩ := hiff.1 hrt
  rw [countP_eq_occupiedCount f hlen, occupiedCount_eq f hN hno, h1, h2, h3, h4]

/-- C7, at the layout of `Field::generate`. -/
theorem accepted_deck_total_witness :
    isCorrect generatedField = some (true, generatedField) ∧
    generatedField.fieldState_.countP (fun c => decide (c ≠ CL_ST_EMPTY)) = 20 :=
  ⟨isCorrect_generatedField,
    accepted_deck_total generatedField generatedField_length generatedField_EU
      isCorrect_generatedField⟩

/-! ## Occupancy, labels and the string encoding -/

set_option maxRecDepth 100000 in
theorem centerField_facts :
    centerField.fieldState_.length = 100 ∧ sameOccupancy generatedField centerField ∧
    isCorrect centerField = some (false, centerField) := by
  refine ⟨?_, ?_, ?_⟩ <;> decide


set_option maxRecDepth 100000 in
theorem generatedField_cell :
    (generatedField.fieldState_[24]?).map CellState.digit = some '8' ∧
    (generatedField.fieldDraw_[24]?).map CellDraw.digit = some '1' ∧
    generatedField.fieldDraw_[10 * 2 + 4]? = some CELL_LIVE := by
  refine ⟨?_, ?_, ?_⟩ <;> decide

theorem map_occupancy_inj : ∀ (l1 l2 : List CellState),
    (∀ c, c ∈ l1 → c = CL_ST_EMPTY ∨ c = CL_ST_UNDEFINED) →
    (∀ c, c ∈ l2 → c = CL_ST_EMPTY ∨ c = CL_ST_UNDEFINED) →
    l1.map (fun c => decide (c ≠ CL_ST_EMPTY)) = l2.map (fun c => decide (c ≠ CL_ST_EMPTY)) →
    l1 = l2 := by
  intro l1
  induction l1 with
  | nil =>
    intro l2 _ _ h
    cases l2 with
    | nil => rfl
    | cons b l2 => simp at h
  | cons a l1 ih =>
    intro l2 h1 h2 h
    cases l2 with
    | nil => simp at h
    | cons b l2 =>
      simp only [List.map_cons, List.cons.injEq] at h
      have hab : a = b := by
        rcases h1 a (List.mem_cons_self a l1) with ha | ha <;>
          rcases h2 b (List.mem_cons_self b l2) with hb | hb <;>
          simp [ha, hb] at h ⊢
      rw [hab, ih l2 (fun c hc => h1 c (List.mem_cons_of_mem a hc))
        (fun c hc => h2 c (List.mem_cons_of_mem b hc)) h.2]

theorem isCorrect_congr (f g : Field) (h : f.fieldState_ = g.fieldState_) :
    (isCorrect f).map Prod.fst = (isCorrect g).map Prod.fst := by
  unfold isCorrect
  rw [h]
  cases withBorders g.fieldState_ with
  | fault => rfl
  | ret b => rfl
  | next b0 =>
    simp only
    cases CheckDiagonalCollisions b0 with
    | none => rfl
    | some d =>
      cases d with
      | false => rfl
      | true =>
        simp only
        cases CheckLength b0 with
        | none => rfl
        | some p =>
          cases p with
          | none => rfl
          | some b' =>
            simp only
            cases shipNum 1 b' <;> cases shipNum 2 b' <;> cases shipNum 3 b' <;>
              cases shipNum 4 b' <;> rfl

/-- C8, as amended. On boards whose non-empty cells are all `CL_ST_UNDEFINED`
the validator is a function of occupancy only: two fields of 100 placement
cells, each `CL_ST_EMPTY` or `CL_ST_UNDEFINED`, with the same set of non-empty
cells get the same result from `isCorrect()`, whatever their draw states. -/
theorem isCorrect_occupancy_only (f g : Field)
    (hEUf : ∀ c, c ∈ f.fieldState_ → c = CL_ST_EMPTY ∨ c = CL_ST_UNDEFINED)
    (hEUg : ∀ c, c ∈ g.fieldState_ → c = CL_ST_EMPTY ∨ c = CL_ST_UNDEFINED)
    (h : sameOccupancy f g) :
    (isCorrect f).map Prod.fst = (isCorrect g).map Prod.fst :=
  isCorrect_congr f g (map_occupancy_inj _ _ hEUf hEUg h)

set_option maxRecDepth 100000 in
theorem undrawnField_facts :
    undrawnField.fieldState_.length = 100 ∧
    (∀ c, c ∈ undrawnField.fieldState_ → c = CL_ST_EMPTY ∨ c = CL_ST_UNDEFINED) ∧
    sameOccupancy generatedField undrawnField ∧
    generatedField.fieldDraw_ ≠ undrawnField.fieldDraw_ := by
  refine ⟨?_, ?_, ?_, ?_⟩ <;> decide

/-- C8 as amended, at the layout of `Field::generate` with two different draw
states. -/
theorem isCorrect_occupancy_only_witness :
    generatedField.fieldDraw_ ≠ undrawnField.fieldDraw_ ∧
    (isCorrect generatedField).map Prod.fst = (isCorrect undrawnField).map Prod.fst :=
  ⟨undrawnField_facts.2.2.2,
    isCorrect_occupancy_only generatedField undrawnField generatedField_EU
      undrawnField_facts.2.1 undrawnField_facts.2.2.1⟩

/-- C8 as stated fails: the layout of `Field::generate` is accepted with the
label `CL_ST_UNDEFINED` and rejected with the label `CL_ST_CENTER` on the same
cells. -/
theorem isCorrect_occupancy_only_counterexample :
    ¬ (∀ f g : Field, f.fieldState_.length = 100 → g.fieldState_.length = 100 →
        sameOccupancy f g → (isCorrect f).map Prod.fst = (isCorrect g).map Prod.fst) := by
  intro hall
  have h := hall generatedField centerField generatedField_length centerField_facts.1
    centerField_facts.2.1
  rw [isCorrect_generatedField, centerField_facts.2.2] at h
  exact absurd h (by decide)

theorem number_state (c : CellState) : QString.number c.toNat = [c.digit] := by
  cases c <;> rfl

theorem number_draw (c : CellDraw) : QString.number c.toNat = [c.digit] := by
  cases c <;> rfl

theorem getStateFieldStr_eq (f : Field) :
    getStateFieldStr f = f.fieldState_.map CellState.digit := by
  have key : ∀ (l : List CellState) (acc : List Char),
      l.foldl (fun result cell => result ++ QString.number cell.toNat) acc
        = acc ++ l.map CellState.digit := by
    intro l
    induction l with
    | nil => intro acc; simp
    | cons a l ih =>
      intro acc
      rw [List.foldl_cons, ih, number_state, List.map_cons, List.append_assoc]
      rfl
  unfold getStateFieldStr
  rw [key, List.nil_append]

theorem getDrawFieldStr_eq (f : Field) :
    getDrawFieldStr f = f.fieldDraw_.map CellDraw.digit := by
  have key : ∀ (l : List CellDraw) (acc : List Char),
      l.foldl (fun result cell => result ++ QString.number cell.toNat) acc
        = acc ++ l.map CellDraw.digit := by
    intro l
    induction l with
    | nil => intro acc; simp
    | cons a l ih =>
      intro acc
      rw [List.foldl_cons, ih, number_draw, List.map_cons, List.append_assoc]
      rfl
  unfold getDrawFieldStr
  rw [key, List.nil_append]

/-- C10. Field string encoding: `getStateFieldStr()` and `getDrawFieldStr()`
return one character per cell, character `k` being the decimal digit of the enum
ordinal of cell `k` (the tables `CellState.digit` and `CellDraw.digit`), and
for `x, y` in `0 .. 9` the cell `k = 10 * y + x` is the one that `getCell`,
`setDrawCell` and `setStateCell` address as `(x, y)`. -/
theorem field_string_encoding (f : Field) (x y : Nat) (hx : x < 10) (hy : y < 10) :
    (getStateFieldStr f).length = f.fieldState_.length ∧
    (getDrawFieldStr f).length = f.fieldDraw_.length ∧
    (∀ k : Nat, (getStateFieldStr f)[k]? = (f.fieldState_[k]?).map CellState.digit) ∧
    (∀ k : Nat, (getDrawFieldStr f)[k]? = (f.fieldDraw_[k]?).map CellDraw.digit) ∧
    (∀ c : CellState, c.digit = Nat.digitChar c.toNat) ∧
    (∀ c : CellDraw, c.digit = Nat.digitChar c.toNat) ∧
    getCell f x y = f.fieldDraw_[10 * y + x]? ∧
    (getCell f x y).map CellDraw.digit = (getDrawFieldStr f)[10 * y + x]? ∧
    (∀ c, 10 * y + x < f.fieldDraw_.length →
      setDrawCell f x y c = some { f with fieldDraw_ := f.fieldDraw_.set (10 * y + x) c }) ∧
    (∀ s, 10 * y + x < f.fieldState_.length →
      setStateCell f x y s = some { f with fieldState_ := f.fieldState_.set (10 * y + x) s }) := by
  have hguard : ((x : Int) ≥ 0 ∧ (y : Int) ≥ 0 ∧ (x : Int) < (width_ : Nat) ∧
      (y : Int) < (height_ : Nat)) := by
    simp only [width_, height_, FIELD_WIDTH_DEFAULT, FIELD_HEIGHT_DEFAULT]; omega
  have hidx : (((width_ : Nat) : Int) * (y : Int) + (x : Int)).toNat = 10 * y + x := by
    simp only [width_, FIELD_WIDTH_DEFAULT]; omega
  have hget : getCell f x y = f.fieldDraw_[10 * y + x]? := by
    unfold getCell
    rw [if_pos hguard, hidx]
  refine ⟨?_, ?_, ?_, ?_, ?_, ?_, hget, ?_, ?_, ?_⟩
  · rw [getStateFieldStr_eq, List.length_map]
  · rw [getDrawFieldStr_eq, List.length_map]
  · intro k; rw [getStateFieldStr_eq, List.getElem?_map]
  · intro k; rw [getDrawFieldStr_eq, List.getElem?_map]
  · intro c; cases c <;> rfl
  · intro c; cases c <;> rfl
  · rw [hget, getDrawFieldStr_eq, List.getElem?_map]
  · intro c hk
    unfold setDrawCell
    rw [if_pos hguard, hidx, if_pos hk]
  · intro s hk
    unfold setStateCell
    rw [if_pos hguard, hidx, if_pos hk]

/-- C10, at cell (4, 2) of the field that `Field::generate` leaves: index 24,
an occupied cell, digit `8` in the placement string and `1` in the draw string. -/
theorem field_string_encoding_witness :
    (getStateFieldStr generatedField)[24]? = some '8' ∧
    (getDrawFieldStr generatedField)[24]? = some '1' ∧
    getCell generatedField 4 2 = some CELL_LIVE :=
  have h := field_string_encoding generatedField 4 2 (by decide) (by decide)
  ⟨(h.2.2.1 24).trans generatedField_cell.1,
    (h.2.2.2.1 24).trans generatedField_cell.2.1,
    h.2.2.2.2.2.2.1.trans generatedField_cell.2.2⟩

/-! ## The string round trips -/

/-- The `QChar`s of a string whose characters are all below U+10000 are the
characters themselves. -/
theorem qchars_small (s : List Char) (hs : ∀ c, c ∈ s → c.toNat < 0x10000) :
    QString.qchars s = s.map (fun c => ({ unicode := c.toNat } : QChar)) := by
  induction s with
  | nil => rfl
  | cons c s ih =>
    have hc : QChar.ofChar c = [{ unicode := c.toNat }] := by
      unfold QChar.ofChar
      rw [if_pos (hs c (List.mem_cons_self c s))]
    show QChar.ofChar c ++ QString.qchars s = _
    rw [hc, ih (fun d hd => hs d (List.mem_cons_of_mem c hd))]
    rfl

theorem qchars_state_digits (l : List CellState) :
    QString.qchars (l.map CellState.digit) =
      l.map (fun c => ({ unicode := c.digit.toNat } : QChar)) := by
  rw [qchars_small, List.map_map]
  · rfl
  · intro c hc
    obtain ⟨st, _, rfl⟩ := List.mem_map.1 hc
    cases st <;> decide

theorem qchars_draw_digits (l : List CellDraw) :
    QString.qchars (l.map CellDraw.digit) =
      l.map (fun c => ({ unicode := c.digit.toNat } : QChar)) := by
  rw [qchars_small, List.map_map]
  · rfl
  · intro c hc
    obtain ⟨st, _, rfl⟩ := List.mem_map.1 hc
    cases st <;> decide

theorem setStateFieldLoop_digit (c : CellState) (rest : List QChar) (acc : List CellState) :
    setStateFieldLoop ({ unicode := c.digit.toNat } :: rest) acc =
      setStateFieldLoop rest (acc ++ [c]) := by
  cases c <;> rfl

theorem fieldDrawLoop_digit (c : CellDraw) (rest : List QChar) (acc : List CellDraw) :
    fieldDrawLoop ({ unicode := c.digit.toNat } :: rest) acc =
      fieldDrawLoop rest (acc ++ [c]) := by
  cases c <;> rfl

theorem setStateFieldLoop_map (l : List CellState) :
    ∀ acc, setStateFieldLoop (QString.qchars (l.map CellState.digit)) acc = acc ++ l := by
  rw [qchars_state_digits]
  induction l with
  | nil => intro acc; simp [setStateFieldLoop]
  | cons c l ih =>
    intro acc
    rw [List.map_cons, setStateFieldLoop_digit, ih, List.append_assoc]
    rfl

theorem fieldDrawLoop_map (l : List CellDraw) :
    ∀ acc, fieldDrawLoop (QString.qchars (l.map CellDraw.digit)) acc = acc ++ l := by
  rw [qchars_draw_digits]
  induction l with
  | nil => intro acc; simp [fieldDrawLoop]
  | cons c l ih =>
    intro acc
    rw [List.map_cons, fieldDrawLoop_digit, ih, List.append_assoc]
    rfl

/-- The draw string of a field has one `QChar` for each draw cell. -/
theorem size_draw_digits (l : List CellDraw) :
    QString.size (l.map CellDraw.digit) = l.length := by
  unfold QString.size
  rw [qchars_draw_digits, List.length_map]

/-- A character `'0' .. '8'` is the digit of a placement state. -/
theorem exists_state_of_digit (c : Char)
    (hc : c ∈ ['0', '1', '2', '3', '4', '5', '6', '7', '8']) :
    ∃ s : CellState, s.digit = c := by
  simp only [List.mem_cons, List.mem_singleton, List.not_mem_nil, or_false] at hc
  rcases hc with h | h | h | h | h | h | h | h | h
  · exact ⟨CL_ST_EMPTY, h.symm⟩
  · exact ⟨CL_ST_CENTER, h.symm⟩
  · exact ⟨CL_ST_TOP, h.symm⟩
  · exact ⟨CL_ST_BOTTOM, h.symm⟩
  · exact ⟨CL_ST_VMIDDLE, h.symm⟩
  · exact ⟨CL_ST_HMIDDLE, h.symm⟩
  · exact ⟨CL_ST_LEFT, h.symm⟩
  · exact ⟨CL_ST_RIGHT, h.symm⟩
  · exact ⟨CL_ST_UNDEFINED, h.symm⟩

theorem exists_states_of_digits (s : List Char)
    (hs : ∀ c, c ∈ s → c ∈ ['0', '1', '2', '3', '4', '5', '6', '7', '8']) :
    ∃ l : List CellState, l.map CellState.digit = s := by
  induction s with
  | nil => exact ⟨[], rfl⟩
  | cons c s ih =>
    obtain ⟨l, hl⟩ := ih (fun d hd => hs d (List.mem_cons_of_mem c hd))
    obtain ⟨st, hst⟩ := exists_state_of_digit c (hs c (List.mem_cons_self c s))
    exact ⟨st :: l, by rw [List.map_cons, hst, hl]⟩

/-- C11. Placement-string round trip: for a string `s` of characters
`'0' .. '8'`, `getStateFieldStr()` after `setStateField(s)` returns `s`; and on
every field `setStateField(getStateFieldStr())` changes nothing. -/
theorem state_string_round_trip (f : Field) (s : List Char)
    (hs : ∀ c, c ∈ s → c ∈ ['0', '1', '2', '3', '4', '5', '6', '7', '8']) :
    getStateFieldStr (setStateField f s) = s ∧
    setStateField f (getStateFieldStr f) = f := by
  constructor
  · obtain ⟨l, rfl⟩ := exists_states_of_digits s hs
    rw [getStateFieldStr_eq]
    show (setStateFieldLoop (QString.qchars (l.map CellState.digit)) []).map
      CellState.digit = _
    rw [setStateFieldLoop_map, List.nil_append]
  · show ({ f with fieldState_ := setStateFieldLoop (QString.qchars (getStateFieldStr f)) [] }
      : Field) = f
    rw [getStateFieldStr_eq, setStateFieldLoop_map, List.nil_append]

/-- C11, at the string `field_example` of `Field::generate` and the field that
`generate()` leaves. -/
theorem state_string_round_trip_witness :
    getStateFieldStr (setStateField generatedField field_example) = field_example ∧
    setStateField generatedField (getStateFieldStr generatedField) = generatedField :=
  state_string_round_trip generatedField field_example (by decide)

/-- C12. Draw-string round trip: on a field with 100 draw cells,
`fieldDrawFromStr(getDrawFieldStr())` is the draw vector and
`setDrawField(getDrawFieldStr())` changes nothing. -/
theorem draw_string_round_trip (f : Field) (hlen : f.fieldDraw_.length = 100) :
    fieldDrawFromStr (getDrawFieldStr f) = f.fieldDraw_ ∧
    setDrawField f (getDrawFieldStr f) = f := by
  have hl : QString.size (getDrawFieldStr f) = 100 := by
    rw [getDrawFieldStr_eq, size_draw_digits, hlen]
  constructor
  · unfold fieldDrawFromStr
    rw [if_neg (by rw [hl]; decide), getDrawFieldStr_eq, fieldDrawLoop_map, List.nil_append]
  · unfold setDrawField
    rw [if_neg (by rw [hl]; decide), getDrawFieldStr_eq, fieldDrawLoop_map, List.nil_append]

/-- C12, at the field that `generate()` leaves, whose draw state has 100 cells. -/
theorem draw_string_round_trip_witness :
    generatedField.fieldDraw_.length = 100 ∧
    fieldDrawFromStr (getDrawFieldStr generatedField) = generatedField.fieldDraw_ ∧
    setDrawField generatedField (getDrawFieldStr generatedField) = generatedField :=
  ⟨generatedField_drawLength, draw_string_round_trip generatedField generatedField_drawLength⟩

/-! ## Reading and writing one cell -/

/-- In range, the index `10 * y + x` of a cell is below 100 and determines the cell. -/
theorem cell_index (x y : Int) (hx : 0 ≤ x ∧ x < 10) (hy : 0 ≤ y ∧ y < 10) :
    (10 * y + x).toNat < 100 ∧
    ∀ x' y' : Int, 0 ≤ x' ∧ x' < 10 → 0 ≤ y' ∧ y' < 10 →
      (10 * y' + x').toNat = (10 * y + x).toNat → x' = x ∧ y' = y := by
  refine ⟨by omega, ?_⟩
  intro x' y' hx' hy' h
  omega

theorem in_range_iff (x y : Int) :
    (x ≥ 0 ∧ y ≥ 0 ∧ x < (width_ : Int) ∧ y < (height_ : Int)) ↔
      ((0 ≤ x ∧ x < 10) ∧ (0 ≤ y ∧ y < 10)) := by
  simp only [width_, height_, FIELD_WIDTH_DEFAULT, FIELD_HEIGHT_DEFAULT, Nat.cast_ofNat]
  omega

theorem getCell_in (f : Field) (x y : Int) (hx : 0 ≤ x ∧ x < 10) (hy : 0 ≤ y ∧ y < 10) :
    getCell f x y = f.fieldDraw_[(10 * y + x).toNat]? := by
  unfold getCell
  rw [if_pos ((in_range_iff x y).2 ⟨hx, hy⟩)]
  rfl

theorem getCell_out (f : Field) (x y : Int) (h : ¬ ((0 ≤ x ∧ x < 10) ∧ (0 ≤ y ∧ y < 10))) :
    getCell f x y = some CELL_EMPTY := by
  unfold getCell
  rw [if_neg (fun hh => h ((in_range_iff x y).1 hh))]

theorem setDrawCell_in (f : Field) (x y : Int) (c : CellDraw) (hx : 0 ≤ x ∧ x < 10)
    (hy : 0 ≤ y ∧ y < 10) (hlen : f.fieldDraw_.length = 100) :
    setDrawCell f x y c =
      some { f with fieldDraw_ := f.fieldDraw_.set (10 * y + x).toNat c } := by
  unfold setDrawCell
  rw [if_pos ((in_range_iff x y).2 ⟨hx, hy⟩)]
  have h : ((width_ : Int) * y + x).toNat < f.fieldDraw_.length := by
    rw [hlen]; exact (cell_index x y hx hy).1
  rw [if_pos h]
  rfl

theorem setStateCell_in (f : Field) (x y : Int) (s : CellState) (hx : 0 ≤ x ∧ x < 10)
    (hy : 0 ≤ y ∧ y < 10) (hlen : f.fieldState_.length = 100) :
    setStateCell f x y s =
      some { f with fieldState_ := f.fieldState_.set (10 * y + x).toNat s } := by
  unfold setStateCell
  rw [if_pos ((in_range_iff x y).2 ⟨hx, hy⟩)]
  have h : ((width_ : Int) * y + x).toNat < f.fieldState_.length := by
    rw [hlen]; exact (cell_index x y hx hy).1
  rw [if_pos h]
  rfl

theorem setCell_out (f : Field) (x y : Int) (c : CellDraw) (s : CellState)
    (h : ¬ ((0 ≤ x ∧ x < 10) ∧ (0 ≤ y ∧ y < 10))) :
    setDrawCell f x y c = some f ∧ setStateCell f x y s = some f := by
  unfold setDrawCell setStateCell
  rw [if_neg (fun hh => h ((in_range_iff x y).1 hh)),
    if_neg (fun hh => h ((in_range_iff x y).1 hh))]
  exact ⟨rfl, rfl⟩

/-- C14. `Field::getCell` on a field with 100 draw cells: for `0 <= x < 10` and
`0 <= y < 10` it returns the draw cell at index `10 * y + x`, and for every
other `(x, y)`, negative coordinates included, it returns `CELL_EMPTY`. -/
theorem getCell_spec (f : Field) (hlen : f.fieldDraw_.length = 100) (x y : Int) :
    (0 ≤ x ∧ x < 10 ∧ 0 ≤ y ∧ y < 10 →
      ∃ h : (10 * y + x).toNat < f.fieldDraw_.length,
        getCell f x y = some (f.fieldDraw_.get ⟨(10 * y + x).toNat, h⟩)) ∧
    (¬ (0 ≤ x ∧ x < 10 ∧ 0 ≤ y ∧ y < 10) → getCell f x y = some CELL_EMPTY) := by
  constructor
  · rintro ⟨h1, h2, h3, h4⟩
    have h : (10 * y + x).toNat < f.fieldDraw_.length := by
      rw [hlen]; exact (cell_index x y ⟨h1, h2⟩ ⟨h3, h4⟩).1
    refine ⟨h, ?_⟩
    rw [getCell_in f x y ⟨h1, h2⟩ ⟨h3, h4⟩, List.getElem?_eq_getElem h]
    rfl
  · intro h
    exact getCell_out f x y (fun hh => h ⟨hh.1.1, hh.1.2, hh.2.1, hh.2.2⟩)

/-- C14, at the field that `generate()` leaves: cell (0, 0) is read from index 0,
and (-1, 1), whose index would be 9, reads as `CELL_EMPTY`. -/
theorem getCell_spec_witness :
    generatedField.fieldDraw_.length = 100 ∧
    ((0 : Int) ≤ 0 ∧ (0 : Int) < 10 ∧ (0 : Int) ≤ 0 ∧ (0 : Int) < 10 →
      ∃ h : (10 * 0 + 0 : Int).toNat < generatedField.fieldDraw_.length,
        getCell generatedField 0 0 =
          some (generatedField.fieldDraw_.get ⟨(10 * 0 + 0 : Int).toNat, h⟩)) ∧
    getCell generatedField (-1) 1 = some CELL_EMPTY :=
  ⟨generatedField_drawLength, (getCell_spec generatedField generatedField_drawLength 0 0).1,
    (getCell_spec generatedField generatedField_drawLength (-1) 1).2 (by decide)⟩

/-- C15. Set/get law: on a field with 100 draw cells and in-range `(x, y)`,
`setDrawCell(x, y, c)` makes `getCell(x, y)` return `c`, leaves `getCell` of every
other in-range cell and the placement state unchanged; on a field with 100
placement cells `setStateCell(x, y, s)` sets placement cell `10 * y + x` to `s`,
changes no other placement cell and leaves the draw state unchanged. -/
theorem set_get_law (f : Field) (x y : Int) (hx : 0 ≤ x ∧ x < 10) (hy : 0 ≤ y ∧ y < 10)
    (c : CellDraw) (s : CellState) :
    (f.fieldDraw_.length = 100 →
      ∃ g, setDrawCell f x y c = some g ∧ getCell g x y = some c ∧
        (∀ x' y' : Int, 0 ≤ x' ∧ x' < 10 → 0 ≤ y' ∧ y' < 10 → ¬ (x' = x ∧ y' = y) →
          getCell g x' y' = getCell f x' y') ∧
        g.fieldState_ = f.fieldState_) ∧
    (f.fieldState_.length = 100 →
      ∃ g, setStateCell f x y s = some g ∧
        g.fieldState_.length = 100 ∧
        g.fieldState_[(10 * y + x).toNat]? = some s ∧
        (∀ k : Nat, k ≠ (10 * y + x).toNat → g.fieldState_[k]? = f.fieldState_[k]?) ∧
        g.fieldDraw_ = f.fieldDraw_) := by
  have hi := cell_index x y hx hy
  constructor
  · intro hlen
    refine ⟨_, setDrawCell_in f x y c hx hy hlen, ?_, ?_, rfl⟩
    · rw [getCell_in _ x y hx hy]
      exact List.getElem?_set_eq_of_lt _ (by rw [hlen]; exact hi.1)
    · intro x' y' hx' hy' hne
      rw [getCell_in _ x' y' hx' hy', getCell_in _ x' y' hx' hy']
      exact List.getElem?_set_ne (fun e => hne (hi.2 x' y' hx' hy' e.symm))
  · intro hlen
    refine ⟨_, setStateCell_in f x y s hx hy hlen, ?_, ?_, ?_, rfl⟩
    · show (f.fieldState_.set _ s).length = 100
      rw [List.length_set, hlen]
    · exact List.getElem?_set_eq_of_lt _ (by rw [hlen]; exact hi.1)
    · intro k hk
      exact List.getElem?_set_ne (fun e => hk e.symm)

/-- C15, at the field that `generate()` leaves and the cell (4, 2). -/
theorem set_get_law_witness :
    ((0 : Int) ≤ 4 ∧ (4 : Int) < 10) ∧ ((0 : Int) ≤ 2 ∧ (2 : Int) < 10) ∧
    (∃ g, setDrawCell generatedField 4 2 CELL_DAMAGED = some g ∧
        getCell g 4 2 = some CELL_DAMAGED ∧
        (∀ x' y' : Int, 0 ≤ x' ∧ x' < 10 → 0 ≤ y' ∧ y' < 10 → ¬ (x' = 4 ∧ y' = 2) →
          getCell g x' y' = getCell generatedField x' y') ∧
        g.fieldState_ = generatedField.fieldState_) ∧
    (∃ g, setStateCell generatedField 4 2 CL_ST_EMPTY = some g ∧
        g.fieldState_.length = 100 ∧
        g.fieldState_[(10 * 2 + 4 : Int).toNat]? = some CL_ST_EMPTY ∧
        (∀ k : Nat, k ≠ (10 * 2 + 4 : Int).toNat →
          g.fieldState_[k]? = generatedField.fieldState_[k]?) ∧
        g.fieldDraw_ = generatedField.fieldDraw_) :=
  ⟨by decide, by decide,
    (set_get_law generatedField 4 2 (by decide) (by decide) CELL_DAMAGED CL_ST_EMPTY).1
      generatedField_drawLength,
    (set_get_law generatedField 4 2 (by decide) (by decide) CELL_DAMAGED CL_ST_EMPTY).2
      generatedField_length⟩

/-- C16. Out-of-range writes: for `x < 0`, `y < 0`, `x >= 10` or `y >= 10`,
`setDrawCell(x, y, c)` and `setStateCell(x, y, s)` return with the field, draw
state and placement state, as it was. -/
theorem out_of_range_write (f : Field) (x y : Int) (c : CellDraw) (s : CellState)
    (h : x < 0 ∨ y < 0 ∨ x ≥ 10 ∨ y ≥ 10) :
    setDrawCell f x y c = some f ∧ setStateCell f x y s = some f :=
  setCell_out f x y c s (by omega)

/-- C16, at a write to (-1, 1), whose index would be that of cell (9, 0). -/
theorem out_of_range_write_witness :
    ((-1 : Int) < 0 ∨ (1 : Int) < 0 ∨ (-1 : Int) ≥ 10 ∨ (1 : Int) ≥ 10) ∧
    setDrawCell generatedField (-1) 1 CELL_DOT = some generatedField ∧
    setStateCell generatedField (-1) 1 CL_ST_UNDEFINED = some generatedField :=
  ⟨by decide, out_of_range_write generatedField (-1) 1 CELL_DOT CL_ST_UNDEFINED (by decide)⟩

/-! ## The turn states -/

/-- C19. Turn alternation: `Model::switchStep` takes `ST_MAKING_STEP` to
`ST_WAITING_STEP` and `ST_WAITING_STEP` to `ST_MAKING_STEP`, so a turn state never
stays; it leaves a model in any of the four other states as it is; it changes
neither field; applied twice it gives the model back. -/
theorem switchStep_alternates (m : Model) :
    switchStep { m with state_ := ST_MAKING_STEP } = { m with state_ := ST_WAITING_STEP } ∧
    switchStep { m with state_ := ST_WAITING_STEP } = { m with state_ := ST_MAKING_STEP } ∧
    (switchStep { m with state_ := ST_MAKING_STEP }).state_ ≠ ST_MAKING_STEP ∧
    (switchStep { m with state_ := ST_WAITING_STEP }).state_ ≠ ST_WAITING_STEP ∧
    switchStep { m with state_ := ST_GAME_NSTARTED } = { m with state_ := ST_GAME_NSTARTED } ∧
    switchStep { m with state_ := ST_PLACING_SHIPS } = { m with state_ := ST_PLACING_SHIPS } ∧
    switchStep { m with state_ := ST_WAITING_PLACING } =
      { m with state_ := ST_WAITING_PLACING } ∧
    switchStep { m with state_ := ST_GAME_FINISHED } = { m with state_ := ST_GAME_FINISHED } ∧
    (switchStep m).myField_ = m.myField_ ∧
    (switchStep m).enemyField_ = m.enemyField_ ∧
    switchStep (switchStep m) = m := by
  refine ⟨rfl, rfl, by simp [switchStep, updateState], by simp [switchStep, updateState],
    rfl, rfl, rfl, rfl, ?_, ?_, ?_⟩
  all_goals
    obtain ⟨mf, ef, st, s, l, el, g⟩ := m
    cases s <;> simp [switchStep, updateState]

/-- C20. First mover: after `Model::startFight()` the state is `ST_MAKING_STEP`
when the started flag is true and `ST_WAITING_STEP` when it is false, whatever
the state was; `setStartedFlag` sets that flag; and of two models with opposite
flags exactly one is in `ST_MAKING_STEP` after `startFight()`. -/
theorem startFight_first_mover (m1 m2 : Model)
    (h : getStartedFlag m1 ≠ getStartedFlag m2) :
    (∀ (m : Model) (v : Bool),
      getStartedFlag (setStartedFlag m v) = v ∧
      getState (startFight (setStartedFlag m v)) =
        (if v = true then ST_MAKING_STEP else ST_WAITING_STEP)) ∧
    (∀ (m : Model) (s : ModelState),
      getState (startFight { m with state_ := s }) =
        (if getStartedFlag m = true then ST_MAKING_STEP else ST_WAITING_STEP)) ∧
    ((getState (startFight m1) = ST_MAKING_STEP ∧ getState (startFight m2) ≠ ST_MAKING_STEP) ∨
     (getState (startFight m1) ≠ ST_MAKING_STEP ∧ getState (startFight m2) = ST_MAKING_STEP)) := by
  refine ⟨?_, ?_, ?_⟩
  · intro m v
    cases v <;> exact ⟨rfl, rfl⟩
  · intro m s
    obtain ⟨mf, ef, st, s0, l, el, g⟩ := m
    cases st <;> rfl
  · obtain ⟨mf, ef, st, s0, l, el, g⟩ := m1
    obtain ⟨mf2, ef2, st2, s2, l2, el2, g2⟩ := m2
    cases st <;> cases st2 <;>
      simp [getStartedFlag, getState, startFight, updateState] at h ⊢

/-- C20, at a model whose flag is set and one whose flag is not. -/
theorem startFight_first_mover_witness :
    getStartedFlag starterModel ≠ getStartedFlag accepterModel ∧
    getState (startFight starterModel) = ST_MAKING_STEP ∧
    getState (startFight accepterModel) = ST_WAITING_STEP ∧
    ((getState (startFight starterModel) = ST_MAKING_STEP ∧
        getState (startFight accepterModel) ≠ ST_MAKING_STEP) ∨
     (getState (startFight starterModel) ≠ ST_MAKING_STEP ∧
        getState (startFight accepterModel) = ST_MAKING_STEP)) :=
  ⟨by decide, rfl, rfl,
    (startFight_first_mover starterModel accepterModel (by decide)).2.2⟩

/-! ## The update of the enemy field -/

theorem readAt_some {α : Type} (v : List α) (i : Nat) (c : α) (h : v[i]? = some c) :
    readAt v i = .next c := by
  simp [readAt, h]

theorem updateEnemyCell_eq (field u : List CellDraw) (k : Nat) (c : CellDraw)
    (hc : field[k]? = some c) (hk : k < u.length) :
    updateEnemyCell field k u = .next (if isShotResult c = true then u.set k c else u) := by
  unfold updateEnemyCell
  rw [readAt_some field k c hc]
  cases c <;> simp [isShotResult, Flow.bind_next, writeAt, hk]

/-- The loop of `Model::updateEnemyFieldDraw` after `n` iterations: the cells
below `n` on which the incoming vector reports a shot are overwritten. -/
theorem updateEnemy_loop (field old : List CellDraw) (h : old.length ≤ field.length)
    (n : Nat) (hn : n ≤ old.length) :
    ∃ u, forRange (updateEnemyCell field) n old = .next u ∧ u.length = old.length ∧
      ∀ (i : Nat) (c : CellDraw), field[i]? = some c →
        u[i]? = if i < n ∧ isShotResult c = true then some c else old[i]? := by
  refine forRange_next (updateEnemyCell field)
    (fun k u => u.length = old.length ∧
      ∀ (i : Nat) (c : CellDraw), field[i]? = some c →
        u[i]? = if i < k ∧ isShotResult c = true then some c else old[i]?)
    n old ⟨rfl, fun i c _ => by simp⟩ ?_
  intro k u hk ⟨hlen, hu⟩
  have hkf : k < field.length := by omega
  have hck : field[k]? = some field[k] := List.getElem?_eq_getElem hkf
  refine ⟨_, updateEnemyCell_eq field u k field[k] hck (by omega), ?_, ?_⟩
  · split
    · rw [List.length_set, hlen]
    · exact hlen
  · intro i c hc
    by_cases hik : i = k
    · subst hik
      have e : c = field[i] := by
        rw [hck] at hc; exact (Option.some.inj hc).symm
      subst e
      by_cases hs : isShotResult field[i] = true
      · rw [if_pos hs, if_pos ⟨Nat.lt_succ_self i, hs⟩]
        exact List.getElem?_set_eq_of_lt _ (by omega)
      · rw [if_neg hs, if_neg (fun hh => hs hh.2), hu i _ hc, if_neg (fun hh => hs hh.2)]
    · have hset : (if isShotResult field[k] = true then u.set k field[k] else u)[i]? = u[i]? := by
        split
        · exact List.getElem?_set_ne (fun e => hik e.symm)
        · rfl
      rw [hset, hu i c hc]
      by_cases hs : isShotResult c = true
      · by_cases hlt : i < k
        · rw [if_pos ⟨hlt, hs⟩, if_pos ⟨by omega, hs⟩]
        · rw [if_neg (fun hh => hlt hh.1), if_neg (fun hh => hlt (by omega))]
      · rw [if_neg (fun hh => hs hh.2), if_neg (fun hh => hs hh.2)]

/-- The effect of `Model::updateEnemyFieldDraw` on an enemy field of 100 draw
cells, for an incoming vector of at least 100 cells. -/
theorem updateEnemyFieldDraw_spec (m : Model) (f : List CellDraw)
    (hm : m.enemyField_.fieldDraw_.length = 100) (hf : 100 ≤ f.length) :
    ∃ d : List CellDraw,
      updateEnemyFieldDraw m f =
        some { m with enemyField_ := { m.enemyField_ with fieldDraw_ := d } } ∧
      d.length = 100 ∧
      ∀ (i : Nat) (c : CellDraw), f[i]? = some c →
        d[i]? = if i < 100 ∧ isShotResult c = true then some c
          else m.enemyField_.fieldDraw_[i]? := by
  obtain ⟨u, hu, hlen, hcell⟩ := updateEnemy_loop f m.enemyField_.fieldDraw_
    (by omega) m.enemyField_.fieldDraw_.length (Nat.le_refl _)
  refine ⟨u, ?_, by rw [hlen, hm], ?_⟩
  · unfold updateEnemyFieldDraw getDrawField
    simp only [hu]
    unfold setDrawFieldVector
    rw [if_neg (by rw [hlen, hm]; decide)]
  · intro i c hc
    rw [hcell i c hc, hm]

/-- C17. `Model::updateEnemyFieldDraw` merges only shot results: for an enemy
field with 100 draw cells and an incoming vector `f` of at least 100 cells, it
returns, the enemy field keeps 100 draw cells, cell `i` below 100 becomes `f[i]`
when `f[i]` is `CELL_DOT`, `CELL_DAMAGED` or `CELL_KILLED` and keeps its value
otherwise, so a `CELL_MARK` on a cell that was not shot stays; nothing else in
the model changes. -/
theorem updateEnemyFieldDraw_merges (m : Model) (f : List CellDraw)
    (hm : m.enemyField_.fieldDraw_.length = 100) (hf : 100 ≤ f.length) :
    ∃ m', updateEnemyFieldDraw m f = some m' ∧
      m'.enemyField_.fieldDraw_.length = 100 ∧
      (∀ (i : Nat) (c : CellDraw), i < 100 → f[i]? = some c →
        (c = CELL_DOT ∨ c = CELL_DAMAGED ∨ c = CELL_KILLED →
          m'.enemyField_.fieldDraw_[i]? = some c) ∧
        (c ≠ CELL_DOT ∧ c ≠ CELL_DAMAGED ∧ c ≠ CELL_KILLED →
          m'.enemyField_.fieldDraw_[i]? = m.enemyField_.fieldDraw_[i]? ∧
          (m.enemyField_.fieldDraw_[i]? = some CELL_MARK →
            m'.enemyField_.fieldDraw_[i]? = some CELL_MARK))) ∧
      m'.enemyField_.fieldState_ = m.enemyField_.fieldState_ ∧
      m' = { m with enemyField_ := m'.enemyField_ } := by
  obtain ⟨d, hd, hlen, hcell⟩ := updateEnemyFieldDraw_spec m f hm hf
  refine ⟨_, hd, hlen, ?_, rfl, rfl⟩
  intro i c hi hc
  have h := hcell i c hc
  constructor
  · intro hs
    have hs' : isShotResult c = true := by simpa [isShotResult] using hs
    rw [if_pos ⟨hi, hs'⟩] at h
    exact h
  · intro hs
    have hs' : ¬ isShotResult c = true := by
      simp only [isShotResult, decide_eq_true_eq]
      rintro (h1 | h1 | h1)
      · exact hs.1 h1
      · exact hs.2.1 h1
      · exact hs.2.2 h1
    rw [if_neg (fun hh => hs' hh.2)] at h
    exact ⟨h, fun hmark => h.trans hmark⟩

/-- C17, at a field with a mark and an earlier miss and an incoming vector with
a hit at cell 2. -/
theorem updateEnemyFieldDraw_merges_witness :
    fightingModel.enemyField_.fieldDraw_.length = 100 ∧ 100 ≤ incomingLive.length ∧
    ∃ m', updateEnemyFieldDraw fightingModel incomingLive = some m' ∧
      m'.enemyField_.fieldDraw_.length = 100 ∧
      (∀ (i : Nat) (c : CellDraw), i < 100 → incomingLive[i]? = some c →
        (c = CELL_DOT ∨ c = CELL_DAMAGED ∨ c = CELL_KILLED →
          m'.enemyField_.fieldDraw_[i]? = some c) ∧
        (c ≠ CELL_DOT ∧ c ≠ CELL_DAMAGED ∧ c ≠ CELL_KILLED →
          m'.enemyField_.fieldDraw_[i]? = fightingModel.enemyField_.fieldDraw_[i]? ∧
          (fightingModel.enemyField_.fieldDraw_[i]? = some CELL_MARK →
            m'.enemyField_.fieldDraw_[i]? = some CELL_MARK))) ∧
      m'.enemyField_.fieldState_ = fightingModel.enemyField_.fieldState_ ∧
      m' = { fightingModel with enemyField_ := m'.enemyField_ } :=
  ⟨by decide, by decide,
    updateEnemyFieldDraw_merges fightingModel incomingLive (by decide) (by decide)⟩

theorem shotAt_some (v : List CellDraw) (i : Nat) (c : CellDraw) (h : v[i]? = some c) :
    shotAt v i = isShotResult c := by
  simp [shotAt, h]

theorem isShotResult_live : isShotResult CELL_LIVE = false := rfl

/-- C18. An update never reveals unshot ships: on an enemy field with 100 draw
cells, two incoming vectors `f` and `g` of 100 cells that agree on every cell
where either holds `CELL_DOT`, `CELL_DAMAGED` or `CELL_KILLED` give the same
model; and if the enemy field had no `CELL_LIVE` cell it has none afterwards. -/
theorem updateEnemyFieldDraw_hides_unshot (m : Model) (f g : List CellDraw)
    (hm : m.enemyField_.fieldDraw_.length = 100) (hf : f.length = 100) (hg : g.length = 100)
    (hagree : ∀ i, i < 100 → shotAt f i = true ∨ shotAt g i = true → f[i]? = g[i]?) :
    ∃ m', updateEnemyFieldDraw m f = some m' ∧ updateEnemyFieldDraw m g = some m' ∧
      (CELL_LIVE ∉ m.enemyField_.fieldDraw_ → CELL_LIVE ∉ m'.enemyField_.fieldDraw_) := by
  obtain ⟨d, hd, hlen, hcell⟩ := updateEnemyFieldDraw_spec m f hm (by omega)
  obtain ⟨e, he, hlen', hcell'⟩ := updateEnemyFieldDraw_spec m g hm (by omega)
  have hde : d = e := by
    apply List.ext_getElem?
    intro i
    by_cases hi : i < 100
    · have h1 : f[i]? = some f[i] := List.getElem?_eq_getElem (by omega)
      have h2 : g[i]? = some g[i] := List.getElem?_eq_getElem (by omega)
      have a := hagree i hi
      rw [shotAt_some f i _ h1, shotAt_some g i _ h2] at a
      rw [hcell i _ h1, hcell' i _ h2]
      by_cases s1 : isShotResult f[i] = true
      · have e1 := a (Or.inl s1)
        rw [h1, h2] at e1
        rw [← Option.some.inj e1]
      · by_cases s2 : isShotResult g[i] = true
        · have e1 := a (Or.inr s2)
          rw [h1, h2] at e1
          rw [← Option.some.inj e1]
        · rw [if_neg (fun hh => s1 hh.2), if_neg (fun hh => s2 hh.2)]
    · rw [List.getElem?_eq_none (by omega), List.getElem?_eq_none (by omega)]
  refine ⟨_, hd, by rw [he, hde], ?_⟩
  intro hlive hmem
  obtain ⟨i, hi⟩ := List.mem_iff_getElem?.1 hmem
  have hi' : d[i]? = some CELL_LIVE := hi
  have hlt : i < 100 := by
    by_contra hge
    rw [List.getElem?_eq_none (by omega)] at hi'
    exact Option.noConfusion hi'
  have h1 : f[i]? = some f[i] := List.getElem?_eq_getElem (by omega)
  rw [hcell i _ h1] at hi'
  by_cases s1 : isShotResult f[i] = true
  · rw [if_pos ⟨hlt, s1⟩] at hi'
    rw [Option.some.inj hi', isShotResult_live] at s1
    exact Bool.noConfusion s1
  · rw [if_neg (fun hh => s1 hh.2)] at hi'
    exact hlive (List.mem_iff_getElem?.2 ⟨i, hi'⟩)

set_option maxRecDepth 100000 in
theorem incoming_agree :
    ∀ i, i < 100 → shotAt incomingLive i = true ∨ shotAt incomingBare i = true →
      incomingLive[i]? = incomingBare[i]? := by
  decide

/-- C18, at two incoming vectors with the same hit at cell 2, one that shows
ships at cells 0 and 3 and one that shows none. -/
theorem updateEnemyFieldDraw_hides_unshot_witness :
    incomingLive ≠ incomingBare ∧
    ∃ m', updateEnemyFieldDraw fightingModel incomingLive = some m' ∧
      updateEnemyFieldDraw fightingModel incomingBare = some m' ∧
      (CELL_LIVE ∉ fightingModel.enemyField_.fieldDraw_ →
        CELL_LIVE ∉ m'.enemyField_.fieldDraw_) :=
  ⟨by decide,
    updateEnemyFieldDraw_hides_unshot fightingModel incomingLive incomingBare
      (by decide) (by decide) (by decide) incoming_agree⟩

/-! ## The size of the board -/

theorem stateOfNat_some (v : Int) (h0 : 0 ≤ v) (h8 : v ≤ 8) :
    ∃ s, CellState.ofNat? v.toNat = some s := by
  obtain ⟨n, rfl⟩ := Int.eq_ofNat_of_zero_le h0
  have hn : n ≤ 8 := by omega
  simp only [Int.toNat_ofNat]
  interval_cases n <;> exact ⟨_, rfl⟩

theorem drawOfNat_some (v : Int) (h0 : 0 ≤ v) (h5 : v ≤ 5) :
    ∃ s, CellDraw.ofNat? v.toNat = some s := by
  obtain ⟨n, rfl⟩ := Int.eq_ofNat_of_zero_le h0
  have hn : n ≤ 5 := by omega
  simp only [Int.toNat_ofNat]
  interval_cases n <;> exact ⟨_, rfl⟩

theorem setStateFieldLoop_step (c : QChar) (rest : List QChar) (acc : List CellState)
    (hc : isStateDigit c = true) :
    ∃ s, setStateFieldLoop (c :: rest) acc = setStateFieldLoop rest (acc ++ [s]) := by
  have h : 0 ≤ digitValue c ∧ digitValue c ≤ 8 := by simpa [isStateDigit] using hc
  obtain ⟨s, hs⟩ := stateOfNat_some _ h.1 h.2
  refine ⟨s, ?_⟩
  have hg : ¬ (digitValue c < (CL_ST_EMPTY.toNat : Int) ∨
      digitValue c > (CL_ST_UNDEFINED.toNat : Int)) := by
    simp only [CellState.toNat]; omega
  rw [setStateFieldLoop, if_neg hg, hs]

theorem setStateFieldLoop_wrong (c : QChar) (rest : List QChar) (acc : List CellState)
    (hc : isStateDigit c = false) : setStateFieldLoop (c :: rest) acc = [] := by
  have h : ¬ (0 ≤ digitValue c ∧ digitValue c ≤ 8) := by simpa [isStateDigit] using hc
  have hg : digitValue c < (CL_ST_EMPTY.toNat : Int) ∨
      digitValue c > (CL_ST_UNDEFINED.toNat : Int) := by
    simp only [CellState.toNat]; omega
  rw [setStateFieldLoop, if_pos hg]

/-- The loop of `Field::setStateField(QString)`: one cell for each `QChar` when
all are digits of placement states, no cell at all otherwise. -/
theorem setStateFieldLoop_length (s : List QChar) :
    ∀ acc, (s.all isStateDigit = true →
        (setStateFieldLoop s acc).length = acc.length + s.length) ∧
      (s.all isStateDigit = false → setStateFieldLoop s acc = []) := by
  induction s with
  | nil => intro acc; simp [setStateFieldLoop]
  | cons c s ih =>
    intro acc
    cases hc : isStateDigit c
    · refine ⟨fun h => ?_, fun _ => setStateFieldLoop_wrong c s acc hc⟩
      simp [List.all_cons, hc] at h
    · obtain ⟨st, hst⟩ := setStateFieldLoop_step c s acc hc
      rw [hst, List.all_cons, hc, Bool.true_and]
      refine ⟨fun h => ?_, fun h => (ih _).2 h⟩
      rw [(ih _).1 h]
      simp only [List.length_append, List.length_cons, List.length_nil]
      omega

theorem fieldDrawLoop_step (c : QChar) (rest : List QChar) (acc : List CellDraw)
    (hc : isDrawDigit c = true) :
    ∃ s, fieldDrawLoop (c :: rest) acc = fieldDrawLoop rest (acc ++ [s]) := by
  have h : 0 ≤ digitValue c ∧ digitValue c ≤ 5 := by simpa [isDrawDigit] using hc
  obtain ⟨s, hs⟩ := drawOfNat_some _ h.1 h.2
  refine ⟨s, ?_⟩
  have hg : ¬ (digitValue c < (CELL_EMPTY.toNat : Int) ∨
      digitValue c > (CELL_MARK.toNat : Int)) := by
    simp only [CellDraw.toNat]; omega
  rw [fieldDrawLoop, if_neg hg, hs]

theorem fieldDrawLoop_wrong (c : QChar) (rest : List QChar) (acc : List CellDraw)
    (hc : isDrawDigit c = false) : fieldDrawLoop (c :: rest) acc = [] := by
  have h : ¬ (0 ≤ digitValue c ∧ digitValue c ≤ 5) := by simpa [isDrawDigit] using hc
  have hg : digitValue c < (CELL_EMPTY.toNat : Int) ∨
      digitValue c > (CELL_MARK.toNat : Int) := by
    simp only [CellDraw.toNat]; omega
  rw [fieldDrawLoop, if_pos hg]

/-- The loop of `Field::setDrawField(QString)`: one cell for each `QChar` when
all are digits of draw values, no cell at all otherwise. -/
theorem fieldDrawLoop_length (s : List QChar) :
    ∀ acc, (s.all isDrawDigit = true →
        (fieldDrawLoop s acc).length = acc.length + s.length) ∧
      (s.all isDrawDigit = false → fieldDrawLoop s acc = []) := by
  induction s with
  | nil => intro acc; simp [fieldDrawLoop]
  | cons c s ih =>
    intro acc
    cases hc : isDrawDigit c
    · refine ⟨fun h => ?_, fun _ => fieldDrawLoop_wrong c s acc hc⟩
      simp [List.all_cons, hc] at h
    · obtain ⟨st, hst⟩ := fieldDrawLoop_step c s acc hc
      rw [hst, List.all_cons, hc, Bool.true_and]
      refine ⟨fun h => ?_, fun h => (ih _).2 h⟩
      rw [(ih _).1 h]
      simp only [List.length_append, List.length_cons, List.length_nil]
      omega

/-- The loop of `Field::initMyDrawField` returns and pushes one cell in each
iteration while the index stays inside the placement vector. -/
theorem initMyDrawFieldLoop_length (fs : List CellState) :
    ∀ (n i : Nat) (acc : List CellDraw), i + n ≤ fs.length →
      ∃ d, initMyDrawFieldLoop fs n i acc = some d ∧ d.length = acc.length + n := by
  intro n
  induction n with
  | zero => intro i acc _; exact ⟨acc, rfl, rfl⟩
  | succ n ih =>
    intro i acc h
    have hi : fs[i]? = some fs[i] := List.getElem?_eq_getElem (by omega)
    by_cases hc : fs[i] = CL_ST_EMPTY
    · obtain ⟨d, hd, hl⟩ := ih (i + 1) (acc ++ [CELL_EMPTY]) (by omega)
      refine ⟨d, ?_, by rw [hl, List.length_append, List.length_singleton]; omega⟩
      rw [initMyDrawFieldLoop, hi]
      simp only [hc, if_true]
      exact hd
    · obtain ⟨d, hd, hl⟩ := ih (i + 1) (acc ++ [CELL_LIVE]) (by omega)
      refine ⟨d, ?_, by rw [hl, List.length_append, List.length_singleton]; omega⟩
      rw [initMyDrawFieldLoop, hi]
      simp only [hc, if_false]
      exact hd

theorem newField_fullSize : fullSize newField := by
  decide

theorem clear_fullSize (f : Field) : fullSize (clear f) :=
  ⟨List.length_replicate _ _, List.length_replicate _ _⟩

theorem setStateCell_fullSize (f : Field) (hf : fullSize f) (x y : Int) (s : CellState) :
    ∃ g, setStateCell f x y s = some g ∧ fullSize g := by
  by_cases h : (0 ≤ x ∧ x < 10) ∧ (0 ≤ y ∧ y < 10)
  · refine ⟨_, setStateCell_in f x y s h.1 h.2 hf.1, ?_, hf.2⟩
    show (f.fieldState_.set _ s).length = 100
    rw [List.length_set, hf.1]
  · exact ⟨f, (setCell_out f x y CELL_EMPTY s h).2, hf⟩

theorem setDrawCell_fullSize (f : Field) (hf : fullSize f) (x y : Int) (c : CellDraw) :
    ∃ g, setDrawCell f x y c = some g ∧ fullSize g := by
  by_cases h : (0 ≤ x ∧ x < 10) ∧ (0 ≤ y ∧ y < 10)
  · refine ⟨_, setDrawCell_in f x y c h.1 h.2 hf.2, hf.1, ?_⟩
    show (f.fieldDraw_.set _ c).length = 100
    rw [List.length_set, hf.2]
  · exact ⟨f, (setCell_out f x y c CL_ST_EMPTY h).1, hf⟩

theorem initMyDrawField_fullSize (f : Field) (hf : fullSize f) :
    ∃ g, initMyDrawField f = some g ∧ fullSize g := by
  obtain ⟨d, hd, hl⟩ := initMyDrawFieldLoop_length f.fieldState_ area_ 0 []
    (by rw [hf.1]; decide)
  refine ⟨{ f with fieldDraw_ := d }, ?_, hf.1, by rw [hl]; rfl⟩
  unfold initMyDrawField
  rw [hd]

theorem setStateField_size (f : Field) (hf : fullSize f) (s : List Char)
    (hs : QString.size s = 100) :
    ((QString.qchars s).all isStateDigit = true → fullSize (setStateField f s)) ∧
    ((QString.qchars s).all isStateDigit = false →
      (setStateField f s).fieldState_ = [] ∧ (setStateField f s).fieldDraw_ = f.fieldDraw_) := by
  have hs' : (QString.qchars s).length = 100 := hs
  constructor
  · intro h
    refine ⟨?_, hf.2⟩
    show (setStateFieldLoop (QString.qchars s) []).length = 100
    rw [(setStateFieldLoop_length _ []).1 h, hs']
    rfl
  · intro h
    exact ⟨(setStateFieldLoop_length _ []).2 h, rfl⟩

theorem setDrawField_size (f : Field) (hf : fullSize f) (s : List Char)
    (hs : QString.size s = 100) :
    ((QString.qchars s).all isDrawDigit = true → fullSize (setDrawField f s)) ∧
    ((QString.qchars s).all isDrawDigit = false →
      (setDrawField f s).fieldDraw_ = [] ∧ (setDrawField f s).fieldState_ = f.fieldState_) := by
  have hs' : (QString.qchars s).length = 100 := hs
  have e : setDrawField f s = { f with fieldDraw_ := fieldDrawLoop (QString.qchars s) [] } := by
    unfold setDrawField
    rw [if_neg (by rw [hs]; decide)]
  rw [e]
  constructor
  · intro h
    refine ⟨hf.1, ?_⟩
    show (fieldDrawLoop (QString.qchars s) []).length = 100
    rw [(fieldDrawLoop_length _ []).1 h, hs']
    rfl
  · intro h
    exact ⟨(fieldDrawLoop_length _ []).2 h, rfl⟩

theorem setVector_fullSize (f : Field) (hf : fullSize f) (v : List CellState)
    (w : List CellDraw) :
    fullSize (setStateFieldVector f v) ∧ fullSize (setDrawFieldVector f w) := by
  constructor
  · unfold setStateFieldVector
    split
    · exact hf
    · rename_i h
      exact ⟨not_not.1 h, hf.2⟩
  · unfold setDrawFieldVector
    split
    · exact hf
    · rename_i h
      exact ⟨hf.1, not_not.1 h⟩

set_option maxRecDepth 100000 in
theorem wrongString_facts :
    QString.size wrongStateString = 100 ∧ QString.size wrongDrawString = 100 ∧
    (setStateField newField wrongStateString).fieldState_.length = 0 ∧
    (setDrawField newField wrongDrawString).fieldDraw_.length = 0 := by
  refine ⟨?_, ?_, ?_, ?_⟩ <;> decide

set_option maxRecDepth 100000 in
theorem unicodeString_facts :
    arabicThree.length = 1 ∧
    (∀ c, c ∈ arabicThree → c ∉ ['0', '1', '2', '3', '4', '5', '6', '7', '8']) ∧
    (setStateField newField arabicThree).fieldState_ = [CL_ST_BOTTOM] ∧
    arabicThrees.length = 100 ∧ QString.size arabicThrees = 100 ∧
    (∀ c, c ∈ arabicThrees → c ∉ ['0', '1', '2', '3', '4', '5', '6', '7', '8']) ∧
    (QString.qchars arabicThrees).all isStateDigit = true ∧
    (QString.qchars arabicThrees).all isDrawDigit = true ∧
    (QString.qchars arabicThrees).map stateOfChar = List.replicate 100 CL_ST_BOTTOM ∧
    (QString.qchars arabicThrees).map drawOfChar = List.replicate 100 CELL_DAMAGED ∧
    astralString.length = 100 ∧ QString.size astralString = 101 ∧
    (QString.qchars astralString).all isStateDigit = false := by
  refine ⟨?_, ?_, ?_, ?_, ?_, ?_, ?_, ?_, ?_, ?_, ?_, ?_, ?_⟩ <;> decide

/-- C13 as stated fails: a field fresh from the default constructor has 100 and
100 cells, but after `setStateField` with a string of 100 characters that ends in
`'9'` the placement state has no cells, and after `setDrawField` with a string of
100 characters that ends in `'6'` the draw state has no cells. -/
theorem board_size_counterexample :
    fullSize newField ∧
    QString.size wrongStateString = 100 ∧
    (setStateField newField wrongStateString).fieldState_.length = 0 ∧
    ¬ fullSize (setStateField newField wrongStateString) ∧
    QString.size wrongDrawString = 100 ∧
    (setDrawField newField wrongDrawString).fieldDraw_.length = 0 ∧
    ¬ fullSize (setDrawField newField wrongDrawString) := by
  obtain ⟨h1, h2, h3, h4⟩ := wrongString_facts
  refine ⟨newField_fullSize, h1, h3, fun h => ?_, h2, h4, fun h => ?_⟩
  · have e := h.1
    rw [h3] at e
    exact absurd e (by decide)
  · have e := h.2
    rw [h4] at e
    exact absurd e (by decide)

/-- C13, amended. The default constructor, `clear()` and `generate()` leave 100
placement cells and 100 draw cells. On a field `f` with 100 and 100 cells:
`setStateField` and `setDrawField` from a vector, `setStateCell`, `setDrawCell`,
`initMyDrawField` and assignment from a field with 100 and 100 cells leave 100
and 100 cells, for every argument; `setDrawField` from a string of another size
than 100 `QChar`s changes nothing; `setStateField` (`setDrawField`) from a string
of 100 `QChar`s leaves 100 and 100 cells when every `QChar` has a digit value
from 0 to 8 (0 to 5), and otherwise leaves the placement (draw) state with no
cells and the other state as it was. -/
theorem board_size (f other : Field) (hf : fullSize f) (ho : fullSize other) :
    fullSize newField ∧
    (∀ f0 : Field, fullSize (clear f0)) ∧
    (∀ f0 : Field, ∃ g, generate f0 = some g ∧ fullSize g) ∧
    (∀ v : List CellState, fullSize (setStateFieldVector f v)) ∧
    (∀ v : List CellDraw, fullSize (setDrawFieldVector f v)) ∧
    (∀ (x y : Int) (s : CellState), ∃ g, setStateCell f x y s = some g ∧ fullSize g) ∧
    (∀ (x y : Int) (c : CellDraw), ∃ g, setDrawCell f x y c = some g ∧ fullSize g) ∧
    (∃ g, initMyDrawField f = some g ∧ fullSize g) ∧
    fullSize (assign f other) ∧
    (∀ s : List Char, QString.size s ≠ 100 → setDrawField f s = f) ∧
    (∀ s : List Char, QString.size s = 100 →
      ((QString.qchars s).all isStateDigit = true → fullSize (setStateField f s)) ∧
      ((QString.qchars s).all isStateDigit = false →
        (setStateField f s).fieldState_ = [] ∧
        (setStateField f s).fieldDraw_ = f.fieldDraw_)) ∧
    (∀ s : List Char, QString.size s = 100 →
      ((QString.qchars s).all isDrawDigit = true → fullSize (setDrawField f s)) ∧
      ((QString.qchars s).all isDrawDigit = false →
        (setDrawField f s).fieldDraw_ = [] ∧
        (setDrawField f s).fieldState_ = f.fieldState_)) := by
  refine ⟨newField_fullSize, clear_fullSize, ?_, ?_, ?_, setStateCell_fullSize f hf,
    setDrawCell_fullSize f hf, initMyDrawField_fullSize f hf, ho, ?_,
    setStateField_size f hf, setDrawField_size f hf⟩
  · intro f0
    exact ⟨generatedField, generate_eq f0, generatedField_length, generatedField_drawLength⟩
  · intro v
    exact (setVector_fullSize f hf v []).1
  · intro v
    exact (setVector_fullSize f hf [] v).2
  · intro s hs
    have hs' : QString.size s ≠ area_ := hs
    unfold setDrawField
    rw [if_pos hs']

/-- C13, amended, at the field that `generate()` leaves, assigned from a fresh
field, set from the string of `generate()`, set from a string of 100 characters
U+0663, which have the digit value 3, and set from a string of 100 characters
in 101 `QChar`s. -/
theorem board_size_witness :
    fullSize generatedField ∧ fullSize newField ∧
    fullSize (assign generatedField newField) ∧
    (∃ g, initMyDrawField generatedField = some g ∧ fullSize g) ∧
    fullSize (setStateField generatedField field_example) ∧
    fullSize (setStateField generatedField arabicThrees) ∧
    astralString.length = 100 ∧
    setDrawField generatedField astralString = generatedField :=
  ⟨⟨generatedField_length, generatedField_drawLength⟩, newField_fullSize,
    (board_size generatedField newField ⟨generatedField_length, generatedField_drawLength⟩
      newField_fullSize).2.2.2.2.2.2.2.2.1,
    (board_size generatedField newField ⟨generatedField_length, generatedField_drawLength⟩
      newField_fullSize).2.2.2.2.2.2.2.1,
    ((board_size generatedField newField ⟨generatedField_length, generatedField_drawLength⟩
      newField_fullSize).2.2.2.2.2.2.2.2.2.2.1 field_example (by decide)).1 (by decide),
    ((board_size generatedField newField ⟨generatedField_length, generatedField_drawLength⟩
      newField_fullSize).2.2.2.2.2.2.2.2.2.2.1 arabicThrees unicodeString_facts.2.2.2.2.1).1
      unicodeString_facts.2.2.2.2.2.2.1,
    unicodeString_facts.2.2.2.2.2.2.2.2.2.2.1,
    (board_size generatedField newField ⟨generatedField_length, generatedField_drawLength⟩
      newField_fullSize).2.2.2.2.2.2.2.2.2.1 astralString
      (by rw [unicodeString_facts.2.2.2.2.2.2.2.2.2.2.2.1]; decide)⟩

/-! ## The end of a game -/

/-- C21 as stated fails: from `ST_GAME_FINISHED`, `finishGame()` leaves the
state `ST_GAME_NSTARTED`, `startGame` leaves `ST_PLACING_SHIPS`, `startFight()`
leaves `ST_MAKING_STEP` and `updateState(ST_WAITING_PLACING)` leaves
`ST_WAITING_PLACING`. -/
theorem finished_terminal_counterexample :
    getState finishedModel = ST_GAME_FINISHED ∧
    getState (finishGame finishedModel) = ST_GAME_NSTARTED ∧
    getState (startGame finishedModel "carol".toList 8) = ST_PLACING_SHIPS ∧
    getState (startFight finishedModel) = ST_MAKING_STEP ∧
    getState (updateState finishedModel ST_WAITING_PLACING) = ST_WAITING_PLACING :=
  ⟨rfl, rfl, rfl, rfl, rfl⟩

/-- C21, amended. In the client model `ST_GAME_FINISHED` is not terminal: from
it `switchStep()` leaves the model as it is, `updateState(s)` moves the state to
`s`, `startGame` to `ST_PLACING_SHIPS`, `startFight()` to `ST_MAKING_STEP` when
the started flag is set and to `ST_WAITING_STEP` otherwise, and `finishGame()`
to `ST_GAME_NSTARTED`. -/
theorem finished_not_terminal (m : Model) (h : getState m = ST_GAME_FINISHED) :
    switchStep m = m ∧
    (∀ s : ModelState, getState (updateState m s) = s) ∧
    (∀ (enemy_login : List Char) (gameId : Int),
      getState (startGame m enemy_login gameId) = ST_PLACING_SHIPS) ∧
    getState (startFight m) =
      (if getStartedFlag m = true then ST_MAKING_STEP else ST_WAITING_STEP) ∧
    getState (finishGame m) = ST_GAME_NSTARTED := by
  obtain ⟨mf, ef, st, s, l, el, g⟩ := m
  have hs : s = ST_GAME_FINISHED := h
  subst hs
  refine ⟨rfl, fun _ => rfl, fun _ _ => rfl, ?_, rfl⟩
  cases st <;> rfl

/-- C21, amended, at a model in `ST_GAME_FINISHED` whose started flag is set. -/
theorem finished_not_terminal_witness :
    getState finishedModel = ST_GAME_FINISHED ∧
    switchStep finishedModel = finishedModel ∧
    getState (startFight finishedModel) = ST_MAKING_STEP ∧
    getState (finishGame finishedModel) = ST_GAME_NSTARTED :=
  ⟨rfl, (finished_not_terminal finishedModel rfl).1,
    (finished_not_terminal finishedModel rfl).2.2.2.1,
    (finished_not_terminal finishedModel rfl).2.2.2.2⟩

/-- C22. `Model::finishGame` clears both fields and resets the state: from every
state, afterwards the own field and the enemy field have 100 placement cells,
all `CL_ST_EMPTY`, and 100 draw cells, all `CELL_EMPTY`, the state is
`ST_GAME_NSTARTED`, and the flag, the logins and the game id are as before. -/
theorem finishGame_clears (m : Model) :
    (finishGame m).myField_.fieldState_ = List.replicate 100 CL_ST_EMPTY ∧
    (finishGame m).myField_.fieldDraw_ = List.replicate 100 CELL_EMPTY ∧
    (finishGame m).enemyField_.fieldState_ = List.replicate 100 CL_ST_EMPTY ∧
    (finishGame m).enemyField_.fieldDraw_ = List.replicate 100 CELL_EMPTY ∧
    getState (finishGame m) = ST_GAME_NSTARTED ∧
    (finishGame m).amIStarted_ = m.amIStarted_ ∧ (finishGame m).login_ = m.login_ ∧
    (finishGame m).enemyLogin_ = m.enemyLogin_ ∧ (finishGame m).gameId_ = m.gameId_ :=
  ⟨rfl, rfl, rfl, rfl, rfl, rfl, rfl, rfl, rfl⟩

/-! ## The mouse click -/

/-- The left click of `Controller::onMousePressed` in `ST_MAKING_STEP` at a
point that `getFieldCoord` does not answer with -1, on a cell that reads as
`CELL_EMPTY` or `CELL_MARK`: the shot message is written. -/
theorem onMousePressed_shot (c : Controller) (pos : QPoint) (labels : Labels)
    (hstate : getState c.model_ = ST_MAKING_STEP)
    (hx : (getFieldCoord pos ENEMY_FIELD).x ≠ -1) (hy : (getFieldCoord pos ENEMY_FIELD).y ≠ -1)
    (hcell : getEnemyCell c.model_ (getFieldCoord pos ENEMY_FIELD).x
          (getFieldCoord pos ENEMY_FIELD).y = some CELL_EMPTY ∨
        getEnemyCell c.model_ (getFieldCoord pos ENEMY_FIELD).x
          (getFieldCoord pos ENEMY_FIELD).y = some CELL_MARK) :
    onMousePressed c pos LeftButton labels =
      some ({ c with socket_ := c.socket_ ++
        [toUtf8 (shotMessage c.model_ (getFieldCoord pos ENEMY_FIELD) ++ "@".toList)] },
        labels) := by
  unfold onMousePressed
  simp only [hstate]
  rw [if_neg (by decide), if_pos trivial, if_neg (fun h => h.elim hx hy), if_pos trivial]
  rcases hcell with h | h <;> rw [h] <;> simp

/-- C23. Shot message framing: a left click in `ST_MAKING_STEP` that
`getFieldCoord` maps to `(x, y)` on the enemy field, on a cell that reads
`CELL_EMPTY` or `CELL_MARK`, writes to the socket exactly the UTF-8 bytes of
`"GAME:" + number(g) + ":" + l + ":SHOT:" + number(x) + ":" + number(y) + "@"`
for the game id `g` and the login `l` of the model, and nothing else changes;
that string is the six fields `GAME`, `g`, `l`, `SHOT`, `x`, `y` joined by `:`
and followed by one `@`. -/
theorem shot_message_framing (c : Controller) (pos : QPoint) (labels : Labels) (x y : Int)
    (hstate : getState c.model_ = ST_MAKING_STEP)
    (hpoint : getFieldCoord pos ENEMY_FIELD = { x := x, y := y })
    (hx : x ≠ -1) (hy : y ≠ -1)
    (hcell : getEnemyCell c.model_ x y = some CELL_EMPTY ∨
      getEnemyCell c.model_ x y = some CELL_MARK) :
    onMousePressed c pos LeftButton labels =
      some ({ c with socket_ := c.socket_ ++
        [toUtf8 ("GAME:".toList ++ QString.numberInt (getGameId c.model_) ++ ":".toList ++
          getLogin c.model_ ++ ":SHOT:".toList ++ QString.numberInt x ++ ":".toList ++
          QString.numberInt y ++ "@".toList)] }, labels) ∧
    "GAME:".toList ++ QString.numberInt (getGameId c.model_) ++ ":".toList ++
        getLogin c.model_ ++ ":SHOT:".toList ++ QString.numberInt x ++ ":".toList ++
        QString.numberInt y ++ "@".toList =
      List.intercalate ":".toList ["GAME".toList, QString.numberInt (getGameId c.model_),
        getLogin c.model_, "SHOT".toList, QString.numberInt x, QString.numberInt y] ++
      "@".toList := by
  constructor
  · rw [onMousePressed_shot c pos labels hstate (by rw [hpoint]; exact hx)
      (by rw [hpoint]; exact hy) (by rw [hpoint]; exact hcell), hpoint]
    simp [shotMessage]
  · simp [List.intercalate, List.intersperse]

set_option maxRecDepth 100000 in
theorem fightingController_facts :
    getState fightingController.model_ = ST_MAKING_STEP ∧
    getFieldCoord { x := 412, y := 177 } ENEMY_FIELD = { x := 4, y := 2 } ∧
    getEnemyCell fightingController.model_ 4 2 = some CELL_EMPTY ∧
    toUtf8 ("GAME:".toList ++ QString.numberInt (getGameId fightingController.model_) ++
        ":".toList ++ getLogin fightingController.model_ ++ ":SHOT:".toList ++
        QString.numberInt 4 ++ ":".toList ++ QString.numberInt 2 ++ "@".toList) =
      toUtf8 "GAME:7:anna:SHOT:4:2@".toList := by
  refine ⟨?_, ?_, ?_, ?_⟩ <;> decide

/-- C23, at a click on pixel (412, 177), which is cell (4, 2) of the enemy
field, in game 7 by the login `anna`: the bytes of `GAME:7:anna:SHOT:4:2@`. -/
theorem shot_message_framing_witness :
    getState fightingController.model_ = ST_MAKING_STEP ∧
    getFieldCoord { x := 412, y := 177 } ENEMY_FIELD = { x := 4, y := 2 } ∧
    getEnemyCell fightingController.model_ 4 2 = some CELL_EMPTY ∧
    onMousePressed fightingController { x := 412, y := 177 } LeftButton hiddenLabels =
      some ({ fightingController with
        socket_ := fightingController.socket_ ++ [toUtf8 "GAME:7:anna:SHOT:4:2@".toList] },
        hiddenLabels) :=
  ⟨fightingController_facts.1, fightingController_facts.2.1, fightingController_facts.2.2.1,
    fightingController_facts.2.2.2 ▸
      (shot_message_framing fightingController { x := 412, y := 177 } hiddenLabels 4 2
        fightingController_facts.1 fightingController_facts.2.1 (by decide) (by decide)
        (Or.inl fightingController_facts.2.2.1)).1⟩

/-- What `getFieldCoord` computes: outside the tested rectangle (-1, -1);
inside it the two integer quotients, each from 0 to 10, and 10 exactly on the
last pixel column or row that passes the test. -/
theorem getFieldCoord_spec (pos : QPoint) (owner : Owner) (sx sy : Int)
    (hsx : sx = if owner = MY_FIELD then 40 else 322) (hsy : sy = 127) :
    ((pos.x < sx ∨ pos.x > sx + 216 ∨ pos.y < sy ∨ pos.y > sy + 217) →
      getFieldCoord pos owner = { x := -1, y := -1 }) ∧
    (¬ (pos.x < sx ∨ pos.x > sx + 216 ∨ pos.y < sy ∨ pos.y > sy + 217) →
      getFieldCoord pos owner =
        { x := 10 * (pos.x - sx) / 216, y := 10 * (pos.y - sy) / 217 } ∧
      0 ≤ 10 * (pos.x - sx) / 216 ∧ 10 * (pos.x - sx) / 216 ≤ 10 ∧
      0 ≤ 10 * (pos.y - sy) / 217 ∧ 10 * (pos.y - sy) / 217 ≤ 10 ∧
      (10 * (pos.x - sx) / 216 = 10 ↔ pos.x = sx + 216) ∧
      (10 * (pos.y - sy) / 217 = 10 ↔ pos.y = sy + 217)) := by
  subst hsy
  cases owner
  · simp only [if_true] at hsx
    subst hsx
    constructor
    · intro h
      unfold getFieldCoord
      simp only [MYFIELD_IMG_X, MYFIELD_IMG_Y, FIELD_IMG_WIDTH_DEFAULT,
        FIELD_IMG_HEIGHT_DEFAULT, Nat.cast_ofNat, if_true]
      rw [if_pos h]
    · intro h
      refine ⟨?_, by omega, by omega, by omega, by omega, by omega, by omega⟩
      unfold getFieldCoord
      simp only [MYFIELD_IMG_X, MYFIELD_IMG_Y, FIELD_IMG_WIDTH_DEFAULT,
        FIELD_IMG_HEIGHT_DEFAULT, FIELD_WIDTH_DEFAULT, FIELD_HEIGHT_DEFAULT,
        Nat.cast_ofNat, if_true]
      rw [if_neg h]
  · have hne : (ENEMY_FIELD = MY_FIELD) = False := by simp
    simp only [hne, if_false] at hsx
    subst hsx
    constructor
    · intro h
      unfold getFieldCoord
      simp only [ENEMYFIELD_IMG_X, ENEMYFIELD_IMG_Y, FIELD_IMG_WIDTH_DEFAULT,
        FIELD_IMG_HEIGHT_DEFAULT, Nat.cast_ofNat, hne, if_false]
      rw [if_pos h]
    · intro h
      refine ⟨?_, by omega, by omega, by omega, by omega, by omega, by omega⟩
      unfold getFieldCoord
      simp only [ENEMYFIELD_IMG_X, ENEMYFIELD_IMG_Y, FIELD_IMG_WIDTH_DEFAULT,
        FIELD_IMG_HEIGHT_DEFAULT, FIELD_WIDTH_DEFAULT, FIELD_HEIGHT_DEFAULT,
        Nat.cast_ofNat, hne, if_false]
      rw [if_neg h]

/-- In `ST_WAITING_STEP` a left click writes nothing and changes nothing. -/
theorem onMousePressed_waiting (c : Controller) (pos : QPoint) (labels : Labels)
    (hstate : getState c.model_ = ST_WAITING_STEP) :
    onMousePressed c pos LeftButton labels = some (c, labels) := by
  unfold onMousePressed
  simp only [hstate]
  rw [if_neg (by decide), if_neg (by decide), if_pos trivial]
  split
  · rfl
  · rw [if_neg (by decide)]

/-- In `ST_MAKING_STEP` a left click on a cell that reads `CELL_DOT`,
`CELL_DAMAGED` or `CELL_KILLED` writes nothing and changes nothing. -/
theorem onMousePressed_played (c : Controller) (pos : QPoint) (labels : Labels)
    (hstate : getState c.model_ = ST_MAKING_STEP) (cell : CellDraw)
    (hcell : getEnemyCell c.model_ (getFieldCoord pos ENEMY_FIELD).x
      (getFieldCoord pos ENEMY_FIELD).y = some cell)
    (hplayed : cell = CELL_DOT ∨ cell = CELL_DAMAGED ∨ cell = CELL_KILLED) :
    onMousePressed c pos LeftButton labels = some (c, labels) := by
  unfold onMousePressed
  simp only [hstate]
  rw [if_neg (by decide), if_pos trivial]
  split
  · rfl
  · rw [if_pos trivial, hcell]
    rcases hplayed with h | h | h <;> subst h <;> simp

/-- C25, the failing inputs: the pixel column 216 to the right of the left edge
of a field image passes the test `pos.x() > shift_x + FIELD_IMG_WIDTH_DEFAULT`
and maps to `x = 10`, and the pixel row 217 below the top edge maps to `y = 10`;
neither is -1 and neither is a coordinate of the 10 x 10 field. -/
theorem getFieldCoord_edge :
    getFieldCoord { x := 256, y := 127 } MY_FIELD = { x := 10, y := 0 } ∧
    getFieldCoord { x := 40, y := 344 } MY_FIELD = { x := 0, y := 10 } ∧
    getFieldCoord { x := 538, y := 344 } ENEMY_FIELD = { x := 10, y := 10 } ∧
    getFieldCoord { x := 255, y := 343 } MY_FIELD = { x := 9, y := 9 } ∧
    getFieldCoord { x := 257, y := 127 } MY_FIELD = { x := -1, y := -1 } := by
  refine ⟨?_, ?_, ?_, ?_, ?_⟩ <;> decide

set_option maxRecDepth 100000 in
/-- C24, the failing input: in `ST_MAKING_STEP` a left click on pixel (538, 127),
the column 216 to the right of the left edge of the enemy field image, is mapped
by `getFieldCoord` to (10, 0), which is no cell of the 10 x 10 field; `getCell`
answers `CELL_EMPTY` for it and the message `GAME:7:anna:SHOT:10:0@` is written. -/
theorem shot_outside_field :
    getState fightingController.model_ = ST_MAKING_STEP ∧
    getFieldCoord { x := 538, y := 127 } ENEMY_FIELD = { x := 10, y := 0 } ∧
    getEnemyCell fightingController.model_ 10 0 = some CELL_EMPTY ∧
    onMousePressed fightingController { x := 538, y := 127 } LeftButton hiddenLabels =
      some ({ fightingController with
        socket_ := [toUtf8 "GAME:7:anna:SHOT:10:0@".toList] }, hiddenLabels) := by
  refine ⟨?_, ?_, ?_, ?_⟩ <;> decide

/-! ## The shot at a ship -/

theorem isCellEmpty_range (f : Field) (x y : Int) (h : isCellEmpty f x y = false) :
    0 ≤ x ∧ x < 10 ∧ 0 ≤ y ∧ y < 10 := by
  unfold isCellEmpty at h
  by_contra hr
  rw [if_neg hr] at h
  exact Bool.noConfusion h

/-- The cells of a walk lie `k` steps from its origin, `1 ≤ k ≤ fuel`, and are
not empty. -/
theorem runFrom_mem (f : Field) (dx dy : Int) :
    ∀ (fuel : Nat) (x y : Int) (p : Int × Int), p ∈ runFrom f dx dy fuel x y →
      ∃ k : Nat, 1 ≤ k ∧ k ≤ fuel ∧ p = (x + k * dx, y + k * dy) ∧
        isCellEmpty f p.1 p.2 = false := by
  intro fuel
  induction fuel with
  | zero => intro x y p h; simp [runFrom] at h
  | succ fuel ih =>
    intro x y p h
    unfold runFrom at h
    cases he : isCellEmpty f (x + dx) (y + dy)
    · rw [he] at h
      simp only [Bool.false_eq_true, if_false, List.mem_cons] at h
      rcases h with h | h
      · exact ⟨1, le_refl 1, by omega, by rw [h]; simp, by rw [h]; exact he⟩
      · obtain ⟨k, hk1, hk2, hp, hne⟩ := ih _ _ p h
        refine ⟨k + 1, by omega, by omega, ?_, hne⟩
        rw [hp]
        push_cast
        ext <;> simp <;> ring
    · rw [he] at h
      simp at h

theorem runFrom_nodup (f : Field) (dx dy : Int)
    (hd : (dx = 1 ∨ dx = -1) ∧ dy = 0 ∨ dx = 0 ∧ (dy = 1 ∨ dy = -1)) :
    ∀ (fuel : Nat) (x y : Int), (runFrom f dx dy fuel x y).Nodup := by
  intro fuel
  induction fuel with
  | zero => intro x y; simp [runFrom]
  | succ fuel ih =>
    intro x y
    unfold runFrom
    split
    · exact List.nodup_nil
    · refine List.nodup_cons.2 ⟨fun hm => ?_, ih _ _⟩
      obtain ⟨k, hk1, _, hp, _⟩ := runFrom_mem f dx dy fuel _ _ _ hm
      have h1 := congrArg Prod.fst hp
      have h2 := congrArg Prod.snd hp
      simp only at h1 h2
      rcases hd with ⟨h | h, h'⟩ | ⟨h, h' | h'⟩ <;> subst h <;> subst h' <;> omega

theorem shipCells_range (f : Field) (x y : Int) (hx : 0 ≤ x ∧ x < 10) (hy : 0 ≤ y ∧ y < 10)
    (p : Int × Int) (hp : p ∈ shipCells f x y) :
    0 ≤ p.1 ∧ p.1 < 10 ∧ 0 ≤ p.2 ∧ p.2 < 10 := by
  unfold shipCells at hp
  simp only [List.mem_cons, List.mem_append] at hp
  rcases hp with h | ((h | h) | h) | h
  · rw [h]; exact ⟨hx.1, hx.2, hy.1, hy.2⟩
  all_goals
    obtain ⟨_, _, _, _, hne⟩ := runFrom_mem f _ _ _ _ _ p h
    exact isCellEmpty_range f _ _ hne

/-- The ship of a cell lists no cell twice, so its length is the number of its
cells. -/
theorem shipCells_nodup (f : Field) (x y : Int) : (shipCells f x y).Nodup := by
  unfold shipCells
  have m1 := runFrom_mem f (-1) 0 10 x y
  have m2 := runFrom_mem f 1 0 10 x y
  have m3 := runFrom_mem f 0 (-1) 10 x y
  have m4 := runFrom_mem f 0 1 10 x y
  have e : ∀ {a b c d : Int}, (a, b) = (c, d) → a = c ∧ b = d := fun h =>
    ⟨congrArg Prod.fst h, congrArg Prod.snd h⟩
  refine List.nodup_cons.2 ⟨?_, ?_⟩
  · simp only [List.mem_append]
    rintro (((h | h) | h) | h)
    · obtain ⟨k, hk, _, hp, _⟩ := m1 _ h
      have := e hp; omega
    · obtain ⟨k, hk, _, hp, _⟩ := m2 _ h
      have := e hp; omega
    · obtain ⟨k, hk, _, hp, _⟩ := m3 _ h
      have := e hp; omega
    · obtain ⟨k, hk, _, hp, _⟩ := m4 _ h
      have := e hp; omega
  · refine List.Nodup.append (List.Nodup.append (List.Nodup.append
      (runFrom_nodup f _ _ (by decide) _ _ _) (runFrom_nodup f _ _ (by decide) _ _ _) ?_)
      (runFrom_nodup f _ _ (by decide) _ _ _) ?_) (runFrom_nodup f _ _ (by decide) _ _ _) ?_
    · intro p h1 h2
      obtain ⟨k, hk, _, hp, _⟩ := m1 p h1
      obtain ⟨k', hk', _, hp', _⟩ := m2 p h2
      have := e (hp.symm.trans hp'); omega
    · intro p h1 h2
      obtain ⟨k', hk', _, hp', _⟩ := m3 p h2
      rcases List.mem_append.1 h1 with h1 | h1
      · obtain ⟨k, hk, _, hp, _⟩ := m1 p h1
        have := e (hp.symm.trans hp'); omega
      · obtain ⟨k, hk, _, hp, _⟩ := m2 p h1
        have := e (hp.symm.trans hp'); omega
    · intro p h1 h2
      obtain ⟨k', hk', _, hp', _⟩ := m4 p h2
      rcases List.mem_append.1 h1 with h1 | h1
      · rcases List.mem_append.1 h1 with h1 | h1
        · obtain ⟨k, hk, _, hp, _⟩ := m1 p h1
          have := e (hp.symm.trans hp'); omega
        · obtain ⟨k, hk, _, hp, _⟩ := m2 p h1
          have := e (hp.symm.trans hp'); omega
      · obtain ⟨k, hk, _, hp, _⟩ := m3 p h1
        have := e (hp.symm.trans hp'); omega

theorem isCellEmpty_congr {f g : Field} (h : g.fieldState_ = f.fieldState_) (x y : Int) :
    isCellEmpty g x y = isCellEmpty f x y := by
  unfold isCellEmpty
  rw [h]

theorem runFrom_congr {f g : Field} (h : g.fieldState_ = f.fieldState_) (dx dy : Int) :
    ∀ (fuel : Nat) (x y : Int), runFrom g dx dy fuel x y = runFrom f dx dy fuel x y := by
  intro fuel
  induction fuel with
  | zero => intro x y; rfl
  | succ fuel ih =>
    intro x y
    unfold runFrom
    rw [isCellEmpty_congr h, ih]

/-- The ship of a cell is read off the placement state alone. -/
theorem shipCells_congr {f g : Field} (h : g.fieldState_ = f.fieldState_) (x y : Int) :
    shipCells g x y = shipCells f x y := by
  unfold shipCells
  rw [runFrom_congr h, runFrom_congr h, runFrom_congr h, runFrom_congr h]

theorem setCellDraw_state (f : Field) (x y : Int) (c : CellDraw) :
    (setCellDraw f x y c).fieldState_ = f.fieldState_ ∧
    (setCellDraw f x y c).fieldDraw_.length = f.fieldDraw_.length := by
  unfold setCellDraw
  split
  · exact ⟨rfl, List.length_set _ _ _⟩
  · exact ⟨rfl, rfl⟩

theorem drawAt_setCellDraw (f : Field) (hlen : f.fieldDraw_.length = 100) (x y : Int)
    (hx : 0 ≤ x ∧ x < 10) (hy : 0 ≤ y ∧ y < 10) (c : CellDraw) (p : Int × Int) :
    drawAt (setCellDraw f x y c) p =
      if p = (x, y) then some c else drawAt f p := by
  obtain ⟨px, py⟩ := p
  have hset : setCellDraw f x y c =
      { f with fieldDraw_ := f.fieldDraw_.set (10 * y + x).toNat c } := by
    unfold setCellDraw
    rw [if_pos ⟨hx.1, hx.2, hy.1, hy.2⟩]
  rw [hset]
  unfold drawAt
  by_cases hr : 0 ≤ px ∧ px < 10 ∧ 0 ≤ py ∧ py < 10
  · simp only [hr, and_self, if_true]
    by_cases hp : (px, py) = (x, y)
    · rw [if_pos hp]
      obtain ⟨rfl, rfl⟩ := Prod.mk.inj hp
      exact List.getElem?_set_eq_of_lt _ (by rw [hlen]; omega)
    · rw [if_neg hp]
      refine List.getElem?_set_ne (fun e => hp ?_)
      have := (cell_index x y hx hy).2 px py ⟨hr.1, hr.2.1⟩ ⟨hr.2.2.1, hr.2.2.2⟩ e.symm
      rw [this.1, this.2]
  · have hp : (px, py) ≠ (x, y) := by
      intro e
      obtain ⟨rfl, rfl⟩ := Prod.mk.inj e
      exact hr ⟨hx.1, hx.2, hy.1, hy.2⟩
    simp only [hr, if_false, if_neg hp]

/-- Marking the cells of a list, all on the board, one after the other. -/
theorem drawAt_foldl (c : CellDraw) :
    ∀ (ps : List (Int × Int)) (g : Field), g.fieldDraw_.length = 100 →
      (∀ q ∈ ps, 0 ≤ q.1 ∧ q.1 < 10 ∧ 0 ≤ q.2 ∧ q.2 < 10) →
      (ps.foldl (fun g p => setCellDraw g p.1 p.2 c) g).fieldState_ = g.fieldState_ ∧
      ∀ p, drawAt (ps.foldl (fun g p => setCellDraw g p.1 p.2 c) g) p =
        if p ∈ ps then some c else drawAt g p := by
  intro ps
  induction ps with
  | nil => intro g _ _; exact ⟨rfl, fun p => by simp⟩
  | cons q ps ih =>
    intro g hlen hr
    have hq := hr q (List.mem_cons_self q ps)
    have hg := setCellDraw_state g q.1 q.2 c
    obtain ⟨h1, h2⟩ := ih (setCellDraw g q.1 q.2 c) (by rw [hg.2, hlen])
      (fun r hr' => hr r (List.mem_cons_of_mem q hr'))
    rw [List.foldl_cons]
    refine ⟨h1.trans hg.1, fun p => ?_⟩
    rw [h2 p, drawAt_setCellDraw g hlen q.1 q.2 ⟨hq.1, hq.2.1⟩ ⟨hq.2.2.1, hq.2.2.2⟩ c p]
    by_cases hp : p ∈ ps
    · rw [if_pos hp, if_pos (List.mem_cons_of_mem q hp)]
    · rw [if_neg hp]
      by_cases hpq : p = q
      · rw [if_pos (by rw [hpq]), if_pos (by rw [hpq]; exact List.mem_cons_self q ps)]
      · rw [if_neg (fun e => hpq (by rw [e])),
          if_neg (fun hm => (List.mem_cons.1 hm).elim hpq hp)]

/-- The shot at the last live cell of a ship, in the model of the shot
handling. -/
theorem processShot_sunk (f : Field) (n : Nat) (x y : Int)
    (hlen : f.fieldDraw_.length = 100) (hx : 0 ≤ x ∧ x < 10) (hy : 0 ≤ y ∧ y < 10)
    (hlive : drawAt f (x, y) = some CELL_LIVE)
    (hrest : ∀ p ∈ shipCells f x y, p ≠ (x, y) → drawAt f p = some CELL_DAMAGED) :
    ∃ g, processShot f n x y = some (g, n + (shipCells f x y).length, ShotOutcome.sunk) ∧
      (∀ p, drawAt g p = if p ∈ shipCells f x y then some CELL_KILLED else drawAt f p) ∧
      g.fieldState_ = f.fieldState_ := by
  have hr : 0 ≤ x ∧ x < 10 ∧ 0 ≤ y ∧ y < 10 := ⟨hx.1, hx.2, hy.1, hy.2⟩
  have hd := setCellDraw_state f x y CELL_DAMAGED
  have hs := shipCells_congr hd.1 x y
  have hcell : f.fieldDraw_[(10 * y + x).toNat]? = some CELL_LIVE := by
    have := hlive
    unfold drawAt at this
    rw [if_pos hr] at this
    exact this
  have hk : isKilled (setCellDraw f x y CELL_DAMAGED) x y = true := by
    unfold isKilled
    rw [hs, List.all_eq_true]
    intro p hp
    rw [decide_eq_true_eq, drawAt_setCellDraw f hlen x y hx hy]
    by_cases e : p = (x, y)
    · rw [if_pos e]
    · rw [if_neg e]; exact hrest p hp e
  obtain ⟨h1, h2⟩ := drawAt_foldl CELL_KILLED (shipCells f x y)
    (setCellDraw f x y CELL_DAMAGED) (by rw [hd.2, hlen])
    (fun q hq => shipCells_range f x y hx hy q hq)
  refine ⟨drawKilledShip (setCellDraw f x y CELL_DAMAGED) x y, ?_, ?_, ?_⟩
  · unfold processShot
    rw [if_pos hr, hcell]
    simp only [hk, if_true, hs]
  · intro p
    unfold drawKilledShip
    rw [hs, h2 p, drawAt_setCellDraw f hlen x y hx hy]
    by_cases hp : p ∈ shipCells f x y
    · rw [if_pos hp, if_pos hp]
    · rw [if_neg hp, if_neg hp, if_neg]
      intro e
      exact hp (by rw [e]; exact List.mem_cons_self _ _)
  · unfold drawKilledShip
    rw [hs, h1, hd.1]

/-- C26. Sunk propagation, in the model of the shot handling: on a board with
100 draw cells, a shot at a `live` cell `(x, y)` of a ship of at least two cells
whose other cells are all `damaged` is answered `sunk`; every cell of the ship
is `killed` afterwards, no other cell and no placement state changes, and the
damaged-decks counter grows by the number of cells of the ship, which is not 1. -/
theorem sunk_propagation (f : Field) (n : Nat) (x y : Int)
    (hlen : f.fieldDraw_.length = 100) (hx : 0 ≤ x ∧ x < 10) (hy : 0 ≤ y ∧ y < 10)
    (hlive : drawAt f (x, y) = some CELL_LIVE)
    (hmulti : 2 ≤ (shipCells f x y).length)
    (hrest : ∀ p ∈ shipCells f x y, p ≠ (x, y) → drawAt f p = some CELL_DAMAGED) :
    ∃ g, processShot f n x y = some (g, n + (shipCells f x y).length, ShotOutcome.sunk) ∧
      (∀ p ∈ shipCells f x y, drawAt g p = some CELL_KILLED) ∧
      (∀ p, p ∉ shipCells f x y → drawAt g p = drawAt f p) ∧
      g.fieldState_ = f.fieldState_ ∧
      (shipCells f x y).Nodup ∧
      n + (shipCells f x y).length ≠ n + 1 := by
  obtain ⟨g, hg, hcells, hstate⟩ := processShot_sunk f n x y hlen hx hy hlive hrest
  refine ⟨g, hg, ?_, ?_, hstate, shipCells_nodup f x y, by omega⟩
  · intro p hp
    rw [hcells p, if_pos hp]
  · intro p hp
    rw [hcells p, if_neg hp]

set_option maxRecDepth 100000 in
theorem woundedBoard_facts :
    woundedBoard.fieldDraw_.length = 100 ∧
    drawAt woundedBoard (3, 0) = some CELL_LIVE ∧
    shipCells woundedBoard 3 0 = [(3, 0), (2, 0), (1, 0), (0, 0)] ∧
    ∀ p ∈ shipCells woundedBoard 3 0, p ≠ (3, 0) → drawAt woundedBoard p = some CELL_DAMAGED := by
  refine ⟨?_, ?_, ?_, ?_⟩ <;> decide

/-- C26, at the ship of four cells in row 0 of the layout of `generate()`, three
of them damaged, and a shot at the fourth, (3, 0): the counter goes from 5 to 9. -/
theorem sunk_propagation_witness :
    drawAt woundedBoard (3, 0) = some CELL_LIVE ∧
    shipCells woundedBoard 3 0 = [(3, 0), (2, 0), (1, 0), (0, 0)] ∧
    ∃ g, processShot woundedBoard 5 3 0 = some (g, 9, ShotOutcome.sunk) ∧
      drawAt g (0, 0) = some CELL_KILLED ∧ drawAt g (1, 0) = some CELL_KILLED ∧
      drawAt g (2, 0) = some CELL_KILLED ∧ drawAt g (3, 0) = some CELL_KILLED := by
  obtain ⟨h1, h2, h3, h4⟩ := woundedBoard_facts
  obtain ⟨g, hg, hk, _⟩ := sunk_propagation woundedBoard 5 3 0 h1 (by decide) (by decide) h2
    (by rw [h3]; decide) h4
  rw [h3] at hg hk
  exact ⟨h2, h3, g, hg, hk _ (by decide), hk _ (by decide), hk _ (by decide),
    hk _ (by decide)⟩

/-! ## The end of a session -/

theorem iterate_incNDamaged (s : Bool) (d : Nat) (g : GameController) :
    Nat.iterate (fun g => incNDamaged g s) d g =
      if s = true then { g with nStartedDamaged_ := g.nStartedDamaged_ + d }
      else { g with nAcceptedDamaged_ := g.nAcceptedDamaged_ + d } := by
  induction d generalizing g with
  | zero => cases s <;> simp
  | succ d ih =>
    rw [Function.iterate_succ_apply, ih]
    cases s <;> simp [incNDamaged] <;> omega

/-- A resolved shot on the mover's turn: the counter of the other side grows by
the decks of the shot, and the state is `FINISHED` or the other turn. -/
theorem shotResolved_turn (g : GameController) (b : Bool) (d : Nat)
    (ht : (g.state_ = ST_STARTED_STEP ∧ b = true) ∨ (g.state_ = ST_ACCEPTED_STEP ∧ b = false)) :
    nDamaged (shotResolved g b d) (!b) = nDamaged g (!b) + d ∧
    nDamaged (shotResolved g b d) b = nDamaged g b ∧
    (shotResolved g b d).nDecks_ = g.nDecks_ ∧
    (shotResolved g b d).state_ =
      (if nDamaged g (!b) + d = g.nDecks_ then ST_FINISHED
       else if b = true then ST_ACCEPTED_STEP else ST_STARTED_STEP) := by
  unfold shotResolved
  rw [if_pos ht, iterate_incNDamaged]
  cases b
  · by_cases h : g.nStartedDamaged_ + d = g.nDecks_ <;>
      simp [checkGameFinish, nDamaged, h]
  · by_cases h : g.nAcceptedDamaged_ + d = g.nDecks_ <;>
      simp [checkGameFinish, nDamaged, h]

theorem shotResolved_discard (g : GameController) (b : Bool) (d : Nat)
    (ht : ¬ ((g.state_ = ST_STARTED_STEP ∧ b = true) ∨
      (g.state_ = ST_ACCEPTED_STEP ∧ b = false))) :
    shotResolved g b d = g := by
  unfold shotResolved
  rw [if_neg ht]

theorem sessionInv_apply {g : GameController} (h : SessionInv g) (e : SessionEvent) :
    SessionInv (e.apply g) := by
  obtain ⟨h20, hc⟩ := h
  cases e with
  | matchmade =>
    show SessionInv (Battleship.matchmade g)
    by_cases hs : g.state_ = ST_NSTARTED
    · have e : Battleship.matchmade g = { g with state_ := ST_PLACING } := if_pos hs
      rw [e]
      exact ⟨h20, fun _ => hc (by rw [hs]; decide)⟩
    · have e : Battleship.matchmade g = g := if_neg hs
      rw [e]
      exact ⟨h20, hc⟩
  | boardsPlaced s =>
    show SessionInv (Battleship.boardsPlaced g s)
    by_cases hs : g.state_ = ST_PLACING
    · have e : Battleship.boardsPlaced g s =
          { g with state_ := if s then ST_STARTED_STEP else ST_ACCEPTED_STEP } := if_pos hs
      rw [e]
      exact ⟨h20, fun _ => hc (by rw [hs]; decide)⟩
    · have e : Battleship.boardsPlaced g s = g := if_neg hs
      rw [e]
      exact ⟨h20, hc⟩
  | forfeit =>
    show SessionInv (Battleship.forfeit g)
    by_cases hs : g.state_ = ST_PLACING ∨ g.state_ = ST_STARTED_STEP ∨
        g.state_ = ST_ACCEPTED_STEP
    · have e : Battleship.forfeit g = { g with state_ := ST_FINISHED } := if_pos hs
      rw [e]
      exact ⟨h20, fun hne => absurd rfl hne⟩
    · have e : Battleship.forfeit g = g := if_neg hs
      rw [e]
      exact ⟨h20, hc⟩
  | shotResolved b d =>
    show SessionInv (shotResolved g b d)
    by_cases ht : (g.state_ = ST_STARTED_STEP ∧ b = true) ∨
        (g.state_ = ST_ACCEPTED_STEP ∧ b = false)
    · obtain ⟨h1, h2, h3, h4⟩ := shotResolved_turn g b d ht
      have hne : g.state_ ≠ ST_FINISHED := by
        rcases ht with ht | ht <;> rw [ht.1] <;> decide
      have hcs := hc hne
      refine ⟨h3.trans h20, fun hnf => ?_⟩
      have hd : nDamaged g (!b) + d ≠ 20 := by
        intro e
        rw [h4, h20, if_pos e] at hnf
        exact hnf rfl
      cases b
      · simp only [nDamaged, Bool.not_false, if_true, Bool.false_eq_true, if_false] at h1 h2 hd
        rw [h1, h2]
        exact ⟨hd, hcs.2⟩
      · simp only [nDamaged, Bool.not_true, if_true, Bool.false_eq_true, if_false] at h1 h2 hd
        rw [h1, h2]
        exact ⟨hcs.1, hd⟩
    · rw [shotResolved_discard g b d ht]
      exact ⟨h20, hc⟩

theorem sessionAfter_inv (gameId : Int) (events : List SessionEvent) :
    SessionInv (sessionAfter gameId events) := by
  unfold sessionAfter
  have h0 : SessionInv (newSession gameId) := 
    ⟨rfl, fun _ => ⟨by show (0 : Int) ≠ 20; decide, by show (0 : Int) ≠ 20; decide⟩⟩
  generalize newSession gameId = g at h0
  induction events generalizing g with
  | nil => exact h0
  | cons e es ih => exact ih _ (sessionInv_apply h0 e)

theorem sessionAfter_snoc (gameId : Int) (events : List SessionEvent) (e : SessionEvent) :
    sessionAfter gameId (events ++ [e]) = e.apply (sessionAfter gameId events) := by
  unfold sessionAfter
  rw [List.foldl_append]
  rfl

/-- C27 as stated fails: a session on the starter's turn whose counters are both
0 is `FINISHED` after a forfeit, with both counters still 0 and
`checkGameFinish` false for both sides. -/
theorem finish_detection_counterexample :
    (sessionAfter 1 [SessionEvent.matchmade, SessionEvent.boardsPlaced true]).state_ =
      ST_STARTED_STEP ∧
    (sessionAfter 1 [SessionEvent.matchmade, SessionEvent.boardsPlaced true,
      SessionEvent.forfeit]).state_ = ST_FINISHED ∧
    nDamaged (sessionAfter 1 [SessionEvent.matchmade, SessionEvent.boardsPlaced true,
      SessionEvent.forfeit]) true = 0 ∧
    nDamaged (sessionAfter 1 [SessionEvent.matchmade, SessionEvent.boardsPlaced true,
      SessionEvent.forfeit]) false = 0 ∧
    checkGameFinish (sessionAfter 1 [SessionEvent.matchmade, SessionEvent.boardsPlaced true,
      SessionEvent.forfeit]) true = false ∧
    checkGameFinish (sessionAfter 1 [SessionEvent.matchmade, SessionEvent.boardsPlaced true,
      SessionEvent.forfeit]) false = false := by
  refine ⟨?_, ?_, ?_, ?_, ?_, ?_⟩ <;> decide

/-- C27, amended, in the model of the session: for the session `g` after any
events and one more event `e`: `checkGameFinish` is true for a side exactly when
the counter of that side is 20; if `e` takes `g` to `FINISHED` then `e` is a
forfeit, or a resolved shot that raised the counter of the damaged side, by at
least one deck, to 20; a resolved shot on the mover's turn takes `g` to
`FINISHED` exactly when it raises that counter to 20; and an event changes
nothing in a session that is `FINISHED`. -/
theorem finish_detection (gameId : Int) (events : List SessionEvent) (e : SessionEvent) :
    (∀ side : Bool, checkGameFinish (sessionAfter gameId events) side = true ↔
      nDamaged (sessionAfter gameId events) side = 20) ∧
    ((sessionAfter gameId events).state_ ≠ ST_FINISHED →
      (sessionAfter gameId (events ++ [e])).state_ = ST_FINISHED →
      e = SessionEvent.forfeit ∨
      ∃ (b : Bool) (d : Nat), e = SessionEvent.shotResolved b d ∧ 0 < d ∧
        nDamaged (sessionAfter gameId (events ++ [e])) (!b) =
          nDamaged (sessionAfter gameId events) (!b) + d ∧
        nDamaged (sessionAfter gameId (events ++ [e])) (!b) = 20) ∧
    (∀ (b : Bool) (d : Nat),
      ((sessionAfter gameId events).state_ = ST_STARTED_STEP ∧ b = true) ∨
        ((sessionAfter gameId events).state_ = ST_ACCEPTED_STEP ∧ b = false) →
      ((shotResolved (sessionAfter gameId events) b d).state_ = ST_FINISHED ↔
        nDamaged (sessionAfter gameId events) (!b) + d = 20)) ∧
    ((sessionAfter gameId events).state_ = ST_FINISHED →
      sessionAfter gameId (events ++ [e]) = sessionAfter gameId events) := by
  rw [sessionAfter_snoc]
  obtain ⟨h20, hc⟩ := sessionAfter_inv gameId events
  generalize sessionAfter gameId events = g at h20 hc
  refine ⟨?_, ?_, ?_, ?_⟩
  · intro side
    cases side <;> simp [checkGameFinish, nDamaged, h20]
  · intro hne hfin
    cases e with
    | forfeit => exact Or.inl rfl
    | matchmade =>
      exfalso
      have hfin' : (Battleship.matchmade g).state_ = ST_FINISHED := hfin
      unfold Battleship.matchmade at hfin'
      split at hfin'
      · exact GameState.noConfusion hfin'
      · exact hne hfin'
    | boardsPlaced s =>
      exfalso
      have hfin' : (Battleship.boardsPlaced g s).state_ = ST_FINISHED := hfin
      unfold Battleship.boardsPlaced at hfin'
      split at hfin'
      · cases s <;> exact GameState.noConfusion hfin'
      · exact hne hfin'
    | shotResolved b d =>
      right
      have hfin' : (Battleship.shotResolved g b d).state_ = ST_FINISHED := hfin
      by_cases ht : (g.state_ = ST_STARTED_STEP ∧ b = true) ∨
          (g.state_ = ST_ACCEPTED_STEP ∧ b = false)
      · obtain ⟨h1, _, _, h4⟩ := shotResolved_turn g b d ht
        have hd : nDamaged g (!b) + d = 20 := by
          by_contra hd
          rw [h4, h20, if_neg hd] at hfin'
          cases b <;> exact GameState.noConfusion hfin'
        have hpos : 0 < d := by
          rcases Nat.eq_zero_or_pos d with h0 | h0
          · exfalso
            subst h0
            have := hc hne
            cases b <;> simp [nDamaged] at hd <;> omega
          · exact h0
        exact ⟨b, d, rfl, hpos, h1, h1.trans hd⟩
      · rw [shotResolved_discard g b d ht] at hfin'
        exact absurd hfin' hne
  · intro b d ht
    obtain ⟨_, _, _, h4⟩ := shotResolved_turn g b d ht
    rw [h4, h20]
    constructor
    · intro h
      by_contra hd
      rw [if_neg hd] at h
      cases b <;> exact GameState.noConfusion h
    · intro h
      rw [if_pos h]
  · intro hfin
    cases e with
    | forfeit =>
      show Battleship.forfeit g = g
      unfold Battleship.forfeit
      rw [if_neg (by rw [hfin]; decide)]
    | matchmade =>
      show Battleship.matchmade g = g
      unfold Battleship.matchmade
      rw [if_neg (by rw [hfin]; decide)]
    | boardsPlaced s =>
      show Battleship.boardsPlaced g s = g
      unfold Battleship.boardsPlaced
      rw [if_neg (by rw [hfin]; decide)]
    | shotResolved b d =>
      exact shotResolved_discard g b d (by rw [hfin]; simp)

/-- C27, amended, at a session in which the starter has damaged 19 decks and
then sinks a one-deck ship: the session is `FINISHED` and the counter of the
acceptor stands at 20. -/
theorem finish_detection_witness :
    (sessionAfter 1 [SessionEvent.matchmade, SessionEvent.boardsPlaced true,
      SessionEvent.shotResolved true 19, SessionEvent.shotResolved false 0]).state_ =
      ST_STARTED_STEP ∧
    ((shotResolved (sessionAfter 1 [SessionEvent.matchmade, SessionEvent.boardsPlaced true,
      SessionEvent.shotResolved true 19, SessionEvent.shotResolved false 0]) true 1).state_ =
      ST_FINISHED ↔
    nDamaged (sessionAfter 1 [SessionEvent.matchmade, SessionEvent.boardsPlaced true,
      SessionEvent.shotResolved true 19, SessionEvent.shotResolved false 0]) (!true) + 1 = 20) ∧
    nDamaged (sessionAfter 1 [SessionEvent.matchmade, SessionEvent.boardsPlaced true,
      SessionEvent.shotResolved true 19, SessionEvent.shotResolved false 0]) false = 19 :=
  ⟨by decide,
    (finish_detection 1 [SessionEvent.matchmade, SessionEvent.boardsPlaced true,
      SessionEvent.shotResolved true 19, SessionEvent.shotResolved false 0]
      SessionEvent.forfeit).2.2.1 true 1 (Or.inl ⟨by decide, rfl⟩),
    by decide⟩

/-! ## The logins of the connections -/

theorem checkLogin_iff (clients : Clients) (login : List Char) :
    checkLogin clients login = true ↔
      ∀ e ∈ clients, e.2.status_ = ST_AUTHORIZED → e.2.login_ ≠ login := by
  unfold checkLogin
  rw [List.all_eq_true]
  constructor
  · intro h e he hs hl
    have := h e he
    simp [Client.isAuthorized, hs, hl] at this
  · intro h e he
    by_cases hs : e.2.status_ = ST_AUTHORIZED
    · simp [Client.isAuthorized, hs, h e he hs]
    · simp [Client.isAuthorized, hs]

theorem registryInv_apply {clients : Clients} (h : RegistryInv clients) (e : RegistryEvent) :
    RegistryInv (e.apply clients) := by
  obtain ⟨hk, hl⟩ := h
  cases e with
  | register i =>
    show RegistryInv (clients.register i)
    unfold Clients.register
    constructor
    · rw [List.map_cons, List.nodup_cons]
      constructor
      · intro hm
        obtain ⟨e, he, hei⟩ := List.mem_map.1 hm
        have := (List.mem_filter.1 he).2
        simp at this
        exact this hei
      · exact (hk.sublist (List.Sublist.map _ (List.filter_sublist _)))
    · intro a ha b hb haa hba hlog
      rcases List.mem_cons.1 ha with rfl | ha
      · exact absurd haa (by simp [Client.isAuthorized])
      · rcases List.mem_cons.1 hb with rfl | hb
        · exact absurd hba (by simp [Client.isAuthorized])
        · exact hl a (List.mem_filter.1 ha).1 b (List.mem_filter.1 hb).1 haa hba hlog
  | remove i =>
    show RegistryInv (clients.remove i)
    unfold Clients.remove
    exact ⟨hk.sublist (List.Sublist.map _ (List.filter_sublist _)),
      fun a ha b hb => hl a (List.mem_filter.1 ha).1 b (List.mem_filter.1 hb).1⟩
  | authorize i l =>
    show RegistryInv (clients.authorize i l)
    unfold Clients.authorize
    by_cases hc : checkLogin clients l = true
    · rw [if_pos hc]
      have hfree := (checkLogin_iff clients l).1 hc
      constructor
      · rw [List.map_map]
        have : (Prod.fst ∘ fun e : Int × Client =>
            if e.1 = i then (e.1, ({ status_ := ST_AUTHORIZED, login_ := l } : Client)) else e)
            = Prod.fst := by
          funext e
          simp only [Function.comp]
          split <;> rfl
        rw [this]
        exact hk
      · intro a ha b hb haa hba hlog
        obtain ⟨a0, ha0, rfl⟩ := List.mem_map.1 ha
        obtain ⟨b0, hb0, rfl⟩ := List.mem_map.1 hb
        by_cases hai : a0.1 = i
        · by_cases hbi : b0.1 = i
          · simp only [hai, hbi, if_true]
          · exfalso
            simp only [hai, hbi, if_true, if_false] at hlog hba
            exact hfree b0 hb0 (by simpa [Client.isAuthorized] using hba) hlog.symm
        · by_cases hbi : b0.1 = i
          · exfalso
            simp only [hai, hbi, if_true, if_false] at hlog haa
            exact hfree a0 ha0 (by simpa [Client.isAuthorized] using haa) hlog
          · simp only [hai, hbi, if_false] at hlog haa hba ⊢
            exact hl a0 ha0 b0 hb0 haa hba hlog
    · rw [if_neg hc]
      exact ⟨hk, hl⟩

theorem registryAfter_inv (events : List RegistryEvent) : RegistryInv (registryAfter events) := by
  unfold registryAfter
  have h0 : RegistryInv ([] : Clients) := ⟨List.nodup_nil, fun a ha => absurd ha (List.not_mem_nil a)⟩
  generalize ([] : Clients) = c at h0
  induction events generalizing c with
  | nil => exact h0
  | cons e es ih => exact ih _ (registryInv_apply h0 e)

/-- C28. Login uniqueness, in the model of the registry of connections:
`checkLogin(login)` is true exactly when no authorized connection holds exactly
that login, which for a connection that is not authorized itself means no other
authorized connection; the match is case-sensitive; and in the registry after any
events two authorized connections never share a login. -/
theorem login_uniqueness (events : List RegistryEvent) (login : List Char) :
    (∀ clients : Clients, checkLogin clients login = true ↔
      ∀ e ∈ clients, e.2.status_ = ST_AUTHORIZED → e.2.login_ ≠ login) ∧
    (∀ (clients : Clients) (connectionId : Int),
      (∀ e ∈ clients, e.1 = connectionId → e.2.status_ ≠ ST_AUTHORIZED) →
      (checkLogin clients login = true ↔
        ∀ e ∈ clients, e.1 ≠ connectionId → e.2.status_ = ST_AUTHORIZED →
          e.2.login_ ≠ login)) ∧
    (checkLogin (registryAfter [RegistryEvent.register 1,
        RegistryEvent.authorize 1 "alice".toList]) "alice".toList = false ∧
      checkLogin (registryAfter [RegistryEvent.register 1,
        RegistryEvent.authorize 1 "alice".toList]) "Alice".toList = true) ∧
    (∀ a ∈ registryAfter events, ∀ b ∈ registryAfter events, a.1 ≠ b.1 →
      a.2.status_ = ST_AUTHORIZED → b.2.status_ = ST_AUTHORIZED → a.2.login_ ≠ b.2.login_) := by
  refine ⟨fun clients => checkLogin_iff clients login, ?_, ⟨by decide, by decide⟩, ?_⟩
  · intro clients i hself
    rw [checkLogin_iff]
    constructor
    · intro h e he _ hs
      exact h e he hs
    · intro h e he hs
      exact h e he (fun hi => hself e he hi hs) hs
  · intro a ha b hb hne hsa hsb hlog
    exact hne ((registryAfter_inv events).2 a ha b hb (by simp [Client.isAuthorized, hsa])
      (by simp [Client.isAuthorized, hsb]) hlog)

/-- C28, at a registry in which a second connection asks for a login that is
taken: it stays unauthorized, and asking for another login it is authorized. -/
theorem login_uniqueness_witness :
    registryAfter [RegistryEvent.register 1, RegistryEvent.register 2,
        RegistryEvent.authorize 1 "alice".toList, RegistryEvent.authorize 2 "alice".toList] =
      [(2, { status_ := ST_CONNECTED, login_ := [] }),
       (1, { status_ := ST_AUTHORIZED, login_ := "alice".toList })] ∧
    registryAfter [RegistryEvent.register 1, RegistryEvent.register 2,
        RegistryEvent.authorize 1 "alice".toList, RegistryEvent.authorize 2 "alice".toList,
        RegistryEvent.authorize 2 "Alice".toList] =
      [(2, { status_ := ST_AUTHORIZED, login_ := "Alice".toList }),
       (1, { status_ := ST_AUTHORIZED, login_ := "alice".toList })] ∧
    (checkLogin [(2, { status_ := ST_CONNECTED, login_ := [] }),
       (1, { status_ := ST_AUTHORIZED, login_ := "alice".toList })] "alice".toList = true ↔
      ∀ e ∈ [((2 : Int), ({ status_ := ST_CONNECTED, login_ := [] } : Client)),
          (1, { status_ := ST_AUTHORIZED, login_ := "alice".toList })],
        e.2.status_ = ST_AUTHORIZED → e.2.login_ ≠ "alice".toList) :=
  ⟨by decide, by decide, (login_uniqueness [] "alice".toList).1 _⟩

/-! ## The validator stays inside its vector and returns -/

theorem getElem?_eq_cellAt (b : List CellState) (k : Nat) (h : k < b.length) :
    b[k]? = some (cellAt b k) := by
  simp [cellAt, List.getD, List.getElem?_eq_getElem h]

/-- A vector of 144 cells whose border ring is empty is a bordered vector. -/
theorem bordered_of_ring (b : List CellState) (hlen : b.length = 144)
    (hring : ∀ k, k < 144 → (k / 12 = 0 ∨ k / 12 = 11 ∨ k % 12 = 0 ∨ k % 12 = 11) →
      b[k]? = some CL_ST_EMPTY) : Bordered b := by
  refine ⟨hlen, fun k hk => ?_⟩
  by_contra hi
  apply hk
  by_cases hlt : k < 144
  · have h1 := hring k hlt (by unfold interior at hi; omega)
    rw [getElem?_eq_cellAt b k (by omega)] at h1
    exact Option.some.inj h1
  · exact cellAt_of_le b k (by omega)

theorem Bordered.step {b : List CellState} (hB : Bordered b) {δ : Nat} (hδ : δ = 1 ∨ δ = 12) :
    ∀ k, cellAt b k ≠ CL_ST_EMPTY → k + δ < b.length := by
  intro k hk
  have hi := hB.2 k hk
  rw [hB.1]
  unfold interior at hi
  rcases hδ with h | h <;> subst h <;> omega

/-- In a bordered vector a straight run of non-empty cells from `p` in steps of
1 or 12 has fewer than 10 further cells. -/
theorem Bordered.run_lt {b : List CellState} (hB : Bordered b) {δ : Nat} (hδ : δ = 1 ∨ δ = 12)
    (p n : Nat) (h : ∀ m, m ≤ n → cellAt b (p + δ * m) ≠ CL_ST_EMPTY) : n < 10 := by
  by_contra hn
  have h0 := hB.2 _ (h 0 (Nat.zero_le n))
  rw [Nat.mul_zero, Nat.add_zero] at h0
  unfold interior at h0
  rcases hδ with hd | hd <;> subst hd
  · have h1 := hB.2 _ (h (11 - p % 12) (by omega))
    unfold interior at h1
    omega
  · have h1 := hB.2 _ (h (11 - p / 12) (by omega))
    unfold interior at h1
    omega

/-- C29. No boundary check is needed inside the validator: for a field with 100
placement cells, whatever their labels, `isCorrect` builds a vector of 144 cells
whose border ring is `CL_ST_EMPTY` and whose cell `12 * (i + 1) + (j + 1)` is
placement cell `10 * i + j`; on it `CheckDiagonalCollisions` and `CheckLength`
read and write inside the vector only, as do `shipNum` and `isShip` on the
vector that `CheckLength` leaves, and so does the whole call. An index outside
the vector makes these functions answer `none`. -/
theorem validator_in_bounds (f : Field) (hlen : f.fieldState_.length = 100) :
    ∃ b0, withBorders f.fieldState_ = Flow.next b0 ∧ b0.length = 144 ∧
      (∀ k, k < 144 → (k / 12 = 0 ∨ k / 12 = 11 ∨ k % 12 = 0 ∨ k % 12 = 11) →
        b0[k]? = some CL_ST_EMPTY) ∧
      (∀ i j, i < 10 → j < 10 → b0[12 * (i + 1) + (j + 1)]? = f.fieldState_[10 * i + j]?) ∧
      (∃ r, CheckDiagonalCollisions b0 = some r) ∧
      (CheckLength b0 = some none ∨
        ∃ b, CheckLength b0 = some (some b) ∧ b.length = 144 ∧
          ∀ size : Nat, size ≤ 4 →
            (∃ n, shipNum (size : Int) b = some n) ∧
            ∀ x y, x < 12 → y < 12 → ∃ r, isShip (size : Int) x y b = some r) ∧
      ∃ r, isCorrect f = some (r, f) := by
  obtain ⟨b0, hb0, hC⟩ := withBorders_copy f hlen
  have hB := hC.bordered
  refine ⟨b0, hb0, hC.len, ?_, ?_, ?_, ?_, isCorrect_total f hlen⟩
  · intro k hk hborder
    rw [getElem?_eq_cellAt b0 k (by rw [hC.len]; exact hk), hC.cell k,
      if_neg (by unfold interior; omega)]
  · intro i j hi hj
    rw [getElem?_eq_cellAt b0 _ (by rw [hC.len]; omega),
      getElem?_eq_cellAt f.fieldState_ _ (by rw [hlen]; omega), hC.at j i hj hi]
  · rcases CheckDiagonalCollisions_spec b0 hC.len with h | h
    · exact ⟨true, h.1⟩
    · exact ⟨false, h.1⟩
  · rcases CheckLength_bordered hB with h | ⟨b, hb, hBb⟩
    · exact Or.inl h
    · refine Or.inr ⟨b, hb, hBb.1, fun size hs => ⟨shipNum_total hBb size hs, ?_⟩⟩
      intro x y hx hy
      exact ⟨_, isShip_some hBb size hs x y hx hy⟩

/-- C29, at the field that `generate()` leaves. -/
theorem validator_in_bounds_witness :
    generatedField.fieldState_.length = 100 ∧
    ∃ b0, withBorders generatedField.fieldState_ = Flow.next b0 ∧ b0.length = 144 ∧
      (∃ r, CheckDiagonalCollisions b0 = some r) ∧
      ∃ r, isCorrect generatedField = some (r, generatedField) := by
  obtain ⟨b0, h1, h2, _, _, h5, _, h7⟩ := validator_in_bounds generatedField generatedField_length
  exact ⟨generatedField_length, b0, h1, h2, h5, h7⟩

/-- C30. The validator terminates: in a vector of 144 cells whose border ring is
`CL_ST_EMPTY`, from a non-empty cell `p` and in steps `δ` of 1 (rightward) or
12 (downward), the walk loop of `CheckLength` started at `p` and the walk loop
of `isShip` started at `p + δ` return after fewer than 10 iterations, the first
at a cell inside the border ring and the second at a cell of the vector; and
`isCorrect` returns on every field with 100 placement cells. -/
theorem validator_terminates (b : List CellState) (hlen : b.length = 144)
    (hring : ∀ k, k < 144 → (k / 12 = 0 ∨ k / 12 = 11 ∨ k % 12 = 0 ∨ k % 12 = 11) →
      b[k]? = some CL_ST_EMPTY)
    (p δ : Nat) (hδ : δ = 1 ∨ δ = 12) (mid : CellState)
    (hp : ∃ c, b[p]? = some c ∧ c ≠ CL_ST_EMPTY) :
    (∃ n b', n < 10 ∧
      lengthWalk mid δ b.length b p 2 = Flow.next (b', p + δ * n, 2 + n) ∧
      1 ≤ (p + δ * n) / 12 ∧ (p + δ * n) / 12 ≤ 10 ∧
      1 ≤ (p + δ * n) % 12 ∧ (p + δ * n) % 12 ≤ 10) ∧
    (∃ n, n < 10 ∧ isShipWalk b δ b.length (p + δ) 1 = some (1 + n) ∧
      p + δ * (n + 1) < 144 ∧ b[p + δ * (n + 1)]? = some CL_ST_EMPTY) ∧
    (∀ f : Field, f.fieldState_.length = 100 → ∃ r, isCorrect f = some (r, f)) := by
  have hB := bordered_of_ring b hlen hring
  have hδ1 : 1 ≤ δ := by rcases hδ with h | h <;> omega
  have hpne : cellAt b p ≠ CL_ST_EMPTY := by
    obtain ⟨c, hc, hne⟩ := hp
    have hlt : p < b.length := by
      by_contra h
      rw [List.getElem?_eq_none (by omega)] at hc
      exact Option.noConfusion hc
    rw [getElem?_eq_cellAt b p hlt] at hc
    rw [Option.some.inj hc]
    exact hne
  refine ⟨?_, ?_, fun f hf => isCorrect_total f hf⟩
  · obtain ⟨n, b', hw, _, hrun, _, _, _⟩ :=
      lengthWalk_spec mid δ hδ1 b.length b p 2 (hB.step hδ) hpne (by omega)
    have hi := hB.2 _ (hrun n (le_refl n))
    unfold interior at hi
    exact ⟨n, b', hB.run_lt hδ p n hrun, hw, hi.2.2.1, hi.2.2.2, hi.1, hi.2.1⟩
  · obtain ⟨n, hw, hrun, hstop⟩ :=
      isShipWalk_spec b δ hδ1 (hB.step hδ) b.length (p + δ) 1 (hB.step hδ p hpne) (by omega)
    have hall : ∀ m, m ≤ n → cellAt b (p + δ * m) ≠ CL_ST_EMPTY := by
      intro m hm
      rcases Nat.eq_zero_or_pos m with h0 | h0
      · subst h0; rw [Nat.mul_zero, Nat.add_zero]; exact hpne
      · have := hrun (m - 1) (by omega)
        have e : p + δ + δ * (m - 1) = p + δ * m := by
          obtain ⟨m', rfl⟩ : ∃ m', m = m' + 1 := ⟨m - 1, by omega⟩
          rw [Nat.add_sub_cancel, Nat.mul_succ]; omega
        rw [e] at this
        exact this
    have e : p + δ + δ * n = p + δ * (n + 1) := by rw [Nat.mul_succ]; omega
    rw [e] at hstop
    have hlt : p + δ * (n + 1) < 144 := by
      have := hB.step hδ _ (hall n (le_refl n))
      rw [hlen] at this
      rw [Nat.mul_succ]; omega
    refine ⟨n, hB.run_lt hδ p n hall, hw, hlt, ?_⟩
    rw [getElem?_eq_cellAt b _ (by rw [hlen]; exact hlt), hstop]

set_option maxRecDepth 100000 in
theorem generatedGrid_facts :
    generatedGrid.length = 144 ∧
    (∀ k, k < 144 → (k / 12 = 0 ∨ k / 12 = 11 ∨ k % 12 = 0 ∨ k % 12 = 11) →
      generatedGrid[k]? = some CL_ST_EMPTY) ∧
    generatedGrid[13]? = some CL_ST_UNDEFINED := by
  refine ⟨?_, ?_, ?_⟩ <;> decide

/-- C30, at the bordered vector of the layout of `generate()` and the ship of
four cells in its first row, walked rightward from index 13. -/
theorem validator_terminates_witness :
    generatedGrid.length = 144 ∧ generatedGrid[13]? = some CL_ST_UNDEFINED ∧
    (∃ n b', n < 10 ∧
      lengthWalk CL_ST_HMIDDLE 1 generatedGrid.length generatedGrid 13 2 =
        Flow.next (b', 13 + 1 * n, 2 + n)) ∧
    (∃ n, n < 10 ∧ isShipWalk generatedGrid 1 generatedGrid.length (13 + 1) 1 = some (1 + n)) := by
  obtain ⟨h1, h2, h3⟩ := generatedGrid_facts
  obtain ⟨⟨n, b', hn, hw, _⟩, ⟨m, hm, hs, _⟩, _⟩ :=
    validator_terminates generatedGrid h1 h2 13 1 (Or.inl rfl) CL_ST_HMIDDLE
      ⟨CL_ST_UNDEFINED, h3, by decide⟩
  exact ⟨h1, h3, ⟨n, b', hn, hw⟩, ⟨m, hm, hs⟩⟩

/-! ## The run classification as a whole -/

/-- C31. Run classification: on a vector of 144 cells with an empty border ring,
every cell `CL_ST_EMPTY` or `CL_ST_UNDEFINED`, no two non-empty cells diagonal
neighbours and no five non-empty cells in a row or in a column, `CheckLength`
returns true and leaves a vector in which no cell is `CL_ST_UNDEFINED`, the empty
cells (and only they) are empty, every maximal horizontal run of `n >= 2` cells
reads `LEFT`, `HMIDDLE` (n - 2 times), `RIGHT`, every maximal vertical run of
`n >= 2` cells reads `TOP`, `VMIDDLE` (n - 2 times), `BOTTOM`, and every non-empty
cell without a non-empty edge neighbour is `CENTER`. -/
theorem run_classification (b0 : List CellState) (hlen : b0.length = 144)
    (hring : ∀ k, k < 144 → (k / 12 = 0 ∨ k / 12 = 11 ∨ k % 12 = 0 ∨ k % 12 = 11) →
      cellAt b0 k = CL_ST_EMPTY)
    (hEU : ∀ k, k < 144 → cellAt b0 k = CL_ST_EMPTY ∨ cellAt b0 k = CL_ST_UNDEFINED)
    (hdiag : ∀ k, k < 144 → cellAt b0 k ≠ CL_ST_EMPTY →
      cellAt b0 (k + 11) = CL_ST_EMPTY ∧ cellAt b0 (k + 13) = CL_ST_EMPTY)
    (hshort : ∀ k, k < 144 →
      ¬ (cellAt b0 k ≠ CL_ST_EMPTY ∧ cellAt b0 (k + 1) ≠ CL_ST_EMPTY ∧
        cellAt b0 (k + 2) ≠ CL_ST_EMPTY ∧ cellAt b0 (k + 3) ≠ CL_ST_EMPTY ∧
        cellAt b0 (k + 4) ≠ CL_ST_EMPTY) ∧
      ¬ (cellAt b0 k ≠ CL_ST_EMPTY ∧ cellAt b0 (k + 12) ≠ CL_ST_EMPTY ∧
        cellAt b0 (k + 24) ≠ CL_ST_EMPTY ∧ cellAt b0 (k + 36) ≠ CL_ST_EMPTY ∧
        cellAt b0 (k + 48) ≠ CL_ST_EMPTY)) :
    ∃ b, CheckLength b0 = some (some b) ∧ b.length = 144 ∧
      (∀ k, cellAt b k ≠ CL_ST_UNDEFINED) ∧
      (∀ k, cellAt b k = CL_ST_EMPTY ↔ cellAt b0 k = CL_ST_EMPTY) ∧
      (∀ k n, 2 ≤ n → cellAt b0 (k - 1) = CL_ST_EMPTY →
        (∀ m, m < n → cellAt b0 (k + m) ≠ CL_ST_EMPTY) → cellAt b0 (k + n) = CL_ST_EMPTY →
        cellAt b k = CL_ST_LEFT ∧
        (∀ m, 1 ≤ m → m + 1 < n → cellAt b (k + m) = CL_ST_HMIDDLE) ∧
        cellAt b (k + (n - 1)) = CL_ST_RIGHT) ∧
      (∀ k n, 2 ≤ n → cellAt b0 (k - 12) = CL_ST_EMPTY →
        (∀ m, m < n → cellAt b0 (k + 12 * m) ≠ CL_ST_EMPTY) →
        cellAt b0 (k + 12 * n) = CL_ST_EMPTY →
        cellAt b k = CL_ST_TOP ∧
        (∀ m, 1 ≤ m → m + 1 < n → cellAt b (k + 12 * m) = CL_ST_VMIDDLE) ∧
        cellAt b (k + 12 * (n - 1)) = CL_ST_BOTTOM) ∧
      (∀ k, cellAt b0 k ≠ CL_ST_EMPTY →
        cellAt b0 (k + 1) = CL_ST_EMPTY → cellAt b0 (k - 1) = CL_ST_EMPTY →
        cellAt b0 (k + 12) = CL_ST_EMPTY → cellAt b0 (k - 12) = CL_ST_EMPTY →
        cellAt b k = CL_ST_CENTER) := by
  have hin : ∀ k, cellAt b0 k ≠ CL_ST_EMPTY → k < 144 := fun k hk => by
    by_contra h
    exact hk (cellAt_of_le b0 k (by omega))
  have hB : Bordered b0 := by
    refine ⟨hlen, fun k hk => ?_⟩
    by_contra hi
    have hk144 := hin k hk
    exact hk (hring k hk144 (by unfold interior at hi; omega))
  have hE : EU b0 := fun k => by
    by_cases hk : k < 144
    · exact hEU k hk
    · exact Or.inl (cellAt_of_le b0 k (by omega))
  have hD : NoDiag b0 := by
    intro k hi hk
    have hk144 := hin k hk
    unfold interior at hi
    refine ⟨?_, ?_, (hdiag k hk144 hk).2, (hdiag k hk144 hk).1⟩
    · by_contra h
      have := (hdiag (k - 13) (by omega) h).2
      rw [show k - 13 + 13 = k by omega] at this
      exact hk this
    · by_contra h
      have := (hdiag (k - 11) (by omega) h).1
      rw [show k - 11 + 11 = k by omega] at this
      exact hk this
  have hL : ¬ LongRun b0 := by
    rintro ⟨k, δ, hδ, hk, _, hrun⟩
    have h0 := hrun 0 (by decide)
    have h1 := hrun 1 (by decide)
    have h2 := hrun 2 (by decide)
    have h3 := hrun 3 (by decide)
    have h4 := hrun 4 (by decide)
    rcases hδ with rfl | rfl
    · exact (hshort k (hin k hk)).1 ⟨hk, h1, h2, h3, h4⟩
    · exact (hshort k (hin k hk)).2 ⟨hk, h1, h2, h3, h4⟩
  rcases CheckLength_EU_spec hB hD hE with ⟨b, hb, hbl, hlab, _⟩ | ⟨_, hlong⟩
  · refine ⟨b, hb, hbl, ?_, ?_, ?_, ?_, ?_⟩
    · intro k
      rw [hlab]
      by_cases hk : cellAt b0 k = CL_ST_EMPTY
      · rw [lab_empty b0 k hk]; decide
      · exact (lab_ne b0 k hk).2
    · intro k
      rw [hlab]
      constructor
      · intro h
        by_contra hk
        exact (lab_ne b0 k hk).1 h
      · exact lab_empty b0 k
    · intro k n hn hprev hrun hstop
      have hdir : IsDir 1 CL_ST_LEFT CL_ST_HMIDDLE CL_ST_RIGHT := Or.inl ⟨rfl, rfl, rfl, rfl⟩
      have h0 : cellAt b0 k ≠ CL_ST_EMPTY := hrun 0 (by omega)
      refine ⟨?_, ?_, ?_⟩
      · rw [hlab, lab_dir hB hD hdir k h0 (Or.inl (hrun 1 (by omega))),
          if_pos (hrun 1 (by omega)), if_neg (fun h => h hprev)]
      · intro m hm1 hm2
        have hnext : cellAt b0 (k + m + 1) ≠ CL_ST_EMPTY := hrun (m + 1) hm2
        have hbefore : cellAt b0 (k + m - 1) ≠ CL_ST_EMPTY := by
          rw [show k + m - 1 = k + (m - 1) by omega]
          exact hrun (m - 1) (by omega)
        rw [hlab, lab_dir hB hD hdir (k + m) (hrun m (by omega)) (Or.inl hnext),
          if_pos hnext, if_pos hbefore]
      · have hbefore : cellAt b0 (k + (n - 1) - 1) ≠ CL_ST_EMPTY := by
          rw [show k + (n - 1) - 1 = k + (n - 2) by omega]
          exact hrun (n - 2) (by omega)
        have hnext : cellAt b0 (k + (n - 1) + 1) = CL_ST_EMPTY := by
          rw [show k + (n - 1) + 1 = k + n by omega]
          exact hstop
        rw [hlab, lab_dir hB hD hdir (k + (n - 1)) (hrun (n - 1) (by omega)) (Or.inr hbefore),
          if_neg (fun h => h hnext)]
    · intro k n hn hprev hrun hstop
      have hdir : IsDir 12 CL_ST_TOP CL_ST_VMIDDLE CL_ST_BOTTOM := Or.inr ⟨rfl, rfl, rfl, rfl⟩
      have h0 : cellAt b0 k ≠ CL_ST_EMPTY := by
        have := hrun 0 (by omega)
        rwa [Nat.mul_zero, Nat.add_zero] at this
      have h1 : cellAt b0 (k + 12) ≠ CL_ST_EMPTY := hrun 1 (by omega)
      refine ⟨?_, ?_, ?_⟩
      · rw [hlab, lab_dir hB hD hdir k h0 (Or.inl h1), if_pos h1, if_neg (fun h => h hprev)]
      · intro m hm1 hm2
        have hnext : cellAt b0 (k + 12 * m + 12) ≠ CL_ST_EMPTY := by
          rw [show k + 12 * m + 12 = k + 12 * (m + 1) by omega]
          exact hrun (m + 1) hm2
        have hbefore : cellAt b0 (k + 12 * m - 12) ≠ CL_ST_EMPTY := by
          rw [show k + 12 * m - 12 = k + 12 * (m - 1) by omega]
          exact hrun (m - 1) (by omega)
        rw [hlab, lab_dir hB hD hdir (k + 12 * m) (hrun m (by omega)) (Or.inl hnext),
          if_pos hnext, if_pos hbefore]
      · have hbefore : cellAt b0 (k + 12 * (n - 1) - 12) ≠ CL_ST_EMPTY := by
          rw [show k + 12 * (n - 1) - 12 = k + 12 * (n - 2) by omega]
          exact hrun (n - 2) (by omega)
        have hnext : cellAt b0 (k + 12 * (n - 1) + 12) = CL_ST_EMPTY := by
          rw [show k + 12 * (n - 1) + 12 = k + 12 * n by omega]
          exact hstop
        rw [hlab, lab_dir hB hD hdir (k + 12 * (n - 1)) (hrun (n - 1) (by omega))
          (Or.inr hbefore), if_neg (fun h => h hnext)]
    · intro k hk hr hl hd hu
      rw [hlab]
      simp [lab, hk, hr, hl, hd, hu]
  · exact absurd hlong hL

set_option maxRecDepth 100000 in
theorem generatedGrid_shape :
    generatedGrid.length = 144 ∧
    (∀ k, k < 144 → (k / 12 = 0 ∨ k / 12 = 11 ∨ k % 12 = 0 ∨ k % 12 = 11) →
      cellAt generatedGrid k = CL_ST_EMPTY) ∧
    (∀ k, k < 144 →
      cellAt generatedGrid k = CL_ST_EMPTY ∨ cellAt generatedGrid k = CL_ST_UNDEFINED) ∧
    (∀ k, k < 144 → cellAt generatedGrid k ≠ CL_ST_EMPTY →
      cellAt generatedGrid (k + 11) = CL_ST_EMPTY ∧
      cellAt generatedGrid (k + 13) = CL_ST_EMPTY) := by
  refine ⟨?_, ?_, ?_, ?_⟩ <;> decide

set_option maxRecDepth 100000 in
theorem generatedGrid_short :
    ∀ k, k < 144 →
      ¬ (cellAt generatedGrid k ≠ CL_ST_EMPTY ∧ cellAt generatedGrid (k + 1) ≠ CL_ST_EMPTY ∧
        cellAt generatedGrid (k + 2) ≠ CL_ST_EMPTY ∧
        cellAt generatedGrid (k + 3) ≠ CL_ST_EMPTY ∧
        cellAt generatedGrid (k + 4) ≠ CL_ST_EMPTY) ∧
      ¬ (cellAt generatedGrid k ≠ CL_ST_EMPTY ∧ cellAt generatedGrid (k + 12) ≠ CL_ST_EMPTY ∧
        cellAt generatedGrid (k + 24) ≠ CL_ST_EMPTY ∧
        cellAt generatedGrid (k + 36) ≠ CL_ST_EMPTY ∧
        cellAt generatedGrid (k + 48) ≠ CL_ST_EMPTY) := by
  decide

set_option maxRecDepth 100000 in
theorem generatedGrid_row :
    cellAt generatedGrid (13 - 1) = CL_ST_EMPTY ∧
    (∀ m, m < 4 → cellAt generatedGrid (13 + m) ≠ CL_ST_EMPTY) ∧
    cellAt generatedGrid (13 + 4) = CL_ST_EMPTY := by
  refine ⟨?_, ?_, ?_⟩ <;> decide

/-- C31, at the bordered vector of the layout of `generate()`: the ship of four
cells in its first row, indices 13 to 16, reads `LEFT`, `HMIDDLE`, `HMIDDLE`,
`RIGHT`. -/
theorem run_classification_witness :
    ∃ b, CheckLength generatedGrid = some (some b) ∧
      cellAt b 13 = CL_ST_LEFT ∧ cellAt b 14 = CL_ST_HMIDDLE ∧
      cellAt b 15 = CL_ST_HMIDDLE ∧ cellAt b 16 = CL_ST_RIGHT := by
  obtain ⟨h1, h2, h3, h4⟩ := generatedGrid_shape
  obtain ⟨r1, r2, r3⟩ := generatedGrid_row
  obtain ⟨b, hb, _, _, _, hrow, _, _⟩ :=
    run_classification generatedGrid h1 h2 h3 h4 generatedGrid_short
  obtain ⟨c1, c2, c3⟩ := hrow 13 4 (by decide) r1 r2 r3
  exact ⟨b, hb, c1, c2 1 (by decide) (by decide), c2 2 (by decide) (by decide), c3⟩

/-! ## The draw state of the placement -/

/-- The loop of `Field::initMyDrawField` pushes the draw value of each placement
cell it passes. -/
theorem initMyDrawFieldLoop_eq (fs : List CellState) :
    ∀ (n i : Nat) (acc : List CellDraw), i + n ≤ fs.length →
      initMyDrawFieldLoop fs n i acc = some (acc ++ ((fs.drop i).take n).map drawOfState) := by
  intro n
  induction n with
  | zero => intro i acc _; simp [initMyDrawFieldLoop]
  | succ n ih =>
    intro i acc h
    have hi : i < fs.length := by omega
    rw [initMyDrawFieldLoop, List.getElem?_eq_getElem hi, List.drop_eq_getElem_cons hi,
      List.take_succ_cons, List.map_cons]
    by_cases hc : fs[i] = CL_ST_EMPTY
    · simp only [hc, if_true]
      rw [ih (i + 1) _ (by omega)]
      simp [drawOfState]
    · simp only [hc, if_false]
      rw [ih (i + 1) _ (by omega)]
      simp [drawOfState, hc]

theorem initMyDrawField_eq (f : Field) (hlen : f.fieldState_.length = 100) :
    initMyDrawField f = some { f with fieldDraw_ := f.fieldState_.map drawOfState } := by
  unfold initMyDrawField
  rw [initMyDrawFieldLoop_eq f.fieldState_ area_ 0 [] (by rw [hlen]; decide)]
  have e : (List.drop 0 f.fieldState_).take area_ = f.fieldState_ :=
    List.take_of_length_le (by rw [List.drop_zero, hlen]; decide)
  rw [e, List.nil_append]

set_option maxRecDepth 100000 in
theorem generatedField_live : generatedField.fieldDraw_.count CELL_LIVE = 20 := by
  decide

/-- C32. `Field::initMyDrawField` derives the draw state from the placement: on
a field with 100 placement cells it returns, the draw state has 100 cells, draw
cell `i` is `CELL_LIVE` when placement cell `i` is not `CL_ST_EMPTY` and
`CELL_EMPTY` when it is, and the placement state is unchanged; after `generate()`
exactly 20 draw cells are `CELL_LIVE`. -/
theorem initMyDrawField_spec (f : Field) (hlen : f.fieldState_.length = 100) :
    ∃ g, initMyDrawField f = some g ∧
      g.fieldDraw_.length = 100 ∧
      (∀ (i : Nat) (s : CellState), f.fieldState_[i]? = some s →
        (s ≠ CL_ST_EMPTY → g.fieldDraw_[i]? = some CELL_LIVE) ∧
        (s = CL_ST_EMPTY → g.fieldDraw_[i]? = some CELL_EMPTY)) ∧
      (∀ i : Nat, i < 100 →
        (g.fieldDraw_[i]? = some CELL_LIVE ↔
          ∃ s, f.fieldState_[i]? = some s ∧ s ≠ CL_ST_EMPTY)) ∧
      g.fieldState_ = f.fieldState_ ∧
      ∀ f0 : Field, ∃ g0, generate f0 = some g0 ∧ g0.fieldDraw_.count CELL_LIVE = 20 := by
  refine ⟨_, initMyDrawField_eq f hlen, by simp [hlen], ?_, ?_, rfl,
    fun f0 => ⟨generatedField, generate_eq f0, generatedField_live⟩⟩
  · intro i s hs
    simp only [List.getElem?_map, hs, Option.map_some']
    constructor
    · intro h; simp [drawOfState, h]
    · intro h; simp [drawOfState, h]
  · intro i hi
    have hs : f.fieldState_[i]? = some f.fieldState_[i] :=
      List.getElem?_eq_getElem (by omega)
    simp only [List.getElem?_map, hs, Option.map_some']
    by_cases h : f.fieldState_[i] = CL_ST_EMPTY
    · simp [drawOfState, h]
    · simp [drawOfState, h]

/-- C32, at the field that `generate()` leaves: running `initMyDrawField()` on
it again gives the same field. -/
theorem initMyDrawField_spec_witness :
    generatedField.fieldState_.length = 100 ∧
    ∃ g, initMyDrawField generatedField = some g ∧ g.fieldDraw_.length = 100 ∧
      g.fieldState_ = generatedField.fieldState_ := by
  obtain ⟨g, h1, h2, _, _, h5, _⟩ := initMyDrawField_spec generatedField generatedField_length
  exact ⟨generatedField_length, g, h1, h2, h5⟩

/-! ## The setters from a string -/

theorem stateOfChar_toNat (c : QChar) (hc : isStateDigit c = true) :
    CellState.ofNat? (digitValue c).toNat = some (stateOfChar c) ∧
    ((stateOfChar c).toNat : Int) = digitValue c := by
  have h : 0 ≤ digitValue c ∧ digitValue c ≤ 8 := by simpa [isStateDigit] using hc
  unfold stateOfChar
  obtain ⟨n, hn⟩ := Int.eq_ofNat_of_zero_le h.1
  rw [hn] at h ⊢
  have hn8 : n ≤ 8 := by omega
  simp only [Int.toNat_ofNat]
  interval_cases n <;> exact ⟨rfl, rfl⟩

theorem drawOfChar_toNat (c : QChar) (hc : isDrawDigit c = true) :
    CellDraw.ofNat? (digitValue c).toNat = some (drawOfChar c) ∧
    ((drawOfChar c).toNat : Int) = digitValue c := by
  have h : 0 ≤ digitValue c ∧ digitValue c ≤ 5 := by simpa [isDrawDigit] using hc
  unfold drawOfChar
  obtain ⟨n, hn⟩ := Int.eq_ofNat_of_zero_le h.1
  rw [hn] at h ⊢
  have hn5 : n ≤ 5 := by omega
  simp only [Int.toNat_ofNat]
  interval_cases n <;> exact ⟨rfl, rfl⟩

/-- The loop of `Field::setStateField(QString)` on a string of digits of
placement states pushes the state of each character. -/
theorem setStateFieldLoop_values (s : List QChar) :
    ∀ acc, s.all isStateDigit = true →
      setStateFieldLoop s acc = acc ++ s.map stateOfChar := by
  induction s with
  | nil => intro acc _; simp [setStateFieldLoop]
  | cons c s ih =>
    intro acc h
    rw [List.all_cons, Bool.and_eq_true] at h
    have hd : 0 ≤ digitValue c ∧ digitValue c ≤ 8 := by simpa [isStateDigit] using h.1
    have hg : ¬ (digitValue c < (CL_ST_EMPTY.toNat : Int) ∨
        digitValue c > (CL_ST_UNDEFINED.toNat : Int)) := by
      simp only [CellState.toNat]; omega
    rw [setStateFieldLoop, if_neg hg, (stateOfChar_toNat c h.1).1]
    simp only
    rw [ih _ h.2, List.map_cons, List.append_assoc]
    rfl

/-- The loop of `Field::setDrawField(QString)` and of `fieldDrawFromStr` on a
string of digits of draw values pushes the draw value of each character. -/
theorem fieldDrawLoop_values (s : List QChar) :
    ∀ acc, s.all isDrawDigit = true →
      fieldDrawLoop s acc = acc ++ s.map drawOfChar := by
  induction s with
  | nil => intro acc _; simp [fieldDrawLoop]
  | cons c s ih =>
    intro acc h
    rw [List.all_cons, Bool.and_eq_true] at h
    have hd : 0 ≤ digitValue c ∧ digitValue c ≤ 5 := by simpa [isDrawDigit] using h.1
    have hg : ¬ (digitValue c < (CELL_EMPTY.toNat : Int) ∨
        digitValue c > (CELL_MARK.toNat : Int)) := by
      simp only [CellDraw.toNat]; omega
    rw [fieldDrawLoop, if_neg hg, (drawOfChar_toNat c h.1).1]
    simp only
    rw [ih _ h.2, List.map_cons, List.append_assoc]
    rfl

set_option maxRecDepth 100000 in
/-- The digit values of the 128 ASCII characters: `'0' .. '9'` have the values 0
to 9, every other one has none. -/
theorem digitValue_ascii :
    ∀ n, n < 128 →
      digitValue { unicode := n } = if 48 ≤ n ∧ n < 58 then (n : Int) - 48 else -1 := by
  decide

/-- An ASCII character is one `QChar`, and its digit value is that of a
placement state exactly for `'0' .. '8'`, that of a draw value exactly for
`'0' .. '5'`. -/
theorem digit_ascii (c : Char) (hc : c.toNat < 128) :
    QChar.ofChar c = [{ unicode := c.toNat }] ∧
    (isStateDigit { unicode := c.toNat } = true ↔
      c ∈ ['0', '1', '2', '3', '4', '5', '6', '7', '8']) ∧
    (isDrawDigit { unicode := c.toNat } = true ↔ c ∈ ['0', '1', '2', '3', '4', '5']) := by
  have hv := digitValue_ascii c.toNat hc
  have hof : c = Char.ofNat c.toNat := (Char.ofNat_toNat c).symm
  refine ⟨?_, ?_, ?_⟩
  · unfold QChar.ofChar
    rw [if_pos (by omega)]
  · unfold isStateDigit
    rw [hv, decide_eq_true_iff]
    constructor
    · intro h
      have h1 : 48 ≤ c.toNat ∧ c.toNat ≤ 56 := by
        by_cases hd : 48 ≤ c.toNat ∧ c.toNat < 58
        · rw [if_pos hd] at h; omega
        · rw [if_neg hd] at h; omega
      obtain ⟨h48, h56⟩ := h1
      rw [hof]
      interval_cases c.toNat <;> decide
    · intro h
      simp only [List.mem_cons, List.mem_singleton, List.not_mem_nil, or_false] at h
      rcases h with h | h | h | h | h | h | h | h | h <;> subst h <;> decide
  · unfold isDrawDigit
    rw [hv, decide_eq_true_iff]
    constructor
    · intro h
      have h1 : 48 ≤ c.toNat ∧ c.toNat ≤ 53 := by
        by_cases hd : 48 ≤ c.toNat ∧ c.toNat < 58
        · rw [if_pos hd] at h; omega
        · rw [if_neg hd] at h; omega
      obtain ⟨h48, h53⟩ := h1
      rw [hof]
      interval_cases c.toNat <;> decide
    · intro h
      simp only [List.mem_cons, List.mem_singleton, List.not_mem_nil, or_false] at h
      rcases h with h | h | h | h | h | h <;> subst h <;> decide

/-- A string of ASCII characters has one `QChar` for each character, and all of
them have the digit value of a placement state (of a draw value) exactly when
all characters are `'0' .. '8'` (`'0' .. '5'`). -/
theorem digits_ascii (s : List Char) (hs : ∀ c, c ∈ s → c.toNat < 128) :
    QString.size s = s.length ∧
    ((QString.qchars s).all isStateDigit = true ↔
      ∀ c, c ∈ s → c ∈ ['0', '1', '2', '3', '4', '5', '6', '7', '8']) ∧
    ((QString.qchars s).all isDrawDigit = true ↔
      ∀ c, c ∈ s → c ∈ ['0', '1', '2', '3', '4', '5']) := by
  have hq := qchars_small s (fun c hc => by have := hs c hc; omega)
  refine ⟨?_, ?_, ?_⟩
  · unfold QString.size
    rw [hq, List.length_map]
  · rw [hq, List.all_eq_true]
    constructor
    · intro h c hc
      exact (digit_ascii c (hs c hc)).2.1.1 (h _ (List.mem_map.2 ⟨c, hc, rfl⟩))
    · intro h q hq'
      obtain ⟨c, hc, rfl⟩ := List.mem_map.1 hq'
      exact (digit_ascii c (hs c hc)).2.1.2 (h c hc)
  · rw [hq, List.all_eq_true]
    constructor
    · intro h c hc
      exact (digit_ascii c (hs c hc)).2.2.1 (h _ (List.mem_map.2 ⟨c, hc, rfl⟩))
    · intro h q hq'
      obtain ⟨c, hc, rfl⟩ := List.mem_map.1 hq'
      exact (digit_ascii c (hs c hc)).2.2.2 (h c hc)

/-- `Field::setDrawField(QString)` on a string of 100 `QChar`s with digit values
of draw values. -/
theorem setDrawField_values (f : Field) (s : List Char) (hs : QString.size s = 100)
    (h : (QString.qchars s).all isDrawDigit = true) :
    (setDrawField f s).fieldDraw_ = (QString.qchars s).map drawOfChar := by
  have hs' : ¬ QString.size s ≠ area_ := fun hh => hh hs
  have e : setDrawField f s = { f with fieldDraw_ := fieldDrawLoop (QString.qchars s) [] } := by
    unfold setDrawField
    rw [if_neg hs']
  rw [e]
  exact (fieldDrawLoop_values _ [] h).trans (List.nil_append _)

/-- `fieldDrawFromStr` on a string of at least 100 `QChar`s with digit values of
draw values. -/
theorem fieldDrawFromStr_values (s : List Char) (hs : 100 ≤ QString.size s)
    (h : (QString.qchars s).all isDrawDigit = true) :
    fieldDrawFromStr s = (QString.qchars s).map drawOfChar := by
  have hs' : ¬ QString.size s < FIELD_WIDTH_DEFAULT * FIELD_HEIGHT_DEFAULT := by
    show ¬ QString.size s < 100
    omega
  unfold fieldDrawFromStr
  rw [if_neg hs', fieldDrawLoop_values _ [] h, List.nil_append]

/-- C33 as stated fails: the one character of the string U+0663,
ARABIC-INDIC DIGIT THREE, is none of `'0' .. '8'`, yet `setStateField` with this
string does not empty the placement state: the character has the digit value 3
and the placement state becomes the one cell `CL_ST_BOTTOM`. -/
theorem setStateField_string_counterexample :
    (∀ c, c ∈ arabicThree → c ∉ ['0', '1', '2', '3', '4', '5', '6', '7', '8']) ∧
    (setStateField newField arabicThree).fieldState_ = [CL_ST_BOTTOM] ∧
    (setStateField newField arabicThree).fieldState_ ≠ [] := by
  obtain ⟨_, h2, h3, _⟩ := unicodeString_facts
  refine ⟨h2, h3, ?_⟩
  rw [h3]
  exact List.cons_ne_nil _ _

/-- C33, amended. `Field::setStateField(QString)` takes a string `s` of any
size: if every `QChar` of `s` has the digit value of a placement state, 0 to 8,
the placement state becomes the states of those digit values, one cell for each
`QChar`; if some `QChar` has not, the placement state becomes empty; the draw
state is unchanged in both cases. In a string of ASCII characters the `QChar`s
are the characters, and those with a digit value from 0 to 8 are `'0' .. '8'`;
so for a string of characters `'0' .. '8'` cell `i` is the state whose ordinal
is the digit `i`. -/
theorem setStateField_string (f : Field) (s : List Char) :
    ((QString.qchars s).all isStateDigit = true →
      (setStateField f s).fieldState_ = (QString.qchars s).map stateOfChar ∧
      (setStateField f s).fieldState_.length = QString.size s ∧
      (∀ c, c ∈ QString.qchars s → ((stateOfChar c).toNat : Int) = digitValue c)) ∧
    ((QString.qchars s).all isStateDigit = false → (setStateField f s).fieldState_ = []) ∧
    (setStateField f s).fieldDraw_ = f.fieldDraw_ ∧
    ((∀ c, c ∈ s → c.toNat < 128) →
      QString.size s = s.length ∧
      ((QString.qchars s).all isStateDigit = true ↔
        ∀ c, c ∈ s → c ∈ ['0', '1', '2', '3', '4', '5', '6', '7', '8'])) ∧
    ((∀ c, c ∈ s → c ∈ ['0', '1', '2', '3', '4', '5', '6', '7', '8']) →
      (setStateField f s).fieldState_.length = s.length ∧
      ∀ (i : Nat) (c : Char), s[i]? = some c →
        ∃ st, (setStateField f s).fieldState_[i]? = some st ∧
          (st.toNat : Int) = (c.toNat : Int) - 48) := by
  have hgood : (QString.qchars s).all isStateDigit = true →
      (setStateField f s).fieldState_ = (QString.qchars s).map stateOfChar := by
    intro h
    show setStateFieldLoop (QString.qchars s) [] = _
    rw [setStateFieldLoop_values _ [] h, List.nil_append]
  refine ⟨fun h => ⟨hgood h, ?_, fun c hc => ?_⟩,
    fun h => (setStateFieldLoop_length _ []).2 h, rfl,
    fun hs => ⟨(digits_ascii s hs).1, (digits_ascii s hs).2.1⟩, fun hs => ?_⟩
  · rw [hgood h, List.length_map]
    rfl
  · exact (stateOfChar_toNat c (List.all_eq_true.1 h c hc)).2
  · have hascii : ∀ c, c ∈ s → c.toNat < 128 := by
      intro c hc
      have h := hs c hc
      simp only [List.mem_cons, List.mem_singleton, List.not_mem_nil, or_false] at h
      rcases h with h | h | h | h | h | h | h | h | h <;> subst h <;> decide
    have hall := (digits_ascii s hascii).2.1.2 hs
    have hq := qchars_small s (fun c hc => by have := hascii c hc; omega)
    rw [hgood hall, hq]
    refine ⟨by rw [List.length_map, List.length_map], fun i c hc => ?_⟩
    refine ⟨stateOfChar { unicode := c.toNat }, ?_, ?_⟩
    · rw [List.getElem?_map, List.getElem?_map, hc]
      rfl
    · have hmem : c ∈ s := List.mem_iff_getElem?.2 ⟨i, hc⟩
      have hd := (digit_ascii c (hascii c hmem)).2.1.2 (hs c hmem)
      rw [(stateOfChar_toNat _ hd).2, digitValue_ascii c.toNat (hascii c hmem)]
      have hb : 0 ≤ digitValue { unicode := c.toNat } ∧
          digitValue { unicode := c.toNat } ≤ 8 := by simpa [isStateDigit] using hd
      rw [digitValue_ascii c.toNat (hascii c hmem)] at hb
      by_cases hr : 48 ≤ c.toNat ∧ c.toNat < 58
      · rw [if_pos hr]
      · rw [if_neg hr] at hb
        omega

set_option maxRecDepth 100000 in
theorem stateString_facts :
    (QString.qchars shortStateString).all isStateDigit = true ∧
    (QString.qchars shortStateString).map stateOfChar = [CL_ST_UNDEFINED, CL_ST_CENTER] ∧
    (QString.qchars wrongStateString).all isStateDigit = false := by
  refine ⟨?_, ?_, ?_⟩ <;> decide

/-- C33, amended, at the string `81`, which leaves two placement cells, at a
string of 100 characters that ends in `'9'`, which leaves none, and at a string
of 100 characters U+0663, which leaves 100 cells `CL_ST_BOTTOM`. -/
theorem setStateField_string_witness :
    (setStateField generatedField shortStateString).fieldState_ =
      [CL_ST_UNDEFINED, CL_ST_CENTER] ∧
    (setStateField generatedField wrongStateString).fieldState_ = [] ∧
    (setStateField generatedField wrongStateString).fieldDraw_ = generatedField.fieldDraw_ ∧
    (setStateField generatedField arabicThrees).fieldState_ =
      List.replicate 100 CL_ST_BOTTOM := by
  obtain ⟨h1, h2, h3⟩ := stateString_facts
  obtain ⟨_, _, _, _, _, _, h7, _, h9, _⟩ := unicodeString_facts
  refine ⟨?_, (setStateField_string generatedField wrongStateString).2.1 h3,
    (setStateField_string generatedField wrongStateString).2.2.1, ?_⟩
  · rw [((setStateField_string generatedField shortStateString).1 h1).1, h2]
  · rw [((setStateField_string generatedField arabicThrees).1 h7).1, h9]

/-- C34 as stated fails: the string of 100 characters U+0663, ARABIC-INDIC
DIGIT THREE, has 100 `QChar`s, none of them `'0' .. '5'`, yet `setDrawField`
with this string does not empty the draw state: each character has the digit
value 3 and the draw state becomes 100 cells `CELL_DAMAGED`. -/
theorem setDrawField_string_counterexample :
    QString.size arabicThrees = 100 ∧ arabicThrees.length = 100 ∧
    (∀ c, c ∈ arabicThrees → c ∉ ['0', '1', '2', '3', '4', '5']) ∧
    (setDrawField newField arabicThrees).fieldDraw_ = List.replicate 100 CELL_DAMAGED ∧
    (setDrawField newField arabicThrees).fieldDraw_ ≠ [] := by
  obtain ⟨_, _, _, h4, h5, h6, _, h8, _, h10, _⟩ := unicodeString_facts
  have e : (setDrawField newField arabicThrees).fieldDraw_ =
      List.replicate 100 CELL_DAMAGED :=
    (setDrawField_values newField arabicThrees h5 h8).trans h10
  refine ⟨h5, h4, fun c hc hm => h6 c hc ?_, e, ?_⟩
  · simp only [List.mem_cons, List.mem_singleton, List.not_mem_nil, or_false] at hm ⊢
    rcases hm with h | h | h | h | h | h <;> simp [h]
  · rw [e]
    decide

/-- C34, amended. `Field::setDrawField(QString)` on a string `s`: if the size of
`s` is not 100 `QChar`s nothing changes; if it is 100 and every `QChar` has the
digit value of a draw value, 0 to 5, the draw state becomes the draw values of
those digit values; if it is 100 and some `QChar` has not, the draw state
becomes empty; the placement state is unchanged. `setDrawField(QVector)` and
`setStateField(QVector)` replace the state when the vector has 100 cells and
change nothing otherwise. In a string of ASCII characters the `QChar`s are the
characters, and those with a digit value from 0 to 5 are `'0' .. '5'`. -/
theorem setDrawField_string (f : Field) (s : List Char) (v : List CellState)
    (w : List CellDraw) :
    (QString.size s ≠ 100 → setDrawField f s = f) ∧
    (QString.size s = 100 → (QString.qchars s).all isDrawDigit = true →
      (setDrawField f s).fieldDraw_ = (QString.qchars s).map drawOfChar ∧
      (∀ c, c ∈ QString.qchars s → ((drawOfChar c).toNat : Int) = digitValue c)) ∧
    (QString.size s = 100 → (QString.qchars s).all isDrawDigit = false →
      (setDrawField f s).fieldDraw_ = []) ∧
    (setDrawField f s).fieldState_ = f.fieldState_ ∧
    (w.length = 100 → setDrawFieldVector f w = { f with fieldDraw_ := w }) ∧
    (w.length ≠ 100 → setDrawFieldVector f w = f) ∧
    (v.length = 100 → setStateFieldVector f v = { f with fieldState_ := v }) ∧
    (v.length ≠ 100 → setStateFieldVector f v = f) ∧
    ((∀ c, c ∈ s → c.toNat < 128) →
      QString.size s = s.length ∧
      ((QString.qchars s).all isDrawDigit = true ↔
        ∀ c, c ∈ s → c ∈ ['0', '1', '2', '3', '4', '5'])) := by
  have hset : QString.size s = 100 →
      setDrawField f s = { f with fieldDraw_ := fieldDrawLoop (QString.qchars s) [] } := by
    intro hs
    unfold setDrawField
    rw [if_neg (by rw [hs]; decide)]
  have hkeep : QString.size s ≠ 100 → setDrawField f s = f := by
    intro hs
    have hs' : QString.size s ≠ area_ := hs
    unfold setDrawField
    rw [if_pos hs']
  refine ⟨hkeep, ?_, ?_, ?_, ?_, ?_, ?_, ?_,
    fun hs => ⟨(digits_ascii s hs).1, (digits_ascii s hs).2.2⟩⟩
  · intro hs h
    exact ⟨setDrawField_values f s hs h,
      fun c hc => (drawOfChar_toNat c (List.all_eq_true.1 h c hc)).2⟩
  · intro hs h
    rw [hset hs]
    exact (fieldDrawLoop_length _ []).2 h
  · by_cases hs : QString.size s = 100
    · rw [hset hs]
    · rw [hkeep hs]
  · intro hw
    have hw' : ¬ w.length ≠ area_ := fun h => h hw
    unfold setDrawFieldVector
    rw [if_neg hw']
  · intro hw
    have hw' : w.length ≠ area_ := hw
    unfold setDrawFieldVector
    rw [if_pos hw']
  · intro hv
    have hv' : ¬ v.length ≠ area_ := fun h => h hv
    unfold setStateFieldVector
    rw [if_neg hv']
  · intro hv
    have hv' : v.length ≠ area_ := hv
    unfold setStateFieldVector
    rw [if_pos hv']

set_option maxRecDepth 100000 in
theorem drawString_facts :
    QString.size wrongDrawString = 100 ∧
    (QString.qchars wrongDrawString).all isDrawDigit = false ∧
    QString.size (getDrawFieldStr generatedField) = 100 ∧
    (QString.qchars (getDrawFieldStr generatedField)).all isDrawDigit = true ∧
    (QString.qchars (getDrawFieldStr generatedField)).map drawOfChar =
      generatedField.fieldDraw_ ∧
    QString.size shortStateString ≠ 100 := by
  refine ⟨?_, ?_, ?_, ?_, ?_, ?_⟩ <;> decide

/-- C34, amended, at the draw string of the field that `generate()` leaves, at a
string of 100 characters that ends in `'6'`, at a string of two characters, and
at a string of 100 characters whose last one takes two `QChar`s, so that its
size is 101. -/
theorem setDrawField_string_witness :
    (setDrawField newField (getDrawFieldStr generatedField)).fieldDraw_ =
      generatedField.fieldDraw_ ∧
    (setDrawField generatedField wrongDrawString).fieldDraw_ = [] ∧
    setDrawField generatedField shortStateString = generatedField ∧
    astralString.length = 100 ∧ setDrawField generatedField astralString = generatedField := by
  obtain ⟨h1, h2, h3, h4, h5, h6⟩ := drawString_facts
  obtain ⟨_, _, _, _, _, _, _, _, _, _, h11, h12, _⟩ := unicodeString_facts
  refine ⟨?_, (setDrawField_string generatedField wrongDrawString [] []).2.2.1 h1 h2,
    (setDrawField_string generatedField shortStateString [] []).1 h6, h11,
    (setDrawField_string generatedField astralString [] []).1 (by rw [h12]; decide)⟩
  rw [((setDrawField_string newField (getDrawFieldStr generatedField) [] []).2.1 h3 h4).1, h5]

/-- C35 as stated fails: no character of the string of 100 characters U+0663,
ARABIC-INDIC DIGIT THREE, is one of `'0' .. '5'`, yet `fieldDrawFromStr` returns
for it a vector that is not empty: each character has the digit value 3 and the
vector is 100 cells `CELL_DAMAGED`. -/
theorem fieldDrawFromStr_spec_counterexample :
    (∀ c, c ∈ arabicThrees → c ∉ ['0', '1', '2', '3', '4', '5']) ∧
    fieldDrawFromStr arabicThrees = List.replicate 100 CELL_DAMAGED ∧
    fieldDrawFromStr arabicThrees ≠ [] := by
  obtain ⟨_, _, _, _, h5, h6, _, h8, _, h10, _⟩ := unicodeString_facts
  have e : fieldDrawFromStr arabicThrees = List.replicate 100 CELL_DAMAGED :=
    (fieldDrawFromStr_values arabicThrees (Nat.le_of_eq h5.symm) h8).trans h10
  refine ⟨fun c hc hm => h6 c hc ?_, e, ?_⟩
  · simp only [List.mem_cons, List.mem_singleton, List.not_mem_nil, or_false] at hm ⊢
    rcases hm with h | h | h | h | h | h <;> simp [h]
  · rw [e]
    decide

/-- C35, amended. `fieldDrawFromStr(s)` returns a non-empty vector exactly when
the size of `s` is at least 100 `QChar`s and every `QChar` has the digit value of
a draw value, 0 to 5; then the vector has one cell for each `QChar`, cell `i` the
draw value of the digit value of `QChar` `i`; in every other case the vector is
empty. In a string of ASCII characters the `QChar`s are the characters, and those
with a digit value from 0 to 5 are `'0' .. '5'`. -/
theorem fieldDrawFromStr_spec (s : List Char) :
    (fieldDrawFromStr s ≠ [] ↔
      100 ≤ QString.size s ∧ (QString.qchars s).all isDrawDigit = true) ∧
    (100 ≤ QString.size s → (QString.qchars s).all isDrawDigit = true →
      fieldDrawFromStr s = (QString.qchars s).map drawOfChar ∧
      (fieldDrawFromStr s).length = QString.size s ∧
      (∀ (i : Nat) (c : QChar), (QString.qchars s)[i]? = some c →
        (fieldDrawFromStr s)[i]? = some (drawOfChar c) ∧
        ((drawOfChar c).toNat : Int) = digitValue c)) ∧
    (¬ (100 ≤ QString.size s ∧ (QString.qchars s).all isDrawDigit = true) →
      fieldDrawFromStr s = []) ∧
    ((∀ c, c ∈ s → c.toNat < 128) →
      QString.size s = s.length ∧
      ((QString.qchars s).all isDrawDigit = true ↔
        ∀ c, c ∈ s → c ∈ ['0', '1', '2', '3', '4', '5'])) := by
  have hgood : 100 ≤ QString.size s → (QString.qchars s).all isDrawDigit = true →
      fieldDrawFromStr s = (QString.qchars s).map drawOfChar :=
    fieldDrawFromStr_values s
  have hbad : ¬ (100 ≤ QString.size s ∧ (QString.qchars s).all isDrawDigit = true) →
      fieldDrawFromStr s = [] := by
    intro h
    unfold fieldDrawFromStr
    by_cases hs : QString.size s < FIELD_WIDTH_DEFAULT * FIELD_HEIGHT_DEFAULT
    · rw [if_pos hs]
    · rw [if_neg hs]
      have hs' : 100 ≤ QString.size s := by
        have : ¬ QString.size s < 100 := hs
        omega
      have hall : (QString.qchars s).all isDrawDigit = false := by
        cases hb : (QString.qchars s).all isDrawDigit
        · rfl
        · exact absurd ⟨hs', hb⟩ h
      exact (fieldDrawLoop_length _ []).2 hall
  refine ⟨⟨fun hne => ?_, fun ⟨hs, h⟩ => ?_⟩, fun hs h => ⟨hgood hs h, ?_, ?_⟩, hbad,
    fun hs => ⟨(digits_ascii s hs).1, (digits_ascii s hs).2.2⟩⟩
  · by_contra hc
    exact hne (hbad hc)
  · rw [hgood hs h]
    intro he
    have := congrArg List.length he
    rw [List.length_map, List.length_nil] at this
    have hs' : 100 ≤ (QString.qchars s).length := hs
    omega
  · rw [hgood hs h, List.length_map]
    rfl
  · intro i c hc
    rw [hgood hs h, List.getElem?_map, hc]
    exact ⟨rfl, (drawOfChar_toNat c (List.all_eq_true.1 h c (List.mem_iff_getElem?.2 ⟨i, hc⟩))).2⟩

/-- C35, amended, at the draw string of the field that `generate()` leaves, at a
string of 100 characters that ends in `'6'`, and at a string of two characters. -/
theorem fieldDrawFromStr_spec_witness :
    fieldDrawFromStr (getDrawFieldStr generatedField) = generatedField.fieldDraw_ ∧
    fieldDrawFromStr wrongDrawString = [] ∧
    fieldDrawFromStr shortStateString = [] := by
  obtain ⟨_, h2, h3, h4, h5, _⟩ := drawString_facts
  refine ⟨?_, (fieldDrawFromStr_spec wrongDrawString).2.2.1
      (fun h => Bool.noConfusion (h2.symm.trans h.2)),
    (fieldDrawFromStr_spec shortStateString).2.2.1 (fun h => absurd h.1 (by decide))⟩
  rw [((fieldDrawFromStr_spec (getDrawFieldStr generatedField)).2.1 (by rw [h3]) h4).1, h5]

/-! ## Marks and the clicks that place ships -/

theorem toggledMark_twice (c : CellDraw) : toggledMark (toggledMark c) = c := by
  cases c <;> rfl

theorem set_getElem_same {α : Type} (l : List α) (i : Nat) (a : α) (h : l[i]? = some a) :
    l.set i a = l := by
  apply List.ext_getElem?
  intro j
  by_cases hj : j = i
  · subst hj
    have hlt : j < l.length := by
      by_contra hge
      rw [List.getElem?_eq_none (by omega)] at h
      exact Option.noConfusion h
    rw [List.getElem?_set_eq_of_lt _ hlt, h]
  · rw [List.getElem?_set_ne (fun e => hj e.symm)]

/-- The right-button branch on a cell of the enemy field: the draw cell is
toggled and nothing else changes. -/
theorem toggleMark_in (m : Model) (x y : Int) (hx : 0 ≤ x ∧ x < 10) (hy : 0 ≤ y ∧ y < 10)
    (hlen : m.enemyField_.fieldDraw_.length = 100) :
    ∃ old, m.enemyField_.fieldDraw_[(10 * y + x).toNat]? = some old ∧
      toggleMark m { x := x, y := y } =
        some { m with enemyField_ := { m.enemyField_ with
          fieldDraw_ := m.enemyField_.fieldDraw_.set (10 * y + x).toNat (toggledMark old) } } := by
  have hidx : (10 * y + x).toNat < m.enemyField_.fieldDraw_.length := by
    rw [hlen]; exact (cell_index x y hx hy).1
  refine ⟨m.enemyField_.fieldDraw_[(10 * y + x).toNat], List.getElem?_eq_getElem hidx, ?_⟩
  generalize hold : m.enemyField_.fieldDraw_[(10 * y + x).toNat] = old
  have hget : m.enemyField_.fieldDraw_[(10 * y + x).toNat]? = some old := by
    rw [List.getElem?_eq_getElem hidx, hold]
  unfold toggleMark getEnemyCell
  simp only
  rw [getCell_in _ x y hx hy, hget]
  simp only
  unfold setEnemyCell
  by_cases h1 : old = CELL_MARK
  · rw [if_pos h1, setDrawCell_in _ x y _ hx hy hlen]
    simp [toggledMark, h1]
  · rw [if_neg h1]
    by_cases h2 : old = CELL_EMPTY
    · rw [if_neg (fun h => h h2), setDrawCell_in _ x y _ hx hy hlen]
      simp [toggledMark, h2]
    · rw [if_pos h2]
      have e : toggledMark old = old := by simp [toggledMark, h1, h2]
      rw [e, set_getElem_same _ _ _ hget]

/-- The right-button branch at a point that is no cell of the field changes
nothing. -/
theorem toggleMark_out (m : Model) (x y : Int)
    (h : ¬ ((0 ≤ x ∧ x < 10) ∧ (0 ≤ y ∧ y < 10))) :
    toggleMark m { x := x, y := y } = some m := by
  unfold toggleMark getEnemyCell
  simp only
  rw [getCell_out _ x y h]
  simp only
  rw [if_neg (by decide), if_neg (by decide)]
  unfold setEnemyCell
  rw [(setCell_out _ x y CELL_MARK CL_ST_EMPTY h).1]

/-- A right click in one of the two turn states goes to the right-button
branch. -/
theorem onMousePressed_right (c : Controller) (pos : QPoint) (labels : Labels)
    (hstate : getState c.model_ = ST_MAKING_STEP ∨ getState c.model_ = ST_WAITING_STEP)
    (hp : ¬ ((getFieldCoord pos ENEMY_FIELD).x = -1 ∨ (getFieldCoord pos ENEMY_FIELD).y = -1)) :
    onMousePressed c pos RightButton labels =
      (toggleMark c.model_ (getFieldCoord pos ENEMY_FIELD)).map
        (fun m => ({ c with model_ := m }, labels)) := by
  unfold onMousePressed
  rcases hstate with hs | hs
  · simp only [hs]
    rw [if_neg (by decide), if_pos trivial, if_neg hp, if_neg (by decide), if_pos trivial]
    cases toggleMark c.model_ (getFieldCoord pos ENEMY_FIELD) <;> rfl
  · simp only [hs]
    rw [if_neg (by decide), if_neg (by decide), if_pos trivial, if_neg hp, if_pos trivial]
    cases toggleMark c.model_ (getFieldCoord pos ENEMY_FIELD) <;> rfl

/-- C36. Mark toggle: in `ST_MAKING_STEP` and in `ST_WAITING_STEP`, on an enemy
field with 100 draw cells, a right click that `getFieldCoord` maps to the cell
`(x, y)` of the field turns `CELL_EMPTY` into `CELL_MARK` and `CELL_MARK` into
`CELL_EMPTY`, leaves `CELL_DOT`, `CELL_DAMAGED`, `CELL_KILLED` and `CELL_LIVE` as
they are, changes no other cell and nothing else in the model, and writes no
message; a second right click at the same position restores the enemy field. -/
theorem mark_toggle (c : Controller) (pos : QPoint) (labels : Labels) (x y : Int)
    (hstate : getState c.model_ = ST_MAKING_STEP ∨ getState c.model_ = ST_WAITING_STEP)
    (hlen : c.model_.enemyField_.fieldDraw_.length = 100)
    (hpoint : getFieldCoord pos ENEMY_FIELD = { x := x, y := y })
    (hx : 0 ≤ x ∧ x < 10) (hy : 0 ≤ y ∧ y < 10) :
    ∃ c' old, onMousePressed c pos RightButton labels = some (c', labels) ∧
      getEnemyCell c.model_ x y = some old ∧
      (old = CELL_EMPTY → getEnemyCell c'.model_ x y = some CELL_MARK) ∧
      (old = CELL_MARK → getEnemyCell c'.model_ x y = some CELL_EMPTY) ∧
      (old = CELL_DOT ∨ old = CELL_DAMAGED ∨ old = CELL_KILLED ∨ old = CELL_LIVE →
        c' = c) ∧
      (∀ x' y' : Int, 0 ≤ x' ∧ x' < 10 → 0 ≤ y' ∧ y' < 10 → ¬ (x' = x ∧ y' = y) →
        getEnemyCell c'.model_ x' y' = getEnemyCell c.model_ x' y') ∧
      c'.model_.enemyField_.fieldState_ = c.model_.enemyField_.fieldState_ ∧
      c'.model_ = { c.model_ with enemyField_ := c'.model_.enemyField_ } ∧
      c'.socket_ = c.socket_ ∧
      ∃ c'', onMousePressed c' pos RightButton labels = some (c'', labels) ∧
        c''.model_.enemyField_ = c.model_.enemyField_ ∧ c'' = c := by
  have hp : ¬ ((getFieldCoord pos ENEMY_FIELD).x = -1 ∨
      (getFieldCoord pos ENEMY_FIELD).y = -1) := by
    rw [hpoint]
    simp only
    omega
  have hi := cell_index x y hx hy
  obtain ⟨old, hold, htog⟩ := toggleMark_in c.model_ x y hx hy hlen
  have hidx : (10 * y + x).toNat < c.model_.enemyField_.fieldDraw_.length := by
    rw [hlen]; exact hi.1
  have h1 := onMousePressed_right c pos labels hstate hp
  rw [hpoint, htog] at h1
  -- the model after the first click
  generalize hm' : ({ c.model_ with enemyField_ := { c.model_.enemyField_ with
      fieldDraw_ := c.model_.enemyField_.fieldDraw_.set (10 * y + x).toNat (toggledMark old) } }
      : Model) = m' at h1
  have hstate' : getState m' = ST_MAKING_STEP ∨ getState m' = ST_WAITING_STEP := by
    rw [← hm']; exact hstate
  have hlen' : m'.enemyField_.fieldDraw_.length = 100 := by
    rw [← hm']
    show (c.model_.enemyField_.fieldDraw_.set _ _).length = 100
    rw [List.length_set, hlen]
  have hnew : m'.enemyField_.fieldDraw_[(10 * y + x).toNat]? = some (toggledMark old) := by
    rw [← hm']
    exact List.getElem?_set_eq_of_lt _ hidx
  obtain ⟨old', hold', htog'⟩ := toggleMark_in m' x y hx hy hlen'
  have e' : old' = toggledMark old := Option.some.inj (hold'.symm.trans hnew)
  have hback : ({ m' with enemyField_ := { m'.enemyField_ with
      fieldDraw_ := m'.enemyField_.fieldDraw_.set (10 * y + x).toNat (toggledMark old') } }
      : Model) = c.model_ := by
    rw [e', toggledMark_twice, ← hm']
    show ({ c.model_ with enemyField_ := { c.model_.enemyField_ with
      fieldDraw_ := (c.model_.enemyField_.fieldDraw_.set _ _).set _ old } } : Model) = _
    rw [List.set_set, set_getElem_same _ _ _ hold]
  have h2 := onMousePressed_right { c with model_ := m' } pos labels hstate' hp
  rw [hpoint] at h2
  simp only at h2
  rw [htog', hback] at h2
  have hcell : getEnemyCell m' x y = some (toggledMark old) := by
    unfold getEnemyCell
    rw [getCell_in _ x y hx hy, hnew]
  refine ⟨{ c with model_ := m' }, old, h1, ?_, ?_, ?_, ?_, ?_, ?_, ?_, rfl, ⟨c, h2, rfl, rfl⟩⟩
  · unfold getEnemyCell
    rw [getCell_in _ x y hx hy, hold]
  · intro h
    rw [hcell, h]; rfl
  · intro h
    rw [hcell, h]; rfl
  · intro h
    have e : toggledMark old = old := by
      rcases h with h | h | h | h <;> rw [h] <;> rfl
    rw [← hm', e, set_getElem_same _ _ _ hold]
  · intro x' y' hx' hy' hne
    unfold getEnemyCell
    rw [getCell_in _ x' y' hx' hy', getCell_in _ x' y' hx' hy', ← hm']
    exact List.getElem?_set_ne (fun e => hne (hi.2 x' y' hx' hy' e.symm))
  · rw [← hm']
  · rw [← hm']

set_option maxRecDepth 100000 in
theorem fightingController_enemy :
    fightingController.model_.enemyField_.fieldDraw_.length = 100 := by
  decide

/-- C36, at a right click on pixel (412, 177), cell (4, 2) of the enemy field,
which is empty: it gets a mark, and a second right click takes the mark off. -/
theorem mark_toggle_witness :
    ∃ c', onMousePressed fightingController { x := 412, y := 177 } RightButton hiddenLabels =
        some (c', hiddenLabels) ∧
      getEnemyCell c'.model_ 4 2 = some CELL_MARK ∧ c'.socket_ = fightingController.socket_ ∧
      onMousePressed c' { x := 412, y := 177 } RightButton hiddenLabels =
        some (fightingController, hiddenLabels) := by
  obtain ⟨c', old, h1, h2, h3, _, _, _, _, _, h9, c'', h10, _, h12⟩ :=
    mark_toggle fightingController { x := 412, y := 177 } hiddenLabels 4 2
      (Or.inl fightingController_facts.1) fightingController_enemy
      fightingController_facts.2.1 (by decide) (by decide)
  have hold : old = CELL_EMPTY :=
    Option.some.inj (h2.symm.trans fightingController_facts.2.2.1)
  rw [h12] at h10
  exact ⟨c', h1, h3 hold, h9, h10⟩

/-- The pair of calls `setMyDrawCell(x, y, d); setMyStateCell(x, y, s)` on a
field with 100 and 100 cells: on the board both cells are set, off it nothing
changes. -/
theorem setMyCells (m : Model) (x y : Int) (d : CellDraw) (s : CellState)
    (hs : m.myField_.fieldState_.length = 100) (hd : m.myField_.fieldDraw_.length = 100) :
    (setMyDrawCell m x y d).bind (fun m1 => setMyStateCell m1 x y s) =
      some (if (0 ≤ x ∧ x < 10) ∧ (0 ≤ y ∧ y < 10) then
        { m with myField_ :=
          { fieldState_ := m.myField_.fieldState_.set (10 * y + x).toNat s,
            fieldDraw_ := m.myField_.fieldDraw_.set (10 * y + x).toNat d } }
        else m) := by
  unfold setMyDrawCell setMyStateCell
  by_cases h : (0 ≤ x ∧ x < 10) ∧ (0 ≤ y ∧ y < 10)
  · rw [if_pos h, setDrawCell_in _ x y d h.1 h.2 hd]
    simp only [Option.bind]
    rw [setStateCell_in _ x y s h.1 h.2 (by exact hs)]
  · rw [if_neg h, (setCell_out _ x y d s h).1]
    simp only [Option.bind]
    rw [(setCell_out _ x y d s h).2]

theorem booleanGrid_set (f : Field) (hf : booleanGrid f) (k : Nat) (s : CellState)
    (d : CellDraw)
    (hsd : (s = CL_ST_EMPTY ∧ d = CELL_EMPTY) ∨ (s = CL_ST_UNDEFINED ∧ d = CELL_LIVE)) :
    booleanGrid { fieldState_ := f.fieldState_.set k s, fieldDraw_ := f.fieldDraw_.set k d } := by
  obtain ⟨h1, h2, h3⟩ := hf
  refine ⟨by simp [h1], by simp [h2], fun i hi => ?_⟩
  by_cases hik : i = k
  · subst hik
    simp only [List.getElem?_set_eq_of_lt _ (by omega : i < f.fieldState_.length),
      List.getElem?_set_eq_of_lt _ (by omega : i < f.fieldDraw_.length)]
    rcases hsd with ⟨rfl, rfl⟩ | ⟨rfl, rfl⟩
    · exact Or.inl ⟨rfl, rfl⟩
    · exact Or.inr ⟨rfl, rfl⟩
  · simp only [List.getElem?_set_ne (fun e => hik e.symm)]
    exact h3 i hi

theorem getCell_some (f : Field) (x y : Int) (hlen : f.fieldDraw_.length = 100) :
    ∃ cell, getCell f x y = some cell := by
  by_cases h : (0 ≤ x ∧ x < 10) ∧ (0 ≤ y ∧ y < 10)
  · rw [getCell_in _ x y h.1 h.2]
    exact ⟨_, List.getElem?_eq_getElem (by rw [hlen]; exact (cell_index x y h.1 h.2).1)⟩
  · exact ⟨_, getCell_out _ x y h⟩

/-- A loop whose body returns at every item returns. -/
theorem foldlM_some {α β : Type} (f : β → α → Option β) (l : List α)
    (h : ∀ b a, a ∈ l → ∃ b', f b a = some b') : ∀ b, ∃ b', l.foldlM f b = some b' := by
  induction l with
  | nil => intro b; exact ⟨b, rfl⟩
  | cons a l ih =>
    intro b
    obtain ⟨b1, hb1⟩ := h b a (List.mem_cons_self a l)
    obtain ⟨b2, hb2⟩ := ih (fun b a ha => h b a (List.mem_cons_of_mem _ ha)) b1
    refine ⟨b2, ?_⟩
    rw [List.foldlM_cons, hb1]
    exact hb2

/-- `Model::getMyFieldStr` returns on an own field with 100 draw cells. -/
theorem getMyFieldStr_some (m : Model) (hlen : m.myField_.fieldDraw_.length = 100) :
    ∃ s, getMyFieldStr m = some s := by
  unfold getMyFieldStr
  refine foldlM_some _ _ (fun result i _ => ?_) []
  obtain ⟨row, hrow⟩ := foldlM_some (fun (result : List Char) (j : Nat) =>
      (getCell m.myField_ (Int.ofNat i) (Int.ofNat j)).map
        (fun cell => result ++ [fieldStrChar cell])) (List.range FIELD_HEIGHT_DEFAULT)
    (fun r j _ => by
      obtain ⟨cell, hcell⟩ := getCell_some m.myField_ (Int.ofNat i) (Int.ofNat j) hlen
      beta_reduce
      rw [hcell]
      exact ⟨_, rfl⟩) result
  rw [hrow]
  exact ⟨_, rfl⟩

/-- One click in the placing branch keeps the own field a boolean grid and
changes nothing else. -/
theorem placeClick_grid (c : Controller) (point : QPoint) (button : MouseButton)
    (hf : booleanGrid c.model_.myField_) :
    ∃ c' labels', placeClick c point button = some (c', labels') ∧
      booleanGrid c'.model_.myField_ ∧
      c'.model_ = { c.model_ with myField_ := c'.model_.myField_ } ∧
      c'.socket_ = c.socket_ := by
  have hcorrect : ∀ m : Model, booleanGrid m.myField_ →
      ∃ r, isMyFieldCorrect m = some (r, m) := by
    intro m hm
    obtain ⟨r, hr⟩ := isCorrect_total m.myField_ hm.1
    exact ⟨r, by unfold isMyFieldCorrect; rw [hr]⟩
  have hset : ∀ (m : Model) (d : CellDraw) (s : CellState), booleanGrid m.myField_ →
      ((s = CL_ST_EMPTY ∧ d = CELL_EMPTY) ∨ (s = CL_ST_UNDEFINED ∧ d = CELL_LIVE)) →
      ∃ m', (setMyDrawCell m point.x point.y d).bind
          (fun m1 => setMyStateCell m1 point.x point.y s) = some m' ∧
        booleanGrid m'.myField_ ∧ m' = { m with myField_ := m'.myField_ } := by
    intro m d s hm hsd
    refine ⟨_, setMyCells m point.x point.y d s hm.1 hm.2.1, ?_, ?_⟩
    · split
      · exact booleanGrid_set m.myField_ hm _ s d hsd
      · exact hm
    · split <;> rfl
  unfold placeClick
  cases button
  · obtain ⟨m', h1, h2, h3⟩ := hset c.model_ CELL_LIVE CL_ST_UNDEFINED hf (Or.inr ⟨rfl, rfl⟩)
    obtain ⟨r, hr⟩ := hcorrect m' h2
    obtain ⟨str, hstr⟩ := getMyFieldStr_some m' h2.2.1
    simp only [if_true, h1, Option.bind_eq_bind, Option.some_bind, hr, hstr,
      show (LeftButton = RightButton) = False by simp, if_false]
    exact ⟨_, _, rfl, h2, by rw [h3], rfl⟩
  · obtain ⟨m', h1, h2, h3⟩ := hset c.model_ CELL_EMPTY CL_ST_EMPTY hf (Or.inl ⟨rfl, rfl⟩)
    obtain ⟨r, hr⟩ := hcorrect m' h2
    obtain ⟨str, hstr⟩ := getMyFieldStr_some m' h2.2.1
    simp only [if_true, h1, Option.bind_eq_bind, Option.some_bind, hr, hstr,
      show (RightButton = LeftButton) = False by simp, if_false]
    exact ⟨_, _, rfl, h2, by rw [h3], rfl⟩
  · obtain ⟨r, hr⟩ := hcorrect c.model_ hf
    obtain ⟨str, hstr⟩ := getMyFieldStr_some c.model_ hf.2.1
    simp only [Option.bind_eq_bind, Option.some_bind, hr, hstr,
      show (OtherButton = LeftButton) = False by simp,
      show (OtherButton = RightButton) = False by simp, if_false]
    exact ⟨_, _, rfl, hf, rfl, rfl⟩

/-- One click in `ST_GAME_NSTARTED` or `ST_PLACING_SHIPS` keeps the own field a
boolean grid and changes nothing else in the model. -/
theorem onMousePressed_placing (c : Controller) (pos : QPoint) (button : MouseButton)
    (labels : Labels)
    (hstate : getState c.model_ = ST_GAME_NSTARTED ∨ getState c.model_ = ST_PLACING_SHIPS)
    (hf : booleanGrid c.model_.myField_) :
    ∃ c' labels', onMousePressed c pos button labels = some (c', labels') ∧
      booleanGrid c'.model_.myField_ ∧
      c'.model_ = { c.model_ with myField_ := c'.model_.myField_ } ∧
      c'.socket_ = c.socket_ := by
  unfold onMousePressed
  simp only
  rw [if_pos (hstate.symm)]
  split
  · exact ⟨c, labels, rfl, hf, rfl, rfl⟩
  · exact placeClick_grid c _ button hf

set_option maxRecDepth 100000 in
theorem newField_grid : booleanGrid newField := by
  refine ⟨?_, ?_, ?_⟩ <;> decide

/-- Clicks in `ST_GAME_NSTARTED` or `ST_PLACING_SHIPS` keep the own field a
boolean grid. -/
theorem pressAll_grid (clicks : List (QPoint × MouseButton)) :
    ∀ (c : Controller) (labels : Labels),
      getState c.model_ = ST_GAME_NSTARTED ∨ getState c.model_ = ST_PLACING_SHIPS →
      booleanGrid c.model_.myField_ →
      ∃ c' labels', pressAll c labels clicks = some (c', labels') ∧
        booleanGrid c'.model_.myField_ ∧ getState c'.model_ = getState c.model_ := by
  induction clicks with
  | nil => intro c labels _ hf; exact ⟨c, labels, rfl, hf, rfl⟩
  | cons click rest ih =>
    intro c labels hstate hf
    obtain ⟨c1, l1, h1, hf1, hm1, _⟩ := onMousePressed_placing c click.1 click.2 labels hstate hf
    have hs1 : getState c1.model_ = getState c.model_ := by
      rw [hm1]; rfl
    obtain ⟨c', l', h2, hf', hs'⟩ := ih c1 l1 (by rw [hs1]; exact hstate) hf1
    refine ⟨c', l', ?_, hf', hs'.trans hs1⟩
    unfold pressAll
    rw [h1]
    exact h2

/-- C37. Placement by clicks yields a boolean grid: from a cleared own field,
after any sequence of clicks (any position, any button) handled in
`ST_GAME_NSTARTED` or `ST_PLACING_SHIPS`, the calls have returned, the state is
the same, the own field has 100 placement cells, each `CL_ST_EMPTY` or
`CL_ST_UNDEFINED`, and 100 draw cells, and draw cell `i` is `CELL_LIVE` exactly
when placement cell `i` is `CL_ST_UNDEFINED` and `CELL_EMPTY` otherwise. -/
theorem placement_boolean_grid (c : Controller) (labels : Labels)
    (clicks : List (QPoint × MouseButton))
    (hstate : getState c.model_ = ST_GAME_NSTARTED ∨ getState c.model_ = ST_PLACING_SHIPS)
    (hclear : c.model_.myField_ = clear c.model_.myField_) :
    ∃ c' labels', pressAll c labels clicks = some (c', labels') ∧
      getState c'.model_ = getState c.model_ ∧
      c'.model_.myField_.fieldState_.length = 100 ∧
      c'.model_.myField_.fieldDraw_.length = 100 ∧
      (∀ s, s ∈ c'.model_.myField_.fieldState_ → s = CL_ST_EMPTY ∨ s = CL_ST_UNDEFINED) ∧
      (∀ i, i < 100 →
        (c'.model_.myField_.fieldDraw_[i]? = some CELL_LIVE ↔
          c'.model_.myField_.fieldState_[i]? = some CL_ST_UNDEFINED) ∧
        (c'.model_.myField_.fieldDraw_[i]? = some CELL_EMPTY ↔
          c'.model_.myField_.fieldState_[i]? ≠ some CL_ST_UNDEFINED)) := by
  have hgrid : booleanGrid c.model_.myField_ := by
    rw [hclear]
    exact newField_grid
  obtain ⟨c', l', h, ⟨g1, g2, g3⟩, hs⟩ := pressAll_grid clicks c labels hstate hgrid
  refine ⟨c', l', h, hs, g1, g2, ?_, ?_⟩
  · intro s hmem
    obtain ⟨i, hi⟩ := List.mem_iff_getElem?.1 hmem
    have hlt : i < 100 := by
      by_contra hge
      rw [List.getElem?_eq_none (by omega)] at hi
      exact Option.noConfusion hi
    rcases g3 i hlt with ⟨e, _⟩ | ⟨e, _⟩
    · exact Or.inl (Option.some.inj (hi.symm.trans e))
    · exact Or.inr (Option.some.inj (hi.symm.trans e))
  · intro i hi
    rcases g3 i hi with ⟨e1, e2⟩ | ⟨e1, e2⟩ <;> rw [e1, e2] <;> simp

/-- C37, at a controller that is placing ships on a cleared field: a left
click on cell (0, 0), a left click on cell (4, 2), a right click on cell (0, 0)
and a click with another button. -/
theorem placement_boolean_grid_witness :
    ∃ c' labels', pressAll placingController hiddenLabels
        [({ x := 40, y := 127 }, LeftButton), ({ x := 130, y := 177 }, LeftButton),
         ({ x := 40, y := 127 }, RightButton), ({ x := 60, y := 140 }, OtherButton)] =
        some (c', labels') ∧
      c'.model_.myField_.fieldState_.length = 100 ∧
      (∀ s, s ∈ c'.model_.myField_.fieldState_ → s = CL_ST_EMPTY ∨ s = CL_ST_UNDEFINED) := by
  obtain ⟨c', l', h1, _, h3, _, h5, _⟩ := placement_boolean_grid placingController hiddenLabels
    [({ x := 40, y := 127 }, LeftButton), ({ x := 130, y := 177 }, LeftButton),
     ({ x := 40, y := 127 }, RightButton), ({ x := 60, y := 140 }, OtherButton)]
    (Or.inr rfl) rfl
  exact ⟨c', l', h1, h3, h5⟩

/-- The right-button branch never touches the own field. -/
theorem toggleMark_own (m m' : Model) (point : QPoint) (h : toggleMark m point = some m') :
    m'.myField_ = m.myField_ := by
  have hset : ∀ d, setEnemyCell m point.x point.y d = some m' → m'.myField_ = m.myField_ := by
    intro d hd
    unfold setEnemyCell at hd
    cases hf : setDrawCell m.enemyField_ point.x point.y d with
    | none => rw [hf] at hd; exact Option.noConfusion hd
    | some f =>
      rw [hf] at hd
      rw [← Option.some.inj hd]
  unfold toggleMark at h
  cases hc : getEnemyCell m point.x point.y with
  | none => rw [hc] at h; exact Option.noConfusion h
  | some cell =>
    rw [hc] at h
    simp only at h
    split at h
    · exact hset _ h
    · split at h
      · rw [← Option.some.inj h]
      · exact hset _ h

/-- The right-button branch returns on an enemy field with 100 draw cells. -/
theorem toggleMark_some (m : Model) (point : QPoint)
    (hlen : m.enemyField_.fieldDraw_.length = 100) :
    ∃ m', toggleMark m point = some m' := by
  by_cases h : (0 ≤ point.x ∧ point.x < 10) ∧ (0 ≤ point.y ∧ point.y < 10)
  · obtain ⟨_, _, ht⟩ := toggleMark_in m point.x point.y h.1 h.2 hlen
    exact ⟨_, ht⟩
  · exact ⟨m, toggleMark_out m point.x point.y h⟩

/-- Reading a cell of an enemy field with 100 draw cells returns. -/
theorem getEnemyCell_some (m : Model) (x y : Int)
    (hlen : m.enemyField_.fieldDraw_.length = 100) :
    ∃ cell, getEnemyCell m x y = some cell := by
  unfold getEnemyCell
  by_cases h : (0 ≤ x ∧ x < 10) ∧ (0 ≤ y ∧ y < 10)
  · rw [getCell_in _ x y h.1 h.2]
    exact ⟨_, List.getElem?_eq_getElem (by rw [hlen]; exact (cell_index x y h.1 h.2).1)⟩
  · exact ⟨_, getCell_out _ x y h⟩

/-- Outside `ST_GAME_NSTARTED` and `ST_PLACING_SHIPS` a click that returns
leaves the own field as it was. -/
theorem onMousePressed_own (c c' : Controller) (pos : QPoint) (button : MouseButton)
    (labels labels' : Labels)
    (hstate : getState c.model_ ≠ ST_GAME_NSTARTED ∧ getState c.model_ ≠ ST_PLACING_SHIPS)
    (h : onMousePressed c pos button labels = some (c', labels')) :
    c'.model_.myField_ = c.model_.myField_ := by
  have hkeep : ∀ {r : Controller × Labels}, some (c, labels) = some r → r.1.model_.myField_ =
      c.model_.myField_ := fun e => by rw [← Option.some.inj e]
  have hmark : ∀ point, (match toggleMark c.model_ point with
      | some m => some (({ c with model_ := m } : Controller), labels)
      | none => none) = some (c', labels') → c'.model_.myField_ = c.model_.myField_ := by
    intro point hm
    cases ht : toggleMark c.model_ point with
    | none => rw [ht] at hm; exact Option.noConfusion hm
    | some m =>
      rw [ht] at hm
      have e := congrArg Prod.fst (Option.some.inj hm)
      simp only at e
      rw [← e]
      exact toggleMark_own c.model_ m point ht
  unfold onMousePressed at h
  simp only at h
  rw [if_neg (fun hh => hh.elim hstate.2 hstate.1)] at h
  split at h
  · split at h
    · exact hkeep h
    · split at h
      · split at h
        · exact Option.noConfusion h
        · split at h
          · exact hkeep h
          · have e := congrArg Prod.fst (Option.some.inj h)
            simp only at e
            rw [← e]
      · split at h
        · exact hmark _ h
        · exact hkeep h
  · split at h
    · split at h
      · exact hkeep h
      · split at h
        · exact hmark _ h
        · exact hkeep h
    · exact hkeep h

/-- C38. The placement is frozen once the game starts: in `ST_WAITING_PLACING`,
`ST_MAKING_STEP`, `ST_WAITING_STEP` and `ST_GAME_FINISHED` a click with any button
at any position that returns leaves the own field, placement and draw state, as
it was; it returns whenever the enemy field has 100 draw cells, and in
`ST_WAITING_PLACING` and `ST_GAME_FINISHED` it returns with nothing changed. -/
theorem own_field_frozen (c : Controller) (pos : QPoint) (button : MouseButton)
    (labels : Labels)
    (hstate : getState c.model_ = ST_WAITING_PLACING ∨ getState c.model_ = ST_MAKING_STEP ∨
      getState c.model_ = ST_WAITING_STEP ∨ getState c.model_ = ST_GAME_FINISHED) :
    (∀ c' labels', onMousePressed c pos button labels = some (c', labels') →
      c'.model_.myField_ = c.model_.myField_) ∧
    (c.model_.enemyField_.fieldDraw_.length = 100 →
      ∃ c' labels', onMousePressed c pos button labels = some (c', labels') ∧
        c'.model_.myField_ = c.model_.myField_) ∧
    (getState c.model_ = ST_WAITING_PLACING ∨ getState c.model_ = ST_GAME_FINISHED →
      onMousePressed c pos button labels = some (c, labels)) := by
  have hne : getState c.model_ ≠ ST_GAME_NSTARTED ∧ getState c.model_ ≠ ST_PLACING_SHIPS := by
    rcases hstate with h | h | h | h <;> rw [h] <;> exact ⟨by decide, by decide⟩
  have hsafe : ∀ c' labels', onMousePressed c pos button labels = some (c', labels') →
      c'.model_.myField_ = c.model_.myField_ :=
    fun c' labels' h => onMousePressed_own c c' pos button labels labels' hne h
  refine ⟨hsafe, fun hlen => ?_, fun hs => ?_⟩
  · have hret : ∃ r, onMousePressed c pos button labels = some r := by
      obtain ⟨cell, hcell⟩ := getEnemyCell_some c.model_ (getFieldCoord pos ENEMY_FIELD).x
        (getFieldCoord pos ENEMY_FIELD).y hlen
      obtain ⟨m', hm'⟩ := toggleMark_some c.model_ (getFieldCoord pos ENEMY_FIELD) hlen
      unfold onMousePressed
      simp only [hcell, hm']
      rw [if_neg (fun hh => hh.elim hne.2 hne.1)]
      split
      · split
        · exact ⟨_, rfl⟩
        · split
          · split
            · exact ⟨_, rfl⟩
            · exact ⟨_, rfl⟩
          · split
            · exact ⟨_, rfl⟩
            · exact ⟨_, rfl⟩
      · split
        · split
          · exact ⟨_, rfl⟩
          · split
            · exact ⟨_, rfl⟩
            · exact ⟨_, rfl⟩
        · exact ⟨_, rfl⟩
    obtain ⟨⟨c', l'⟩, hr⟩ := hret
    exact ⟨c', l', hr, hsafe c' l' hr⟩
  · unfold onMousePressed
    rcases hs with h | h <;> simp only [h] <;>
      rw [if_neg (by decide), if_neg (by decide), if_neg (by decide)]

/-- C38, at a controller whose model is on the move: a right click on cell
(4, 2) of the enemy field returns and leaves the own field as it was. -/
theorem own_field_frozen_witness :
    getState fightingController.model_ = ST_MAKING_STEP ∧
    ∃ c' labels', onMousePressed fightingController { x := 412, y := 177 } RightButton
        hiddenLabels = some (c', labels') ∧
      c'.model_.myField_ = fightingController.model_.myField_ :=
  ⟨fightingController_facts.1,
    (own_field_frozen fightingController { x := 412, y := 177 } RightButton hiddenLabels
      (Or.inr (Or.inl fightingController_facts.1))).2.1 fightingController_enemy⟩

/-! ## The size passed to isShip -/

end Battleship
